import Mathlib

/-!
# RingleaderNIC userspace driver: queue engine and CPU-message protocol

A shallow embedding of `driver/src/driver/mqnic.c` (the per-queue receive and
transmit state machines and the application-control mailbox writes) together
with theorems about it.

Conventions of the embedding.

* `uint32_t` counters are natural numbers; every C operation that can wrap is
  written with an explicit reduction modulo `2^32` (`wrap32`, `sub32`).
* Pointers are natural numbers, `0` is `NULL`.  Arrays and DMA rings are total
  functions from the index to the element; packet buffers live in a total store
  `world.pkt_bufs` indexed by their address.  Dereferencing `NULL` is undefined
  behaviour in C; the store is total, so the embedding assigns it the ordinary
  store semantics at address `0`.
* Every `set_reg32` and every descriptor store is appended to `world.trace`, in
  program order, so that the number and the order of device-visible writes can
  be stated.
* The functions of `mqnic.c` begin by resolving `queue = dev->rx_queues + queue_id`
  (resp. `tx_queues`); the data-path embeddings take the resolved queue record.
* `mqnic.c` defines `IF_RXCQ_BYPASS_REG`, `IF_TXCQ_BYPASS_REG` and
  `IF_RXTX_BYPASS_REG`, and the embeddings follow that build.  The `#else`
  branches of `mqnic_rx_batch_hints` are embedded separately, as
  `mqnic_rx_batch_hints_exact`; the values its `get_reg32` reads return are
  parameters.
* Statements about every reachable state are made over the transition systems
  `rx_reachable` and `tx_reachable`: bring-up, driver calls on an arbitrary
  process state, and completions published by the NIC.  `rx_reachable` takes
  the value the RXQ tail register reads at the end of bring-up as a parameter.
  `tx_reachable_in_order` restricts the NIC to completions in posting order.
* The logging macros of `log.h` are not among the sources.  The macro `error`
  is fatal at every call site: the call yields `Except.error` and nothing after
  it runs.  That holds for `mqnic_init`, for queue bring-up and for the empty
  mempool in `mqnic_prepare_rx_desc`, whose `return -1` after the call is never
  reached; every function that posts RX buffers therefore returns `Except`.
  `exit(0)` in the TX clean-up, which follows an `error` call, is `none`.
* A definition whose name ends in `_val` is not a function of the source: it is
  the value the function of that name returns when it returns, written as a
  total function, and the theorems on the posting loops are proved on it.  The
  theorems `mqnic_prepare_rx_desc_eq` to `mqnic_fill_rx_buffers_eq` relate the
  two.
* `mqnic_init` is embedded with a log of its allocations and register reads;
  the callee `mqnic_reset_and_init` enters it as a parameter.
-/

set_option autoImplicit false

namespace Mqnic

/-! ## Machine arithmetic -/

/-- Reduction of a natural number to an unsigned 32-bit value. -/
def wrap32 (x : Nat) : Nat := x % 4294967296

/-- Unsigned 32-bit subtraction `a - b` with wrap-around. -/
def sub32 (a b : Nat) : Nat := (a + (4294967296 - b % 4294967296)) % 4294967296

/-- Reduction of a natural number to an unsigned 16-bit value. -/
def wrap16 (x : Nat) : Nat := x % 65536

/-- Reduction of a natural number to an unsigned 64-bit value. -/
def wrap64 (x : Nat) : Nat := x % 18446744073709551616

/-- Pointwise update of an array or store modelled as a total function. -/
def upd {α : Type} (f : Nat → α) (a : Nat) (v : α) : Nat → α :=
  fun x => if x = a then v else f x

/-- The macro `GETMIN(x, y)` of `mqnic.h`: `((x) > (y) ? (y) : (x))`. -/
def GETMIN (x y : Nat) : Nat := if x > y then y else x

/-! ## Build-time constants of `mqnic.c` -/

/-- Constant `NUM_RX_QUEUE_ENTRIES`. -/
def NUM_RX_QUEUE_ENTRIES : Nat := 256

/-- Constant `NUM_TX_QUEUE_ENTRIES`. -/
def NUM_TX_QUEUE_ENTRIES : Nat := 256

/-- Constant `RXCQ_BYPASS_BATCH`: the stride of the bypass peek. -/
def RXCQ_BYPASS_BATCH : Nat := 0

/-- Constant `MQNIC_PKT_BUF_ENTRY_SIZE` of `mqnic.c`. -/
def MQNIC_PKT_BUF_ENTRY_SIZE : Int := 2048

/-- Constant `MQNIC_MIN_MEMPOOL_ENTRIES` of `mqnic.c`. -/
def MQNIC_MIN_MEMPOOL_ENTRIES : Int := 4096

/-- Constant `DESC_BLOCK_SIZE` of `mqnic.c`. -/
def DESC_BLOCK_SIZE : Nat := 1

/-- Modelled from the spec: `MQNIC_DESC_SIZE` is a constant of `mqnic_type.h`,
which is not among the sources; the specification gives the descriptor size as
16 bytes. -/
def MQNIC_DESC_SIZE : Nat := 16

/-- Constant `RXCQ_TAIL_UPDATE_BATCH`: completions accumulated before a CQ tail flush. -/
def RXCQ_TAIL_UPDATE_BATCH : Nat := 32

/-! ## Data model -/

/-- Modelled from the spec: `struct pkt_buf` is declared in `memory.h`, which is
not among the sources.  The fields are the ones the driver reads or writes
(`buf_addr_phy`, `size`, `ref_count`) and the owning pool handle named in the
data model of the specification. -/
structure pkt_buf where
  buf_addr_phy : Nat
  mempool : Nat
  size : Nat
  ref_count : Nat

/-- Modelled from the spec: `struct mempool` is declared in `memory.h`, which is
not among the sources.  `buf_size` is the buffer capacity read by the driver,
`free_stack` the LIFO free list of buffer addresses. -/
structure mempool where
  buf_size : Nat
  free_stack : List Nat

/-- Modelled from the spec: `struct mqnic_desc` (16 bytes) is declared in
`mqnic_type.h`, which is not among the sources: `tx_csum_cmd : u16`,
`len : u32`, `addr : u64`. -/
structure mqnic_desc where
  tx_csum_cmd : Nat
  len : Nat
  addr : Nat

/-- Modelled from the spec: `struct mqnic_cpl` (32 bytes) is declared in
`mqnic_type.h`, which is not among the sources: `queue : u16`, `index : u16`,
`len : u32`, `ts : u64`, `rx_hash : u32`, `rx_hash_type : u32`. -/
structure mqnic_cpl where
  queue : Nat
  index : Nat
  len : Nat
  ts : Nat
  rx_hash : Nat
  rx_hash_type : Nat

/-- Modelled from the spec: `struct nic_hints` is declared in `mqnic_type.h`,
which is not among the sources; the driver writes its two fields. -/
structure nic_hints where
  hint_app_id : Nat
  hint_content : Nat
  deriving DecidableEq

/-- Register offsets used by the data path and the control path.  The numeric
values are macros of `mqnic_type.h`, which is not among the sources, so the
registers are kept symbolic. -/
inductive reg where
  | MQNIC_QUEUE_HEAD_PTR_REG
  | MQNIC_QUEUE_TAIL_PTR_REG
  | MQNIC_CPL_QUEUE_HEAD_PTR_REG
  | MQNIC_CPL_QUEUE_TAIL_PTR_REG
  | MQNIC_CPL_QUEUE_CPU_MSG_REG
  | MQNIC_PORT_REG_APP_CONFG
  | MQNIC_CPL_QUEUE_INTERRUPT_INDEX_REG
  | MQNIC_CPL_QUEUE_ACTIVE_LOG_SIZE_REG
  | MQNIC_QUEUE_CPL_QUEUE_INDEX_REG
  | MQNIC_QUEUE_ACTIVE_LOG_SIZE_REG
  deriving DecidableEq, Repr

/-- Device-visible writes, recorded in program order. -/
inductive event where
  /-- A call `set_reg32(base, offset, value)`. -/
  | set_reg32 (base : Nat) (offset : reg) (value : Nat)
  /-- The stores of one loop iteration into the RX descriptor at `index`. -/
  | rx_desc_write (index : Nat)
  /-- The stores of one loop iteration into the TX descriptor at `index`. -/
  | tx_desc_write (index : Nat)
  deriving DecidableEq, Repr

/-- The part of the process state that is not a queue record: the packet-buffer
store, the mempools, and the trace of device-visible writes. -/
structure world where
  pkt_bufs : Nat → pkt_buf
  mempools : Nat → mempool
  trace : List event

/-- The record `struct mqnic_rx_queue` of `mqnic.c`.  The arrays
`cpl_virtual_addresses` and `app_hints` are never accessed and are left out. -/
structure mqnic_rx_queue where
  rxq_addr : Nat
  cpl_addr : Nat
  size : Nat
  full_size : Nat
  size_mask : Nat
  hw_ptr_mask : Nat
  accumulated_cq_updates : Nat
  rxq_head_ptr : Nat
  rxq_tail_ptr : Nat
  rxq_clean_tail_ptr : Nat
  cpl_head_ptr : Nat
  cpl_tail_ptr : Nat
  cpl_clean_tail_ptr : Nat
  rxq_descriptors : Nat → mqnic_desc
  cpl_descriptors : Nat → mqnic_cpl
  mempool : Nat
  rxq_virtual_addresses : Nat → Nat

/-- The record `struct mqnic_tx_queue` of `mqnic.c`.  The array
`cpl_virtual_addresses` is never accessed and is left out. -/
structure mqnic_tx_queue where
  txq_addr : Nat
  cpl_addr : Nat
  size : Nat
  stride : Nat
  full_size : Nat
  size_mask : Nat
  hw_ptr_mask : Nat
  desc_block_size : Nat
  log_desc_block_size : Nat
  txq_head_ptr : Nat
  txq_tail_ptr : Nat
  txq_clean_tail_ptr : Nat
  cpl_head_ptr : Nat
  cpl_tail_ptr : Nat
  cpl_clean_tail_ptr : Nat
  txq_descriptors : Nat → mqnic_desc
  cpl_descriptors : Nat → mqnic_cpl
  txq_virtual_addresses : Nat → Nat

/-- The record `struct mqnic_device` of `mqnic.h`; `num_rx_queues` and
`num_tx_queues` are the two fields of the embedded `struct ixy_device` that the
driver uses.  The queue arrays are total functions of the queue id. -/
structure mqnic_device where
  num_rx_queues : Nat
  num_tx_queues : Nat
  fw_id : Nat
  fw_ver : Nat
  board_id : Nat
  board_ver : Nat
  rx_queue_offset : Nat
  rx_cpl_queue_offset : Nat
  tx_queue_offset : Nat
  tx_cpl_queue_offset : Nat
  port_offset : Nat
  num_event_queues : Nat
  regs_size : Nat
  addr : Nat
  rx_queues : Nat → mqnic_rx_queue
  tx_queues : Nat → mqnic_tx_queue

/-! ## Register I/O -/

/-- Modelled from the spec: `set_reg32` is defined in `device.h`, which is not
among the sources: a 32-bit store of `value` to the register `offset` of the
block at `base`. -/
def set_reg32 (w : world) (base : Nat) (offset : reg) (value : Nat) : world :=
  { w with trace := w.trace ++ [event.set_reg32 base offset (wrap32 value)] }

/-! ## Application control: the CPU-message mailbox -/

/-- Function `register_app` of `mqnic.c`. -/
def register_app (dev : mqnic_device) (w : world) (queue_id app_id priority : Nat) : world :=
  let queue := dev.rx_queues queue_id
  set_reg32 w queue.cpl_addr reg.MQNIC_CPL_QUEUE_CPU_MSG_REG
    (((1 <<< 20) &&& 0x00f00000) ||| ((5 <<< 16) &&& 0x000f0000)
      ||| ((app_id <<< 4) &&& 0x00000ff0) ||| ((priority <<< 12) &&& 0x0000f000)
      ||| (3 &&& 0x0000000f))

/-- Function `deregister_app` of `mqnic.c`. -/
def deregister_app (dev : mqnic_device) (w : world) (queue_id app_id : Nat) : world :=
  let queue := dev.rx_queues queue_id
  set_reg32 w queue.cpl_addr reg.MQNIC_CPL_QUEUE_CPU_MSG_REG
    (((app_id <<< 4) &&& 0x00000ff0) ||| (4 &&& 0x0000000f))

/-- Function `mqnic_rx_feedback` of `mqnic.c`. -/
def mqnic_rx_feedback (dev : mqnic_device) (w : world)
    (queue_id app_id update_count : Nat) : world :=
  let queue := dev.rx_queues queue_id
  set_reg32 w queue.cpl_addr reg.MQNIC_CPL_QUEUE_CPU_MSG_REG
    (((update_count <<< 16) &&& 0xffff0000) ||| ((app_id <<< 4) &&& 0x00000ff0)
      ||| (5 &&& 0x0000000f))

/-- Function `mqnic_rearm_monitor` of `mqnic.c`. -/
def mqnic_rearm_monitor (dev : mqnic_device) (w : world) (queue_id app_id : Nat) : world :=
  let queue := dev.rx_queues queue_id
  let w1 := set_reg32 w queue.cpl_addr reg.MQNIC_CPL_QUEUE_CPU_MSG_REG
    (((app_id <<< 4) &&& 0x00000ff0) ||| (6 &&& 0x0000000f))
  set_reg32 w1 queue.cpl_addr reg.MQNIC_CPL_QUEUE_CPU_MSG_REG
    (((app_id <<< 4) &&& 0x00000ff0) ||| (7 &&& 0x0000000f))

/-- Function `mqnic_rearm_scale_down_monitor` of `mqnic.c`. -/
def mqnic_rearm_scale_down_monitor (dev : mqnic_device) (w : world)
    (queue_id app_id : Nat) : world :=
  let queue := dev.rx_queues queue_id
  set_reg32 w queue.cpl_addr reg.MQNIC_CPL_QUEUE_CPU_MSG_REG
    (((app_id <<< 4) &&& 0x00000ff0) ||| (7 &&& 0x0000000f))

/-! ## Mempool -/

/-- Modelled from the spec: `pkt_buf_alloc` is defined in `memory.c`, which is
not among the sources: it pops the LIFO free list of the pool and returns the
buffer address, or `NULL` when the pool is empty. -/
def pkt_buf_alloc (w : world) (pool : Nat) : Nat × world :=
  match (w.mempools pool).free_stack with
  | [] => (0, w)
  | b :: rest =>
    (b, { w with mempools := upd w.mempools pool { (w.mempools pool) with free_stack := rest } })

/-- Modelled from the spec: `pkt_buf_free` is defined in `memory.c`, which is
not among the sources: it decrements the reference count of the buffer and, on
zero, pushes the buffer onto the free list of its owning pool. -/
def pkt_buf_free (w : world) (buf : Nat) : world :=
  let b := w.pkt_bufs buf
  let rc := b.ref_count - 1
  let w1 : world := { w with pkt_bufs := upd w.pkt_bufs buf { b with ref_count := rc } }
  let pool : mempool :=
    { (w1.mempools b.mempool) with free_stack := buf :: (w1.mempools b.mempool).free_stack }
  if rc = 0 then { w1 with mempools := upd w1.mempools b.mempool pool }
  else w1

/-! ## Fatal errors -/

/-- The fatal errors, one for each `error` call of `mqnic_init`,
`start_rxq_cpl_queue` and `mqnic_prepare_rx_desc`, carrying the arguments of the
message. -/
inductive fatal_error where
  /-- The message "cannot configure %d rx queues: limit is %d". -/
  | too_many_rx_queues (rx_queues limit : Nat)
  /-- The message "cannot configure %d tx queues: limit is %d". -/
  | too_many_tx_queues (tx_queues limit : Nat)
  /-- The message "could not initialize the IOMMU for device %s". -/
  | no_iommu
  /-- The message "number of queue entries must be a power of 2". -/
  | size_not_power_of_two
  /-- The message "failed to allocate rx descriptor". -/
  | rx_alloc_failed
  deriving DecidableEq, Repr

/-- Modelled from the spec: the macro `error` of `log.h`, which is not among
the sources.  Section 7 of the specification makes an error raised at
initialisation fatal ("init-time errors abort process start"), and in the source
the calls in `mqnic_init` and `start_rxq_cpl_queue` are followed by no `return`:
the call does not return, and the function that makes it yields no result.  The
macro is the same at every call site, so the call in `mqnic_prepare_rx_desc` is
fatal too. -/
def error {α : Type} (e : fatal_error) : Except fatal_error α := Except.error e

/-! ## RX refill -/

/-- Function `mqnic_prepare_rx_desc` of `mqnic.c`.  `data_off` stands for
`offsetof(struct pkt_buf, data)`, a constant of `memory.h`, which is not among
the sources.  On an empty pool the function calls `error`, which does not
return: the `return -1` that follows the call in the source is never reached.
Otherwise the function writes the descriptor and the handle and returns `0`. -/
def mqnic_prepare_rx_desc (data_off : Nat) (queue : mqnic_rx_queue) (w : world)
    (index : Nat) : Except fatal_error (Int × mqnic_rx_queue × world) :=
  let a := pkt_buf_alloc w queue.mempool
  let buf := a.1
  let w1 := a.2
  if buf = 0 then error fatal_error.rx_alloc_failed
  else
    let rxd : mqnic_desc :=
      { (queue.rxq_descriptors index) with
        addr := wrap64 ((w1.pkt_bufs buf).buf_addr_phy + data_off)
        len := (w1.mempools queue.mempool).buf_size }
    Except.ok (0,
     { queue with
       rxq_descriptors := upd queue.rxq_descriptors index rxd
       rxq_virtual_addresses := upd queue.rxq_virtual_addresses index buf },
     { w1 with trace := w1.trace ++ [event.rx_desc_write index] })

/-- The loop `for (; missing-- > 0;)` of `mqnic_refill_rx_buffers`, by recursion
on the value of `missing`.  The `break` on a non-zero status is kept as the
source has it, although `mqnic_prepare_rx_desc` returns only `0`. -/
def refill_loop (data_off : Nat) :
    Nat → mqnic_rx_queue → world → Except fatal_error (mqnic_rx_queue × world)
  | 0, queue, w => Except.ok (queue, w)
  | missing + 1, queue, w =>
    match mqnic_prepare_rx_desc data_off queue w (queue.rxq_head_ptr &&& queue.size_mask) with
    | Except.error e => Except.error e
    | Except.ok r =>
      if r.1 ≠ 0 then Except.ok (r.2.1, r.2.2)
      else refill_loop data_off missing
        { r.2.1 with rxq_head_ptr := wrap32 (r.2.1.rxq_head_ptr + 1) } r.2.2

/-- Function `mqnic_refill_rx_buffers` of `mqnic.c`. -/
def mqnic_refill_rx_buffers (data_off : Nat) (queue : mqnic_rx_queue) (w : world) :
    Except fatal_error (mqnic_rx_queue × world) :=
  let missing := sub32 queue.size (sub32 queue.rxq_head_ptr queue.rxq_clean_tail_ptr)
  if missing < 8 then Except.ok (queue, w)
  else
    match refill_loop data_off missing queue w with
    | Except.error e => Except.error e
    | Except.ok r =>
      Except.ok (r.1, set_reg32 r.2 r.1.rxq_addr reg.MQNIC_QUEUE_HEAD_PTR_REG
        (r.1.rxq_head_ptr &&& r.1.hw_ptr_mask))

/-! ### The values the refill returns

The definitions below whose names end in `_val` are not functions of the source.
They give, as total functions, the value the function of the same name returns
when it returns; on a pool that runs out they follow the text after the `error`
call (`return -1`, `break`), which the source never reaches. -/

/-- The number of buffers a pool supplies to consecutive `pkt_buf_alloc` calls
before one returns `NULL`: the handles on top of the free list. -/
def pool_supply (w : world) (pool : Nat) : Nat :=
  ((w.mempools pool).free_stack.takeWhile (fun b => decide (b ≠ 0))).length

/-- The pool holds what a call of `mqnic_refill_rx_buffers` asks of it: the call
posts nothing (fewer than 8 descriptors are missing) or the pool supplies all
the missing buffers. -/
def refill_supplied (queue : mqnic_rx_queue) (w : world) : Prop :=
  sub32 queue.size (sub32 queue.rxq_head_ptr queue.rxq_clean_tail_ptr) < 8 ∨
    sub32 queue.size (sub32 queue.rxq_head_ptr queue.rxq_clean_tail_ptr)
      ≤ pool_supply w queue.mempool

instance (queue : mqnic_rx_queue) (w : world) : Decidable (refill_supplied queue w) := by
  unfold refill_supplied
  infer_instance

/-- The value of `mqnic_prepare_rx_desc` (theorem `mqnic_prepare_rx_desc_eq`),
with the status `-1` on an empty pool. -/
def mqnic_prepare_rx_desc_val (data_off : Nat) (queue : mqnic_rx_queue) (w : world)
    (index : Nat) : Int × mqnic_rx_queue × world :=
  let a := pkt_buf_alloc w queue.mempool
  let buf := a.1
  let w1 := a.2
  if buf = 0 then (-1, queue, w1)
  else
    let rxd : mqnic_desc :=
      { (queue.rxq_descriptors index) with
        addr := wrap64 ((w1.pkt_bufs buf).buf_addr_phy + data_off)
        len := (w1.mempools queue.mempool).buf_size }
    (0,
     { queue with
       rxq_descriptors := upd queue.rxq_descriptors index rxd
       rxq_virtual_addresses := upd queue.rxq_virtual_addresses index buf },
     { w1 with trace := w1.trace ++ [event.rx_desc_write index] })

/-- The value of `refill_loop` (theorem `refill_loop_eq`); it stops at the first
status `-1`. -/
def refill_loop_val (data_off : Nat) : Nat → mqnic_rx_queue → world → mqnic_rx_queue × world
  | 0, queue, w => (queue, w)
  | missing + 1, queue, w =>
    let r := mqnic_prepare_rx_desc_val data_off queue w (queue.rxq_head_ptr &&& queue.size_mask)
    if r.1 ≠ 0 then (r.2.1, r.2.2)
    else refill_loop_val data_off missing
      { r.2.1 with rxq_head_ptr := wrap32 (r.2.1.rxq_head_ptr + 1) } r.2.2

/-- The value of `mqnic_refill_rx_buffers` (theorem `mqnic_refill_rx_buffers_eq`). -/
def mqnic_refill_rx_buffers_val (data_off : Nat) (queue : mqnic_rx_queue) (w : world) :
    mqnic_rx_queue × world :=
  let missing := sub32 queue.size (sub32 queue.rxq_head_ptr queue.rxq_clean_tail_ptr)
  if missing < 8 then (queue, w)
  else
    let r := refill_loop_val data_off missing queue w
    (r.1, set_reg32 r.2 r.1.rxq_addr reg.MQNIC_QUEUE_HEAD_PTR_REG
      (r.1.rxq_head_ptr &&& r.1.hw_ptr_mask))

/-! ## RX drain -/

/-- The variables of `mqnic_rx_batch_hints` that are live across the harvest
loop, together with the memory the loop reads and writes. -/
structure rx_batch_state where
  queue : mqnic_rx_queue
  w : world
  bufs : Nat → Nat
  hints : Nat → nic_hints
  cq_tail_ptr : Nat
  cq_index : Nat
  buf_index : Nat
  next_batch : Nat
  if_next : Bool
  tmp_hint_count : Nat

/-- One iteration of the loop `while (if_next && buf_index < num_bufs)` of
`mqnic_rx_batch_hints`, built with `IF_RXCQ_BYPASS_REG` defined.  `buf_index`
cannot overflow: it is below `num_bufs` when the body runs. -/
def rx_batch_body (if_hint : Nat) (s : rx_batch_state) : rx_batch_state :=
  let cpl := s.queue.cpl_descriptors s.cq_index
  let hinted : Bool := decide (if_hint ≠ 0) && decide (cpl.rx_hash ≠ 0)
  let hints1 :=
    if hinted then
      upd s.hints s.tmp_hint_count
        (nic_hints.mk ((cpl.rx_hash &&& 0x00000ff0) >>> 4) ((cpl.rx_hash &&& 0xffff0000) >>> 16))
    else s.hints
  let tmp_hint_count1 := if hinted then wrap16 (s.tmp_hint_count + 1) else s.tmp_hint_count
  let rxq_index := cpl.index &&& s.queue.size_mask
  let buf := s.queue.rxq_virtual_addresses rxq_index
  let clamped : pkt_buf :=
    { (s.w.pkt_bufs buf) with size := GETMIN cpl.len (s.w.mempools s.queue.mempool).buf_size }
  let pkt_bufs1 := upd s.w.pkt_bufs buf clamped
  let pkt_bufs2 := upd pkt_bufs1 buf { (pkt_bufs1 buf) with size := cpl.len }
  let bufs1 := upd s.bufs s.buf_index buf
  let virt1 := upd s.queue.rxq_virtual_addresses rxq_index 0
  let cpls1 := upd s.queue.cpl_descriptors s.cq_index { cpl with len := 0 }
  let buf_index1 := s.buf_index + 1
  let cq_tail_ptr1 := wrap32 (s.cq_tail_ptr + 1)
  let cq_index1 := cq_tail_ptr1 &&& s.queue.size_mask
  let cq_next_index := wrap32 (cq_index1 + RXCQ_BYPASS_BATCH) &&& s.queue.size_mask
  { queue := { s.queue with rxq_virtual_addresses := virt1, cpl_descriptors := cpls1 }
    w := { s.w with pkt_bufs := pkt_bufs2 }
    bufs := bufs1
    hints := hints1
    cq_tail_ptr := cq_tail_ptr1
    cq_index := cq_index1
    buf_index := buf_index1
    next_batch := if s.next_batch ≠ 0 then s.next_batch - 1 else RXCQ_BYPASS_BATCH
    if_next := if s.next_batch ≠ 0 then true else decide ((cpls1 cq_next_index).len ≠ 0)
    tmp_hint_count := tmp_hint_count1 }

/-- The loop `while (if_next && buf_index < num_bufs)` of `mqnic_rx_batch_hints`,
with an explicit iteration budget. -/
def rx_batch_loop (if_hint num_bufs : Nat) : Nat → rx_batch_state → rx_batch_state
  | 0, s => s
  | fuel + 1, s =>
    if s.if_next = true ∧ s.buf_index < num_bufs then
      rx_batch_loop if_hint num_bufs fuel (rx_batch_body if_hint s)
    else s

/-- Function `mqnic_rx_cq_write_tail_ptr` of `mqnic.c`. -/
def mqnic_rx_cq_write_tail_ptr (queue : mqnic_rx_queue) (w : world) : world :=
  set_reg32 w queue.cpl_addr reg.MQNIC_CPL_QUEUE_TAIL_PTR_REG
    (queue.cpl_tail_ptr &&& queue.hw_ptr_mask)

/-- The block `if (buf_index != 0) { ... }` of `mqnic_rx_batch_hints` that
accounts the harvested completions and flushes the CQ tail. -/
def rx_update_cq_tail (queue : mqnic_rx_queue) (w : world) (buf_index cq_tail_ptr : Nat) :
    mqnic_rx_queue × world :=
  if buf_index ≠ 0 then
    let q1 : mqnic_rx_queue :=
      { queue with
        accumulated_cq_updates := wrap32 (queue.accumulated_cq_updates + buf_index)
        cpl_tail_ptr := cq_tail_ptr }
    if q1.accumulated_cq_updates > RXCQ_TAIL_UPDATE_BATCH then
      ({ q1 with accumulated_cq_updates := 0 }, mqnic_rx_cq_write_tail_ptr q1 w)
    else (q1, w)
  else (queue, w)

/-- The loop `while (ring_clean_tail_ptr != queue->rxq_tail_ptr)` of
`mqnic_rx_batch_hints`, with an explicit iteration budget; the result is the
final value of `ring_clean_tail_ptr`. -/
def rx_clean_loop (queue : mqnic_rx_queue) : Nat → Nat → Nat
  | 0, ring_clean_tail_ptr => ring_clean_tail_ptr
  | fuel + 1, ring_clean_tail_ptr =>
    if ring_clean_tail_ptr ≠ queue.rxq_tail_ptr then
      if queue.rxq_virtual_addresses (ring_clean_tail_ptr &&& queue.size_mask) ≠ 0 then
        ring_clean_tail_ptr
      else rx_clean_loop queue fuel (wrap32 (ring_clean_tail_ptr + 1))
    else ring_clean_tail_ptr

/-- What a call of `mqnic_rx_batch_hints` returns and leaves behind: the return
value, the queue record, the rest of the process state, and the caller arrays
`bufs`, `hints` and the cell `*hint_count`. -/
structure rx_batch_result where
  ret : Nat
  queue : mqnic_rx_queue
  w : world
  bufs : Nat → Nat
  hints : Nat → nic_hints
  hint_count : Nat

/-- Function `mqnic_rx_batch_hints` of `mqnic.c`, built with `IF_RXCQ_BYPASS_REG`
and `IF_RXTX_BYPASS_REG` defined.  The call begins with
`mqnic_refill_rx_buffers` and does not return when that raises the fatal error.
The harvest loop runs at most `num_bufs` times, the clean-tail loop at most
`rxq_tail_ptr - rxq_clean_tail_ptr` times. -/
def mqnic_rx_batch_hints (data_off : Nat) (queue : mqnic_rx_queue) (w : world)
    (bufs : Nat → Nat) (num_bufs if_hint : Nat) (hints : Nat → nic_hints)
    (hint_count : Nat) : Except fatal_error rx_batch_result :=
  match mqnic_refill_rx_buffers data_off queue w with
  | Except.error e => Except.error e
  | Except.ok r0 =>
    let cq_tail_ptr := r0.1.cpl_tail_ptr
    let cq_index := cq_tail_ptr &&& r0.1.size_mask
    let cq_next_index := wrap32 (cq_index + RXCQ_BYPASS_BATCH) &&& r0.1.size_mask
    let s0 : rx_batch_state :=
      { queue := r0.1
        w := r0.2
        bufs := bufs
        hints := hints
        cq_tail_ptr := cq_tail_ptr
        cq_index := cq_index
        buf_index := 0
        next_batch := RXCQ_BYPASS_BATCH
        if_next := decide ((r0.1.cpl_descriptors cq_next_index).len ≠ 0)
        tmp_hint_count := 0 }
    let s1 := rx_batch_loop if_hint num_bufs num_bufs s0
    let r2 := rx_update_cq_tail s1.queue s1.w s1.buf_index s1.cq_tail_ptr
    let q3 : mqnic_rx_queue :=
      { r2.1 with rxq_tail_ptr := wrap32 (r2.1.rxq_tail_ptr + s1.buf_index) }
    let q4 : mqnic_rx_queue :=
      { q3 with
        rxq_clean_tail_ptr :=
          rx_clean_loop q3 (sub32 q3.rxq_tail_ptr q3.rxq_clean_tail_ptr) q3.rxq_clean_tail_ptr }
    Except.ok
      { ret := s1.buf_index
        queue := q4
        w := r2.2
        bufs := s1.bufs
        hints := s1.hints
        hint_count := if if_hint ≠ 0 then s1.tmp_hint_count else hint_count }

/-- Function `mqnic_rx_batch` of `mqnic.c`: `mqnic_rx_batch_hints` with
`if_hint = 0` and `NULL` for `hints` and `hint_count`. -/
def mqnic_rx_batch (data_off : Nat) (queue : mqnic_rx_queue) (w : world)
    (bufs : Nat → Nat) (num_bufs : Nat) : Except fatal_error rx_batch_result :=
  mqnic_rx_batch_hints data_off queue w bufs num_bufs 0 (fun _ => ⟨0, 0⟩) 0

/-- The value of `mqnic_rx_batch_hints` (theorem `mqnic_rx_batch_hints_eq`): the
body of the function on the value of the refill. -/
def mqnic_rx_batch_hints_val (data_off : Nat) (queue : mqnic_rx_queue) (w : world)
    (bufs : Nat → Nat) (num_bufs if_hint : Nat) (hints : Nat → nic_hints)
    (hint_count : Nat) : rx_batch_result :=
  let r0 := mqnic_refill_rx_buffers_val data_off queue w
  let cq_tail_ptr := r0.1.cpl_tail_ptr
  let cq_index := cq_tail_ptr &&& r0.1.size_mask
  let cq_next_index := wrap32 (cq_index + RXCQ_BYPASS_BATCH) &&& r0.1.size_mask
  let s0 : rx_batch_state :=
    { queue := r0.1
      w := r0.2
      bufs := bufs
      hints := hints
      cq_tail_ptr := cq_tail_ptr
      cq_index := cq_index
      buf_index := 0
      next_batch := RXCQ_BYPASS_BATCH
      if_next := decide ((r0.1.cpl_descriptors cq_next_index).len ≠ 0)
      tmp_hint_count := 0 }
  let s1 := rx_batch_loop if_hint num_bufs num_bufs s0
  let r2 := rx_update_cq_tail s1.queue s1.w s1.buf_index s1.cq_tail_ptr
  let q3 : mqnic_rx_queue :=
    { r2.1 with rxq_tail_ptr := wrap32 (r2.1.rxq_tail_ptr + s1.buf_index) }
  let q4 : mqnic_rx_queue :=
    { q3 with
      rxq_clean_tail_ptr :=
        rx_clean_loop q3 (sub32 q3.rxq_tail_ptr q3.rxq_clean_tail_ptr) q3.rxq_clean_tail_ptr }
  { ret := s1.buf_index
    queue := q4
    w := r2.2
    bufs := s1.bufs
    hints := s1.hints
    hint_count := if if_hint ≠ 0 then s1.tmp_hint_count else hint_count }

/-- The value of `mqnic_rx_batch` (theorem `mqnic_rx_batch_eq`). -/
def mqnic_rx_batch_val (data_off : Nat) (queue : mqnic_rx_queue) (w : world)
    (bufs : Nat → Nat) (num_bufs : Nat) : rx_batch_result :=
  mqnic_rx_batch_hints_val data_off queue w bufs num_bufs 0 (fun _ => ⟨0, 0⟩) 0

/-! ## TX completion reap -/

/-- The variables of `mqnic_process_tx_cq` that are live across the reap loop,
together with the memory the loop reads and writes.  The counters `packets` and
`bytes` are computed and never used, and are left out. -/
structure tx_cq_state where
  queue : mqnic_tx_queue
  w : world
  cq_tail_ptr : Nat
  cq_index : Nat
  done : Nat
  if_next : Bool

/-- One iteration of the loop `while (if_next && done < budget)` of
`mqnic_process_tx_cq`, built with `IF_TXCQ_BYPASS_REG` defined. -/
def tx_cq_body (s : tx_cq_state) : tx_cq_state :=
  let cpl := s.queue.cpl_descriptors s.cq_index
  let txq_index := cpl.index &&& s.queue.size_mask
  let w1 := pkt_buf_free s.w (s.queue.txq_virtual_addresses txq_index)
  let virt1 := upd s.queue.txq_virtual_addresses txq_index 0
  let cpls1 := upd s.queue.cpl_descriptors s.cq_index { cpl with len := 0 }
  let cq_tail_ptr1 := wrap32 (s.cq_tail_ptr + 1)
  let cq_index1 := cq_tail_ptr1 &&& s.queue.size_mask
  { queue := { s.queue with txq_virtual_addresses := virt1, cpl_descriptors := cpls1 }
    w := w1
    cq_tail_ptr := cq_tail_ptr1
    cq_index := cq_index1
    done := s.done + 1
    if_next := decide ((cpls1 cq_index1).len ≠ 0) }

/-- The loop `while (if_next && done < budget)` of `mqnic_process_tx_cq`, with
an explicit iteration budget. -/
def tx_cq_loop (budget : Int) : Nat → tx_cq_state → tx_cq_state
  | 0, s => s
  | fuel + 1, s =>
    if s.if_next = true ∧ (s.done : Int) < budget then tx_cq_loop budget fuel (tx_cq_body s)
    else s

/-- Function `mqnic_tx_cq_write_tail_ptr` of `mqnic.c`. -/
def mqnic_tx_cq_write_tail_ptr (queue : mqnic_tx_queue) (w : world) : world :=
  set_reg32 w queue.cpl_addr reg.MQNIC_CPL_QUEUE_TAIL_PTR_REG
    (queue.cpl_tail_ptr &&& queue.hw_ptr_mask)

/-- The loop `while (ring_clean_tail_ptr != queue->txq_tail_ptr)` of
`mqnic_process_tx_cq`, built with `IF_RXTX_BYPASS_REG` defined, with an explicit
iteration budget.  The result is the final value of `ring_clean_tail_ptr`, or
`none` when the loop meets an occupied slot and the process exits. -/
def tx_clean_loop (queue : mqnic_tx_queue) : Nat → Nat → Option Nat
  | 0, ring_clean_tail_ptr => some ring_clean_tail_ptr
  | fuel + 1, ring_clean_tail_ptr =>
    if ring_clean_tail_ptr ≠ queue.txq_tail_ptr then
      if queue.txq_virtual_addresses (ring_clean_tail_ptr &&& queue.size_mask) ≠ 0 then none
      else tx_clean_loop queue fuel (wrap32 (ring_clean_tail_ptr + 1))
    else some ring_clean_tail_ptr

/-- Function `mqnic_process_tx_cq` of `mqnic.c`, built with `IF_TXCQ_BYPASS_REG`
and `IF_RXTX_BYPASS_REG` defined.  The result is the return value `done` with
the queue and the rest of the state, or `none` when the process exits. -/
def mqnic_process_tx_cq (queue : mqnic_tx_queue) (w : world) (budget : Int) :
    Option (Nat × mqnic_tx_queue × world) :=
  let cq_tail_ptr := queue.cpl_tail_ptr
  let cq_index := cq_tail_ptr &&& queue.size_mask
  let s0 : tx_cq_state :=
    { queue := queue
      w := w
      cq_tail_ptr := cq_tail_ptr
      cq_index := cq_index
      done := 0
      if_next := decide ((queue.cpl_descriptors cq_index).len ≠ 0) }
  let s1 := tx_cq_loop budget budget.toNat s0
  let q1 : mqnic_tx_queue := { s1.queue with cpl_tail_ptr := s1.cq_tail_ptr }
  let w1 := mqnic_tx_cq_write_tail_ptr q1 s1.w
  let q2 : mqnic_tx_queue := { q1 with txq_tail_ptr := wrap32 (q1.txq_tail_ptr + s1.done) }
  match tx_clean_loop q2 (sub32 q2.txq_tail_ptr q2.txq_clean_tail_ptr) q2.txq_clean_tail_ptr with
  | none => none
  | some ring_clean_tail_ptr =>
    some (wrap32 s1.done, { q2 with txq_clean_tail_ptr := ring_clean_tail_ptr }, w1)

/-! ## TX enqueue -/

/-- Function `mqnic_is_tx_ring_full` of `mqnic.c`. -/
def mqnic_is_tx_ring_full (queue : mqnic_tx_queue) : Bool :=
  decide (sub32 queue.txq_head_ptr queue.txq_clean_tail_ptr ≥ queue.full_size)

/-- The variables of `mqnic_tx_batch` that are live across the enqueue loop,
together with the memory the loop reads and writes. -/
structure tx_batch_state where
  queue : mqnic_tx_queue
  w : world
  sent : Nat
  txq_index : Nat

/-- One iteration of the loop `for (sent = 0; sent < num_bufs; sent++)` of
`mqnic_tx_batch`, past the ring-full test.  `data_off` stands for
`offsetof(struct pkt_buf, data)`, a constant of `memory.h`. -/
def tx_batch_body (data_off : Nat) (bufs : Nat → Nat) (s : tx_batch_state) : tx_batch_state :=
  let buf := bufs s.sent
  let tx_desc : mqnic_desc :=
    { tx_csum_cmd := 0
      len := (s.w.pkt_bufs buf).size
      addr := wrap64 ((s.w.pkt_bufs buf).buf_addr_phy + data_off) }
  let head1 := wrap32 (s.queue.txq_head_ptr + 1)
  let counted : pkt_buf :=
    { (s.w.pkt_bufs buf) with ref_count := (s.w.pkt_bufs buf).ref_count + 1 }
  { queue :=
      { s.queue with
        txq_descriptors := upd s.queue.txq_descriptors s.txq_index tx_desc
        txq_virtual_addresses := upd s.queue.txq_virtual_addresses s.txq_index buf
        txq_head_ptr := head1 }
    w :=
      { s.w with
        pkt_bufs := upd s.w.pkt_bufs buf counted
        trace := s.w.trace ++ [event.tx_desc_write s.txq_index] }
    sent := s.sent + 1
    txq_index := head1 &&& s.queue.size_mask }

/-- The loop `for (sent = 0; sent < num_bufs; sent++)` of `mqnic_tx_batch`, with
an explicit iteration budget. -/
def tx_batch_loop (data_off : Nat) (bufs : Nat → Nat) (num_bufs : Nat) :
    Nat → tx_batch_state → tx_batch_state
  | 0, s => s
  | fuel + 1, s =>
    if s.sent < num_bufs then
      if mqnic_is_tx_ring_full s.queue = true then s
      else tx_batch_loop data_off bufs num_bufs fuel (tx_batch_body data_off bufs s)
    else s

/-- The part of `mqnic_tx_batch` after the completion reap: the enqueue loop and
the write of the TXQ head register.  The result is the return value `sent` with
the queue and the rest of the state. -/
def tx_batch_enqueue (data_off : Nat) (queue : mqnic_tx_queue) (w : world)
    (bufs : Nat → Nat) (num_bufs : Nat) : Nat × mqnic_tx_queue × world :=
  let s0 : tx_batch_state :=
    { queue := queue, w := w, sent := 0, txq_index := queue.txq_head_ptr &&& queue.size_mask }
  let s1 := tx_batch_loop data_off bufs num_bufs num_bufs s0
  (s1.sent, s1.queue,
   set_reg32 s1.w s1.queue.txq_addr reg.MQNIC_QUEUE_HEAD_PTR_REG
     (s1.queue.txq_head_ptr &&& s1.queue.hw_ptr_mask))

/-- Function `mqnic_tx_batch` of `mqnic.c`: the completion reap with budget 64,
then the enqueue.  The result is `none` when the reap exits the process. -/
def mqnic_tx_batch (data_off : Nat) (queue : mqnic_tx_queue) (w : world)
    (bufs : Nat → Nat) (num_bufs : Nat) : Option (Nat × mqnic_tx_queue × world) :=
  match mqnic_process_tx_cq queue w 64 with
  | none => none
  | some r => some (tx_batch_enqueue data_off r.2.1 r.2.2 bufs num_bufs)

/-! ## Ring invariants and specification-side notions -/

/-- A ring size: a power of two that fits a 32-bit counter. -/
def is_ring_size (size : Nat) : Prop := ∃ k, k < 32 ∧ size = 2 ^ k

instance (size : Nat) : Decidable (is_ring_size size) := by
  unfold is_ring_size
  infer_instance

/-- The ring slot of the `j`-th completion record counted from `cpl_tail_ptr`. -/
def cpl_slot (queue : mqnic_rx_queue) (j : Nat) : Nat :=
  wrap32 (queue.cpl_tail_ptr + j) &&& queue.size_mask

/-- The `j`-th completion record counted from `cpl_tail_ptr`. -/
def cpl_at (queue : mqnic_rx_queue) (j : Nat) : mqnic_cpl :=
  queue.cpl_descriptors (cpl_slot queue j)

/-- The RX ring slot named by the `j`-th completion record counted from
`cpl_tail_ptr`, that is `cpl.index & size_mask`. -/
def rxq_slot (queue : mqnic_rx_queue) (j : Nat) : Nat :=
  (cpl_at queue j).index &&& queue.size_mask

/-- The ring invariants of an RX queue (sections 3 and 8 of the specification):
the counters are 32-bit values, `size` is a power of two with
`size_mask = size - 1`, the occupancy `rxq_head_ptr - rxq_clean_tail_ptr` is at
most `size`, a slot holds a buffer exactly when it lies in the window from
`rxq_clean_tail_ptr` (inclusive) to `rxq_head_ptr` (exclusive), and no buffer
is posted in two slots. -/
def rx_ring_inv (queue : mqnic_rx_queue) : Prop :=
  is_ring_size queue.size ∧
  queue.size_mask = queue.size - 1 ∧
  queue.rxq_head_ptr < 4294967296 ∧
  queue.rxq_tail_ptr < 4294967296 ∧
  queue.rxq_clean_tail_ptr < 4294967296 ∧
  queue.cpl_tail_ptr < 4294967296 ∧
  sub32 queue.rxq_head_ptr queue.rxq_clean_tail_ptr ≤ queue.size ∧
  (∀ i, i < queue.size →
    (queue.rxq_virtual_addresses i ≠ 0 ↔
      ∃ t, t < sub32 queue.rxq_head_ptr queue.rxq_clean_tail_ptr ∧
        i = wrap32 (queue.rxq_clean_tail_ptr + t) &&& queue.size_mask)) ∧
  ∀ i, i < queue.size → ∀ j, j < queue.size →
    queue.rxq_virtual_addresses i ≠ 0 →
    queue.rxq_virtual_addresses i = queue.rxq_virtual_addresses j → i = j

instance (queue : mqnic_rx_queue) : Decidable (rx_ring_inv queue) := by
  unfold rx_ring_inv
  infer_instance

/-- The hint carried by a completion record, as the specification decodes it:
`app_id = (rx_hash >> 4) & 0xff`, `content = (rx_hash >> 16) & 0xffff`. -/
def decode_hint (cpl : mqnic_cpl) : nic_hints :=
  { hint_app_id := (cpl.rx_hash >>> 4) &&& 0xff
    hint_content := (cpl.rx_hash >>> 16) &&& 0xffff }

/-- The first `h` completion records counted from `cpl_tail_ptr`, in ring order. -/
def harvested_cpls (queue : mqnic_rx_queue) (h : Nat) : List mqnic_cpl :=
  (List.range h).map (cpl_at queue)

/-- The hints the specification expects from a list of completion records: one
per record with a non-zero `rx_hash`, in order. -/
def expected_hints (cpls : List mqnic_cpl) : List nic_hints :=
  (cpls.filter (fun c => decide (c.rx_hash ≠ 0))).map decode_hint

/-- The queue record seen from inside the harvest loop: the local `cq_tail_ptr`
stands for the field `cpl_tail_ptr`, which is written back after the loop. -/
def loop_view (s : rx_batch_state) : mqnic_rx_queue :=
  { s.queue with cpl_tail_ptr := s.cq_tail_ptr }

/-- The configuration of a TX queue as `init_tx` sets it: `size` is a power of
two, `size_mask = size - 1`, `full_size = size >> 1`, and the head counter is a
32-bit value. -/
def tx_ring_config (queue : mqnic_tx_queue) : Prop :=
  is_ring_size queue.size ∧
  queue.size_mask = queue.size - 1 ∧
  queue.full_size = queue.size >>> 1 ∧
  queue.txq_head_ptr < 4294967296

instance (queue : mqnic_tx_queue) : Decidable (tx_ring_config queue) := by
  unfold tx_ring_config
  infer_instance

/-- The TX ring slot of the `j`-th descriptor counted from `txq_head_ptr`. -/
def tx_slot (queue : mqnic_tx_queue) (j : Nat) : Nat :=
  wrap32 (queue.txq_head_ptr + j) &&& queue.size_mask

/-- The descriptor the specification expects for a buffer: `tx_csum_cmd = 0`,
`len = buf.size`, `addr = buf.phys + offsetof(payload)`. -/
def tx_desc_of (data_off : Nat) (w : world) (buf : Nat) : mqnic_desc :=
  { tx_csum_cmd := 0
    len := (w.pkt_bufs buf).size
    addr := wrap64 ((w.pkt_bufs buf).buf_addr_phy + data_off) }

/-- The number of entries `bufs[start + j]`, `j < n`, that are the buffer `b`. -/
def enqueue_count (bufs : Nat → Nat) (start n b : Nat) : Nat :=
  (List.range n).countP (fun j => decide (bufs (start + j) = b))

/-! ## Sample states -/

/-- A process state with two pools of 2048-byte buffers; the buffer at address
`p` has physical address `p * 2048` and one reference. -/
def sample_world : world :=
  { pkt_bufs := fun p => { buf_addr_phy := p * 2048, mempool := 7, size := 0, ref_count := 1 }
    mempools := fun _ => { buf_size := 2048, free_stack := [5000, 5001] }
    trace := [] }

/-- A completion record that is all zero. -/
def cpl_zero : mqnic_cpl :=
  { queue := 0, index := 0, len := 0, ts := 0, rx_hash := 0, rx_hash_type := 0 }

/-- A full RX ring of 256 slots (slot `i` holds the buffer at address
`1000 + i`) in which the NIC has published three completions, for the slots 0,
1 and 2, with lengths 64, 65 and 66; the second one carries the hint word
`0x00120040`. -/
def sample_rx_queue : mqnic_rx_queue :=
  { rxq_addr := 4096
    cpl_addr := 8192
    size := 256
    full_size := 0
    size_mask := 255
    hw_ptr_mask := 0xffff
    accumulated_cq_updates := 0
    rxq_head_ptr := 256
    rxq_tail_ptr := 0
    rxq_clean_tail_ptr := 0
    cpl_head_ptr := 0
    cpl_tail_ptr := 0
    cpl_clean_tail_ptr := 0
    rxq_descriptors := fun _ => { tx_csum_cmd := 0xffff, len := 0xffffffff, addr := 0 }
    cpl_descriptors := fun i =>
      if i < 3 then
        { queue := 0, index := i, len := 64 + i, ts := 0
          rx_hash := if i = 1 then 0x00120040 else 0, rx_hash_type := 0 }
      else cpl_zero
    mempool := 7
    rxq_virtual_addresses := fun i => if i < 256 then 1000 + i else 0 }

/-- A TX ring of 256 slots with `full_size = 128`, 128 posted descriptors that
have not been reaped (slot `i < 128` holds the buffer at address `1000 + i`) and
no completion pending. -/
def sample_tx_queue : mqnic_tx_queue :=
  { txq_addr := 12288
    cpl_addr := 16384
    size := 256
    stride := 16
    full_size := 128
    size_mask := 255
    hw_ptr_mask := 0xffff
    desc_block_size := 1
    log_desc_block_size := 0
    txq_head_ptr := 128
    txq_tail_ptr := 0
    txq_clean_tail_ptr := 0
    cpl_head_ptr := 0
    cpl_tail_ptr := 0
    cpl_clean_tail_ptr := 0
    txq_descriptors := fun _ => { tx_csum_cmd := 0xffff, len := 0xffffffff, addr := 0 }
    cpl_descriptors := fun _ => cpl_zero
    txq_virtual_addresses := fun i => if i < 128 then 1000 + i else 0 }

/-- A device whose RX queue `i` has its completion-queue register block at
`8192 + 64 * i`. -/
def sample_dev : mqnic_device :=
  { num_rx_queues := 4
    num_tx_queues := 4
    fw_id := 0
    fw_ver := 0
    board_id := 0
    board_ver := 0
    rx_queue_offset := 0
    rx_cpl_queue_offset := 0
    tx_queue_offset := 0
    tx_cpl_queue_offset := 0
    port_offset := 0
    num_event_queues := 1
    regs_size := 4096
    addr := 0
    rx_queues := fun i => { sample_rx_queue with cpl_addr := 8192 + 64 * i }
    tx_queues := fun _ => sample_tx_queue }

/-- The ring of `sample_rx_queue` after the NIC has published 17 completions,
for the slots 0 to 16, each of length 64 and each carrying the hint word
`0x00120040`. -/
def hinted_rx_queue : mqnic_rx_queue :=
  { sample_rx_queue with
    cpl_descriptors := fun i =>
      if i < 17 then
        { queue := 0, index := i, len := 64, ts := 0, rx_hash := 0x00120040, rx_hash_type := 0 }
      else cpl_zero }

/-- The ring of `sample_rx_queue` after the NIC has published one completion,
for slot 0, that reports a length of 4096 bytes, twice the buffer capacity. -/
def oversize_rx_queue : mqnic_rx_queue :=
  { sample_rx_queue with
    cpl_descriptors := fun i =>
      if i = 0 then
        { queue := 0, index := 0, len := 4096, ts := 0, rx_hash := 0, rx_hash_type := 0 }
      else cpl_zero }

/-- What the completion reap returns on `sample_tx_queue`: nothing is reaped,
the queue record is unchanged, and the CQ tail register has been written. -/
def sample_tx_reaped : Nat × mqnic_tx_queue × world :=
  (0, sample_tx_queue,
    set_reg32 sample_world sample_tx_queue.cpl_addr reg.MQNIC_CPL_QUEUE_TAIL_PTR_REG 0)

/-- A TX ring of 256 slots with `full_size = 128`, nothing posted and no
completion pending. -/
def idle_tx_queue : mqnic_tx_queue :=
  { sample_tx_queue with
    txq_head_ptr := 0
    txq_virtual_addresses := fun _ => 0 }

/-- What the completion reap returns on `idle_tx_queue`: nothing is reaped, the
queue record is unchanged, and the CQ tail register has been written. -/
def idle_tx_reaped : Nat × mqnic_tx_queue × world :=
  (0, idle_tx_queue,
    set_reg32 sample_world idle_tx_queue.cpl_addr reg.MQNIC_CPL_QUEUE_TAIL_PTR_REG 0)

/-! ## Port application configuration -/

/-- Function `config_app_mat` of `mqnic.c`. -/
def config_app_mat (dev : mqnic_device) (w : world) (app_id port_num priority : Nat) : world :=
  set_reg32 w (dev.addr + dev.port_offset) reg.MQNIC_PORT_REG_APP_CONFG
    (((port_num <<< 16) &&& 0xffff0000) ||| ((priority <<< 12) &&& 0x0000f000)
      ||| ((app_id <<< 4) &&& 0x00000ff0))

/-- Function `mqnic_port_reset_monitor` of `mqnic.c`. -/
def mqnic_port_reset_monitor (dev : mqnic_device) (w : world) : world :=
  set_reg32 w (dev.addr + dev.port_offset) reg.MQNIC_PORT_REG_APP_CONFG (2 &&& 0x0000000f)

/-- Function `mqnic_port_set_monitor` of `mqnic.c`.  The shift of the promoted
8-bit `scale_down_thresh` by 28 is taken on the unbounded value and then masked,
which is its value modulo `2^32`. -/
def mqnic_port_set_monitor (dev : mqnic_device) (w : world)
    (app_id cong_eopch_log scale_down_eopch_log scale_down_thresh : Nat) : world :=
  set_reg32 w (dev.addr + dev.port_offset) reg.MQNIC_PORT_REG_APP_CONFG
    (((scale_down_thresh <<< 28) &&& 0xf0000000) ||| ((cong_eopch_log <<< 20) &&& 0x0ff00000)
      ||| ((scale_down_eopch_log <<< 12) &&& 0x000ff000) ||| ((app_id <<< 4) &&& 0x00000ff0)
      ||| (1 &&& 0x0000000f))

/-! ## Trace classification -/

/-- Whether a trace event is a register write at the offset
`MQNIC_CPL_QUEUE_TAIL_PTR_REG` (of any completion queue). -/
def is_cq_tail_write (e : event) : Bool :=
  match e with
  | event.set_reg32 _ reg.MQNIC_CPL_QUEUE_TAIL_PTR_REG _ => true
  | _ => false

/-- The queue `sample_rx_queue` with the CQ-tail accumulator at 30. -/
def flush_rx_queue : mqnic_rx_queue :=
  { sample_rx_queue with accumulated_cq_updates := 30 }

/-! ## Completion slots of a TX queue -/

/-- The ring slot of the `j`-th completion record of a TX queue counted from
`cpl_tail_ptr`. -/
def tx_cpl_slot (queue : mqnic_tx_queue) (j : Nat) : Nat :=
  wrap32 (queue.cpl_tail_ptr + j) &&& queue.size_mask

/-! ## The harvest loops as named parts of the drain and the reap -/

/-- The state of a returning call of `mqnic_rx_batch_hints` when its harvest
loop exits: the refill, the initial peek and the loop
`while (if_next && buf_index < num_bufs)`. -/
def rx_harvest (data_off : Nat) (queue : mqnic_rx_queue) (w : world)
    (bufs : Nat → Nat) (num_bufs if_hint : Nat) (hints : Nat → nic_hints) : rx_batch_state :=
  let r0 := mqnic_refill_rx_buffers_val data_off queue w
  let cq_tail_ptr := r0.1.cpl_tail_ptr
  let cq_index := cq_tail_ptr &&& r0.1.size_mask
  let cq_next_index := wrap32 (cq_index + RXCQ_BYPASS_BATCH) &&& r0.1.size_mask
  let s0 : rx_batch_state :=
    { queue := r0.1
      w := r0.2
      bufs := bufs
      hints := hints
      cq_tail_ptr := cq_tail_ptr
      cq_index := cq_index
      buf_index := 0
      next_batch := RXCQ_BYPASS_BATCH
      if_next := decide ((r0.1.cpl_descriptors cq_next_index).len ≠ 0)
      tmp_hint_count := 0 }
  rx_batch_loop if_hint num_bufs num_bufs s0

/-- The state of `mqnic_process_tx_cq` when its reap loop exits: the initial
peek and the loop `while (if_next && done < budget)`. -/
def tx_harvest (queue : mqnic_tx_queue) (w : world) (budget : Int) : tx_cq_state :=
  let cq_tail_ptr := queue.cpl_tail_ptr
  let cq_index := cq_tail_ptr &&& queue.size_mask
  let s0 : tx_cq_state :=
    { queue := queue
      w := w
      cq_tail_ptr := cq_tail_ptr
      cq_index := cq_index
      done := 0
      if_next := decide ((queue.cpl_descriptors cq_index).len ≠ 0) }
  tx_cq_loop budget budget.toNat s0

/-- The queue `sample_rx_queue` after a drain of capacity 2: two of its three
completions have been harvested. -/
def capped_rx_queue : mqnic_rx_queue :=
  (mqnic_rx_batch_hints_val 64 sample_rx_queue sample_world (fun _ => 0) 2 0 (fun _ => ⟨0, 0⟩) 0).queue

/-! ## RX drain, exact variant

The same function `mqnic_rx_batch_hints` built with `IF_RXCQ_BYPASS_REG` and
`IF_RXTX_BYPASS_REG` undefined: the loop condition compares the mirrored CQ head
with the local tail, and the RXQ tail is read back from the NIC.  The values
returned by the two `get_reg32` reads are parameters. -/

/-- Function `mqnic_rx_cq_read_head_ptr` of `mqnic.c`; `nic_head_ptr` is the
value `get_reg32(queue->cpl_addr, MQNIC_CPL_QUEUE_HEAD_PTR_REG)` returns. -/
def mqnic_rx_cq_read_head_ptr (queue : mqnic_rx_queue) (nic_head_ptr : Nat) : mqnic_rx_queue :=
  { queue with
    cpl_head_ptr :=
      wrap32 (queue.cpl_head_ptr + (sub32 nic_head_ptr queue.cpl_head_ptr &&& queue.hw_ptr_mask)) }

/-- Function `mqnic_rx_read_tail_ptr` of `mqnic.c`; `nic_tail_ptr` is the value
`get_reg32(queue->rxq_addr, MQNIC_QUEUE_TAIL_PTR_REG)` returns. -/
def mqnic_rx_read_tail_ptr (queue : mqnic_rx_queue) (nic_tail_ptr : Nat) : mqnic_rx_queue :=
  { queue with
    rxq_tail_ptr :=
      wrap32 (queue.rxq_tail_ptr + (sub32 nic_tail_ptr queue.rxq_tail_ptr &&& queue.hw_ptr_mask)) }

/-- One iteration of the loop `while (if_next && buf_index < num_bufs)` of
`mqnic_rx_batch_hints`, built with `IF_RXCQ_BYPASS_REG` undefined. -/
def rx_exact_body (if_hint : Nat) (s : rx_batch_state) : rx_batch_state :=
  let cpl := s.queue.cpl_descriptors s.cq_index
  let hinted : Bool := decide (if_hint ≠ 0) && decide (cpl.rx_hash ≠ 0)
  let hints1 :=
    if hinted then
      upd s.hints s.tmp_hint_count
        (nic_hints.mk ((cpl.rx_hash &&& 0x00000ff0) >>> 4) ((cpl.rx_hash &&& 0xffff0000) >>> 16))
    else s.hints
  let tmp_hint_count1 := if hinted then wrap16 (s.tmp_hint_count + 1) else s.tmp_hint_count
  let rxq_index := cpl.index &&& s.queue.size_mask
  let buf := s.queue.rxq_virtual_addresses rxq_index
  let clamped : pkt_buf :=
    { (s.w.pkt_bufs buf) with size := GETMIN cpl.len (s.w.mempools s.queue.mempool).buf_size }
  let pkt_bufs1 := upd s.w.pkt_bufs buf clamped
  let pkt_bufs2 := upd pkt_bufs1 buf { (pkt_bufs1 buf) with size := cpl.len }
  let bufs1 := upd s.bufs s.buf_index buf
  let virt1 := upd s.queue.rxq_virtual_addresses rxq_index 0
  let cpls1 := upd s.queue.cpl_descriptors s.cq_index { cpl with len := 0 }
  let buf_index1 := s.buf_index + 1
  let cq_tail_ptr1 := wrap32 (s.cq_tail_ptr + 1)
  let cq_index1 := cq_tail_ptr1 &&& s.queue.size_mask
  { queue := { s.queue with rxq_virtual_addresses := virt1, cpl_descriptors := cpls1 }
    w := { s.w with pkt_bufs := pkt_bufs2 }
    bufs := bufs1
    hints := hints1
    cq_tail_ptr := cq_tail_ptr1
    cq_index := cq_index1
    buf_index := buf_index1
    next_batch := s.next_batch
    if_next := decide (s.queue.cpl_head_ptr ≠ cq_tail_ptr1)
    tmp_hint_count := tmp_hint_count1 }

/-- The loop `while (if_next && buf_index < num_bufs)` of `mqnic_rx_batch_hints`
in the exact variant, with an explicit iteration budget. -/
def rx_exact_loop (if_hint num_bufs : Nat) : Nat → rx_batch_state → rx_batch_state
  | 0, s => s
  | fuel + 1, s =>
    if s.if_next = true ∧ s.buf_index < num_bufs then
      rx_exact_loop if_hint num_bufs fuel (rx_exact_body if_hint s)
    else s

/-- Function `mqnic_rx_batch_hints` of `mqnic.c`, built with `IF_RXCQ_BYPASS_REG`
and `IF_RXTX_BYPASS_REG` undefined.  `nic_head_ptr` and `nic_tail_ptr` are the
values the reads of the CQ head register and of the RXQ tail register return. -/
def mqnic_rx_batch_hints_exact (data_off : Nat) (queue : mqnic_rx_queue) (w : world)
    (bufs : Nat → Nat) (num_bufs if_hint : Nat) (hints : Nat → nic_hints)
    (hint_count : Nat) (nic_head_ptr nic_tail_ptr : Nat) : Except fatal_error rx_batch_result :=
  match mqnic_refill_rx_buffers data_off queue w with
  | Except.error e => Except.error e
  | Except.ok r0 =>
    let cq_tail_ptr := r0.1.cpl_tail_ptr
    let cq_index := cq_tail_ptr &&& r0.1.size_mask
    let q1 := mqnic_rx_cq_read_head_ptr r0.1 nic_head_ptr
    let s0 : rx_batch_state :=
      { queue := q1
        w := r0.2
        bufs := bufs
        hints := hints
        cq_tail_ptr := cq_tail_ptr
        cq_index := cq_index
        buf_index := 0
        next_batch := 0
        if_next := decide (q1.cpl_head_ptr ≠ cq_tail_ptr)
        tmp_hint_count := 0 }
    let s1 := rx_exact_loop if_hint num_bufs num_bufs s0
    let r2 := rx_update_cq_tail s1.queue s1.w s1.buf_index s1.cq_tail_ptr
    let q3 := mqnic_rx_read_tail_ptr r2.1 nic_tail_ptr
    let q4 : mqnic_rx_queue :=
      { q3 with
        rxq_clean_tail_ptr :=
          rx_clean_loop q3 (sub32 q3.rxq_tail_ptr q3.rxq_clean_tail_ptr) q3.rxq_clean_tail_ptr }
    Except.ok
      { ret := s1.buf_index
        queue := q4
        w := r2.2
        bufs := s1.bufs
        hints := s1.hints
        hint_count := if if_hint ≠ 0 then s1.tmp_hint_count else hint_count }

/-- The value of `mqnic_rx_batch_hints_exact` (theorem
`mqnic_rx_batch_hints_exact_eq`): the body of the function on the value of the
refill. -/
def mqnic_rx_batch_hints_exact_val (data_off : Nat) (queue : mqnic_rx_queue) (w : world)
    (bufs : Nat → Nat) (num_bufs if_hint : Nat) (hints : Nat → nic_hints)
    (hint_count : Nat) (nic_head_ptr nic_tail_ptr : Nat) : rx_batch_result :=
  let r0 := mqnic_refill_rx_buffers_val data_off queue w
  let cq_tail_ptr := r0.1.cpl_tail_ptr
  let cq_index := cq_tail_ptr &&& r0.1.size_mask
  let q1 := mqnic_rx_cq_read_head_ptr r0.1 nic_head_ptr
  let s0 : rx_batch_state :=
    { queue := q1
      w := r0.2
      bufs := bufs
      hints := hints
      cq_tail_ptr := cq_tail_ptr
      cq_index := cq_index
      buf_index := 0
      next_batch := 0
      if_next := decide (q1.cpl_head_ptr ≠ cq_tail_ptr)
      tmp_hint_count := 0 }
  let s1 := rx_exact_loop if_hint num_bufs num_bufs s0
  let r2 := rx_update_cq_tail s1.queue s1.w s1.buf_index s1.cq_tail_ptr
  let q3 := mqnic_rx_read_tail_ptr r2.1 nic_tail_ptr
  let q4 : mqnic_rx_queue :=
    { q3 with
      rxq_clean_tail_ptr :=
        rx_clean_loop q3 (sub32 q3.rxq_tail_ptr q3.rxq_clean_tail_ptr) q3.rxq_clean_tail_ptr }
  { ret := s1.buf_index
    queue := q4
    w := r2.2
    bufs := s1.bufs
    hints := s1.hints
    hint_count := if if_hint ≠ 0 then s1.tmp_hint_count else hint_count }

/-- The exact-variant loop state that corresponds to a bypass-variant loop state:
the queue carries the mirrored CQ head `hd`, and `if_next` is the comparison of
that head with the local tail. -/
def exact_of (hd : Nat) (s : rx_batch_state) : rx_batch_state :=
  { s with
    queue := { s.queue with cpl_head_ptr := hd }
    next_batch := 0
    if_next := decide (hd ≠ s.cq_tail_ptr) }

/-- The state of a returning call of the exact variant of `mqnic_rx_batch_hints`
when its harvest loop exits: the refill, the read of the CQ head register and
the loop. -/
def rx_harvest_exact (data_off : Nat) (queue : mqnic_rx_queue) (w : world)
    (bufs : Nat → Nat) (num_bufs if_hint : Nat) (hints : Nat → nic_hints)
    (nic_head_ptr : Nat) : rx_batch_state :=
  let r0 := mqnic_refill_rx_buffers_val data_off queue w
  let cq_tail_ptr := r0.1.cpl_tail_ptr
  let cq_index := cq_tail_ptr &&& r0.1.size_mask
  let q1 := mqnic_rx_cq_read_head_ptr r0.1 nic_head_ptr
  let s0 : rx_batch_state :=
    { queue := q1
      w := r0.2
      bufs := bufs
      hints := hints
      cq_tail_ptr := cq_tail_ptr
      cq_index := cq_index
      buf_index := 0
      next_batch := 0
      if_next := decide (q1.cpl_head_ptr ≠ cq_tail_ptr)
      tmp_hint_count := 0 }
  rx_exact_loop if_hint num_bufs num_bufs s0

/-- The value the CQ head register holds once the NIC has published the three
completions of `sample_rx_queue`. -/
def sample_nic_head : Nat := 3

/-! ## Bring-up -/

/-- The loop `while (x >>= 1) power <<= 1;` of `round_power`, with an explicit
iteration budget (a 32-bit `x` is exhausted after at most 32 shifts). -/
def round_power_loop : Nat → Nat → Nat → Nat
  | 0, _, power => power
  | fuel + 1, x, power =>
    if x >>> 1 ≠ 0 then round_power_loop fuel (x >>> 1) (power <<< 1) else power

/-- Function `round_power` of `mqnic.c`. -/
def round_power (x : Nat) : Nat := wrap32 (round_power_loop 32 x 1)

/-- The loop `while (x) { res++; x = x >> 1; }` of `log2_floor`, with an
explicit iteration budget (a 32-bit `x` is exhausted after at most 32 shifts);
`res` is a `uint32_t`. -/
def log2_floor_loop : Nat → Nat → Nat → Nat
  | 0, _, res => res
  | fuel + 1, x, res =>
    if x ≠ 0 then log2_floor_loop fuel (x >>> 1) (wrap32 (res + 1)) else res

/-- Function `log2_floor` of `mqnic.c`: `res` starts at `(uint32_t)-1`. -/
def log2_floor (x : Nat) : Nat := log2_floor_loop 32 x 0xffffffff

/-- A descriptor after `memset(ring, -1, ...)`: every byte is `0xff`. -/
def desc_ones : mqnic_desc :=
  { tx_csum_cmd := 0xffff, len := 0xffffffff, addr := 0xffffffffffffffff }

/-- The fields of an RX queue record as the per-queue body of `init_rx` leaves
them, starting from the zeroed record `calloc` returns in `mqnic_init`: the
fields `init_rx` does not assign (`full_size`, `mempool`, the entries of
`rxq_virtual_addresses`) are zero.  The two register block addresses are
parameters; the register writes of `init_rx` do not touch the record. -/
def init_rx_queue (rxq_addr cpl_addr : Nat) : mqnic_rx_queue :=
  { rxq_addr := rxq_addr
    cpl_addr := cpl_addr
    size := round_power NUM_RX_QUEUE_ENTRIES
    full_size := 0
    size_mask := round_power NUM_RX_QUEUE_ENTRIES - 1
    hw_ptr_mask := 0xffff
    accumulated_cq_updates := 0
    rxq_head_ptr := 0
    rxq_tail_ptr := 0
    rxq_clean_tail_ptr := 0
    cpl_head_ptr := 0
    cpl_tail_ptr := 0
    cpl_clean_tail_ptr := 0
    rxq_descriptors := fun _ => desc_ones
    cpl_descriptors := fun _ => cpl_zero
    mempool := 0
    rxq_virtual_addresses := fun _ => 0 }

/-- The queue record and the process state a returning call of
`start_rxq_cpl_queue` leaves, on the record `init_rx` leaves and on the process
state `w` its four activation writes leave (theorem `start_rxq_cpl_queue_eq`):
the pool returned by `memory_allocate_mempool` is stored, the refill posts
buffers, and `mqnic_rx_read_tail_ptr` mirrors the RXQ tail register, which reads
`nic_tail_ptr`.  Not a function of the source. -/
def rx_bringup (data_off rxq_addr cpl_addr pool : Nat) (w : world) (nic_tail_ptr : Nat) :
    mqnic_rx_queue × world :=
  let q1 : mqnic_rx_queue := { (init_rx_queue rxq_addr cpl_addr) with mempool := pool }
  let r := mqnic_refill_rx_buffers_val data_off q1 w
  (mqnic_rx_read_tail_ptr r.1 nic_tail_ptr, r.2)

/-- The fields of a TX queue record as the per-queue body of `init_tx` leaves
them, starting from the zeroed record `calloc` returns in `mqnic_init`: the
entries of `txq_virtual_addresses`, which `init_tx` does not assign, are zero.
`stride` is the local `DESC_BLOCK_SIZE * MQNIC_DESC_SIZE`, and
`desc_block_size` is first `stride / MQNIC_DESC_SIZE` and then
`1 << log_desc_block_size`.  `start_txq_cpl_queue` only writes registers. -/
def init_tx_queue (txq_addr cpl_addr : Nat) : mqnic_tx_queue :=
  let stride := DESC_BLOCK_SIZE * MQNIC_DESC_SIZE
  let desc_block_size := stride / MQNIC_DESC_SIZE
  let log_desc_block_size :=
    if desc_block_size < 2 then 0 else wrap32 (log2_floor (desc_block_size - 1) + 1)
  { txq_addr := txq_addr
    cpl_addr := cpl_addr
    size := round_power NUM_TX_QUEUE_ENTRIES
    stride := stride
    full_size := round_power NUM_TX_QUEUE_ENTRIES >>> 1
    size_mask := round_power NUM_TX_QUEUE_ENTRIES - 1
    hw_ptr_mask := 0xffff
    desc_block_size := wrap32 (1 <<< log_desc_block_size)
    log_desc_block_size := log_desc_block_size
    txq_head_ptr := 0
    txq_tail_ptr := 0
    txq_clean_tail_ptr := 0
    cpl_head_ptr := 0
    cpl_tail_ptr := 0
    cpl_clean_tail_ptr := 0
    txq_descriptors := fun _ => desc_ones
    cpl_descriptors := fun _ => cpl_zero
    txq_virtual_addresses := fun _ => 0 }

/-! ## Queue activation -/

/-- The constants of `mqnic_type.h`, which is not among the sources, that queue
activation uses. -/
structure hw_constants where
  MQNIC_CPL_QUEUE_ACTIVE_MASK : Nat
  MQNIC_QUEUE_ACTIVE_MASK : Nat
  MQNIC_TX_KERNEL_QUEUE_NUMBER : Nat
  MQNIC_RX_KERNEL_QUEUE_NUMBER : Nat

/-- Function `start_rxq_cpl_queue` of `mqnic.c`: the queue record and the
process state it leaves, or the fatal error.  `pool` is the mempool
`memory_allocate_mempool` returns, called with `rxq_mempool_args
NUM_RX_QUEUE_ENTRIES`, and `nic_tail_ptr` is the value the RXQ tail register
reads. -/
def start_rxq_cpl_queue (data_off : Nat) (c : hw_constants) (dev : mqnic_device) (w : world)
    (queue_id pool nic_tail_ptr : Nat) : Except fatal_error (mqnic_rx_queue × world) :=
  let queue : mqnic_rx_queue := { (dev.rx_queues queue_id) with mempool := pool }
  if queue.size &&& sub32 queue.size 1 ≠ 0 then error fatal_error.size_not_power_of_two
  else
    let w1 := set_reg32 w queue.cpl_addr reg.MQNIC_CPL_QUEUE_INTERRUPT_INDEX_REG
      (sub32 dev.num_event_queues 1)
    let w2 := set_reg32 w1 queue.cpl_addr reg.MQNIC_CPL_QUEUE_ACTIVE_LOG_SIZE_REG
      (log2_floor queue.size ||| c.MQNIC_CPL_QUEUE_ACTIVE_MASK)
    let w3 := set_reg32 w2 queue.rxq_addr reg.MQNIC_QUEUE_CPL_QUEUE_INDEX_REG
      (queue_id + c.MQNIC_RX_KERNEL_QUEUE_NUMBER)
    let w4 := set_reg32 w3 queue.rxq_addr reg.MQNIC_QUEUE_ACTIVE_LOG_SIZE_REG
      (log2_floor queue.size ||| c.MQNIC_QUEUE_ACTIVE_MASK)
    match mqnic_refill_rx_buffers data_off queue w4 with
    | Except.error e => Except.error e
    | Except.ok r => Except.ok (mqnic_rx_read_tail_ptr r.1 nic_tail_ptr, r.2)

/-- The process state after the four register writes by which
`start_rxq_cpl_queue` activates the queue; its refill runs on this state. -/
def rx_activation (c : hw_constants) (dev : mqnic_device) (w : world) (queue_id : Nat) : world :=
  let queue := dev.rx_queues queue_id
  let w1 := set_reg32 w queue.cpl_addr reg.MQNIC_CPL_QUEUE_INTERRUPT_INDEX_REG
    (sub32 dev.num_event_queues 1)
  let w2 := set_reg32 w1 queue.cpl_addr reg.MQNIC_CPL_QUEUE_ACTIVE_LOG_SIZE_REG
    (log2_floor queue.size ||| c.MQNIC_CPL_QUEUE_ACTIVE_MASK)
  let w3 := set_reg32 w2 queue.rxq_addr reg.MQNIC_QUEUE_CPL_QUEUE_INDEX_REG
    (queue_id + c.MQNIC_RX_KERNEL_QUEUE_NUMBER)
  set_reg32 w3 queue.rxq_addr reg.MQNIC_QUEUE_ACTIVE_LOG_SIZE_REG
    (log2_floor queue.size ||| c.MQNIC_QUEUE_ACTIVE_MASK)

/-- The sample constants: both activation masks are bit 31, and no queue is
left to the kernel. -/
def sample_consts : hw_constants :=
  { MQNIC_CPL_QUEUE_ACTIVE_MASK := 0x80000000
    MQNIC_QUEUE_ACTIVE_MASK := 0x80000000
    MQNIC_TX_KERNEL_QUEUE_NUMBER := 0
    MQNIC_RX_KERNEL_QUEUE_NUMBER := 0 }

/-- A device with the queue records `init_rx` and `init_tx` leave. -/
def fresh_dev : mqnic_device :=
  { sample_dev with
    rx_queues := fun _ => init_rx_queue 4096 8192
    tx_queues := fun _ => init_tx_queue 12288 16384 }

/-! ## The driver and the NIC as a transition system -/

/-- The state the harvest loop of `mqnic_rx_batch_hints` starts in, on the queue
and process state the refill returns. -/
def rx_peek_state (queue : mqnic_rx_queue) (w : world) (bufs : Nat → Nat)
    (hints : Nat → nic_hints) : rx_batch_state :=
  { queue := queue
    w := w
    bufs := bufs
    hints := hints
    cq_tail_ptr := queue.cpl_tail_ptr
    cq_index := queue.cpl_tail_ptr &&& queue.size_mask
    buf_index := 0
    next_batch := RXCQ_BYPASS_BATCH
    if_next :=
      decide ((queue.cpl_descriptors
        (wrap32 ((queue.cpl_tail_ptr &&& queue.size_mask) + RXCQ_BYPASS_BATCH)
          &&& queue.size_mask)).len ≠ 0)
    tmp_hint_count := 0 }

/-- An RX queue together with the NIC side of its completion queue: `nic_head`
is the number of completion records the NIC has published so far, modulo
`2^32` (the value of its CQ head pointer). -/
structure rx_system where
  queue : mqnic_rx_queue
  nic_head : Nat

/-- The NIC publishes one RX completion: it writes the record `cpl` into the
completion ring at its head and advances its head. -/
def nic_rx_complete (st : rx_system) (cpl : mqnic_cpl) : rx_system :=
  { queue :=
      { st.queue with
        cpl_descriptors :=
          upd st.queue.cpl_descriptors (st.nic_head &&& st.queue.size_mask) cpl }
    nic_head := wrap32 (st.nic_head + 1) }

/-- The states of an RX queue reachable from bring-up.  Bring-up is a returning
call of `start_rxq_cpl_queue` on the queue record `init_rx` leaves;
`nic_tail_ptr` is the value the RXQ tail register reads at its end (`init_rx`
wrote 0 to it; the NIC advances it when it consumes a descriptor).  The driver
steps are the returning calls of `mqnic_refill_rx_buffers` and
`mqnic_rx_batch_hints` (of which `mqnic_rx_batch` is an instance), each on an
arbitrary process state, since the application frees and allocates buffers
between calls.  The NIC step
publishes a completion with `len != 0` for a descriptor that is posted (its slot
holds a buffer) and has no completion pending, while it has published fewer
completions than descriptors were posted; both are counted from
`cpl_tail_ptr`, the number of completions harvested so far.  With `in_order` the
NIC moreover completes descriptors in the order they were posted. -/
inductive rx_reachable (data_off : Nat) (in_order : Bool) (nic_tail_ptr : Nat) :
    rx_system → Prop
  | bringup (c : hw_constants) (dev : mqnic_device) (w : world) (queue_id pool : Nat)
      (rxq_addr cpl_addr : Nat) (r : mqnic_rx_queue × world) :
    dev.rx_queues queue_id = init_rx_queue rxq_addr cpl_addr →
    start_rxq_cpl_queue data_off c dev w queue_id pool nic_tail_ptr = Except.ok r →
    rx_reachable data_off in_order nic_tail_ptr { queue := r.1, nic_head := 0 }
  | refill (st : rx_system) (w : world) (r : mqnic_rx_queue × world) :
    rx_reachable data_off in_order nic_tail_ptr st →
    mqnic_refill_rx_buffers data_off st.queue w = Except.ok r →
    rx_reachable data_off in_order nic_tail_ptr { queue := r.1, nic_head := st.nic_head }
  | rx_batch (st : rx_system) (w : world) (bufs : Nat → Nat) (num_bufs if_hint : Nat)
      (hints : Nat → nic_hints) (hint_count : Nat) (r : rx_batch_result) :
    rx_reachable data_off in_order nic_tail_ptr st →
    mqnic_rx_batch_hints data_off st.queue w bufs num_bufs if_hint hints hint_count
      = Except.ok r →
    rx_reachable data_off in_order nic_tail_ptr { queue := r.queue, nic_head := st.nic_head }
  | nic (st : rx_system) (cpl : mqnic_cpl) :
    rx_reachable data_off in_order nic_tail_ptr st →
    cpl.len ≠ 0 →
    sub32 st.nic_head st.queue.cpl_tail_ptr
      < sub32 st.queue.rxq_head_ptr st.queue.cpl_tail_ptr →
    st.queue.rxq_virtual_addresses (cpl.index &&& st.queue.size_mask) ≠ 0 →
    (∀ j, j < sub32 st.nic_head st.queue.cpl_tail_ptr →
      rxq_slot st.queue j ≠ cpl.index &&& st.queue.size_mask) →
    (in_order = true →
      cpl.index &&& st.queue.size_mask
        = wrap32 (st.queue.cpl_tail_ptr + sub32 st.nic_head st.queue.cpl_tail_ptr)
            &&& st.queue.size_mask) →
    rx_reachable data_off in_order nic_tail_ptr (nic_rx_complete st cpl)

/-- The invariant of the RX transition system.  The counters are 32-bit values
and the ring is a power of two; `rxq_tail_ptr` and `cpl_tail_ptr` advance
together; `cpl_head_ptr` keeps its bring-up value; the clean tail, the tail and
the head follow each other within `size`; no more completions are pending than
descriptors are outstanding; and the pending completions are exactly the
records with `len != 0`.  With an in-order NIC, moreover, the clean tail has
caught up with the tail, the `j`-th pending completion names the `j`-th
outstanding slot, and a slot holds a buffer exactly when it lies in the window
from the clean tail to the head.  In either order a slot that holds a buffer
lies in that window. -/
def rx_sys_inv (in_order : Bool) (st : rx_system) : Prop :=
  is_ring_size st.queue.size ∧
  st.queue.size_mask = st.queue.size - 1 ∧
  st.queue.rxq_head_ptr < 4294967296 ∧
  st.queue.rxq_clean_tail_ptr < 4294967296 ∧
  st.queue.cpl_tail_ptr < 4294967296 ∧
  st.nic_head < 4294967296 ∧
  st.queue.rxq_tail_ptr = st.queue.cpl_tail_ptr ∧
  st.queue.cpl_head_ptr = 0 ∧
  sub32 st.queue.rxq_head_ptr st.queue.rxq_clean_tail_ptr ≤ st.queue.size ∧
  sub32 st.nic_head st.queue.cpl_tail_ptr
      + sub32 st.queue.rxq_tail_ptr st.queue.rxq_clean_tail_ptr
    ≤ sub32 st.queue.rxq_head_ptr st.queue.rxq_clean_tail_ptr ∧
  (∀ j, j < st.queue.size →
    ((cpl_at st.queue j).len ≠ 0 ↔ j < sub32 st.nic_head st.queue.cpl_tail_ptr)) ∧
  (in_order = true →
    st.queue.rxq_clean_tail_ptr = st.queue.rxq_tail_ptr ∧
    (∀ j, j < sub32 st.nic_head st.queue.cpl_tail_ptr →
      rxq_slot st.queue j = wrap32 (st.queue.rxq_tail_ptr + j) &&& st.queue.size_mask) ∧
    (∀ i, i < st.queue.size →
      (st.queue.rxq_virtual_addresses i ≠ 0 ↔
        ∃ t, t < sub32 st.queue.rxq_head_ptr st.queue.rxq_clean_tail_ptr ∧
          i = wrap32 (st.queue.rxq_clean_tail_ptr + t) &&& st.queue.size_mask))) ∧
  (∀ i, i < st.queue.size → st.queue.rxq_virtual_addresses i ≠ 0 →
    ∃ t, t < sub32 st.queue.rxq_head_ptr st.queue.rxq_clean_tail_ptr ∧
      i = wrap32 (st.queue.rxq_clean_tail_ptr + t) &&& st.queue.size_mask)

/-- The part of the invariant of the RX transition system that does not involve
`rxq_tail_ptr`: the ring is a power of two, the counters of the completion queue
are 32-bit values, `cpl_head_ptr` keeps its bring-up value, at most `size`
completions are pending, the pending completions are exactly the records with
`len != 0`, and they name pairwise different RX ring slots. -/
def rx_cpl_inv (st : rx_system) : Prop :=
  is_ring_size st.queue.size ∧
  st.queue.size_mask = st.queue.size - 1 ∧
  st.queue.cpl_tail_ptr < 4294967296 ∧
  st.nic_head < 4294967296 ∧
  st.queue.cpl_head_ptr = 0 ∧
  sub32 st.nic_head st.queue.cpl_tail_ptr ≤ st.queue.size ∧
  (∀ j, j < st.queue.size →
    ((cpl_at st.queue j).len ≠ 0 ↔ j < sub32 st.nic_head st.queue.cpl_tail_ptr)) ∧
  (∀ j j2, j < j2 → j2 < sub32 st.nic_head st.queue.cpl_tail_ptr →
    rxq_slot st.queue j ≠ rxq_slot st.queue j2)

/-- The part of `mqnic_rx_batch_hints` after the refill, on the queue and the
process state the refill returns: the harvest loop, the CQ-tail accounting, the
advance of `rxq_tail_ptr` and the clean-tail loop. -/
def rx_drain (queue : mqnic_rx_queue) (w : world) (bufs : Nat → Nat)
    (num_bufs if_hint : Nat) (hints : Nat → nic_hints) (hint_count : Nat) : rx_batch_result :=
  let s1 := rx_batch_loop if_hint num_bufs num_bufs (rx_peek_state queue w bufs hints)
  let r2 := rx_update_cq_tail s1.queue s1.w s1.buf_index s1.cq_tail_ptr
  let q3 : mqnic_rx_queue :=
    { r2.1 with rxq_tail_ptr := wrap32 (r2.1.rxq_tail_ptr + s1.buf_index) }
  let q4 : mqnic_rx_queue :=
    { q3 with
      rxq_clean_tail_ptr :=
        rx_clean_loop q3 (sub32 q3.rxq_tail_ptr q3.rxq_clean_tail_ptr) q3.rxq_clean_tail_ptr }
  { ret := s1.buf_index
    queue := q4
    w := r2.2
    bufs := s1.bufs
    hints := s1.hints
    hint_count := if if_hint ≠ 0 then s1.tmp_hint_count else hint_count }

/-! ## Sample reachable RX states -/

/-- A process state whose pools hold 4096 free buffers of 2048 bytes, at the
addresses 5000 to 9095. -/
def full_pool_world : world :=
  { pkt_bufs := fun p => { buf_addr_phy := p * 2048, mempool := 7, size := 0, ref_count := 1 }
    mempools := fun _ =>
      { buf_size := 2048, free_stack := (List.range 4096).map (fun i => 5000 + i) }
    trace := [] }

/-- The process state `full_pool_world` after the activation writes of
`start_rxq_cpl_queue` on queue 0 of `fresh_dev`. -/
def activated_pool_world : world := rx_activation sample_consts fresh_dev full_pool_world 0

/-- The RX queue right after bring-up on `full_pool_world`, the RXQ tail
register reading 0: all 256 descriptors are posted, slot `i` holds the buffer at
address `5000 + i`, and the NIC has published nothing. -/
def rx_full_state : rx_system :=
  { queue := (rx_bringup 64 4096 8192 7 activated_pool_world 0).1, nic_head := 0 }

/-- A completion record of 64 bytes for the descriptor in slot `index`. -/
def sample_cpl (index : Nat) : mqnic_cpl :=
  { queue := 0, index := index, len := 64, ts := 0, rx_hash := 0, rx_hash_type := 0 }

/-- From `rx_full_state`, the NIC completes the descriptor in slot 5 first (out
of posting order) and the driver then drains with capacity 8. -/
def rx_ooo_state : rx_system :=
  { queue :=
      (mqnic_rx_batch_hints_val 64 (nic_rx_complete rx_full_state (sample_cpl 5)).queue
        (rx_bringup 64 4096 8192 7 full_pool_world 0).2 (fun _ => 0) 8 0
        (fun _ => ⟨0, 0⟩) 0).queue
    nic_head := (nic_rx_complete rx_full_state (sample_cpl 5)).nic_head }

/-- From `rx_full_state`, the NIC completes the descriptor in slot 0 (the first
posted) and the driver then drains with capacity 8. -/
def rx_ino_state : rx_system :=
  { queue :=
      (mqnic_rx_batch_hints_val 64 (nic_rx_complete rx_full_state (sample_cpl 0)).queue
        (rx_bringup 64 4096 8192 7 full_pool_world 0).2 (fun _ => 0) 8 0
        (fun _ => ⟨0, 0⟩) 0).queue
    nic_head := (nic_rx_complete rx_full_state (sample_cpl 0)).nic_head }

/-- The NIC completes the first `k` posted descriptors in posting order: the
`j`-th completion names slot `j`. -/
def nic_rx_complete_first : Nat → rx_system → rx_system
  | 0, st => st
  | k + 1, st => nic_rx_complete (nic_rx_complete_first k st) (sample_cpl k)

/-- A bring-up on `full_pool_world` at whose end the RXQ tail register reads 1
(the NIC has consumed one descriptor between the head-pointer write of the
refill and the read), followed by the in-order completion of all 256 posted
descriptors. -/
def rx_early_tail_state : rx_system :=
  nic_rx_complete_first 256
    { queue := (rx_bringup 64 4096 8192 7 activated_pool_world 1).1, nic_head := 0 }

/-- From `rx_early_tail_state`, the driver drains with capacity 256. -/
def rx_overrun_state : rx_system :=
  { queue :=
      (mqnic_rx_batch_hints_val 64 rx_early_tail_state.queue full_pool_world (fun _ => 0) 256 0
        (fun _ => ⟨0, 0⟩) 0).queue
    nic_head := rx_early_tail_state.nic_head }

/-- A process state whose pools are empty: the application holds every buffer
(it has received them from the RX drain and not freed them yet). -/
def empty_pool_world : world :=
  { full_pool_world with mempools := fun _ => { buf_size := 2048, free_stack := [] } }

/-- From `rx_full_state`, the NIC completes the first eight descriptors in
order and the driver drains them with capacity 8: eight descriptors are then
missing from the ring. -/
def rx_starved_state : rx_system :=
  { queue :=
      (mqnic_rx_batch_hints_val 64 (nic_rx_complete_first 8 rx_full_state).queue full_pool_world
        (fun _ => 0) 8 0 (fun _ => ⟨0, 0⟩) 0).queue
    nic_head := (nic_rx_complete_first 8 rx_full_state).nic_head }

/-! ## The TX queue and the NIC as a transition system -/

/-- A TX queue together with the NIC side of its completion queue: `nic_head`
is the number of completion records the NIC has published so far, modulo
`2^32`. -/
structure tx_system where
  queue : mqnic_tx_queue
  nic_head : Nat

/-- The NIC publishes one TX completion: it writes the record `cpl` into the
completion ring at its head and advances its head. -/
def nic_tx_complete (st : tx_system) (cpl : mqnic_cpl) : tx_system :=
  { queue :=
      { st.queue with
        cpl_descriptors :=
          upd st.queue.cpl_descriptors (st.nic_head &&& st.queue.size_mask) cpl }
    nic_head := wrap32 (st.nic_head + 1) }

/-- The states of a TX queue reachable from bring-up (`init_tx`; the queue
record is not touched by `start_txq_cpl_queue`).  The driver step is a call of
`mqnic_tx_batch` that returns, on an arbitrary process state and with
arbitrary buffers.  The NIC step publishes a completion with `len != 0` for a
descriptor that is posted (its slot holds a buffer) and has no completion
pending, while fewer completions are pending than descriptors are
outstanding. -/
inductive tx_reachable (data_off : Nat) : tx_system → Prop
  | bringup (txq_addr cpl_addr : Nat) :
    tx_reachable data_off { queue := init_tx_queue txq_addr cpl_addr, nic_head := 0 }
  | tx_batch (st : tx_system) (w : world) (bufs : Nat → Nat) (num_bufs : Nat)
      (r : Nat × mqnic_tx_queue × world) :
    tx_reachable data_off st →
    mqnic_tx_batch data_off st.queue w bufs num_bufs = some r →
    tx_reachable data_off { queue := r.2.1, nic_head := st.nic_head }
  | nic (st : tx_system) (cpl : mqnic_cpl) :
    tx_reachable data_off st →
    cpl.len ≠ 0 →
    sub32 st.nic_head st.queue.cpl_tail_ptr
      < sub32 st.queue.txq_head_ptr st.queue.txq_tail_ptr →
    st.queue.txq_virtual_addresses (cpl.index &&& st.queue.size_mask) ≠ 0 →
    (∀ j, j < sub32 st.nic_head st.queue.cpl_tail_ptr →
      (st.queue.cpl_descriptors (tx_cpl_slot st.queue j)).index &&& st.queue.size_mask
        ≠ cpl.index &&& st.queue.size_mask) →
    tx_reachable data_off (nic_tx_complete st cpl)

/-- The ring part of the TX invariant: the ring is a power of two with
`full_size = size >> 1`, the head and the clean tail are 32-bit values at most
`full_size` apart, and every slot outside the window from the clean tail to the
head is null. -/
def tx_window_inv (queue : mqnic_tx_queue) : Prop :=
  is_ring_size queue.size ∧
  queue.size_mask = queue.size - 1 ∧
  queue.full_size = queue.size >>> 1 ∧
  queue.txq_head_ptr < 4294967296 ∧
  queue.txq_clean_tail_ptr < 4294967296 ∧
  sub32 queue.txq_head_ptr queue.txq_clean_tail_ptr ≤ queue.full_size ∧
  ∀ i, i < queue.size →
    (∀ t, t < sub32 queue.txq_head_ptr queue.txq_clean_tail_ptr →
      i ≠ wrap32 (queue.txq_clean_tail_ptr + t) &&& queue.size_mask) →
    queue.txq_virtual_addresses i = 0

/-- The invariant of the TX transition system: the ring invariant, the tail, the
completion tail and the clean tail coincide, `cpl_head_ptr` keeps its bring-up
value, no more completions are pending than descriptors are outstanding, and
the pending completions are exactly the records with `len != 0`. -/
def tx_sys_inv (st : tx_system) : Prop :=
  tx_window_inv st.queue ∧
  st.queue.cpl_tail_ptr < 4294967296 ∧
  st.nic_head < 4294967296 ∧
  st.queue.txq_tail_ptr = st.queue.cpl_tail_ptr ∧
  st.queue.txq_clean_tail_ptr = st.queue.txq_tail_ptr ∧
  st.queue.cpl_head_ptr = 0 ∧
  sub32 st.nic_head st.queue.cpl_tail_ptr
    ≤ sub32 st.queue.txq_head_ptr st.queue.txq_clean_tail_ptr ∧
  ∀ j, j < st.queue.size →
    ((st.queue.cpl_descriptors (tx_cpl_slot st.queue j)).len ≠ 0 ↔
      j < sub32 st.nic_head st.queue.cpl_tail_ptr)

/-- The state the enqueue loop of `mqnic_tx_batch` starts in, on the queue and
process state the completion reap returns. -/
def tx_enqueue_start (queue : mqnic_tx_queue) (w : world) : tx_batch_state :=
  { queue := queue, w := w, sent := 0, txq_index := queue.txq_head_ptr &&& queue.size_mask }

/-! ## Sample reachable TX states -/

/-- What `mqnic_tx_batch` returns on the TX queue right after bring-up, for the
three buffers at the addresses 1000, 1001 and 1002: the reap finds nothing and
writes the CQ tail register, then the three buffers are posted. -/
def tx_posted_result : Nat × mqnic_tx_queue × world :=
  tx_batch_enqueue 64 (init_tx_queue 12288 16384)
    (set_reg32 sample_world 16384 reg.MQNIC_CPL_QUEUE_TAIL_PTR_REG 0) (fun j => 1000 + j) 3

/-- The TX queue after bring-up and one `mqnic_tx_batch` call that posted three
buffers; the NIC has published nothing. -/
def tx_posted_state : tx_system :=
  { queue := tx_posted_result.2.1, nic_head := 0 }


/-! ## The mempool request of `start_rxq_cpl_queue` -/

/-- The value of a `uint32_t` converted to `int`. -/
def to_int (v : Nat) : Int := if v < 2147483648 then (v : Int) else (v : Int) - 4294967296

/-- The two arguments of the call `memory_allocate_mempool(...)` in
`start_rxq_cpl_queue`: the number of entries and the entry size.
`ring_entries` stands for the macro `NUM_RX_QUEUE_ENTRIES`; the local
`mempool_size` is an `int` that receives the `uint32_t` result of
`round_power`. -/
def rxq_mempool_args (ring_entries : Nat) : Int × Int :=
  let mempool_size : Int := to_int (round_power (wrap32 (ring_entries * 2)))
  (if mempool_size < MQNIC_MIN_MEMPOOL_ENTRIES then MQNIC_MIN_MEMPOOL_ENTRIES else mempool_size,
   MQNIC_PKT_BUF_ENTRY_SIZE)

/-- The smallest power of two that is at least `x`, as the specification uses
it for the mempool size. -/
def next_power_of_two (x : Nat) : Nat := 2 ^ Nat.clog 2 x

/-! ## Pointer mirrors of the TX queue -/

/-- Function `mqnic_tx_cq_read_head_ptr` of `mqnic.c`; `nic_head_ptr` is the
value `get_reg32(queue->cpl_addr, MQNIC_CPL_QUEUE_HEAD_PTR_REG)` returns. -/
def mqnic_tx_cq_read_head_ptr (queue : mqnic_tx_queue) (nic_head_ptr : Nat) : mqnic_tx_queue :=
  { queue with
    cpl_head_ptr :=
      wrap32 (queue.cpl_head_ptr + (sub32 nic_head_ptr queue.cpl_head_ptr &&& queue.hw_ptr_mask)) }

/-- Function `mqnic_tx_read_tail_ptr` of `mqnic.c`; `nic_tail_ptr` is the value
`get_reg32(queue->txq_addr, MQNIC_QUEUE_TAIL_PTR_REG)` returns. -/
def mqnic_tx_read_tail_ptr (queue : mqnic_tx_queue) (nic_tail_ptr : Nat) : mqnic_tx_queue :=
  { queue with
    txq_tail_ptr :=
      wrap32 (queue.txq_tail_ptr + (sub32 nic_tail_ptr queue.txq_tail_ptr &&& queue.hw_ptr_mask)) }

/-- An RX queue whose mirrors sit just below a wrap of the 16-bit hardware
pointer: `cpl_head_ptr = rxq_tail_ptr = 0x1fffe`. -/
def mirror_rx_queue : mqnic_rx_queue :=
  { sample_rx_queue with cpl_head_ptr := 0x1fffe, rxq_tail_ptr := 0x1fffe }

/-- A TX queue whose mirrors sit just below a wrap of the 16-bit hardware
pointer. -/
def mirror_tx_queue : mqnic_tx_queue :=
  { sample_tx_queue with cpl_head_ptr := 0x1fffe, txq_tail_ptr := 0x1fffe }

/-! ## RX fill -/

/-- The loop `for (int i = 0; i < num; i++)` of `mqnic_fill_rx_buffers`, by
recursion on the number `num - i` of iterations left. -/
def fill_loop (data_off : Nat) :
    Nat → mqnic_rx_queue → world → Except fatal_error (mqnic_rx_queue × world)
  | 0, queue, w => Except.ok (queue, w)
  | left + 1, queue, w =>
    match mqnic_prepare_rx_desc data_off queue w (queue.rxq_head_ptr &&& queue.size_mask) with
    | Except.error e => Except.error e
    | Except.ok r =>
      if r.1 ≠ 0 then Except.ok (r.2.1, r.2.2)
      else fill_loop data_off left
        { r.2.1 with rxq_head_ptr := wrap32 (r.2.1.rxq_head_ptr + 1) } r.2.2

/-- Function `mqnic_fill_rx_buffers` of `mqnic.c`; `num` is an `int`, and the
loop does not run when it is not positive. -/
def mqnic_fill_rx_buffers (data_off : Nat) (queue : mqnic_rx_queue) (w : world) (num : Int) :
    Except fatal_error (mqnic_rx_queue × world) :=
  match fill_loop data_off num.toNat queue w with
  | Except.error e => Except.error e
  | Except.ok r =>
    Except.ok (r.1, set_reg32 r.2 r.1.rxq_addr reg.MQNIC_QUEUE_HEAD_PTR_REG
      (r.1.rxq_head_ptr &&& r.1.hw_ptr_mask))

/-- The value of `fill_loop` (theorem `fill_loop_eq`); it stops at the first
status `-1`. -/
def fill_loop_val (data_off : Nat) : Nat → mqnic_rx_queue → world → mqnic_rx_queue × world
  | 0, queue, w => (queue, w)
  | left + 1, queue, w =>
    let r := mqnic_prepare_rx_desc_val data_off queue w (queue.rxq_head_ptr &&& queue.size_mask)
    if r.1 ≠ 0 then (r.2.1, r.2.2)
    else fill_loop_val data_off left
      { r.2.1 with rxq_head_ptr := wrap32 (r.2.1.rxq_head_ptr + 1) } r.2.2

/-- The value of `mqnic_fill_rx_buffers` (theorem `mqnic_fill_rx_buffers_eq`). -/
def mqnic_fill_rx_buffers_val (data_off : Nat) (queue : mqnic_rx_queue) (w : world) (num : Int) :
    mqnic_rx_queue × world :=
  let r := fill_loop_val data_off num.toNat queue w
  (r.1, set_reg32 r.2 r.1.rxq_addr reg.MQNIC_QUEUE_HEAD_PTR_REG
    (r.1.rxq_head_ptr &&& r.1.hw_ptr_mask))

/-- The RX ring slot the `j`-th post counted from `rxq_head_ptr` goes to. -/
def rx_post_slot (queue : mqnic_rx_queue) (j : Nat) : Nat :=
  wrap32 (queue.rxq_head_ptr + j) &&& queue.size_mask

/-- The trace events of `p` consecutive posts starting at `rxq_head_ptr`. -/
def rx_post_events (queue : mqnic_rx_queue) (p : Nat) : List event :=
  (List.range p).map (fun j => event.rx_desc_write (rx_post_slot queue j))

/-- An RX queue as `init_rx` leaves it, with the pool 7 attached: the ring is
empty, so a refill misses 256 buffers. -/
def empty_rx_queue : mqnic_rx_queue :=
  { (init_rx_queue 4096 8192) with mempool := 7 }

/-! ## The TX reap step by step, and a NIC that completes in posting order -/

/-- The state the reap loop of `mqnic_process_tx_cq` starts in. -/
def tx_reap_start (queue : mqnic_tx_queue) (w : world) : tx_cq_state :=
  { queue := queue
    w := w
    cq_tail_ptr := queue.cpl_tail_ptr
    cq_index := queue.cpl_tail_ptr &&& queue.size_mask
    done := 0
    if_next := decide ((queue.cpl_descriptors (queue.cpl_tail_ptr &&& queue.size_mask)).len ≠ 0) }

/-- The TX ring slot named by the `j`-th completion record counted from
`cpl_tail_ptr`, that is `cpl.index & size_mask`. -/
def tx_cpl_index_slot (queue : mqnic_tx_queue) (j : Nat) : Nat :=
  (queue.cpl_descriptors (tx_cpl_slot queue j)).index &&& queue.size_mask

/-- The pending completions of a TX system name the descriptors in posting
order: the `j`-th pending record names the slot `(txq_tail_ptr + j) & size_mask`. -/
def tx_in_order (st : tx_system) : Prop :=
  ∀ j, j < sub32 st.nic_head st.queue.cpl_tail_ptr →
    tx_cpl_index_slot st.queue j = wrap32 (st.queue.txq_tail_ptr + j) &&& st.queue.size_mask

/-- The states of a TX queue reachable from bring-up when the NIC reports
completions in posting order: the driver step is a call of `mqnic_tx_batch`
that returns, on an arbitrary process state and with arbitrary buffers; the NIC
step publishes a completion with `len != 0` for the oldest descriptor that is
outstanding and has no completion pending. -/
inductive tx_reachable_in_order (data_off : Nat) : tx_system → Prop
  | bringup (txq_addr cpl_addr : Nat) :
    tx_reachable_in_order data_off { queue := init_tx_queue txq_addr cpl_addr, nic_head := 0 }
  | tx_batch (st : tx_system) (w : world) (bufs : Nat → Nat) (num_bufs : Nat)
      (r : Nat × mqnic_tx_queue × world) :
    tx_reachable_in_order data_off st →
    mqnic_tx_batch data_off st.queue w bufs num_bufs = some r →
    tx_reachable_in_order data_off { queue := r.2.1, nic_head := st.nic_head }
  | nic (st : tx_system) (cpl : mqnic_cpl) :
    tx_reachable_in_order data_off st →
    cpl.len ≠ 0 →
    sub32 st.nic_head st.queue.cpl_tail_ptr
      < sub32 st.queue.txq_head_ptr st.queue.txq_tail_ptr →
    cpl.index &&& st.queue.size_mask
      = wrap32 (st.queue.txq_tail_ptr + sub32 st.nic_head st.queue.cpl_tail_ptr)
          &&& st.queue.size_mask →
    tx_reachable_in_order data_off (nic_tx_complete st cpl)

/-- The sample TX ring with one completion pending, for the oldest posted
descriptor (slot 0). -/
def in_order_tx_queue : mqnic_tx_queue :=
  { sample_tx_queue with
    cpl_descriptors := fun i =>
      if i = 0 then { cpl_zero with index := 0, len := 64 } else cpl_zero }

/-- The sample TX ring with one completion pending that names slot 5 while the
descriptors of the slots 0 to 4 are still outstanding. -/
def desync_tx_queue : mqnic_tx_queue :=
  { sample_tx_queue with
    cpl_descriptors := fun i =>
      if i = 0 then { cpl_zero with index := 5, len := 64 } else cpl_zero }

/-- What the completion reap returns on `in_order_tx_queue`: one completion is
reaped, the buffer of slot 0 is freed and the slot nulled, the record is
cleared, the three tails are 1, and the CQ tail register has been written. -/
def in_order_tx_reaped : Nat × mqnic_tx_queue × world :=
  (1,
   { in_order_tx_queue with
     cpl_tail_ptr := 1
     txq_tail_ptr := 1
     txq_clean_tail_ptr := 1
     txq_virtual_addresses := upd in_order_tx_queue.txq_virtual_addresses 0 0
     cpl_descriptors :=
       upd in_order_tx_queue.cpl_descriptors 0
         { (in_order_tx_queue.cpl_descriptors 0) with len := 0 } },
   set_reg32 (pkt_buf_free sample_world 1000) 16384 reg.MQNIC_CPL_QUEUE_TAIL_PTR_REG 1)

/-- The TX queue after bring-up, one `mqnic_tx_batch` call that posted three
buffers, and the NIC completing the first of them. -/
def tx_completed_state : tx_system :=
  nic_tx_complete tx_posted_state { cpl_zero with index := 0, len := 64 }

/-! ## Initialisation and queue activation -/

/-- The registers `mqnic_init` reads through `get_reg32`; the offsets are
constants of `mqnic_type.h`, which is not among the sources. -/
inductive init_reg where
  | MQNIC_REG_FW_ID
  | MQNIC_REG_FW_VER
  | MQNIC_REG_BOARD_ID
  | MQNIC_REG_BOARD_VER
  | MQNIC_REG_IF_CSR_OFFSET
  | MQNIC_IF_REG_RX_QUEUE_OFFSET
  | MQNIC_IF_REG_RX_CPL_QUEUE_OFFSET
  | MQNIC_IF_REG_TX_QUEUE_OFFSET
  | MQNIC_IF_REG_TX_CPL_QUEUE_OFFSET
  | MQNIC_IF_REG_PORT_OFFSET
  | MQNIC_IF_REG_EVENT_QUEUE_COUNT
  | MQNIC_IF_REG_RX_QUEUE_COUNT
  | MQNIC_IF_REG_TX_QUEUE_COUNT
  deriving DecidableEq, Repr

/-- What `mqnic_init` does besides computing, in program order. -/
inductive init_event where
  /-- A call of the logging macro `warn`. -/
  | warn
  /-- The call `malloc(sizeof(struct mqnic_device))`. -/
  | malloc_device
  /-- The call `strdup(pci_addr)`. -/
  | strdup
  /-- The call `vfio_init(pci_addr)`. -/
  | vfio_init
  /-- The call `vfio_map_region` or `pci_map_resource` that maps BAR0. -/
  | map_bar0
  /-- A call `get_reg32(base, offset)` on the mapped device. -/
  | get_reg32 (offset : init_reg)
  /-- The call `calloc(rx_queues, sizeof(struct mqnic_rx_queue))`. -/
  | calloc_rx_queues (count : Nat)
  /-- The call `calloc(tx_queues, sizeof(struct mqnic_tx_queue))`. -/
  | calloc_tx_queues (count : Nat)
  /-- The call `mqnic_reset_and_init(dev)`, which allocates the rings and
  programs the queue registers. -/
  | mqnic_reset_and_init
  deriving DecidableEq, Repr

/-- Whether an event reads or writes a device register or allocates memory. -/
def touches_device_or_heap (e : init_event) : Bool :=
  match e with
  | init_event.warn => false
  | _ => true

/-- What the environment answers to `mqnic_init`: the user id, whether the
device is in an IOMMU group (`stat` succeeds), the descriptor `vfio_init`
returns, the address BAR0 is mapped at, and the values the registers read. -/
structure init_env where
  uid : Nat
  vfio : Bool
  vfio_fd : Int
  bar0 : Nat
  regs : init_reg → Nat

/-- An RX queue record as `calloc` returns it. -/
def zero_rx_queue : mqnic_rx_queue :=
  { rxq_addr := 0, cpl_addr := 0, size := 0, full_size := 0, size_mask := 0, hw_ptr_mask := 0
    accumulated_cq_updates := 0, rxq_head_ptr := 0, rxq_tail_ptr := 0, rxq_clean_tail_ptr := 0
    cpl_head_ptr := 0, cpl_tail_ptr := 0, cpl_clean_tail_ptr := 0
    rxq_descriptors := fun _ => ⟨0, 0, 0⟩, cpl_descriptors := fun _ => cpl_zero
    mempool := 0, rxq_virtual_addresses := fun _ => 0 }

/-- A TX queue record as `calloc` returns it. -/
def zero_tx_queue : mqnic_tx_queue :=
  { txq_addr := 0, cpl_addr := 0, size := 0, stride := 0, full_size := 0, size_mask := 0
    hw_ptr_mask := 0, desc_block_size := 0, log_desc_block_size := 0
    txq_head_ptr := 0, txq_tail_ptr := 0, txq_clean_tail_ptr := 0
    cpl_head_ptr := 0, cpl_tail_ptr := 0, cpl_clean_tail_ptr := 0
    txq_descriptors := fun _ => ⟨0, 0, 0⟩, cpl_descriptors := fun _ => cpl_zero
    txq_virtual_addresses := fun _ => 0 }

/-- The fourteen `get_reg32` calls of `mqnic_init`, in program order; the
register `MQNIC_REG_IF_CSR_OFFSET` is read a second time for the `info` line. -/
def init_reg_reads : List init_event :=
  [init_event.get_reg32 init_reg.MQNIC_REG_FW_ID,
   init_event.get_reg32 init_reg.MQNIC_REG_FW_VER,
   init_event.get_reg32 init_reg.MQNIC_REG_BOARD_ID,
   init_event.get_reg32 init_reg.MQNIC_REG_BOARD_VER,
   init_event.get_reg32 init_reg.MQNIC_REG_IF_CSR_OFFSET,
   init_event.get_reg32 init_reg.MQNIC_REG_IF_CSR_OFFSET,
   init_event.get_reg32 init_reg.MQNIC_IF_REG_RX_QUEUE_OFFSET,
   init_event.get_reg32 init_reg.MQNIC_IF_REG_RX_CPL_QUEUE_OFFSET,
   init_event.get_reg32 init_reg.MQNIC_IF_REG_TX_QUEUE_OFFSET,
   init_event.get_reg32 init_reg.MQNIC_IF_REG_TX_CPL_QUEUE_OFFSET,
   init_event.get_reg32 init_reg.MQNIC_IF_REG_PORT_OFFSET,
   init_event.get_reg32 init_reg.MQNIC_IF_REG_EVENT_QUEUE_COUNT,
   init_event.get_reg32 init_reg.MQNIC_IF_REG_RX_QUEUE_COUNT,
   init_event.get_reg32 init_reg.MQNIC_IF_REG_TX_QUEUE_COUNT]

/-- Function `mqnic_init` of `mqnic.c`: the log of what the call did and either
the fatal error or the device it returns.  `MAX_QUEUES` is a constant of
`device.h`, which is not among the sources, and is a parameter.  The callee
`mqnic_reset_and_init` enters as the function `reset_and_init` from the
device record `mqnic_init` has filled in to the record it leaves; its
allocations and register accesses appear in the log as one event.  The fields
of the embedded `struct ixy_device` other than the two queue counts are not
part of `mqnic_device`; of the statements that set them only the `warn` about
interrupts without VFIO leaves a trace. -/
def mqnic_init (MAX_QUEUES : Nat) (env : init_env)
    (reset_and_init : mqnic_device → mqnic_device) (rx_queues tx_queues : Nat)
    (interrupt_timeout : Int) : List init_event × Except fatal_error mqnic_device :=
  let log0 := if env.uid ≠ 0 then [init_event.warn] else []
  if rx_queues > MAX_QUEUES then
    (log0, error (fatal_error.too_many_rx_queues rx_queues MAX_QUEUES))
  else if tx_queues > MAX_QUEUES then
    (log0, error (fatal_error.too_many_tx_queues tx_queues MAX_QUEUES))
  else
    let log1 := log0 ++ [init_event.malloc_device, init_event.strdup]
    if env.vfio = true ∧ env.vfio_fd < 0 then
      (log1 ++ [init_event.vfio_init], error fatal_error.no_iommu)
    else
      let log2 := log1 ++
        (if env.vfio = true then [init_event.vfio_init, init_event.map_bar0]
         else [init_event.warn, init_event.map_bar0])
      let dev : mqnic_device :=
        { num_rx_queues := rx_queues
          num_tx_queues := tx_queues
          fw_id := env.regs init_reg.MQNIC_REG_FW_ID
          fw_ver := env.regs init_reg.MQNIC_REG_FW_VER
          board_id := env.regs init_reg.MQNIC_REG_BOARD_ID
          board_ver := env.regs init_reg.MQNIC_REG_BOARD_VER
          rx_queue_offset := env.regs init_reg.MQNIC_IF_REG_RX_QUEUE_OFFSET
          rx_cpl_queue_offset := env.regs init_reg.MQNIC_IF_REG_RX_CPL_QUEUE_OFFSET
          tx_queue_offset := env.regs init_reg.MQNIC_IF_REG_TX_QUEUE_OFFSET
          tx_cpl_queue_offset := env.regs init_reg.MQNIC_IF_REG_TX_CPL_QUEUE_OFFSET
          port_offset := env.regs init_reg.MQNIC_IF_REG_PORT_OFFSET
          num_event_queues := env.regs init_reg.MQNIC_IF_REG_EVENT_QUEUE_COUNT
          regs_size := 0x1000
          addr := env.bar0
          rx_queues := fun _ => zero_rx_queue
          tx_queues := fun _ => zero_tx_queue }
      let log3 := log2 ++ init_reg_reads ++
        (if env.vfio = false ∧ interrupt_timeout ≠ 0 then [init_event.warn] else [])
      (log3 ++
        [init_event.calloc_rx_queues rx_queues, init_event.calloc_tx_queues tx_queues,
         init_event.mqnic_reset_and_init],
       Except.ok (reset_and_init dev))

/-- An environment for `mqnic_init`: root, no IOMMU group, registers that read 0
except the event-queue count, which reads 1. -/
def sample_env : init_env :=
  { uid := 0
    vfio := false
    vfio_fd := 0
    bar0 := 0
    regs := fun r => if r = init_reg.MQNIC_IF_REG_EVENT_QUEUE_COUNT then 1 else 0 }

/-! # Theorems -/

/-! ## Bit-field arithmetic -/

theorem shl_and_shl_mask (a s n : Nat) :
    (a <<< s) &&& ((2 ^ n - 1) <<< s) = (a % 2 ^ n) <<< s := by
  apply Nat.eq_of_testBit_eq
  intro i
  simp only [Nat.testBit_and, Nat.testBit_shiftLeft, Nat.testBit_two_pow_sub_one,
    Nat.testBit_mod_two_pow]
  by_cases h1 : i ≥ s <;> by_cases h2 : i - s < n <;> simp [h1, h2]

theorem shl_or_of_lt (a i b : Nat) (h : b < 2 ^ i) : (a <<< i) ||| b = a * 2 ^ i + b := by
  rw [Nat.shiftLeft_eq, Nat.mul_comm, Nat.mul_add_lt_is_or h]

theorem app_id_field (a : Nat) : (a <<< 4) &&& 0x00000ff0 = (a % 256) * 16 := by
  have h := shl_and_shl_mask a 4 8
  have e : ((2 : Nat) ^ 8 - 1) <<< 4 = 0x00000ff0 := by decide
  rw [e] at h
  rw [h, Nat.shiftLeft_eq]
  norm_num

theorem priority_field (p : Nat) : (p <<< 12) &&& 0x0000f000 = (p % 16) * 4096 := by
  have h := shl_and_shl_mask p 12 4
  have e : ((2 : Nat) ^ 4 - 1) <<< 12 = 0x0000f000 := by decide
  rw [e] at h
  rw [h, Nat.shiftLeft_eq]
  norm_num

theorem update_count_field (u : Nat) : (u <<< 16) &&& 0xffff0000 = (u % 65536) * 65536 := by
  have h := shl_and_shl_mask u 16 16
  have e : ((2 : Nat) ^ 16 - 1) <<< 16 = 0xffff0000 := by decide
  rw [e] at h
  rw [h, Nat.shiftLeft_eq]
  norm_num

/-- A word assembled from a 4-bit opcode, an 8-bit application id, a 4-bit
priority and a 16-bit upper half equals the sum of the shifted fields. -/
theorem msg_word_eq_add (hi p a op : Nat) (hp : p < 16) (ha : a < 256) (hop : op < 16) :
    hi * 65536 ||| p * 4096 ||| a * 16 ||| op = hi * 65536 + p * 4096 + a * 16 + op := by
  rw [Nat.or_assoc, Nat.or_assoc]
  have h1 : a * 16 ||| op = a * 16 + op := by
    have := shl_or_of_lt a 4 op (by omega)
    rw [Nat.shiftLeft_eq] at this
    simpa using this
  have h2 : p * 4096 ||| (a * 16 + op) = p * 4096 + (a * 16 + op) := by
    have := shl_or_of_lt p 12 (a * 16 + op) (by omega)
    rw [Nat.shiftLeft_eq] at this
    simpa using this
  have h3 : hi * 65536 ||| (p * 4096 + (a * 16 + op)) = hi * 65536 + (p * 4096 + (a * 16 + op)) := by
    have := shl_or_of_lt hi 16 (p * 4096 + (a * 16 + op)) (by omega)
    rw [Nat.shiftLeft_eq] at this
    simpa using this
  rw [h1, h2, h3]
  omega

theorem register_app_word (a p : Nat) :
    ((1 <<< 20) &&& 0x00f00000) ||| ((5 <<< 16) &&& 0x000f0000) ||| ((a <<< 4) &&& 0x00000ff0)
      ||| ((p <<< 12) &&& 0x0000f000) ||| (3 &&& 0x0000000f)
      = 21 * 65536 + (p % 16) * 4096 + (a % 256) * 16 + 3 := by
  rw [app_id_field, priority_field]
  have e1 : ((1 <<< 20) &&& 0x00f00000) ||| ((5 <<< 16) &&& 0x000f0000) = 21 * 65536 := by decide
  have e2 : (3 &&& 0x0000000f) = 3 := by decide
  rw [e1, e2, Nat.or_assoc (21 * 65536), Nat.or_comm (a % 256 * 16), ← Nat.or_assoc (21 * 65536)]
  exact msg_word_eq_add 21 (p % 16) (a % 256) 3 (Nat.mod_lt _ (by decide))
    (Nat.mod_lt _ (by decide)) (by decide)

theorem register_app_word_plain (a p : Nat) (ha : a < 256) (hp : p < 16) :
    (1 <<< 20) ||| (5 <<< 16) ||| (p <<< 12) ||| (a <<< 4) ||| 3
      = 21 * 65536 + p * 4096 + a * 16 + 3 := by
  have e1 : ((1 : Nat) <<< 20) ||| (5 <<< 16) = 21 * 65536 := by decide
  rw [e1, Nat.shiftLeft_eq, Nat.shiftLeft_eq]
  exact msg_word_eq_add 21 p a 3 hp ha (by decide)

/-- C8: for every `queue_id`, `app_id < 256` and `priority < 16`, `register_app`
performs exactly one register write and changes nothing else: it writes the word
`(1<<20) | (5<<16) | (priority<<12) | (app_id<<4) | 3` to the CPU-message
register of RX queue `queue_id`.  The word has opcode 3 in bits 3:0, `app_id` in
bits 11:4, `priority` in bits 15:12, sub-op 5 in bits 19:16, class 1 in bits
23:20 and nothing above; larger arguments act as `app_id mod 256` and
`priority mod 16`. -/
theorem register_app_writes_one_word (dev : mqnic_device) (w : world)
    (queue_id app_id priority : Nat) (ha : app_id < 256) (hp : priority < 16) :
    register_app dev w queue_id app_id priority =
        { w with
          trace := w.trace ++
            [event.set_reg32 (dev.rx_queues queue_id).cpl_addr reg.MQNIC_CPL_QUEUE_CPU_MSG_REG
              ((1 <<< 20) ||| (5 <<< 16) ||| (priority <<< 12) ||| (app_id <<< 4) ||| 3)] } ∧
      (let v := (1 <<< 20) ||| (5 <<< 16) ||| (priority <<< 12) ||| (app_id <<< 4) ||| 3
       v &&& 0xf = 3 ∧ (v >>> 4) &&& 0xff = app_id ∧ (v >>> 12) &&& 0xf = priority ∧
         (v >>> 16) &&& 0xf = 5 ∧ (v >>> 20) &&& 0xf = 1 ∧ v >>> 24 = 0) ∧
      (∀ a p : Nat,
        register_app dev w queue_id a p = register_app dev w queue_id (a % 256) (p % 16)) := by
  have hv := register_app_word_plain app_id priority ha hp
  refine ⟨?_, ?_, ?_⟩
  · simp only [register_app, set_reg32, register_app_word, hv, wrap32,
      Nat.mod_eq_of_lt ha, Nat.mod_eq_of_lt hp]
    have : (21 * 65536 + priority * 4096 + app_id * 16 + 3) % 4294967296
        = 21 * 65536 + priority * 4096 + app_id * 16 + 3 := by omega
    rw [this]
  · intro v
    have e4 : (0xf : Nat) = 2 ^ 4 - 1 := by decide
    have e8 : (0xff : Nat) = 2 ^ 8 - 1 := by decide
    simp only [v, hv, e4, e8, Nat.and_pow_two_sub_one_eq_mod, Nat.shiftRight_eq_div_pow]
    refine ⟨by omega, by omega, by omega, by omega, by omega, by omega⟩
  · intro a p
    simp only [register_app, register_app_word, Nat.mod_mod]

/-- Witness for C8: `register_app(q=2, app=5, prio=3)` writes
`(1<<20)|(5<<16)|(5<<4)|(3<<12)|3` to the mailbox of queue 2. -/
theorem register_app_writes_one_word_witness :
    (5 : Nat) < 256 ∧ (3 : Nat) < 16 ∧
      register_app sample_dev sample_world 2 5 3 =
        { sample_world with
          trace := sample_world.trace ++
            [event.set_reg32 (sample_dev.rx_queues 2).cpl_addr reg.MQNIC_CPL_QUEUE_CPU_MSG_REG
              ((1 <<< 20) ||| (5 <<< 16) ||| (5 <<< 4) ||| (3 <<< 12) ||| 3)] } :=
  ⟨by decide, by decide,
    (register_app_writes_one_word sample_dev sample_world 2 5 3 (by decide) (by decide)).1⟩

theorem feedback_word (a u : Nat) :
    ((u <<< 16) &&& 0xffff0000) ||| ((a <<< 4) &&& 0x00000ff0) ||| (5 &&& 0x0000000f)
      = (u % 65536) * 65536 + (a % 256) * 16 + 5 := by
  rw [app_id_field, update_count_field]
  have e2 : (5 &&& 0x0000000f) = 5 := by decide
  rw [e2]
  have h := msg_word_eq_add (u % 65536) 0 (a % 256) 5 (by decide)
    (Nat.mod_lt _ (by decide)) (by decide)
  simpa using h

theorem feedback_word_plain (a u : Nat) :
    (u <<< 16) ||| ((a &&& 0xff) <<< 4) ||| 5 = u * 65536 + (a % 256) * 16 + 5 := by
  have e8 : (0xff : Nat) = 2 ^ 8 - 1 := by decide
  rw [e8, Nat.and_pow_two_sub_one_eq_mod, Nat.shiftLeft_eq, Nat.shiftLeft_eq]
  have h := msg_word_eq_add u 0 (a % 2 ^ 8) 5 (by decide) (Nat.mod_lt _ (by decide)) (by decide)
  simpa using h

/-- C9: for every `queue_id`, `app_id` and 16-bit `update_count` (zero
included), `mqnic_rx_feedback` performs exactly one register write and changes
nothing else: it writes the word
`(update_count << 16) | ((app_id & 0xff) << 4) | 5`, which is below `2^32`, to
the CPU-message register of RX queue `queue_id`.  The word has opcode 5 in bits
3:0, `app_id & 0xff` in bits 11:4, zero in bits 15:12 and the whole
`update_count` in bits 31:16. -/
theorem rx_feedback_writes_one_word (dev : mqnic_device) (w : world)
    (queue_id app_id update_count : Nat) (hu : update_count < 65536) :
    mqnic_rx_feedback dev w queue_id app_id update_count =
        { w with
          trace := w.trace ++
            [event.set_reg32 (dev.rx_queues queue_id).cpl_addr reg.MQNIC_CPL_QUEUE_CPU_MSG_REG
              (((update_count <<< 16) ||| ((app_id &&& 0xff) <<< 4) ||| 5) % 2 ^ 32)] } ∧
      (let v := ((update_count <<< 16) ||| ((app_id &&& 0xff) <<< 4) ||| 5) % 2 ^ 32
       v = (update_count <<< 16) ||| ((app_id &&& 0xff) <<< 4) ||| 5 ∧
         v &&& 0xf = 5 ∧ (v >>> 4) &&& 0xff = app_id &&& 0xff ∧ (v >>> 12) &&& 0xf = 0 ∧
         v >>> 16 = update_count) := by
  have hv := feedback_word_plain app_id update_count
  have hlt : update_count * 65536 + (app_id % 256) * 16 + 5 < 2 ^ 32 := by omega
  refine ⟨?_, ?_⟩
  · simp only [mqnic_rx_feedback, set_reg32, feedback_word, hv, wrap32,
      Nat.mod_eq_of_lt hu, Nat.mod_eq_of_lt hlt]
    have : (update_count * 65536 + (app_id % 256) * 16 + 5) % 4294967296
        = update_count * 65536 + (app_id % 256) * 16 + 5 := by omega
    rw [this]
  · intro v
    have e4 : (0xf : Nat) = 2 ^ 4 - 1 := by decide
    have e8 : (0xff : Nat) = 2 ^ 8 - 1 := by decide
    simp only [v]
    rw [hv, Nat.mod_eq_of_lt hlt]
    simp only [e4, e8, Nat.and_pow_two_sub_one_eq_mod, Nat.shiftRight_eq_div_pow]
    refine ⟨trivial, by omega, by omega, by omega, by omega⟩

/-- Witness for C9: `rx_feedback(q=2, app=5, count=7)` writes `(7<<16)|(5<<4)|5`
to the mailbox of queue 2. -/
theorem rx_feedback_writes_one_word_witness :
    (7 : Nat) < 65536 ∧
      mqnic_rx_feedback sample_dev sample_world 2 5 7 =
        { sample_world with
          trace := sample_world.trace ++
            [event.set_reg32 (sample_dev.rx_queues 2).cpl_addr reg.MQNIC_CPL_QUEUE_CPU_MSG_REG
              ((7 <<< 16) ||| (5 <<< 4) ||| 5)] } :=
  ⟨by decide, (rx_feedback_writes_one_word sample_dev sample_world 2 5 7 (by decide)).1⟩

theorem rearm_word (a op : Nat) (hop : op < 16) :
    ((a <<< 4) &&& 0x00000ff0) ||| (op &&& 0x0000000f) = ((a &&& 0xff) <<< 4) ||| op := by
  have h1 : op &&& 0x0000000f = op := by
    have e4 : (0x0000000f : Nat) = 2 ^ 4 - 1 := by decide
    rw [e4, Nat.and_pow_two_sub_one_eq_mod]
    exact Nat.mod_eq_of_lt (by simpa using hop)
  have h2 : a &&& 0xff = a % 256 := by
    have e8 : (0xff : Nat) = 2 ^ 8 - 1 := by decide
    rw [e8, Nat.and_pow_two_sub_one_eq_mod]
  rw [app_id_field, h1, h2, Nat.shiftLeft_eq]

theorem rearm_word_lt (a op : Nat) (hop : op < 16) :
    wrap32 (((a &&& 0xff) <<< 4) ||| op) = ((a &&& 0xff) <<< 4) ||| op := by
  have e8 : (0xff : Nat) = 2 ^ 8 - 1 := by decide
  have h := shl_or_of_lt (a &&& 0xff) 4 op (by simpa using hop)
  rw [e8, Nat.and_pow_two_sub_one_eq_mod] at h ⊢
  rw [h, wrap32]
  have : a % 2 ^ 8 < 256 := Nat.mod_lt _ (by decide)
  omega

/-- C10: for every `queue_id` and `app_id`, `mqnic_rearm_monitor` writes to the
CPU-message register of RX queue `queue_id` the word `((app_id & 0xff) << 4) | 6`
and then the word `((app_id & 0xff) << 4) | 7`, and does nothing else;
`mqnic_rearm_scale_down_monitor` writes the second of these words alone; for
`app_id = 4` the two words are `(4<<4)|6` and `(4<<4)|7`. -/
theorem rearm_monitor_writes_two_words (dev : mqnic_device) (w : world)
    (queue_id app_id : Nat) :
    mqnic_rearm_monitor dev w queue_id app_id =
        { w with
          trace := w.trace ++
            [event.set_reg32 (dev.rx_queues queue_id).cpl_addr reg.MQNIC_CPL_QUEUE_CPU_MSG_REG
                (((app_id &&& 0xff) <<< 4) ||| 6),
              event.set_reg32 (dev.rx_queues queue_id).cpl_addr reg.MQNIC_CPL_QUEUE_CPU_MSG_REG
                (((app_id &&& 0xff) <<< 4) ||| 7)] } ∧
      mqnic_rearm_scale_down_monitor dev w queue_id app_id =
        { w with
          trace := w.trace ++
            [event.set_reg32 (dev.rx_queues queue_id).cpl_addr reg.MQNIC_CPL_QUEUE_CPU_MSG_REG
                (((app_id &&& 0xff) <<< 4) ||| 7)] } ∧
      (mqnic_rearm_monitor dev w queue_id 4).trace =
        w.trace ++
          [event.set_reg32 (dev.rx_queues queue_id).cpl_addr reg.MQNIC_CPL_QUEUE_CPU_MSG_REG
              ((4 <<< 4) ||| 6),
            event.set_reg32 (dev.rx_queues queue_id).cpl_addr reg.MQNIC_CPL_QUEUE_CPU_MSG_REG
              ((4 <<< 4) ||| 7)] := by
  have h6 := rearm_word app_id 6 (by decide)
  have h7 := rearm_word app_id 7 (by decide)
  have l6 := rearm_word_lt app_id 6 (by decide)
  have l7 := rearm_word_lt app_id 7 (by decide)
  have g6 := rearm_word 4 6 (by decide)
  have g7 := rearm_word 4 7 (by decide)
  refine ⟨?_, ?_, ?_⟩
  · simp only [mqnic_rearm_monitor, set_reg32, h6, h7, l6, l7, List.append_assoc,
      List.singleton_append]
  · simp only [mqnic_rearm_scale_down_monitor, set_reg32, h7, l7]
  · simp only [mqnic_rearm_monitor, set_reg32, List.append_assoc, List.singleton_append]
    rfl

/-! ## The RX functions that post buffers, and the values they return -/

theorem pool_supply_nil (w : world) (pool : Nat) (h : (w.mempools pool).free_stack = []) :
    pool_supply w pool = 0 := by
  simp [pool_supply, h]

theorem pool_supply_null (w : world) (pool : Nat) (rest : List Nat)
    (h : (w.mempools pool).free_stack = 0 :: rest) : pool_supply w pool = 0 := by
  simp [pool_supply, h]

theorem pool_supply_cons (w : world) (pool b : Nat) (rest : List Nat)
    (hfs : (w.mempools pool).free_stack = b :: rest) (hb : b ≠ 0) (tr : List event) :
    pool_supply w pool =
      pool_supply
        { w with
          mempools := upd w.mempools pool { (w.mempools pool) with free_stack := rest }
          trace := tr } pool + 1 := by
  simp [pool_supply, hfs, hb, upd]

/-- The pool is empty for `pkt_buf_alloc` exactly when it supplies nothing. -/
theorem pkt_buf_alloc_null_iff (w : world) (pool : Nat) :
    (pkt_buf_alloc w pool).1 = 0 ↔ pool_supply w pool = 0 := by
  unfold pkt_buf_alloc pool_supply
  cases hfs : (w.mempools pool).free_stack with
  | nil => simp
  | cons b rest =>
    by_cases hb : b = 0
    · simp [hb]
    · simp [hb]

/-- `mqnic_prepare_rx_desc` raises the fatal error on an empty pool and returns
the value `mqnic_prepare_rx_desc_val` otherwise. -/
theorem mqnic_prepare_rx_desc_eq (data_off : Nat) (queue : mqnic_rx_queue) (w : world)
    (index : Nat) :
    mqnic_prepare_rx_desc data_off queue w index =
      if pool_supply w queue.mempool = 0 then Except.error fatal_error.rx_alloc_failed
      else Except.ok (mqnic_prepare_rx_desc_val data_off queue w index) := by
  have h := pkt_buf_alloc_null_iff w queue.mempool
  unfold mqnic_prepare_rx_desc mqnic_prepare_rx_desc_val error
  by_cases h0 : (pkt_buf_alloc w queue.mempool).1 = 0
  · simp only [if_pos h0, if_pos (h.1 h0)]
  · simp only [if_neg h0, if_neg (fun hh => h0 (h.2 hh))]

/-- The status of `mqnic_prepare_rx_desc_val` is `0` exactly when the pool is
not empty; the pool then supplies one buffer less, to the same queue. -/
theorem mqnic_prepare_rx_desc_val_status (data_off : Nat) (queue : mqnic_rx_queue) (w : world)
    (index : Nat) :
    ((mqnic_prepare_rx_desc_val data_off queue w index).1 ≠ 0
        ↔ pool_supply w queue.mempool = 0) ∧
      (mqnic_prepare_rx_desc_val data_off queue w index).2.1.mempool = queue.mempool ∧
      (pool_supply w queue.mempool ≠ 0 →
        pool_supply (mqnic_prepare_rx_desc_val data_off queue w index).2.2 queue.mempool + 1
          = pool_supply w queue.mempool) := by
  unfold mqnic_prepare_rx_desc_val pkt_buf_alloc pool_supply
  cases hfs : (w.mempools queue.mempool).free_stack with
  | nil => simp
  | cons b rest =>
    by_cases hb : b = 0
    · simp [hb]
    · simp [hb, upd]

/-- `refill_loop` returns the value `refill_loop_val` when the pool supplies
`missing` buffers, and raises the fatal error otherwise. -/
theorem refill_loop_eq (data_off : Nat) :
    ∀ (missing : Nat) (queue : mqnic_rx_queue) (w : world),
      refill_loop data_off missing queue w =
        if missing ≤ pool_supply w queue.mempool then
          Except.ok (refill_loop_val data_off missing queue w)
        else Except.error fatal_error.rx_alloc_failed := by
  intro missing
  induction missing with
  | zero => intro queue w; simp [refill_loop, refill_loop_val]
  | succ n ih =>
    intro queue w
    obtain ⟨s1, s2, s3⟩ :=
      mqnic_prepare_rx_desc_val_status data_off queue w (queue.rxq_head_ptr &&& queue.size_mask)
    unfold refill_loop refill_loop_val
    rw [mqnic_prepare_rx_desc_eq]
    by_cases h0 : pool_supply w queue.mempool = 0
    · rw [if_pos h0, if_neg (by omega)]
    · have hst : ¬ (mqnic_prepare_rx_desc_val data_off queue w
          (queue.rxq_head_ptr &&& queue.size_mask)).1 ≠ 0 := fun hh => h0 (s1.1 hh)
      rw [if_neg h0]
      simp only [if_neg hst]
      rw [ih]
      have hs := s3 h0
      simp only [s2]
      by_cases hle : n + 1 ≤ pool_supply w queue.mempool
      · rw [if_pos hle, if_pos (by omega)]
      · rw [if_neg hle, if_neg (by omega)]

/-- `mqnic_refill_rx_buffers` returns the value `mqnic_refill_rx_buffers_val`
when the pool holds what the call asks of it, and raises the fatal error
otherwise. -/
theorem mqnic_refill_rx_buffers_eq (data_off : Nat) (queue : mqnic_rx_queue) (w : world) :
    mqnic_refill_rx_buffers data_off queue w =
      if refill_supplied queue w then Except.ok (mqnic_refill_rx_buffers_val data_off queue w)
      else Except.error fatal_error.rx_alloc_failed := by
  unfold mqnic_refill_rx_buffers mqnic_refill_rx_buffers_val refill_supplied
  simp only [refill_loop_eq]
  by_cases h8 : sub32 queue.size (sub32 queue.rxq_head_ptr queue.rxq_clean_tail_ptr) < 8
  · simp only [if_pos h8, if_pos (Or.inl h8)]
  · simp only [if_neg h8]
    by_cases hle : sub32 queue.size (sub32 queue.rxq_head_ptr queue.rxq_clean_tail_ptr)
        ≤ pool_supply w queue.mempool
    · simp only [if_pos hle, if_pos (Or.inr hle)]
    · simp only [if_neg hle, if_neg (not_or.2 ⟨h8, hle⟩)]

/-- `mqnic_rx_batch_hints` returns the value `mqnic_rx_batch_hints_val` when the
pool holds what its refill asks, and raises the fatal error otherwise. -/
theorem mqnic_rx_batch_hints_eq (data_off : Nat) (queue : mqnic_rx_queue) (w : world)
    (bufs : Nat → Nat) (num_bufs if_hint : Nat) (hints : Nat → nic_hints) (hint_count : Nat) :
    mqnic_rx_batch_hints data_off queue w bufs num_bufs if_hint hints hint_count =
      if refill_supplied queue w then
        Except.ok (mqnic_rx_batch_hints_val data_off queue w bufs num_bufs if_hint hints
          hint_count)
      else Except.error fatal_error.rx_alloc_failed := by
  unfold mqnic_rx_batch_hints mqnic_rx_batch_hints_val
  rw [mqnic_refill_rx_buffers_eq]
  by_cases h : refill_supplied queue w
  · simp only [if_pos h]
  · simp only [if_neg h]

theorem mqnic_rx_batch_eq (data_off : Nat) (queue : mqnic_rx_queue) (w : world)
    (bufs : Nat → Nat) (num_bufs : Nat) :
    mqnic_rx_batch data_off queue w bufs num_bufs =
      if refill_supplied queue w then
        Except.ok (mqnic_rx_batch_val data_off queue w bufs num_bufs)
      else Except.error fatal_error.rx_alloc_failed :=
  mqnic_rx_batch_hints_eq data_off queue w bufs num_bufs 0 _ 0

theorem mqnic_rx_batch_hints_exact_eq (data_off : Nat) (queue : mqnic_rx_queue) (w : world)
    (bufs : Nat → Nat) (num_bufs if_hint : Nat) (hints : Nat → nic_hints) (hint_count : Nat)
    (nic_head_ptr nic_tail_ptr : Nat) :
    mqnic_rx_batch_hints_exact data_off queue w bufs num_bufs if_hint hints hint_count
        nic_head_ptr nic_tail_ptr =
      if refill_supplied queue w then
        Except.ok (mqnic_rx_batch_hints_exact_val data_off queue w bufs num_bufs if_hint hints
          hint_count nic_head_ptr nic_tail_ptr)
      else Except.error fatal_error.rx_alloc_failed := by
  unfold mqnic_rx_batch_hints_exact mqnic_rx_batch_hints_exact_val
  rw [mqnic_refill_rx_buffers_eq]
  by_cases h : refill_supplied queue w
  · simp only [if_pos h]
  · simp only [if_neg h]

/-- `start_rxq_cpl_queue` on the record `init_rx` leaves: the size test passes,
and the call returns the value `rx_bringup` on the process state after the
activation writes when the pool supplies the ring, and raises the fatal error
otherwise. -/
theorem start_rxq_cpl_queue_eq (data_off : Nat) (c : hw_constants) (dev : mqnic_device)
    (w : world) (queue_id pool nic_tail_ptr rxq_addr cpl_addr : Nat)
    (hq : dev.rx_queues queue_id = init_rx_queue rxq_addr cpl_addr) :
    start_rxq_cpl_queue data_off c dev w queue_id pool nic_tail_ptr =
      if refill_supplied { (init_rx_queue rxq_addr cpl_addr) with mempool := pool }
          (rx_activation c dev w queue_id) then
        Except.ok (rx_bringup data_off rxq_addr cpl_addr pool (rx_activation c dev w queue_id)
          nic_tail_ptr)
      else Except.error fatal_error.rx_alloc_failed := by
  have hsize : (dev.rx_queues queue_id).size &&& sub32 (dev.rx_queues queue_id).size 1 = 0 := by
    rw [hq]
    show round_power NUM_RX_QUEUE_ENTRIES &&& sub32 (round_power NUM_RX_QUEUE_ENTRIES) 1 = 0
    decide
  unfold start_rxq_cpl_queue rx_bringup rx_activation
  simp only [hsize, ne_eq, not_true_eq_false, if_false]
  rw [mqnic_refill_rx_buffers_eq, ← hq]
  generalize ({ (dev.rx_queues queue_id) with mempool := pool } : mqnic_rx_queue) = q1
  generalize set_reg32 _ (dev.rx_queues queue_id).rxq_addr reg.MQNIC_QUEUE_ACTIVE_LOG_SIZE_REG _
    = w4
  by_cases h : refill_supplied q1 w4
  · simp only [if_pos h]
  · simp only [if_neg h]

theorem fill_loop_eq (data_off : Nat) :
    ∀ (left : Nat) (queue : mqnic_rx_queue) (w : world),
      fill_loop data_off left queue w =
        if left ≤ pool_supply w queue.mempool then
          Except.ok (fill_loop_val data_off left queue w)
        else Except.error fatal_error.rx_alloc_failed := by
  intro left
  induction left with
  | zero => intro queue w; simp [fill_loop, fill_loop_val]
  | succ n ih =>
    intro queue w
    obtain ⟨s1, s2, s3⟩ :=
      mqnic_prepare_rx_desc_val_status data_off queue w (queue.rxq_head_ptr &&& queue.size_mask)
    unfold fill_loop fill_loop_val
    rw [mqnic_prepare_rx_desc_eq]
    by_cases h0 : pool_supply w queue.mempool = 0
    · rw [if_pos h0, if_neg (by omega)]
    · have hst : ¬ (mqnic_prepare_rx_desc_val data_off queue w
          (queue.rxq_head_ptr &&& queue.size_mask)).1 ≠ 0 := fun hh => h0 (s1.1 hh)
      rw [if_neg h0]
      simp only [if_neg hst]
      rw [ih]
      have hs := s3 h0
      simp only [s2]
      by_cases hle : n + 1 ≤ pool_supply w queue.mempool
      · rw [if_pos hle, if_pos (by omega)]
      · rw [if_neg hle, if_neg (by omega)]

theorem mqnic_fill_rx_buffers_eq (data_off : Nat) (queue : mqnic_rx_queue) (w : world)
    (num : Int) :
    mqnic_fill_rx_buffers data_off queue w num =
      if num.toNat ≤ pool_supply w queue.mempool then
        Except.ok (mqnic_fill_rx_buffers_val data_off queue w num)
      else Except.error fatal_error.rx_alloc_failed := by
  unfold mqnic_fill_rx_buffers mqnic_fill_rx_buffers_val
  rw [fill_loop_eq]
  by_cases h : num.toNat ≤ pool_supply w queue.mempool
  · simp only [if_pos h]
  · simp only [if_neg h]

/-- What a returning call tells: the condition holds and the result is the
value. -/
theorem ok_of_ite_eq_ok {α : Type} {c : Prop} [Decidable c] {a r : α} {e : fatal_error}
    (h : (if c then Except.ok a else Except.error e) = Except.ok r) : c ∧ r = a := by
  by_cases hc : c
  · rw [if_pos hc] at h
    exact ⟨hc, (Except.ok.inj h).symm⟩
  · rw [if_neg hc] at h
    cases h

/-- A returning call of `mqnic_refill_rx_buffers` returns the value. -/
theorem mqnic_refill_rx_buffers_ok {data_off : Nat} {queue : mqnic_rx_queue} {w : world}
    {r : mqnic_rx_queue × world}
    (hr : mqnic_refill_rx_buffers data_off queue w = Except.ok r) :
    r = mqnic_refill_rx_buffers_val data_off queue w :=
  (ok_of_ite_eq_ok ((mqnic_refill_rx_buffers_eq data_off queue w).symm.trans hr)).2

/-- A returning call of `mqnic_rx_batch_hints` returns the value. -/
theorem mqnic_rx_batch_hints_ok {data_off : Nat} {queue : mqnic_rx_queue} {w : world}
    {bufs : Nat → Nat} {num_bufs if_hint : Nat} {hints : Nat → nic_hints} {hint_count : Nat}
    {r : rx_batch_result}
    (hr : mqnic_rx_batch_hints data_off queue w bufs num_bufs if_hint hints hint_count
      = Except.ok r) :
    r = mqnic_rx_batch_hints_val data_off queue w bufs num_bufs if_hint hints hint_count :=
  (ok_of_ite_eq_ok
    ((mqnic_rx_batch_hints_eq data_off queue w bufs num_bufs if_hint hints hint_count).symm.trans
      hr)).2

/-- A returning call of `mqnic_rx_batch` returns the value. -/
theorem mqnic_rx_batch_ok {data_off : Nat} {queue : mqnic_rx_queue} {w : world}
    {bufs : Nat → Nat} {num_bufs : Nat} {r : rx_batch_result}
    (hr : mqnic_rx_batch data_off queue w bufs num_bufs = Except.ok r) :
    r = mqnic_rx_batch_val data_off queue w bufs num_bufs :=
  (ok_of_ite_eq_ok ((mqnic_rx_batch_eq data_off queue w bufs num_bufs).symm.trans hr)).2

/-- A returning call of the exact variant returns the value. -/
theorem mqnic_rx_batch_hints_exact_ok {data_off : Nat} {queue : mqnic_rx_queue} {w : world}
    {bufs : Nat → Nat} {num_bufs if_hint : Nat} {hints : Nat → nic_hints}
    {hint_count nic_head_ptr nic_tail_ptr : Nat} {r : rx_batch_result}
    (hr : mqnic_rx_batch_hints_exact data_off queue w bufs num_bufs if_hint hints hint_count
      nic_head_ptr nic_tail_ptr = Except.ok r) :
    r = mqnic_rx_batch_hints_exact_val data_off queue w bufs num_bufs if_hint hints hint_count
      nic_head_ptr nic_tail_ptr :=
  (ok_of_ite_eq_ok
    ((mqnic_rx_batch_hints_exact_eq data_off queue w bufs num_bufs if_hint hints hint_count
      nic_head_ptr nic_tail_ptr).symm.trans hr)).2

/-- `mqnic_rx_batch_hints` returns when the pool holds what its refill asks. -/
theorem mqnic_rx_batch_hints_returns (data_off : Nat) (queue : mqnic_rx_queue) (w : world)
    (bufs : Nat → Nat) (num_bufs if_hint : Nat) (hints : Nat → nic_hints) (hint_count : Nat)
    (h : refill_supplied queue w) :
    mqnic_rx_batch_hints data_off queue w bufs num_bufs if_hint hints hint_count
      = Except.ok
          (mqnic_rx_batch_hints_val data_off queue w bufs num_bufs if_hint hints hint_count) :=
  (mqnic_rx_batch_hints_eq data_off queue w bufs num_bufs if_hint hints hint_count).trans
    (if_pos h)

/-- `mqnic_rx_batch` returns when the pool holds what its refill asks. -/
theorem mqnic_rx_batch_returns (data_off : Nat) (queue : mqnic_rx_queue) (w : world)
    (bufs : Nat → Nat) (num_bufs : Nat) (h : refill_supplied queue w) :
    mqnic_rx_batch data_off queue w bufs num_bufs
      = Except.ok (mqnic_rx_batch_val data_off queue w bufs num_bufs) :=
  (mqnic_rx_batch_eq data_off queue w bufs num_bufs).trans (if_pos h)

/-- The exact variant returns when the pool holds what its refill asks. -/
theorem mqnic_rx_batch_hints_exact_returns (data_off : Nat) (queue : mqnic_rx_queue)
    (w : world) (bufs : Nat → Nat) (num_bufs if_hint : Nat) (hints : Nat → nic_hints)
    (hint_count nic_head_ptr nic_tail_ptr : Nat) (h : refill_supplied queue w) :
    mqnic_rx_batch_hints_exact data_off queue w bufs num_bufs if_hint hints hint_count
        nic_head_ptr nic_tail_ptr
      = Except.ok
          (mqnic_rx_batch_hints_exact_val data_off queue w bufs num_bufs if_hint hints
            hint_count nic_head_ptr nic_tail_ptr) :=
  (mqnic_rx_batch_hints_exact_eq data_off queue w bufs num_bufs if_hint hints hint_count
    nic_head_ptr nic_tail_ptr).trans (if_pos h)

/-- A call of `mqnic_rx_batch_hints` returns exactly when the pool holds what its
refill asks: fewer than 8 descriptors are missing, or the pool supplies all the
missing buffers. -/
theorem mqnic_rx_batch_hints_returns_iff (data_off : Nat) (queue : mqnic_rx_queue) (w : world)
    (bufs : Nat → Nat) (num_bufs if_hint : Nat) (hints : Nat → nic_hints) (hint_count : Nat) :
    (∃ r, mqnic_rx_batch_hints data_off queue w bufs num_bufs if_hint hints hint_count
        = Except.ok r) ↔ refill_supplied queue w := by
  constructor
  · rintro ⟨r, hr⟩
    exact (ok_of_ite_eq_ok
      ((mqnic_rx_batch_hints_eq data_off queue w bufs num_bufs if_hint hints
        hint_count).symm.trans hr)).1
  · intro h
    exact ⟨_, mqnic_rx_batch_hints_returns data_off queue w bufs num_bufs if_hint hints
      hint_count h⟩

/-! ## The harvest loop of the RX drain -/

theorem rx_batch_body_buf_index (if_hint : Nat) (s : rx_batch_state) :
    (rx_batch_body if_hint s).buf_index = s.buf_index + 1 := rfl

theorem rx_batch_body_bufs (if_hint : Nat) (s : rx_batch_state) :
    (rx_batch_body if_hint s).bufs =
      upd s.bufs s.buf_index
        (s.queue.rxq_virtual_addresses
          ((s.queue.cpl_descriptors s.cq_index).index &&& s.queue.size_mask)) := rfl

theorem rx_batch_loop_buf_index_ge (if_hint N : Nat) :
    ∀ (fuel : Nat) (s : rx_batch_state),
      s.buf_index ≤ (rx_batch_loop if_hint N fuel s).buf_index := by
  intro fuel
  induction fuel with
  | zero => intro s; exact Nat.le_refl _
  | succ n ih =>
    intro s
    unfold rx_batch_loop
    split
    · have := ih (rx_batch_body if_hint s)
      rw [rx_batch_body_buf_index] at this
      omega
    · exact Nat.le_refl _

theorem rx_batch_loop_buf_index_le (if_hint N : Nat) :
    ∀ (fuel : Nat) (s : rx_batch_state), s.buf_index ≤ N →
      (rx_batch_loop if_hint N fuel s).buf_index ≤ N := by
  intro fuel
  induction fuel with
  | zero => intro s h; exact h
  | succ n ih =>
    intro s h
    unfold rx_batch_loop
    split
    · rename_i hc
      apply ih
      rw [rx_batch_body_buf_index]
      omega
    · exact h

theorem rx_batch_loop_bufs_frame (if_hint N : Nat) :
    ∀ (fuel : Nat) (s : rx_batch_state) (i : Nat),
      i < s.buf_index ∨ (rx_batch_loop if_hint N fuel s).buf_index ≤ i →
      (rx_batch_loop if_hint N fuel s).bufs i = s.bufs i := by
  intro fuel
  induction fuel with
  | zero => intro s i _; rfl
  | succ n ih =>
    intro s i hi
    unfold rx_batch_loop at hi ⊢
    split
    · rename_i hc
      rw [if_pos hc] at hi
      have hge := rx_batch_loop_buf_index_ge if_hint N n (rx_batch_body if_hint s)
      rw [rx_batch_body_buf_index] at hge
      rw [ih (rx_batch_body if_hint s) i (by rw [rx_batch_body_buf_index]; omega),
        rx_batch_body_bufs]
      have hne : i ≠ s.buf_index := by omega
      simp [upd, hne]
    · rfl

theorem rx_batch_body_tmp_hint_count_le (if_hint : Nat) (s : rx_batch_state) :
    (rx_batch_body if_hint s).tmp_hint_count ≤ s.tmp_hint_count + 1 := by
  simp only [rx_batch_body, wrap16]
  split <;> omega

theorem rx_batch_body_hints_frame (if_hint : Nat) (s : rx_batch_state) (i : Nat)
    (hi : i ≠ s.tmp_hint_count) : (rx_batch_body if_hint s).hints i = s.hints i := by
  simp only [rx_batch_body]
  split
  · simp [upd, hi]
  · rfl

theorem rx_batch_loop_hints_bound (if_hint N : Nat) :
    ∀ (fuel : Nat) (s : rx_batch_state),
      (rx_batch_loop if_hint N fuel s).tmp_hint_count + s.buf_index
          ≤ s.tmp_hint_count + (rx_batch_loop if_hint N fuel s).buf_index ∧
        ∀ i, s.tmp_hint_count + (rx_batch_loop if_hint N fuel s).buf_index ≤ i + s.buf_index →
          (rx_batch_loop if_hint N fuel s).hints i = s.hints i := by
  intro fuel
  induction fuel with
  | zero => intro s; exact ⟨Nat.le_refl _, fun _ _ => rfl⟩
  | succ n ih =>
    intro s
    unfold rx_batch_loop
    split
    · obtain ⟨h1, h2⟩ := ih (rx_batch_body if_hint s)
      have hb := rx_batch_body_tmp_hint_count_le if_hint s
      have hge := rx_batch_loop_buf_index_ge if_hint N n (rx_batch_body if_hint s)
      rw [rx_batch_body_buf_index] at h1 h2 hge
      refine ⟨by omega, ?_⟩
      intro i hi
      rw [h2 i (by omega)]
      exact rx_batch_body_hints_frame if_hint s i (by omega)
    · exact ⟨Nat.le_refl _, fun _ _ => rfl⟩

/-- The bound on the count and the frame of `bufs`, on the values of the two drains. -/
theorem rx_batch_count_le_and_frame_val (data_off : Nat) (queue : mqnic_rx_queue) (w : world)
    (bufs : Nat → Nat) (num_bufs if_hint : Nat) (hints : Nat → nic_hints) (hint_count : Nat) :
    ((mqnic_rx_batch_hints_val data_off queue w bufs num_bufs if_hint hints hint_count).ret
        ≤ num_bufs ∧
      ∀ i, (mqnic_rx_batch_hints_val data_off queue w bufs num_bufs if_hint hints hint_count).ret ≤ i →
        (mqnic_rx_batch_hints_val data_off queue w bufs num_bufs if_hint hints hint_count).bufs i
          = bufs i) ∧
    ((mqnic_rx_batch_val data_off queue w bufs num_bufs).ret ≤ num_bufs ∧
      ∀ i, (mqnic_rx_batch_val data_off queue w bufs num_bufs).ret ≤ i →
        (mqnic_rx_batch_val data_off queue w bufs num_bufs).bufs i = bufs i) := by
  have key : ∀ (ih : Nat) (hs : Nat → nic_hints) (hc : Nat),
      (mqnic_rx_batch_hints_val data_off queue w bufs num_bufs ih hs hc).ret ≤ num_bufs ∧
      ∀ i, (mqnic_rx_batch_hints_val data_off queue w bufs num_bufs ih hs hc).ret ≤ i →
        (mqnic_rx_batch_hints_val data_off queue w bufs num_bufs ih hs hc).bufs i = bufs i := by
    intro ih hs hc
    simp only [mqnic_rx_batch_hints_val]
    refine ⟨rx_batch_loop_buf_index_le ih num_bufs num_bufs _ (Nat.zero_le _), ?_⟩
    intro i hi
    exact rx_batch_loop_bufs_frame ih num_bufs num_bufs _ i (Or.inr hi)
  exact ⟨key if_hint hints hint_count, key 0 _ 0⟩

/-- C2: for every queue state, every completion-ring content and every
`num_bufs`, a returning call of `mqnic_rx_batch_hints` or of `mqnic_rx_batch`
returns a count `harvested <= num_bufs` and leaves every entry `bufs[i]` with
`i >= harvested` of the output array as it was.  Either call returns exactly
when the pool holds what its refill asks: fewer than 8 descriptors are missing,
or the mempool supplies all the missing buffers. -/
theorem rx_batch_count_le_and_frame (data_off : Nat) (queue : mqnic_rx_queue) (w : world)
    (bufs : Nat → Nat) (num_bufs if_hint : Nat) (hints : Nat → nic_hints) (hint_count : Nat) :
    ((∃ r, mqnic_rx_batch_hints data_off queue w bufs num_bufs if_hint hints hint_count
        = Except.ok r) ↔ refill_supplied queue w) ∧
    ((∃ r0, mqnic_rx_batch data_off queue w bufs num_bufs = Except.ok r0) ↔
      refill_supplied queue w) ∧
    (∀ r, mqnic_rx_batch_hints data_off queue w bufs num_bufs if_hint hints hint_count
        = Except.ok r →
      r.ret ≤ num_bufs ∧ ∀ i, r.ret ≤ i → r.bufs i = bufs i) ∧
    (∀ r0, mqnic_rx_batch data_off queue w bufs num_bufs = Except.ok r0 →
      r0.ret ≤ num_bufs ∧ ∀ i, r0.ret ≤ i → r0.bufs i = bufs i) := by
  have hv := rx_batch_count_le_and_frame_val data_off queue w bufs num_bufs if_hint hints
    hint_count
  refine ⟨mqnic_rx_batch_hints_returns_iff data_off queue w bufs num_bufs if_hint hints
    hint_count,
    (mqnic_rx_batch_hints_returns_iff data_off queue w bufs num_bufs 0 (fun _ => ⟨0, 0⟩) 0),
    ?_, ?_⟩
  · intro r hr
    have e := mqnic_rx_batch_hints_ok hr
    subst e
    exact hv.1
  · intro r0 hr0
    have e0 := mqnic_rx_batch_ok hr0
    subst e0
    exact hv.2

/-- Witness for C2: both entry points return on the sample queue, whose ring is
full; with capacity 2 they return 2 of the three available completions. -/
theorem rx_batch_count_le_and_frame_witness :
    ∃ r r0,
      mqnic_rx_batch_hints 64 sample_rx_queue sample_world (fun _ => 0) 2 1 (fun _ => ⟨0, 0⟩) 0
        = Except.ok r ∧
      mqnic_rx_batch 64 sample_rx_queue sample_world (fun _ => 0) 2 = Except.ok r0 ∧
      r.ret = 2 ∧ r0.ret = 2 ∧
      (r.ret ≤ 2 ∧ ∀ i, r.ret ≤ i → r.bufs i = (fun _ => 0) i) ∧
      (r0.ret ≤ 2 ∧ ∀ i, r0.ret ≤ i → r0.bufs i = (fun _ => 0) i) :=
  ⟨mqnic_rx_batch_hints_val 64 sample_rx_queue sample_world (fun _ => 0) 2 1
      (fun _ => ⟨0, 0⟩) 0,
    mqnic_rx_batch_val 64 sample_rx_queue sample_world (fun _ => 0) 2,
    mqnic_rx_batch_hints_returns 64 sample_rx_queue sample_world (fun _ => 0) 2 1
      (fun _ => ⟨0, 0⟩) 0 (Or.inl (by decide)),
    mqnic_rx_batch_returns 64 sample_rx_queue sample_world (fun _ => 0) 2 (Or.inl (by decide)),
    by decide, by decide,
    (rx_batch_count_le_and_frame 64 sample_rx_queue sample_world (fun _ => 0) 2 1
      (fun _ => ⟨0, 0⟩) 0).2.2.1 _
      (mqnic_rx_batch_hints_returns 64 sample_rx_queue sample_world (fun _ => 0) 2 1
        (fun _ => ⟨0, 0⟩) 0 (Or.inl (by decide))),
    (rx_batch_count_le_and_frame 64 sample_rx_queue sample_world (fun _ => 0) 2 1
      (fun _ => ⟨0, 0⟩) 0).2.2.2 _
      (mqnic_rx_batch_returns 64 sample_rx_queue sample_world (fun _ => 0) 2
        (Or.inl (by decide)))⟩

/-- Counterexample to C3: with `num_bufs = 17` and 17 published completions that
all carry a hint, the call returns, reports `hint_count = 17` and stores a hint
at index 16 of the hints array, which held `(0, 0)` before the call. -/
theorem rx_hint_count_exceeds_capacity :
    ∃ r,
      mqnic_rx_batch_hints 64 hinted_rx_queue sample_world (fun _ => 0) 17 1
        (fun _ => ⟨0, 0⟩) 0 = Except.ok r ∧
      (r.hint_count = 17 ∧ r.hints 16 = ⟨4, 0x0012⟩) ∧
      ¬ (r.hint_count ≤ 16 ∧ r.hints 16 = (fun _ => (⟨0, 0⟩ : nic_hints)) 16) :=
  ⟨mqnic_rx_batch_hints_val 64 hinted_rx_queue sample_world (fun _ => 0) 17 1
      (fun _ => ⟨0, 0⟩) 0,
    mqnic_rx_batch_hints_returns 64 hinted_rx_queue sample_world (fun _ => 0) 17 1
      (fun _ => ⟨0, 0⟩) 0 (Or.inl (by decide)),
    by decide, by decide⟩

/-- The hint count is at most the harvested count, and the hints array is
untouched from the harvested count on, on the value of the drain. -/
theorem rx_hint_count_le_harvested_val (data_off : Nat) (queue : mqnic_rx_queue) (w : world)
    (bufs : Nat → Nat) (num_bufs if_hint : Nat) (hints : Nat → nic_hints) (hint_count : Nat)
    (hif : if_hint ≠ 0) :
    (mqnic_rx_batch_hints_val data_off queue w bufs num_bufs if_hint hints hint_count).hint_count
        ≤ (mqnic_rx_batch_hints_val data_off queue w bufs num_bufs if_hint hints hint_count).ret ∧
      (mqnic_rx_batch_hints_val data_off queue w bufs num_bufs if_hint hints hint_count).ret
        ≤ num_bufs ∧
      (∀ i,
        (mqnic_rx_batch_hints_val data_off queue w bufs num_bufs if_hint hints hint_count).ret ≤ i →
        (mqnic_rx_batch_hints_val data_off queue w bufs num_bufs if_hint hints hint_count).hints i
          = hints i) := by
  simp only [mqnic_rx_batch_hints_val, if_pos hif]
  have hle := rx_batch_loop_buf_index_le if_hint num_bufs num_bufs
  have hb := rx_batch_loop_hints_bound if_hint num_bufs num_bufs
  generalize hs0 : (rx_batch_state.mk (mqnic_refill_rx_buffers_val data_off queue w).1
    (mqnic_refill_rx_buffers_val data_off queue w).2 bufs hints _ _ 0 _ _ 0) = s0 at *
  have e1 : s0.buf_index = 0 := by rw [← hs0]
  have e2 : s0.tmp_hint_count = 0 := by rw [← hs0]
  have e3 : s0.hints = hints := by rw [← hs0]
  obtain ⟨h1, h2⟩ := hb s0
  have h3 := hle s0 (by omega)
  rw [e1, e2] at h1 h2
  refine ⟨by omega, h3, ?_⟩
  intro i hi
  rw [h2 i (by omega), e3]

/-- C3, amended: for every returning call of `mqnic_rx_batch_hints` with
`if_hint` set, whatever `num_bufs` is, the reported hint count is at most the
number of harvested completions, which is at most `num_bufs`, and no entry of
the hints array at an index at or beyond the harvested count is written; hence
whenever `num_bufs <= 16`, `hint_count <= 16` and no entry at index 16 or beyond
is written.  The call returns exactly when the pool holds what its refill asks. -/
theorem rx_hint_count_le_harvested (data_off : Nat) (queue : mqnic_rx_queue) (w : world)
    (bufs : Nat → Nat) (num_bufs if_hint : Nat) (hints : Nat → nic_hints) (hint_count : Nat)
    (hif : if_hint ≠ 0) :
    ((∃ r, mqnic_rx_batch_hints data_off queue w bufs num_bufs if_hint hints hint_count
        = Except.ok r) ↔ refill_supplied queue w) ∧
    ∀ r, mqnic_rx_batch_hints data_off queue w bufs num_bufs if_hint hints hint_count
        = Except.ok r →
      r.hint_count ≤ r.ret ∧ r.ret ≤ num_bufs ∧
        (∀ i, r.ret ≤ i → r.hints i = hints i) ∧
        (num_bufs ≤ 16 → r.hint_count ≤ 16 ∧ ∀ i, 16 ≤ i → r.hints i = hints i) := by
  refine ⟨mqnic_rx_batch_hints_returns_iff data_off queue w bufs num_bufs if_hint hints
    hint_count, ?_⟩
  intro r hr
  have e := mqnic_rx_batch_hints_ok hr
  subst e
  obtain ⟨h1, h2, h3⟩ :=
    rx_hint_count_le_harvested_val data_off queue w bufs num_bufs if_hint hints hint_count hif
  exact ⟨h1, h2, h3, fun hN => ⟨by omega, fun i hi => h3 i (by omega)⟩⟩

/-- Witness for the amended C3: a call with `num_bufs = 17` on the queue with 17
hint-carrying completions reports 17 hints for 17 harvested completions, and a
call with `num_bufs = 8` on the sample queue reports at most 16. -/
theorem rx_hint_count_le_harvested_witness :
    (∃ r,
      mqnic_rx_batch_hints 64 hinted_rx_queue sample_world (fun _ => 0) 17 1
        (fun _ => ⟨0, 0⟩) 0 = Except.ok r ∧
      r.hint_count = 17 ∧ r.ret = 17 ∧ r.hint_count ≤ r.ret ∧ r.ret ≤ 17) ∧
    (∃ r,
      mqnic_rx_batch_hints 64 sample_rx_queue sample_world (fun _ => 0) 8 1
        (fun _ => ⟨0, 0⟩) 0 = Except.ok r ∧
      r.hint_count ≤ 16) :=
  ⟨⟨mqnic_rx_batch_hints_val 64 hinted_rx_queue sample_world (fun _ => 0) 17 1
        (fun _ => ⟨0, 0⟩) 0,
      mqnic_rx_batch_hints_returns 64 hinted_rx_queue sample_world (fun _ => 0) 17 1
        (fun _ => ⟨0, 0⟩) 0 (Or.inl (by decide)),
      by decide, by decide,
      ((rx_hint_count_le_harvested 64 hinted_rx_queue sample_world (fun _ => 0) 17 1
        (fun _ => ⟨0, 0⟩) 0 (by decide)).2 _
        (mqnic_rx_batch_hints_returns 64 hinted_rx_queue sample_world (fun _ => 0) 17 1
          (fun _ => ⟨0, 0⟩) 0 (Or.inl (by decide)))).1,
      ((rx_hint_count_le_harvested 64 hinted_rx_queue sample_world (fun _ => 0) 17 1
        (fun _ => ⟨0, 0⟩) 0 (by decide)).2 _
        (mqnic_rx_batch_hints_returns 64 hinted_rx_queue sample_world (fun _ => 0) 17 1
          (fun _ => ⟨0, 0⟩) 0 (Or.inl (by decide)))).2.1⟩,
    ⟨mqnic_rx_batch_hints_val 64 sample_rx_queue sample_world (fun _ => 0) 8 1
        (fun _ => ⟨0, 0⟩) 0,
      mqnic_rx_batch_hints_returns 64 sample_rx_queue sample_world (fun _ => 0) 8 1
        (fun _ => ⟨0, 0⟩) 0 (Or.inl (by decide)),
      (((rx_hint_count_le_harvested 64 sample_rx_queue sample_world (fun _ => 0) 8 1
        (fun _ => ⟨0, 0⟩) 0 (by decide)).2 _
        (mqnic_rx_batch_hints_returns 64 sample_rx_queue sample_world (fun _ => 0) 8 1
          (fun _ => ⟨0, 0⟩) 0 (Or.inl (by decide)))).2.2.2 (by decide)).1⟩⟩

/-- C4, the code at the failing input: a completion that reports `len = 4096`
for a buffer of capacity 2048; the call returns and leaves the returned buffer
with `size = 4096`, whereas the clamp `GETMIN(len, buf_size)` is 2048. -/
theorem rx_batch_size_not_clamped :
    ∃ r,
      mqnic_rx_batch_hints 64 oversize_rx_queue sample_world (fun _ => 0) 8 0
        (fun _ => ⟨0, 0⟩) 0 = Except.ok r ∧
      r.ret = 1 ∧
      (r.w.pkt_bufs (r.bufs 0)).size = 4096 ∧
      (sample_world.mempools oversize_rx_queue.mempool).buf_size = 2048 ∧
      GETMIN (oversize_rx_queue.cpl_descriptors 0).len
        (sample_world.mempools oversize_rx_queue.mempool).buf_size = 2048 :=
  ⟨mqnic_rx_batch_hints_val 64 oversize_rx_queue sample_world (fun _ => 0) 8 0
      (fun _ => ⟨0, 0⟩) 0,
    mqnic_rx_batch_hints_returns 64 oversize_rx_queue sample_world (fun _ => 0) 8 0
      (fun _ => ⟨0, 0⟩) 0 (Or.inl (by decide)),
    by decide, by decide, by decide, by decide⟩

/-! ## Hint decoding -/

theorem and_shl_shr (x m s : Nat) : (x &&& (m <<< s)) >>> s = (x >>> s) &&& m := by
  apply Nat.eq_of_testBit_eq
  intro i
  simp only [Nat.testBit_shiftRight, Nat.testBit_and, Nat.testBit_shiftLeft]
  have h1 : s + i ≥ s := Nat.le_add_right s i
  have h2 : s + i - s = i := by omega
  simp [h1, h2]

theorem hint_fields (cpl : mqnic_cpl) :
    nic_hints.mk ((cpl.rx_hash &&& 0x00000ff0) >>> 4) ((cpl.rx_hash &&& 0xffff0000) >>> 16)
      = decode_hint cpl := by
  have e1 : (0x00000ff0 : Nat) = 0xff <<< 4 := by decide
  have e2 : (0xffff0000 : Nat) = 0xffff <<< 16 := by decide
  rw [e1, e2, and_shl_shr, and_shl_shr]
  rfl

theorem expected_hints_cons (c : mqnic_cpl) (l : List mqnic_cpl) :
    expected_hints (c :: l) =
      (if c.rx_hash ≠ 0 then [decode_hint c] else []) ++ expected_hints l := by
  unfold expected_hints
  by_cases h : c.rx_hash ≠ 0
  · simp [List.filter_cons, h]
  · simp [List.filter_cons, h]

theorem expected_hints_congr (f g : Nat → mqnic_cpl) (l : List Nat)
    (h : ∀ j, (f j).rx_hash = (g j).rx_hash) :
    expected_hints (l.map f) = expected_hints (l.map g) := by
  induction l with
  | nil => rfl
  | cons a t ih =>
    simp only [List.map_cons, expected_hints_cons, ih, h a]
    have : decode_hint (f a) = decode_hint (g a) := by simp [decode_hint, h a]
    rw [this]

theorem harvested_cpls_succ (queue : mqnic_rx_queue) (n : Nat) :
    harvested_cpls queue (n + 1) =
      cpl_at queue 0 :: (List.range n).map (fun j => cpl_at queue (j + 1)) := by
  unfold harvested_cpls
  rw [List.range_succ_eq_map, List.map_cons, List.map_map]
  rfl

theorem rx_batch_body_rx_hash (if_hint : Nat) (s : rx_batch_state) (x : Nat) :
    ((rx_batch_body if_hint s).queue.cpl_descriptors x).rx_hash
      = (s.queue.cpl_descriptors x).rx_hash := by
  simp only [rx_batch_body, upd]
  split
  · rename_i h; rw [h]
  · rfl

theorem rx_batch_body_view_step (if_hint : Nat) (s : rx_batch_state) (j : Nat) :
    (cpl_at (loop_view (rx_batch_body if_hint s)) j).rx_hash
      = (cpl_at (loop_view s) (j + 1)).rx_hash := by
  have e : cpl_slot (loop_view (rx_batch_body if_hint s)) j = cpl_slot (loop_view s) (j + 1) := by
    simp only [cpl_slot, loop_view, rx_batch_body, wrap32]
    congr 1
    omega
  unfold cpl_at
  rw [e]
  exact rx_batch_body_rx_hash if_hint s _

theorem rx_batch_loop_hints_exact (if_hint N : Nat) (hif : if_hint ≠ 0) :
    ∀ (fuel : Nat) (s : rx_batch_state),
      s.cq_index = s.cq_tail_ptr &&& s.queue.size_mask → s.cq_tail_ptr < 4294967296 →
      s.tmp_hint_count +
        (expected_hints (harvested_cpls (loop_view s)
          ((rx_batch_loop if_hint N fuel s).buf_index - s.buf_index))).length < 65536 →
      (rx_batch_loop if_hint N fuel s).tmp_hint_count =
        s.tmp_hint_count +
          (expected_hints (harvested_cpls (loop_view s)
            ((rx_batch_loop if_hint N fuel s).buf_index - s.buf_index))).length ∧
      (∀ i hv,
        (expected_hints (harvested_cpls (loop_view s)
          ((rx_batch_loop if_hint N fuel s).buf_index - s.buf_index)))[i]? = some hv →
        (rx_batch_loop if_hint N fuel s).hints (s.tmp_hint_count + i) = hv) ∧
      (∀ i, i < s.tmp_hint_count ∨
          s.tmp_hint_count +
            (expected_hints (harvested_cpls (loop_view s)
              ((rx_batch_loop if_hint N fuel s).buf_index - s.buf_index))).length ≤ i →
        (rx_batch_loop if_hint N fuel s).hints i = s.hints i) := by
  intro fuel
  induction fuel with
  | zero =>
    intro s _ _ _
    simp [rx_batch_loop, harvested_cpls, expected_hints]
  | succ n ih =>
    intro s hidx hlt
    unfold rx_batch_loop
    split
    · -- one iteration, then the rest of the loop
      have hge := rx_batch_loop_buf_index_ge if_hint N n (rx_batch_body if_hint s)
      rw [rx_batch_body_buf_index] at hge
      have hn : (rx_batch_loop if_hint N n (rx_batch_body if_hint s)).buf_index - s.buf_index
          = ((rx_batch_loop if_hint N n (rx_batch_body if_hint s)).buf_index
              - (rx_batch_body if_hint s).buf_index) + 1 := by
        rw [rx_batch_body_buf_index]; omega
      have hc0 : cpl_at (loop_view s) 0 = s.queue.cpl_descriptors s.cq_index := by
        simp only [cpl_at, cpl_slot, loop_view, wrap32, hidx]
        rw [Nat.add_zero, Nat.mod_eq_of_lt hlt]
      have hE : expected_hints (harvested_cpls (loop_view s)
            ((rx_batch_loop if_hint N n (rx_batch_body if_hint s)).buf_index - s.buf_index))
          = (if (s.queue.cpl_descriptors s.cq_index).rx_hash ≠ 0
              then [decode_hint (s.queue.cpl_descriptors s.cq_index)] else []) ++
            expected_hints (harvested_cpls (loop_view (rx_batch_body if_hint s))
              ((rx_batch_loop if_hint N n (rx_batch_body if_hint s)).buf_index
                - (rx_batch_body if_hint s).buf_index)) := by
        rw [hn, harvested_cpls_succ, expected_hints_cons, hc0]
        congr 1
        unfold harvested_cpls
        exact expected_hints_congr _ _ _
          (fun j => (rx_batch_body_view_step if_hint s j).symm)
      rw [hE]
      have hidx1 : (rx_batch_body if_hint s).cq_index
          = (rx_batch_body if_hint s).cq_tail_ptr &&& (rx_batch_body if_hint s).queue.size_mask :=
        rfl
      have hlt1 : (rx_batch_body if_hint s).cq_tail_ptr < 4294967296 := by
        simp only [rx_batch_body, wrap32]; omega
      have IH := ih (rx_batch_body if_hint s) hidx1 hlt1
      generalize hEr : expected_hints (harvested_cpls (loop_view (rx_batch_body if_hint s))
              ((rx_batch_loop if_hint N n (rx_batch_body if_hint s)).buf_index
                - (rx_batch_body if_hint s).buf_index)) = Er at IH ⊢
      by_cases hh : (s.queue.cpl_descriptors s.cq_index).rx_hash ≠ 0
      · -- the completion carries a hint
        rw [if_pos hh]
        intro hcnt
        simp only [List.singleton_append, List.length_cons] at hcnt ⊢
        have htmp : (rx_batch_body if_hint s).tmp_hint_count = s.tmp_hint_count + 1 := by
          simp only [rx_batch_body, hif, hh, wrap16, ne_eq, not_false_eq_true, decide_True,
            Bool.and_self, if_true]
          omega
        have hhints : (rx_batch_body if_hint s).hints
            = upd s.hints s.tmp_hint_count (decode_hint (s.queue.cpl_descriptors s.cq_index)) := by
          simp only [rx_batch_body, hif, hh, ne_eq, not_false_eq_true, decide_True,
            Bool.and_self, if_true, hint_fields]
        rw [htmp] at IH
        obtain ⟨h1, h2, h3⟩ := IH (by omega)
        refine ⟨by omega, ?_, ?_⟩
        · intro i hv hi
          cases i with
          | zero =>
            simp only [List.getElem?_cons_zero, Option.some.injEq] at hi
            rw [Nat.add_zero, h3 _ (Or.inl (by omega)), hhints, ← hi]
            simp [upd]
          | succ k =>
            simp only [List.getElem?_cons_succ] at hi
            have := h2 k hv hi
            rw [← this]
            congr 1
            omega
        · intro i hi
          rw [h3 i (by omega), hhints]
          have : i ≠ s.tmp_hint_count := by omega
          simp [upd, this]
      · -- no hint
        rw [if_neg hh]
        intro hcnt
        simp only [List.nil_append] at hcnt ⊢
        have hh0 : (s.queue.cpl_descriptors s.cq_index).rx_hash = 0 := by
          simpa using hh
        have htmp : (rx_batch_body if_hint s).tmp_hint_count = s.tmp_hint_count := by
          simp [rx_batch_body, hh0]
        have hhints : (rx_batch_body if_hint s).hints = s.hints := by
          simp [rx_batch_body, hh0]
        rw [htmp, hhints] at IH
        exact IH hcnt
    · intro _
      simp [harvested_cpls, expected_hints]


/-! ## What the refill leaves untouched -/

theorem pkt_buf_alloc_pkt_bufs (w : world) (pool : Nat) :
    (pkt_buf_alloc w pool).2.pkt_bufs = w.pkt_bufs := by
  unfold pkt_buf_alloc
  split <;> rfl

theorem mqnic_prepare_rx_desc_frame (data_off : Nat) (queue : mqnic_rx_queue) (w : world)
    (index : Nat) :
    (mqnic_prepare_rx_desc_val data_off queue w index).2.1.cpl_descriptors = queue.cpl_descriptors ∧
    (mqnic_prepare_rx_desc_val data_off queue w index).2.1.cpl_tail_ptr = queue.cpl_tail_ptr ∧
    (mqnic_prepare_rx_desc_val data_off queue w index).2.1.size_mask = queue.size_mask ∧
    (mqnic_prepare_rx_desc_val data_off queue w index).2.1.rxq_tail_ptr = queue.rxq_tail_ptr ∧
    (mqnic_prepare_rx_desc_val data_off queue w index).2.1.rxq_head_ptr = queue.rxq_head_ptr ∧
    (mqnic_prepare_rx_desc_val data_off queue w index).2.2.pkt_bufs = w.pkt_bufs ∧
    (∀ x, x ≠ index →
      (mqnic_prepare_rx_desc_val data_off queue w index).2.1.rxq_virtual_addresses x
        = queue.rxq_virtual_addresses x) := by
  unfold mqnic_prepare_rx_desc_val
  simp only
  split
  · exact ⟨rfl, rfl, rfl, rfl, rfl, pkt_buf_alloc_pkt_bufs w _, fun _ _ => rfl⟩
  · refine ⟨rfl, rfl, rfl, rfl, rfl, pkt_buf_alloc_pkt_bufs w _, ?_⟩
    intro x hx
    simp [upd, hx]

theorem refill_loop_frame (data_off : Nat) :
    ∀ (missing : Nat) (queue : mqnic_rx_queue) (w : world),
      (refill_loop_val data_off missing queue w).1.cpl_descriptors = queue.cpl_descriptors ∧
      (refill_loop_val data_off missing queue w).1.cpl_tail_ptr = queue.cpl_tail_ptr ∧
      (refill_loop_val data_off missing queue w).1.size_mask = queue.size_mask ∧
      (refill_loop_val data_off missing queue w).1.rxq_tail_ptr = queue.rxq_tail_ptr ∧
      (refill_loop_val data_off missing queue w).2.pkt_bufs = w.pkt_bufs := by
  intro missing
  induction missing with
  | zero => intro queue w; exact ⟨rfl, rfl, rfl, rfl, rfl⟩
  | succ m ih =>
    intro queue w
    obtain ⟨p1, p2, p3, p4, _, p6, _⟩ :=
      mqnic_prepare_rx_desc_frame data_off queue w (queue.rxq_head_ptr &&& queue.size_mask)
    unfold refill_loop_val
    simp only
    split
    · exact ⟨p1, p2, p3, p4, p6⟩
    · obtain ⟨q1, q2, q3, q4, q5⟩ := ih
        { (mqnic_prepare_rx_desc_val data_off queue w (queue.rxq_head_ptr &&& queue.size_mask)).2.1 with
          rxq_head_ptr := wrap32
            ((mqnic_prepare_rx_desc_val data_off queue w
              (queue.rxq_head_ptr &&& queue.size_mask)).2.1.rxq_head_ptr + 1) }
        (mqnic_prepare_rx_desc_val data_off queue w (queue.rxq_head_ptr &&& queue.size_mask)).2.2
      exact ⟨q1.trans p1, q2.trans p2, q3.trans p3, q4.trans p4, q5.trans p6⟩

theorem refill_loop_virt_frame (data_off : Nat) :
    ∀ (missing : Nat) (queue : mqnic_rx_queue) (w : world),
      queue.rxq_head_ptr < 4294967296 →
      ∀ x, (∀ t, t < missing → x ≠ wrap32 (queue.rxq_head_ptr + t) &&& queue.size_mask) →
        (refill_loop_val data_off missing queue w).1.rxq_virtual_addresses x
          = queue.rxq_virtual_addresses x := by
  intro missing
  induction missing with
  | zero => intro queue w _ x _; rfl
  | succ m ih =>
    intro queue w hh x hx
    obtain ⟨_, _, p3, _, p5, _, p7⟩ :=
      mqnic_prepare_rx_desc_frame data_off queue w (queue.rxq_head_ptr &&& queue.size_mask)
    have hx0 : x ≠ queue.rxq_head_ptr &&& queue.size_mask := by
      have := hx 0 (Nat.succ_pos m)
      simpa [wrap32, Nat.mod_eq_of_lt hh] using this
    unfold refill_loop_val
    simp only
    split
    · exact p7 x hx0
    · rw [ih _ _ (by simp only [wrap32]; omega) x ?_]
      · exact p7 x hx0
      · intro t ht
        have := hx (t + 1) (by omega)
        simp only [p3, p5]
        have e : wrap32 (wrap32 (queue.rxq_head_ptr + 1) + t)
            = wrap32 (queue.rxq_head_ptr + (t + 1)) := by
          simp only [wrap32]; omega
        rw [e]
        exact this

theorem mqnic_refill_rx_buffers_frame (data_off : Nat) (queue : mqnic_rx_queue) (w : world) :
    (mqnic_refill_rx_buffers_val data_off queue w).1.cpl_descriptors = queue.cpl_descriptors ∧
    (mqnic_refill_rx_buffers_val data_off queue w).1.cpl_tail_ptr = queue.cpl_tail_ptr ∧
    (mqnic_refill_rx_buffers_val data_off queue w).1.size_mask = queue.size_mask ∧
    (mqnic_refill_rx_buffers_val data_off queue w).1.rxq_tail_ptr = queue.rxq_tail_ptr ∧
    (mqnic_refill_rx_buffers_val data_off queue w).2.pkt_bufs = w.pkt_bufs := by
  unfold mqnic_refill_rx_buffers_val
  simp only
  split
  · exact ⟨rfl, rfl, rfl, rfl, rfl⟩
  · obtain ⟨q1, q2, q3, q4, q5⟩ := refill_loop_frame data_off
      (sub32 queue.size (sub32 queue.rxq_head_ptr queue.rxq_clean_tail_ptr)) queue w
    exact ⟨q1, q2, q3, q4, q5⟩

theorem harvested_cpls_congr (q1 q2 : mqnic_rx_queue) (n : Nat)
    (h1 : q1.cpl_descriptors = q2.cpl_descriptors) (h2 : q1.cpl_tail_ptr = q2.cpl_tail_ptr)
    (h3 : q1.size_mask = q2.size_mask) : harvested_cpls q1 n = harvested_cpls q2 n := by
  have e : cpl_at q1 = cpl_at q2 := by
    funext j
    simp only [cpl_at, cpl_slot, h1, h2, h3]
  simp only [harvested_cpls, e]

/-- The hints a drain stores, on the value of the drain. -/
theorem rx_hints_decoded_in_order_val (data_off : Nat) (queue : mqnic_rx_queue) (w : world)
    (bufs : Nat → Nat) (num_bufs if_hint : Nat) (hints : Nat → nic_hints) (hint_count : Nat)
    (hif : if_hint ≠ 0) (htail : queue.cpl_tail_ptr < 4294967296)
    (hcap : (expected_hints (harvested_cpls queue
      (mqnic_rx_batch_hints_val data_off queue w bufs num_bufs if_hint hints hint_count).ret)).length
        ≤ 16) :
    (mqnic_rx_batch_hints_val data_off queue w bufs num_bufs if_hint hints hint_count).hint_count
        = (expected_hints (harvested_cpls queue
            (mqnic_rx_batch_hints_val data_off queue w bufs num_bufs if_hint hints
              hint_count).ret)).length ∧
      (∀ i hv,
        (expected_hints (harvested_cpls queue
          (mqnic_rx_batch_hints_val data_off queue w bufs num_bufs if_hint hints
            hint_count).ret))[i]? = some hv →
        (mqnic_rx_batch_hints_val data_off queue w bufs num_bufs if_hint hints hint_count).hints i
          = hv) ∧
      (∀ i,
        (expected_hints (harvested_cpls queue
          (mqnic_rx_batch_hints_val data_off queue w bufs num_bufs if_hint hints
            hint_count).ret)).length ≤ i →
        (mqnic_rx_batch_hints_val data_off queue w bufs num_bufs if_hint hints hint_count).hints i
          = hints i) := by
  obtain ⟨f1, f2, f3, _, _⟩ := mqnic_refill_rx_buffers_frame data_off queue w
  simp only [mqnic_rx_batch_hints_val, if_pos hif] at hcap ⊢
  generalize hs0 : (rx_batch_state.mk (mqnic_refill_rx_buffers_val data_off queue w).1
    (mqnic_refill_rx_buffers_val data_off queue w).2 bufs hints _ _ 0 _ _ 0) = s0 at *
  have e1 : s0.buf_index = 0 := by rw [← hs0]
  have e2 : s0.tmp_hint_count = 0 := by rw [← hs0]
  have e3 : s0.hints = hints := by rw [← hs0]
  have e4 : s0.cq_index = s0.cq_tail_ptr &&& s0.queue.size_mask := by rw [← hs0]
  have e5 : s0.cq_tail_ptr < 4294967296 := by rw [← hs0]; simpa [f2] using htail
  have e6 : ∀ n, harvested_cpls (loop_view s0) n = harvested_cpls queue n := by
    intro n
    apply harvested_cpls_congr
    · rw [← hs0]; exact f1
    · rw [← hs0]; exact f2
    · rw [← hs0]; exact f3
  have key := rx_batch_loop_hints_exact if_hint num_bufs hif num_bufs s0 e4 e5
  rw [e1, e2, e6, Nat.sub_zero] at key
  obtain ⟨h1, h2, h3⟩ := key (by omega)
  refine ⟨by omega, ?_, ?_⟩
  · intro i hv hi
    have := h2 i hv hi
    rwa [Nat.zero_add] at this
  · intro i hi
    rw [h3 i (Or.inr (by omega)), e3]

/-- C5: with `if_hint` set and at most 16 hint-carrying completions among the
harvested ones, a returning call of `mqnic_rx_batch_hints` stores, in completion
order from index 0, one hint per harvested completion whose `rx_hash` is
non-zero, decoded as `app_id = (rx_hash >> 4) & 0xff` and
`content = (rx_hash >> 16) & 0xffff`; it sets `hint_count` to the number of such
completions; completions with `rx_hash == 0` produce no hint, and the hints
array is untouched beyond the stored hints.  The call returns exactly when the
pool holds what its refill asks. -/
theorem rx_hints_decoded_in_order (data_off : Nat) (queue : mqnic_rx_queue) (w : world)
    (bufs : Nat → Nat) (num_bufs if_hint : Nat) (hints : Nat → nic_hints) (hint_count : Nat)
    (hif : if_hint ≠ 0) (htail : queue.cpl_tail_ptr < 4294967296) :
    ((∃ r, mqnic_rx_batch_hints data_off queue w bufs num_bufs if_hint hints hint_count
        = Except.ok r) ↔ refill_supplied queue w) ∧
    ∀ r, mqnic_rx_batch_hints data_off queue w bufs num_bufs if_hint hints hint_count
        = Except.ok r →
      (expected_hints (harvested_cpls queue r.ret)).length ≤ 16 →
      r.hint_count = (expected_hints (harvested_cpls queue r.ret)).length ∧
        (∀ i hv, (expected_hints (harvested_cpls queue r.ret))[i]? = some hv →
          r.hints i = hv) ∧
        (∀ i, (expected_hints (harvested_cpls queue r.ret)).length ≤ i →
          r.hints i = hints i) := by
  refine ⟨mqnic_rx_batch_hints_returns_iff data_off queue w bufs num_bufs if_hint hints
    hint_count, ?_⟩
  intro r hr
  have e := mqnic_rx_batch_hints_ok hr
  subst e
  intro hcap
  exact rx_hints_decoded_in_order_val data_off queue w bufs num_bufs if_hint hints hint_count
    hif htail hcap

/-- Witness for C5: on the sample queue, whose second completion carries
`rx_hash = 0x00120040`, the call returns, stores the hint `app_id = 4`,
`content = 0x0012` and reports `hint_count = 1`. -/
theorem rx_hints_decoded_in_order_witness :
    ∃ r,
      mqnic_rx_batch_hints 64 sample_rx_queue sample_world (fun _ => 0) 8 1
        (fun _ => ⟨0, 0⟩) 0 = Except.ok r ∧
      (1 : Nat) ≠ 0 ∧ sample_rx_queue.cpl_tail_ptr < 4294967296 ∧
      (expected_hints (harvested_cpls sample_rx_queue r.ret)).length ≤ 16 ∧
      r.hint_count = 1 ∧ r.hints 0 = ⟨4, 0x0012⟩ :=
  ⟨mqnic_rx_batch_hints_val 64 sample_rx_queue sample_world (fun _ => 0) 8 1
      (fun _ => ⟨0, 0⟩) 0,
    mqnic_rx_batch_hints_returns 64 sample_rx_queue sample_world (fun _ => 0) 8 1
      (fun _ => ⟨0, 0⟩) 0 (Or.inl (by decide)),
    by decide, by decide, by decide,
    ((rx_hints_decoded_in_order 64 sample_rx_queue sample_world (fun _ => 0) 8 1
      (fun _ => ⟨0, 0⟩) 0 (by decide) (by decide)).2 _
      (mqnic_rx_batch_hints_returns 64 sample_rx_queue sample_world (fun _ => 0) 8 1
        (fun _ => ⟨0, 0⟩) 0 (Or.inl (by decide))) (by decide)).1.trans (by decide),
    ((rx_hints_decoded_in_order 64 sample_rx_queue sample_world (fun _ => 0) 8 1
      (fun _ => ⟨0, 0⟩) 0 (by decide) (by decide)).2 _
      (mqnic_rx_batch_hints_returns 64 sample_rx_queue sample_world (fun _ => 0) 8 1
        (fun _ => ⟨0, 0⟩) 0 (Or.inl (by decide))) (by decide)).2.1 0 ⟨4, 0x0012⟩ (by decide)⟩

/-! ## TX: what the completion reap leaves untouched -/

theorem pkt_buf_free_frame (w : world) (buf : Nat) :
    (pkt_buf_free w buf).trace = w.trace ∧
      ∀ b, ((pkt_buf_free w buf).pkt_bufs b).size = (w.pkt_bufs b).size ∧
        ((pkt_buf_free w buf).pkt_bufs b).buf_addr_phy = (w.pkt_bufs b).buf_addr_phy := by
  unfold pkt_buf_free
  simp only
  split
  · refine ⟨rfl, fun b => ?_⟩
    by_cases h : b = buf <;> simp [upd, h]
  · refine ⟨rfl, fun b => ?_⟩
    by_cases h : b = buf <;> simp [upd, h]

theorem tx_cq_loop_frame (budget : Int) :
    ∀ (fuel : Nat) (s : tx_cq_state),
      (tx_cq_loop budget fuel s).queue.txq_head_ptr = s.queue.txq_head_ptr ∧
      (tx_cq_loop budget fuel s).queue.txq_tail_ptr = s.queue.txq_tail_ptr ∧
      (tx_cq_loop budget fuel s).queue.txq_clean_tail_ptr = s.queue.txq_clean_tail_ptr ∧
      (tx_cq_loop budget fuel s).queue.full_size = s.queue.full_size ∧
      (tx_cq_loop budget fuel s).queue.size = s.queue.size ∧
      (tx_cq_loop budget fuel s).queue.size_mask = s.queue.size_mask ∧
      (tx_cq_loop budget fuel s).queue.hw_ptr_mask = s.queue.hw_ptr_mask ∧
      (tx_cq_loop budget fuel s).queue.txq_addr = s.queue.txq_addr ∧
      (tx_cq_loop budget fuel s).queue.cpl_addr = s.queue.cpl_addr ∧
      (tx_cq_loop budget fuel s).w.trace = s.w.trace ∧
      ∀ b, ((tx_cq_loop budget fuel s).w.pkt_bufs b).size = (s.w.pkt_bufs b).size ∧
        ((tx_cq_loop budget fuel s).w.pkt_bufs b).buf_addr_phy = (s.w.pkt_bufs b).buf_addr_phy := by
  intro fuel
  induction fuel with
  | zero => intro s; exact ⟨rfl, rfl, rfl, rfl, rfl, rfl, rfl, rfl, rfl, rfl, fun _ => ⟨rfl, rfl⟩⟩
  | succ n ih =>
    intro s
    unfold tx_cq_loop
    split
    · obtain ⟨h1, h2, h3, h4, h5, h6, h7, h8, h9, h10, h11⟩ := ih (tx_cq_body s)
      obtain ⟨f1, f2⟩ := pkt_buf_free_frame s.w
        (s.queue.txq_virtual_addresses
          ((s.queue.cpl_descriptors s.cq_index).index &&& s.queue.size_mask))
      refine ⟨h1, h2, h3, h4, h5, h6, h7, h8, h9, h10.trans f1, fun b => ?_⟩
      exact ⟨(h11 b).1.trans (f2 b).1, (h11 b).2.trans (f2 b).2⟩
    · exact ⟨rfl, rfl, rfl, rfl, rfl, rfl, rfl, rfl, rfl, rfl, fun _ => ⟨rfl, rfl⟩⟩

theorem mqnic_process_tx_cq_frame (queue : mqnic_tx_queue) (w : world) (budget : Int)
    (r : Nat × mqnic_tx_queue × world) (hr : mqnic_process_tx_cq queue w budget = some r) :
    r.2.1.txq_head_ptr = queue.txq_head_ptr ∧
    r.2.1.full_size = queue.full_size ∧
    r.2.1.size = queue.size ∧
    r.2.1.size_mask = queue.size_mask ∧
    r.2.1.hw_ptr_mask = queue.hw_ptr_mask ∧
    r.2.1.txq_addr = queue.txq_addr ∧
    (∃ v, r.2.2.trace =
      w.trace ++ [event.set_reg32 queue.cpl_addr reg.MQNIC_CPL_QUEUE_TAIL_PTR_REG v]) ∧
    ∀ b, (r.2.2.pkt_bufs b).size = (w.pkt_bufs b).size ∧
      (r.2.2.pkt_bufs b).buf_addr_phy = (w.pkt_bufs b).buf_addr_phy := by
  unfold mqnic_process_tx_cq at hr
  simp only at hr
  split at hr
  · exact absurd hr (by simp)
  · simp only [Option.some.injEq] at hr
    subst hr
    simp only [mqnic_tx_cq_write_tail_ptr, set_reg32]
    generalize hs0 : (tx_cq_state.mk queue w _ _ 0 _) = s0
    have e1 : s0.queue = queue := by rw [← hs0]
    have e2 : s0.w = w := by rw [← hs0]
    obtain ⟨h1, h2, h3, h4, h5, h6, h7, h8, h9, h10, h11⟩ :=
      tx_cq_loop_frame budget budget.toNat s0
    rw [e1] at h1 h4 h5 h6 h7 h8 h9
    rw [e2] at h10 h11
    exact ⟨h1, h4, h5, h6, h7, h8, ⟨_, by rw [h10, h9]⟩, h11⟩

/-! ## TX: the enqueue loop -/

theorem tx_batch_loop_count (data_off : Nat) (bufs : Nat → Nat) (N : Nat) :
    ∀ (fuel : Nat) (s : tx_batch_state),
      s.queue.full_size < 4294967296 → s.sent ≤ N → N - s.sent ≤ fuel →
      (tx_batch_loop data_off bufs N fuel s).sent =
          s.sent + min (N - s.sent)
            (s.queue.full_size - sub32 s.queue.txq_head_ptr s.queue.txq_clean_tail_ptr) ∧
        (tx_batch_loop data_off bufs N fuel s).queue.txq_head_ptr =
          (if (tx_batch_loop data_off bufs N fuel s).sent = s.sent then s.queue.txq_head_ptr
           else wrap32 (s.queue.txq_head_ptr
             + ((tx_batch_loop data_off bufs N fuel s).sent - s.sent))) := by
  intro fuel
  induction fuel with
  | zero =>
    intro s _ h1 h2
    have : N - s.sent = 0 := by omega
    simp [tx_batch_loop, this]
  | succ n ih =>
    intro s hfs h1 h2
    unfold tx_batch_loop
    split
    · rename_i hlt
      split
      · rename_i hfull
        simp only [mqnic_is_tx_ring_full, decide_eq_true_eq] at hfull
        have : s.queue.full_size
            - sub32 s.queue.txq_head_ptr s.queue.txq_clean_tail_ptr = 0 := by omega
        simp [this]
      · rename_i hfull
        simp only [mqnic_is_tx_ring_full, decide_eq_true_eq, not_le] at hfull
        have hb1 : (tx_batch_body data_off bufs s).sent = s.sent + 1 := rfl
        have hb2 : (tx_batch_body data_off bufs s).queue.full_size = s.queue.full_size := rfl
        have hb3 : (tx_batch_body data_off bufs s).queue.txq_clean_tail_ptr
            = s.queue.txq_clean_tail_ptr := rfl
        have hb4 : (tx_batch_body data_off bufs s).queue.txq_head_ptr
            = wrap32 (s.queue.txq_head_ptr + 1) := rfl
        obtain ⟨i1, i2⟩ := ih (tx_batch_body data_off bufs s) (by rw [hb2]; exact hfs)
          (by rw [hb1]; omega) (by rw [hb1]; omega)
        simp only [hb1, hb2, hb3, hb4] at i1 i2
        have ho : sub32 (wrap32 (s.queue.txq_head_ptr + 1)) s.queue.txq_clean_tail_ptr
            = sub32 s.queue.txq_head_ptr s.queue.txq_clean_tail_ptr + 1 := by
          simp only [sub32, wrap32] at hfull ⊢
          omega
        rw [ho] at i1
        refine ⟨by omega, ?_⟩
        rw [i2]
        have hne : (tx_batch_loop data_off bufs N n (tx_batch_body data_off bufs s)).sent
            ≠ s.sent := by omega
        rw [if_neg hne]
        split
        · rename_i he
          rw [he]
          congr 1
          omega
        · simp only [wrap32]
          omega
    · rename_i hge
      have : N - s.sent = 0 := by omega
      simp [this]


/-- C6: whenever the completion reap `mqnic_process_tx_cq(queue, 64)` returns,
with `o = (txq_head_ptr - txq_clean_tail_ptr) mod 2^32` measured in the state it
leaves, `mqnic_tx_batch` called with `num_bufs` buffers returns `sent = 0` when
`o >= full_size` and `sent = min(num_bufs, full_size - o)` otherwise, and leaves
`txq_head_ptr` advanced by exactly `sent` (modulo `2^32`). -/
theorem tx_batch_sent_count (data_off : Nat) (queue : mqnic_tx_queue) (w : world)
    (bufs : Nat → Nat) (num_bufs : Nat) (r : Nat × mqnic_tx_queue × world)
    (hr : mqnic_process_tx_cq queue w 64 = some r)
    (hfs : queue.full_size < 4294967296) (hhead : queue.txq_head_ptr < 4294967296) :
    mqnic_tx_batch data_off queue w bufs num_bufs
        = some (tx_batch_enqueue data_off r.2.1 r.2.2 bufs num_bufs) ∧
      (tx_batch_enqueue data_off r.2.1 r.2.2 bufs num_bufs).1 =
        (if sub32 r.2.1.txq_head_ptr r.2.1.txq_clean_tail_ptr ≥ queue.full_size then 0
         else min num_bufs
           (queue.full_size - sub32 r.2.1.txq_head_ptr r.2.1.txq_clean_tail_ptr)) ∧
      (tx_batch_enqueue data_off r.2.1 r.2.2 bufs num_bufs).2.1.txq_head_ptr =
        wrap32 (queue.txq_head_ptr + (tx_batch_enqueue data_off r.2.1 r.2.2 bufs num_bufs).1) := by
  obtain ⟨f1, f2, _, _, _, _, _, _⟩ := mqnic_process_tx_cq_frame queue w 64 r hr
  refine ⟨by simp only [mqnic_tx_batch, hr], ?_⟩
  simp only [tx_batch_enqueue]
  generalize hs0 : (tx_batch_state.mk r.2.1 r.2.2 0 _) = s0
  have e1 : s0.queue = r.2.1 := by rw [← hs0]
  have e2 : s0.sent = 0 := by rw [← hs0]
  obtain ⟨h1, h2⟩ := tx_batch_loop_count data_off bufs num_bufs num_bufs s0
    (by rw [e1, f2]; exact hfs) (by omega) (by omega)
  simp only [e1, e2, f1, f2, Nat.zero_add, Nat.sub_zero] at h1 h2
  rw [f1]
  refine ⟨?_, ?_⟩
  · rw [h1]
    split
    · rename_i hge
      have : queue.full_size - sub32 queue.txq_head_ptr r.2.1.txq_clean_tail_ptr = 0 := by omega
      simp [this]
    · rfl
  · rw [h2]
    split
    · rename_i h0
      rw [h0]
      simp only [wrap32]
      omega
    · rfl

/-- Witness for C6: ring size 256, `full_size = 128`, 128 unreaped descriptors
and no completion pending; `tx_batch` of 10 buffers returns 0. -/
theorem tx_batch_sent_count_witness :
    mqnic_process_tx_cq sample_tx_queue sample_world 64 = some sample_tx_reaped ∧
      sample_tx_queue.full_size < 4294967296 ∧ sample_tx_queue.txq_head_ptr < 4294967296 ∧
      mqnic_tx_batch 64 sample_tx_queue sample_world (fun j => 2000 + j) 10
        = some (tx_batch_enqueue 64 sample_tx_reaped.2.1 sample_tx_reaped.2.2
            (fun j => 2000 + j) 10) ∧
      (tx_batch_enqueue 64 sample_tx_reaped.2.1 sample_tx_reaped.2.2
        (fun j => 2000 + j) 10).1 = 0 :=
  ⟨rfl, by decide, by decide,
    (tx_batch_sent_count 64 sample_tx_queue sample_world (fun j => 2000 + j) 10
      sample_tx_reaped rfl (by decide) (by decide)).1,
    (tx_batch_sent_count 64 sample_tx_queue sample_world (fun j => 2000 + j) 10
      sample_tx_reaped rfl (by decide) (by decide)).2.1.trans (by decide)⟩

/-! ## Ring index arithmetic -/

theorem and_mask_eq_mod (x size : Nat) (hs : is_ring_size size) :
    x &&& (size - 1) = x % size := by
  obtain ⟨k, _, rfl⟩ := hs
  exact Nat.and_pow_two_sub_one_eq_mod x k

theorem is_ring_size_pos (size : Nat) (hs : is_ring_size size) : 0 < size := by
  obtain ⟨k, _, rfl⟩ := hs
  exact Nat.pos_pow_of_pos k (by decide)

theorem is_ring_size_lt (size : Nat) (hs : is_ring_size size) : size < 4294967296 := by
  obtain ⟨k, hk, rfl⟩ := hs
  have : (2 : Nat) ^ k < 2 ^ 32 := Nat.pow_lt_pow_right (by decide) hk
  simpa using this

theorem wrap32_mod_size (x size : Nat) (hs : is_ring_size size) :
    wrap32 x % size = x % size := by
  obtain ⟨k, hk, rfl⟩ := hs
  have hd : (2 : Nat) ^ k ∣ 4294967296 := by
    have : (2 : Nat) ^ k ∣ 2 ^ 32 := Nat.pow_dvd_pow 2 (by omega)
    simpa using this
  unfold wrap32
  exact Nat.mod_mod_of_dvd x hd

theorem ring_slot_inj (a i j size : Nat) (hi : i < size) (hj : j < size)
    (h : (a + i) % size = (a + j) % size) : i = j := by
  have h1 : a + i ≡ a + j [MOD size] := h
  have h2 : i ≡ j [MOD size] := Nat.ModEq.add_left_cancel' a h1
  have h3 : i % size = j % size := h2
  rwa [Nat.mod_eq_of_lt hi, Nat.mod_eq_of_lt hj] at h3


/-! ## TX: what the enqueue loop writes -/

theorem enqueue_count_succ (bufs : Nat → Nat) (start n b : Nat) :
    enqueue_count bufs start (n + 1) b =
      (if bufs start = b then 1 else 0) + enqueue_count bufs (start + 1) n b := by
  unfold enqueue_count
  rw [List.range_succ_eq_map, List.countP_cons, List.countP_map]
  have e : ((fun j => decide (bufs (start + j) = b)) ∘ Nat.succ)
      = (fun j => decide (bufs (start + 1 + j) = b)) := by
    funext j
    simp only [Function.comp, Nat.succ_eq_add_one]
    congr 3
    omega
  rw [e]
  by_cases h : bufs start = b
  · simp [h]; omega
  · simp [h]

theorem tx_slot_zero (queue : mqnic_tx_queue) (h : queue.txq_head_ptr < 4294967296) :
    tx_slot queue 0 = queue.txq_head_ptr &&& queue.size_mask := by
  simp only [tx_slot, wrap32, Nat.add_zero, Nat.mod_eq_of_lt h]

theorem tx_slot_body (data_off : Nat) (bufs : Nat → Nat) (s : tx_batch_state) (j : Nat) :
    tx_slot (tx_batch_body data_off bufs s).queue j = tx_slot s.queue (j + 1) := by
  simp only [tx_slot, tx_batch_body, wrap32]
  congr 1
  omega

theorem tx_slot_eq_mod (queue : mqnic_tx_queue) (j : Nat)
    (hsz : is_ring_size queue.size)
    (hmask : queue.size_mask = queue.size - 1) :
    tx_slot queue j = (queue.txq_head_ptr + j) % queue.size := by
  unfold tx_slot
  rw [hmask, and_mask_eq_mod _ _ hsz, wrap32_mod_size _ _ hsz]

theorem tx_slot_ne (queue : mqnic_tx_queue) (i j : Nat)
    (hsz : is_ring_size queue.size)
    (hmask : queue.size_mask = queue.size - 1) (hi : i < queue.size) (hj : j < queue.size)
    (hne : i ≠ j) : tx_slot queue i ≠ tx_slot queue j := by
  rw [tx_slot_eq_mod queue i hsz hmask, tx_slot_eq_mod queue j hsz hmask]
  intro h
  exact hne (ring_slot_inj _ _ _ _ hi hj h)

theorem tx_desc_of_body (data_off : Nat) (bufs : Nat → Nat) (s : tx_batch_state) (b : Nat) :
    tx_desc_of data_off (tx_batch_body data_off bufs s).w b = tx_desc_of data_off s.w b := by
  simp only [tx_desc_of, tx_batch_body, upd]
  split
  · rename_i h; rw [h]
  · rfl

theorem tx_batch_loop_effect (data_off : Nat) (bufs : Nat → Nat) (N : Nat) :
    ∀ (fuel : Nat) (s L : tx_batch_state), L = tx_batch_loop data_off bufs N fuel s →
      is_ring_size s.queue.size →
      s.queue.size_mask = s.queue.size - 1 →
      s.txq_index = s.queue.txq_head_ptr &&& s.queue.size_mask →
      s.queue.txq_head_ptr < 4294967296 → s.queue.full_size < 4294967296 →
      s.queue.full_size - sub32 s.queue.txq_head_ptr s.queue.txq_clean_tail_ptr
        ≤ s.queue.size →
      s.sent ≤ N → N - s.sent ≤ fuel →
      (∀ j, j < L.sent - s.sent →
        L.queue.txq_descriptors (tx_slot s.queue j)
            = tx_desc_of data_off s.w (bufs (s.sent + j)) ∧
          L.queue.txq_virtual_addresses (tx_slot s.queue j) = bufs (s.sent + j)) ∧
      (∀ x, (∀ j, j < L.sent - s.sent → x ≠ tx_slot s.queue j) →
        L.queue.txq_descriptors x = s.queue.txq_descriptors x ∧
          L.queue.txq_virtual_addresses x = s.queue.txq_virtual_addresses x) ∧
      (∀ b, (L.w.pkt_bufs b).ref_count
        = (s.w.pkt_bufs b).ref_count + enqueue_count bufs s.sent (L.sent - s.sent) b) ∧
      L.w.trace = s.w.trace ++
        (List.range (L.sent - s.sent)).map (fun j => event.tx_desc_write (tx_slot s.queue j)) ∧
      L.queue.hw_ptr_mask = s.queue.hw_ptr_mask ∧ L.queue.txq_addr = s.queue.txq_addr := by
  intro fuel
  induction fuel with
  | zero =>
    intro s L hL _ _ _ _ _ _ _ _
    subst hL
    simp [tx_batch_loop, enqueue_count]
  | succ n ih =>
    intro s L hL hsz hmask hidx hhead hfs hroom hsent hfuel
    have hcount := tx_batch_loop_count data_off bufs N (n + 1) s hfs hsent hfuel
    unfold tx_batch_loop at hL hcount
    by_cases hc : s.sent < N
    · rw [if_pos hc] at hL hcount
      by_cases hfull : mqnic_is_tx_ring_full s.queue = true
      · rw [if_pos hfull] at hL
        subst hL
        simp [enqueue_count]
      · rw [if_neg hfull] at hL hcount
        have hfull2 : sub32 s.queue.txq_head_ptr s.queue.txq_clean_tail_ptr
            < s.queue.full_size := by
          simpa [mqnic_is_tx_ring_full] using hfull
        have ho : sub32 (wrap32 (s.queue.txq_head_ptr + 1)) s.queue.txq_clean_tail_ptr
            = sub32 s.queue.txq_head_ptr s.queue.txq_clean_tail_ptr + 1 := by
          simp only [sub32, wrap32] at hfull2 ⊢
          omega
        have hb1 : (tx_batch_body data_off bufs s).sent = s.sent + 1 := rfl
        have hb4 : (tx_batch_body data_off bufs s).queue.txq_head_ptr
            = wrap32 (s.queue.txq_head_ptr + 1) := rfl
        have hIH := ih (tx_batch_body data_off bufs s) L hL hsz hmask rfl
          (by rw [hb4]; simp only [wrap32]; omega) hfs
          (by
            show s.queue.full_size
              - sub32 (wrap32 (s.queue.txq_head_ptr + 1)) s.queue.txq_clean_tail_ptr
                ≤ s.queue.size
            rw [ho]; omega)
          (by rw [hb1]; omega) (by rw [hb1]; omega)
        rw [← hL] at hcount
        obtain ⟨hc1, _⟩ := hcount
        have hm : L.sent - s.sent = (L.sent - (s.sent + 1)) + 1 := by omega
        have hm' : L.sent - (s.sent + 1) < s.queue.size := by omega
        rw [hb1] at hIH
        obtain ⟨i1, i2, i3, i4, i5, i6⟩ := hIH
        have hs0 : tx_slot s.queue 0 = s.txq_index := by
          rw [tx_slot_zero s.queue hhead, hidx]
        have hne0 : ∀ j, j < L.sent - (s.sent + 1) →
            tx_slot s.queue 0 ≠ tx_slot (tx_batch_body data_off bufs s).queue j := by
          intro j hj
          rw [tx_slot_body]
          exact tx_slot_ne s.queue 0 (j + 1) hsz hmask (by omega) (by omega) (by omega)
        refine ⟨?_, ?_, ?_, ?_, i5, i6⟩
        · intro j hj
          cases j with
          | zero =>
            obtain ⟨f1, f2⟩ := i2 (tx_slot s.queue 0) hne0
            rw [f1, f2, hs0]
            simp [tx_batch_body, upd, tx_desc_of]
          | succ k =>
            obtain ⟨g1, g2⟩ := i1 k (by omega)
            rw [tx_slot_body, tx_desc_of_body] at g1
            rw [tx_slot_body] at g2
            have e : s.sent + 1 + k = s.sent + (k + 1) := by omega
            rw [e] at g1 g2
            exact ⟨g1, g2⟩
        · intro x hx
          have hx0 : x ≠ s.txq_index := by
            have := hx 0 (by omega)
            rwa [hs0] at this
          obtain ⟨f1, f2⟩ := i2 x (by
            intro j hj
            rw [tx_slot_body]
            exact hx (j + 1) (by omega))
          rw [f1, f2]
          simp [tx_batch_body, upd, hx0]
        · intro b
          rw [i3 b, hm, enqueue_count_succ]
          simp only [tx_batch_body, upd]
          by_cases hb : b = bufs s.sent
          · subst hb
            simp
            omega
          · have hb' : ¬ bufs s.sent = b := fun h => hb h.symm
            simp [hb, hb']
        · rw [i4, hm, List.range_succ_eq_map, List.map_cons, List.map_map]
          simp only [tx_batch_body, List.append_assoc, List.singleton_append, hs0]
          congr 2
          apply List.map_congr_left
          intro j _
          simp only [Function.comp]
          have := tx_slot_body data_off bufs s j
          simp only [tx_batch_body] at this
          rw [this]
    · rw [if_neg hc] at hL
      subst hL
      simp [enqueue_count]


/-- C7: whenever the completion reap returns, so that `mqnic_tx_batch` returns
`sent`, for each `j < sent` the descriptor at slot `(old txq_head_ptr + j) &
size_mask` holds `tx_csum_cmd = 0`, `len = bufs[j].size` and
`addr = bufs[j].buf_addr_phy + offsetof(payload)`, and `txq_virtual_addresses`
at that slot holds `bufs[j]`; the reference count of every buffer has grown, from
its value after the reap, by one for each of its enqueues; and after the single
CQ-tail write of the reap the call issues the `sent` descriptor writes, in order,
followed by exactly one write of the TXQ head register, with the value
`(new txq_head_ptr) & hw_ptr_mask`. -/
theorem tx_batch_descriptors_and_head_write (data_off : Nat) (queue : mqnic_tx_queue)
    (w : world) (bufs : Nat → Nat) (num_bufs : Nat) (r : Nat × mqnic_tx_queue × world)
    (hcfg : tx_ring_config queue) (hr : mqnic_process_tx_cq queue w 64 = some r) :
    mqnic_tx_batch data_off queue w bufs num_bufs
        = some (tx_batch_enqueue data_off r.2.1 r.2.2 bufs num_bufs) ∧
      (∀ j, j < (tx_batch_enqueue data_off r.2.1 r.2.2 bufs num_bufs).1 →
        (tx_batch_enqueue data_off r.2.1 r.2.2 bufs num_bufs).2.1.txq_descriptors
            (tx_slot queue j) = tx_desc_of data_off w (bufs j) ∧
          (tx_batch_enqueue data_off r.2.1 r.2.2 bufs num_bufs).2.1.txq_virtual_addresses
            (tx_slot queue j) = bufs j) ∧
      (∀ b, ((tx_batch_enqueue data_off r.2.1 r.2.2 bufs num_bufs).2.2.pkt_bufs b).ref_count
        = (r.2.2.pkt_bufs b).ref_count
          + enqueue_count bufs 0 (tx_batch_enqueue data_off r.2.1 r.2.2 bufs num_bufs).1 b) ∧
      (∃ v, (tx_batch_enqueue data_off r.2.1 r.2.2 bufs num_bufs).2.2.trace =
        w.trace ++ [event.set_reg32 queue.cpl_addr reg.MQNIC_CPL_QUEUE_TAIL_PTR_REG v] ++
          (List.range (tx_batch_enqueue data_off r.2.1 r.2.2 bufs num_bufs).1).map
            (fun j => event.tx_desc_write (tx_slot queue j)) ++
          [event.set_reg32 queue.txq_addr reg.MQNIC_QUEUE_HEAD_PTR_REG
            ((tx_batch_enqueue data_off r.2.1 r.2.2 bufs num_bufs).2.1.txq_head_ptr
              &&& queue.hw_ptr_mask)]) := by
  obtain ⟨c1, c3, c4, c5⟩ := hcfg
  have c2 := is_ring_size_lt _ c1
  obtain ⟨f1, f2, f3, f4, f5, f6, ⟨v, f7⟩, f8⟩ := mqnic_process_tx_cq_frame queue w 64 r hr
  refine ⟨by simp only [mqnic_tx_batch, hr], ?_⟩
  have hfull_le : queue.full_size ≤ queue.size := by
    rw [c4, Nat.shiftRight_eq_div_pow]
    exact Nat.div_le_self _ _
  have hslot : ∀ j, tx_slot r.2.1 j = tx_slot queue j := by
    intro j
    simp only [tx_slot, f1, f4]
  have hdesc : ∀ b, tx_desc_of data_off r.2.2 b = tx_desc_of data_off w b := by
    intro b
    simp only [tx_desc_of, (f8 b).1, (f8 b).2]
  simp only [tx_batch_enqueue, set_reg32]
  generalize hs0 : (tx_batch_state.mk r.2.1 r.2.2 0 _) = s0
  have e1 : s0.queue = r.2.1 := by rw [← hs0]
  have e2 : s0.sent = 0 := by rw [← hs0]
  have e3 : s0.w = r.2.2 := by rw [← hs0]
  have e4 : s0.txq_index = s0.queue.txq_head_ptr &&& s0.queue.size_mask := by rw [← hs0]
  have hcount := tx_batch_loop_count data_off bufs num_bufs num_bufs s0
    (by rw [e1, f2]; omega) (by omega) (by omega)
  have key := tx_batch_loop_effect data_off bufs num_bufs num_bufs s0 _ rfl
    (by rw [e1, f3]; exact c1) (by rw [e1, f3, f4]; exact c3) e4
    (by rw [e1, f1]; exact c5) (by rw [e1, f2]; omega) (by rw [e1, f2, f3]; omega)
    (by omega) (by omega)
  simp only [e1, e2, e3, Nat.sub_zero, Nat.zero_add, hslot, hdesc, f5, f6] at key hcount
  obtain ⟨k1, _, k3, k4, k5, k6⟩ := key
  obtain ⟨_, hh⟩ := hcount
  refine ⟨k1, k3, ⟨v, ?_⟩⟩
  rw [k4, f7, k5, k6]
  have hlt : (tx_batch_loop data_off bufs num_bufs num_bufs s0).queue.txq_head_ptr
      < 4294967296 := by
    rw [hh]
    split
    · rw [f1]; exact c5
    · simp only [wrap32]; omega
  have hand : (tx_batch_loop data_off bufs num_bufs num_bufs s0).queue.txq_head_ptr
      &&& queue.hw_ptr_mask < 4294967296 :=
    Nat.lt_of_le_of_lt Nat.and_le_left hlt
  simp only [wrap32, Nat.mod_eq_of_lt hand]

/-- Witness for C7: three buffers enqueued on an idle ring; `sent = 3`, the
descriptor at slot 0 describes `bufs[0]`, and the head register receives 3. -/
theorem tx_batch_descriptors_and_head_write_witness :
    tx_ring_config idle_tx_queue ∧
      mqnic_process_tx_cq idle_tx_queue sample_world 64 = some idle_tx_reaped ∧
      (tx_batch_enqueue 64 idle_tx_reaped.2.1 idle_tx_reaped.2.2 (fun j => 2000 + j) 3).1 = 3 ∧
      (tx_batch_enqueue 64 idle_tx_reaped.2.1 idle_tx_reaped.2.2
          (fun j => 2000 + j) 3).2.1.txq_descriptors (tx_slot idle_tx_queue 0)
        = tx_desc_of 64 sample_world 2000 :=
  ⟨by decide, rfl, by decide,
    ((tx_batch_descriptors_and_head_write 64 idle_tx_queue sample_world (fun j => 2000 + j) 3
      idle_tx_reaped (by decide) rfl).2.1 0 (by decide)).1⟩

/-! ## RX: the harvest loop on a ring with `k` published completions -/

theorem cpl_slot_view_zero (s : rx_batch_state)
    (hidx : s.cq_index = s.cq_tail_ptr &&& s.queue.size_mask)
    (hlt : s.cq_tail_ptr < 4294967296) : cpl_slot (loop_view s) 0 = s.cq_index := by
  simp only [cpl_slot, loop_view, wrap32, Nat.add_zero, Nat.mod_eq_of_lt hlt, hidx]

theorem cpl_slot_body (if_hint : Nat) (s : rx_batch_state) (j : Nat) :
    cpl_slot (loop_view (rx_batch_body if_hint s)) j = cpl_slot (loop_view s) (j + 1) := by
  simp only [cpl_slot, loop_view, rx_batch_body, wrap32]
  congr 1
  omega

theorem cpl_slot_eq_mod (queue : mqnic_rx_queue) (j : Nat) (hsz : is_ring_size queue.size)
    (hmask : queue.size_mask = queue.size - 1) :
    cpl_slot queue j = (queue.cpl_tail_ptr + j) % queue.size := by
  unfold cpl_slot
  rw [hmask, and_mask_eq_mod _ _ hsz, wrap32_mod_size _ _ hsz]

theorem cpl_slot_ne (queue : mqnic_rx_queue) (i j : Nat) (hsz : is_ring_size queue.size)
    (hmask : queue.size_mask = queue.size - 1) (hi : i < queue.size) (hj : j < queue.size)
    (hne : i ≠ j) : cpl_slot queue i ≠ cpl_slot queue j := by
  rw [cpl_slot_eq_mod queue i hsz hmask, cpl_slot_eq_mod queue j hsz hmask]
  intro h
  exact hne (ring_slot_inj _ _ _ _ hi hj h)

theorem cpl_slot_size (queue : mqnic_rx_queue) (hsz : is_ring_size queue.size)
    (hmask : queue.size_mask = queue.size - 1) :
    cpl_slot queue queue.size = cpl_slot queue 0 := by
  rw [cpl_slot_eq_mod queue _ hsz hmask, cpl_slot_eq_mod queue 0 hsz hmask, Nat.add_mod_right,
    Nat.add_zero]

theorem rx_batch_body_cpl (if_hint : Nat) (s : rx_batch_state) (x : Nat) :
    (rx_batch_body if_hint s).queue.cpl_descriptors x =
      if x = s.cq_index then { (s.queue.cpl_descriptors s.cq_index) with len := 0 }
      else s.queue.cpl_descriptors x := rfl

theorem rx_batch_body_virt (if_hint : Nat) (s : rx_batch_state) (x : Nat) :
    (rx_batch_body if_hint s).queue.rxq_virtual_addresses x =
      if x = (s.queue.cpl_descriptors s.cq_index).index &&& s.queue.size_mask then 0
      else s.queue.rxq_virtual_addresses x := rfl

theorem rx_batch_body_pkt_bufs (if_hint : Nat) (s : rx_batch_state) (p : Nat) :
    (rx_batch_body if_hint s).w.pkt_bufs p =
      if p = s.queue.rxq_virtual_addresses
          ((s.queue.cpl_descriptors s.cq_index).index &&& s.queue.size_mask) then
        { (s.w.pkt_bufs p) with size := (s.queue.cpl_descriptors s.cq_index).len }
      else s.w.pkt_bufs p := by
  simp only [rx_batch_body, upd]
  split
  · rename_i h
    subst h
    simp
  · rfl

theorem rx_batch_body_inv (if_hint : Nat) (s : rx_batch_state) (hnb : s.next_batch = 0) :
    (rx_batch_body if_hint s).cq_index
        = (rx_batch_body if_hint s).cq_tail_ptr &&& (rx_batch_body if_hint s).queue.size_mask ∧
      (rx_batch_body if_hint s).cq_tail_ptr < 4294967296 ∧
      (rx_batch_body if_hint s).next_batch = 0 ∧
      (rx_batch_body if_hint s).if_next =
        decide (((rx_batch_body if_hint s).queue.cpl_descriptors
          (rx_batch_body if_hint s).cq_index).len ≠ 0) := by
  refine ⟨rfl, by simp only [rx_batch_body, wrap32]; omega, ?_, ?_⟩
  · simp only [rx_batch_body, hnb, RXCQ_BYPASS_BATCH]
    rfl
  · have hle : wrap32 (s.cq_tail_ptr + 1) &&& s.queue.size_mask < 4294967296 := by
      apply Nat.lt_of_le_of_lt Nat.and_le_left
      simp only [wrap32]; omega
    have e : wrap32 ((wrap32 (s.cq_tail_ptr + 1) &&& s.queue.size_mask) + RXCQ_BYPASS_BATCH)
        &&& s.queue.size_mask = wrap32 (s.cq_tail_ptr + 1) &&& s.queue.size_mask := by
      simp only [RXCQ_BYPASS_BATCH, Nat.add_zero]
      rw [show wrap32 (wrap32 (s.cq_tail_ptr + 1) &&& s.queue.size_mask)
          = wrap32 (s.cq_tail_ptr + 1) &&& s.queue.size_mask from Nat.mod_eq_of_lt hle,
        Nat.and_assoc, Nat.and_self]
    simp only [rx_batch_body, hnb, ne_eq, not_true_eq_false, if_false, e]

theorem rx_batch_loop_frame (if_hint N : Nat) :
    ∀ (fuel : Nat) (s : rx_batch_state),
      (rx_batch_loop if_hint N fuel s).queue.rxq_tail_ptr = s.queue.rxq_tail_ptr ∧
      (rx_batch_loop if_hint N fuel s).queue.cpl_tail_ptr = s.queue.cpl_tail_ptr ∧
      (rx_batch_loop if_hint N fuel s).queue.size_mask = s.queue.size_mask ∧
      (rx_batch_loop if_hint N fuel s).queue.accumulated_cq_updates
        = s.queue.accumulated_cq_updates ∧
      (rx_batch_loop if_hint N fuel s).w.trace = s.w.trace := by
  intro fuel
  induction fuel with
  | zero => intro s; exact ⟨rfl, rfl, rfl, rfl, rfl⟩
  | succ n ih =>
    intro s
    unfold rx_batch_loop
    split
    · exact ih (rx_batch_body if_hint s)
    · exact ⟨rfl, rfl, rfl, rfl, rfl⟩

theorem cpl_at_body (if_hint : Nat) (s : rx_batch_state) (j : Nat)
    (hsz : is_ring_size s.queue.size) (hmask : s.queue.size_mask = s.queue.size - 1)
    (hidx : s.cq_index = s.cq_tail_ptr &&& s.queue.size_mask)
    (hlt : s.cq_tail_ptr < 4294967296) (hj : j + 1 < s.queue.size) :
    cpl_at (loop_view (rx_batch_body if_hint s)) j = cpl_at (loop_view s) (j + 1) := by
  have hne : cpl_slot (loop_view s) (j + 1) ≠ s.cq_index := by
    rw [← cpl_slot_view_zero s hidx hlt]
    exact cpl_slot_ne (loop_view s) (j + 1) 0 hsz hmask hj (is_ring_size_pos _ hsz) (by omega)
  show (rx_batch_body if_hint s).queue.cpl_descriptors
      (cpl_slot (loop_view (rx_batch_body if_hint s)) j) = _
  rw [cpl_slot_body, rx_batch_body_cpl, if_neg hne]
  rfl


theorem rx_batch_loop_exact (if_hint N : Nat) :
    ∀ (fuel : Nat) (s L : rx_batch_state) (k : Nat), L = rx_batch_loop if_hint N fuel s →
      is_ring_size s.queue.size → s.queue.size_mask = s.queue.size - 1 →
      s.cq_index = s.cq_tail_ptr &&& s.queue.size_mask → s.cq_tail_ptr < 4294967296 →
      s.next_batch = 0 →
      s.if_next = decide ((s.queue.cpl_descriptors s.cq_index).len ≠ 0) →
      k ≤ s.queue.size →
      (∀ j, j < k → (cpl_at (loop_view s) j).len ≠ 0) →
      (k < s.queue.size → (cpl_at (loop_view s) k).len = 0) →
      (∀ i j, i < k → j < k →
        s.queue.rxq_virtual_addresses (rxq_slot (loop_view s) i)
          = s.queue.rxq_virtual_addresses (rxq_slot (loop_view s) j) → i = j) →
      s.buf_index ≤ N → N - s.buf_index ≤ fuel →
      L.buf_index = s.buf_index + min k (N - s.buf_index) ∧
      L.cq_tail_ptr = wrap32 (s.cq_tail_ptr + min k (N - s.buf_index)) ∧
      (∀ j, j < min k (N - s.buf_index) →
        L.bufs (s.buf_index + j) = s.queue.rxq_virtual_addresses (rxq_slot (loop_view s) j) ∧
        (L.w.pkt_bufs (s.queue.rxq_virtual_addresses (rxq_slot (loop_view s) j))).size
          = (cpl_at (loop_view s) j).len ∧
        L.queue.rxq_virtual_addresses (rxq_slot (loop_view s) j) = 0) ∧
      (∀ p, (∀ j, j < min k (N - s.buf_index) →
          p ≠ s.queue.rxq_virtual_addresses (rxq_slot (loop_view s) j)) →
        L.w.pkt_bufs p = s.w.pkt_bufs p) ∧
      (∀ x, (∀ j, j < min k (N - s.buf_index) → x ≠ rxq_slot (loop_view s) j) →
        L.queue.rxq_virtual_addresses x = s.queue.rxq_virtual_addresses x) := by
  intro fuel
  induction fuel with
  | zero =>
    intro s L k hL _ _ _ hlt _ _ _ _ _ _ hb hf
    have h0 : min k (N - s.buf_index) = 0 := by omega
    have hLs : L = s := hL
    rw [h0, hLs]
    exact ⟨rfl, by simp only [Nat.add_zero, wrap32, Nat.mod_eq_of_lt hlt],
      fun j hj => absurd hj (Nat.not_lt_zero j), fun _ _ => rfl, fun _ _ => rfl⟩
  | succ n ih =>
    intro s L k hL hsz hmask hidx hlt hnb hnext hk hnz hz hinj hb hf
    have hpos := is_ring_size_pos _ hsz
    have hslot0 := cpl_slot_view_zero s hidx hlt
    have hat0 : cpl_at (loop_view s) 0 = s.queue.cpl_descriptors s.cq_index := by
      show s.queue.cpl_descriptors (cpl_slot (loop_view s) 0) = _
      rw [hslot0]
    unfold rx_batch_loop at hL
    by_cases hstop : k = 0 ∨ s.buf_index = N
    · -- nothing to harvest, or no room left
      have hcond : ¬ (s.if_next = true ∧ s.buf_index < N) := by
        rintro ⟨h1, h2⟩
        rcases hstop with h | h
        · have := hz (by omega)
          rw [h, hat0] at this
          rw [hnext] at h1
          simp [this] at h1
        · omega
      rw [if_neg hcond] at hL
      have h0 : min k (N - s.buf_index) = 0 := by omega
      rw [h0, hL]
      exact ⟨rfl, by simp only [Nat.add_zero, wrap32, Nat.mod_eq_of_lt hlt],
        fun j hj => absurd hj (Nat.not_lt_zero j), fun _ _ => rfl, fun _ _ => rfl⟩
    · -- one completion is harvested, then the rest of the loop
      have hk1 : 1 ≤ k := by omega
      have hbN : s.buf_index < N := by omega
      have hlen0 : (s.queue.cpl_descriptors s.cq_index).len ≠ 0 := by
        rw [← hat0]; exact hnz 0 (by omega)
      have hcond : s.if_next = true ∧ s.buf_index < N := by
        refine ⟨?_, hbN⟩
        rw [hnext]
        simpa using hlen0
      rw [if_pos hcond] at hL
      obtain ⟨b1, b2, b3, b4⟩ := rx_batch_body_inv if_hint s hnb
      have hr0 : rxq_slot (loop_view s) 0
          = (s.queue.cpl_descriptors s.cq_index).index &&& s.queue.size_mask := by
        show (cpl_at (loop_view s) 0).index &&& s.queue.size_mask = _
        rw [hat0]
      have hatS : ∀ j, j + 1 < s.queue.size →
          cpl_at (loop_view (rx_batch_body if_hint s)) j = cpl_at (loop_view s) (j + 1) :=
        fun j hj => cpl_at_body if_hint s j hsz hmask hidx hlt hj
      have hrS : ∀ j, j + 1 < s.queue.size →
          rxq_slot (loop_view (rx_batch_body if_hint s)) j = rxq_slot (loop_view s) (j + 1) := by
        intro j hj
        show (cpl_at (loop_view (rx_batch_body if_hint s)) j).index &&& s.queue.size_mask = _
        rw [hatS j hj]
        rfl
      have hrne : ∀ j, 1 ≤ j → j < k → rxq_slot (loop_view s) j ≠ rxq_slot (loop_view s) 0 := by
        intro j hj1 hjk he
        have := hinj j 0 hjk (by omega) (by rw [he])
        omega
      have hvS : ∀ j, 1 ≤ j → j < k →
          (rx_batch_body if_hint s).queue.rxq_virtual_addresses (rxq_slot (loop_view s) j)
            = s.queue.rxq_virtual_addresses (rxq_slot (loop_view s) j) := by
        intro j hj1 hjk
        rw [rx_batch_body_virt, ← hr0, if_neg (hrne j hj1 hjk)]
      have hIH := ih (rx_batch_body if_hint s) L (k - 1) hL hsz hmask b1 b2 b3 b4 (by
          show k - 1 ≤ s.queue.size
          omega)
        (by
          intro j hj
          rw [hatS j (by omega)]
          exact hnz (j + 1) (by omega))
        (by
          intro _
          show ((rx_batch_body if_hint s).queue.cpl_descriptors
            (cpl_slot (loop_view (rx_batch_body if_hint s)) (k - 1))).len = 0
          rw [cpl_slot_body, rx_batch_body_cpl]
          split
          · rfl
          · rename_i hne
            have e : k - 1 + 1 = k := by omega
            rw [e] at hne ⊢
            by_cases hks : k < s.queue.size
            · exact hz hks
            · exfalso
              apply hne
              have : k = s.queue.size := by omega
              rw [this, ← hslot0]
              exact cpl_slot_size (loop_view s) hsz hmask)
        (by
          intro i j hi hj he
          rw [hrS i (by omega), hrS j (by omega), hvS (i + 1) (by omega) (by omega),
            hvS (j + 1) (by omega) (by omega)] at he
          have := hinj (i + 1) (j + 1) (by omega) (by omega) he
          omega)
        (by rw [rx_batch_body_buf_index]; omega) (by rw [rx_batch_body_buf_index]; omega)
      rw [rx_batch_body_buf_index] at hIH
      have hmin : min k (N - s.buf_index) = min (k - 1) (N - (s.buf_index + 1)) + 1 := by omega
      obtain ⟨i1, i2, i3, i4, i5⟩ := hIH
      have hp0 : ∀ j, j < min (k - 1) (N - (s.buf_index + 1)) →
          s.queue.rxq_virtual_addresses (rxq_slot (loop_view s) 0) ≠
            (rx_batch_body if_hint s).queue.rxq_virtual_addresses
              (rxq_slot (loop_view (rx_batch_body if_hint s)) j) := by
        intro j hj he
        rw [hrS j (by omega), hvS (j + 1) (by omega) (by omega)] at he
        have := hinj 0 (j + 1) (by omega) (by omega) he
        omega
      have hx0 : ∀ j, j < min (k - 1) (N - (s.buf_index + 1)) →
          rxq_slot (loop_view s) 0 ≠ rxq_slot (loop_view (rx_batch_body if_hint s)) j := by
        intro j hj
        rw [hrS j (by omega)]
        exact (hrne (j + 1) (by omega) (by omega)).symm
      refine ⟨by omega, ?_, ?_, ?_, ?_⟩
      · rw [i2, hmin]
        simp only [rx_batch_body, wrap32]
        omega
      · intro j hj
        cases j with
        | zero =>
          refine ⟨?_, ?_, ?_⟩
          · rw [Nat.add_zero, hL, rx_batch_loop_bufs_frame if_hint N n _ _
              (Or.inl (by rw [rx_batch_body_buf_index]; omega)), rx_batch_body_bufs, hr0]
            simp [upd]
          · rw [i4 _ hp0, rx_batch_body_pkt_bufs, ← hr0, if_pos rfl, hat0]
          · rw [i5 _ hx0, rx_batch_body_virt, ← hr0, if_pos rfl]
        | succ m =>
          obtain ⟨g1, g2, g3⟩ := i3 m (by omega)
          rw [hrS m (by omega), hvS (m + 1) (by omega) (by omega)] at g1 g2
          rw [hrS m (by omega)] at g3
          rw [hatS m (by omega)] at g2
          have e : s.buf_index + 1 + m = s.buf_index + (m + 1) := by omega
          rw [e] at g1
          exact ⟨g1, g2, g3⟩
      · intro p hp
        rw [i4 p (by
          intro j hj
          rw [hrS j (by omega), hvS (j + 1) (by omega) (by omega)]
          exact hp (j + 1) (by omega)), rx_batch_body_pkt_bufs, ← hr0,
          if_neg (hp 0 (by omega))]
      · intro x hx
        rw [i5 x (by
          intro j hj
          rw [hrS j (by omega)]
          exact hx (j + 1) (by omega)), rx_batch_body_virt, ← hr0, if_neg (hx 0 (by omega))]

/-! ## RX: the refill does not disturb the posted window -/

theorem mqnic_prepare_rx_desc_size (data_off : Nat) (queue : mqnic_rx_queue) (w : world)
    (index : Nat) : (mqnic_prepare_rx_desc_val data_off queue w index).2.1.size = queue.size := by
  unfold mqnic_prepare_rx_desc_val
  simp only
  split <;> rfl

theorem refill_loop_size (data_off : Nat) :
    ∀ (missing : Nat) (queue : mqnic_rx_queue) (w : world),
      (refill_loop_val data_off missing queue w).1.size = queue.size := by
  intro missing
  induction missing with
  | zero => intro queue w; rfl
  | succ m ih =>
    intro queue w
    unfold refill_loop_val
    simp only
    split
    · exact mqnic_prepare_rx_desc_size data_off queue w _
    · rw [ih]
      exact mqnic_prepare_rx_desc_size data_off queue w _

theorem mqnic_refill_rx_buffers_size (data_off : Nat) (queue : mqnic_rx_queue) (w : world) :
    (mqnic_refill_rx_buffers_val data_off queue w).1.size = queue.size := by
  unfold mqnic_refill_rx_buffers_val
  simp only
  split
  · rfl
  · exact refill_loop_size data_off _ queue w

theorem mqnic_refill_rx_buffers_window (data_off : Nat) (queue : mqnic_rx_queue) (w : world)
    (hsz : is_ring_size queue.size) (hmask : queue.size_mask = queue.size - 1)
    (hhead : queue.rxq_head_ptr < 4294967296)
    (hocc : sub32 queue.rxq_head_ptr queue.rxq_clean_tail_ptr ≤ queue.size)
    (t : Nat) (ht : t < sub32 queue.rxq_head_ptr queue.rxq_clean_tail_ptr) :
    (mqnic_refill_rx_buffers_val data_off queue w).1.rxq_virtual_addresses
        (wrap32 (queue.rxq_clean_tail_ptr + t) &&& queue.size_mask)
      = queue.rxq_virtual_addresses
        (wrap32 (queue.rxq_clean_tail_ptr + t) &&& queue.size_mask) := by
  have hlt := is_ring_size_lt _ hsz
  unfold mqnic_refill_rx_buffers_val
  simp only
  split
  · rfl
  · apply refill_loop_virt_frame data_off _ queue w hhead
    intro t' ht'
    have hmiss : sub32 queue.size (sub32 queue.rxq_head_ptr queue.rxq_clean_tail_ptr)
        = queue.size - sub32 queue.rxq_head_ptr queue.rxq_clean_tail_ptr := by
      simp only [sub32] at hocc ⊢
      omega
    rw [hmiss] at ht'
    rw [hmask, and_mask_eq_mod _ _ hsz, and_mask_eq_mod _ _ hsz, wrap32_mod_size _ _ hsz,
      wrap32_mod_size _ _ hsz]
    have e1 : (queue.rxq_head_ptr + t') % queue.size
        = (queue.rxq_clean_tail_ptr
            + (sub32 queue.rxq_head_ptr queue.rxq_clean_tail_ptr + t')) % queue.size := by
      rw [← wrap32_mod_size (queue.rxq_head_ptr + t') _ hsz,
        ← wrap32_mod_size (queue.rxq_clean_tail_ptr + _) _ hsz]
      congr 1
      simp only [wrap32, sub32]
      omega
    rw [e1]
    intro h
    have := ring_slot_inj _ _ _ _ (by omega) (by omega) h
    omega

theorem rx_update_cq_tail_frame (queue : mqnic_rx_queue) (w : world)
    (buf_index cq_tail_ptr : Nat) :
    (rx_update_cq_tail queue w buf_index cq_tail_ptr).1.rxq_virtual_addresses
        = queue.rxq_virtual_addresses ∧
      (rx_update_cq_tail queue w buf_index cq_tail_ptr).1.rxq_tail_ptr = queue.rxq_tail_ptr ∧
      (rx_update_cq_tail queue w buf_index cq_tail_ptr).2.pkt_bufs = w.pkt_bufs ∧
      (rx_update_cq_tail queue w buf_index cq_tail_ptr).1.cpl_tail_ptr
        = (if buf_index ≠ 0 then cq_tail_ptr else queue.cpl_tail_ptr) := by
  unfold rx_update_cq_tail
  by_cases h : buf_index ≠ 0
  · rw [if_pos h, if_pos h]
    simp only
    split <;> exact ⟨rfl, rfl, rfl, rfl⟩
  · rw [if_neg h, if_neg h]
    exact ⟨rfl, rfl, rfl, rfl⟩


theorem rxq_slot_lt (queue : mqnic_rx_queue) (j : Nat) (hsz : is_ring_size queue.size)
    (hmask : queue.size_mask = queue.size - 1) : rxq_slot queue j < queue.size := by
  unfold rxq_slot
  rw [hmask, and_mask_eq_mod _ _ hsz]
  exact Nat.mod_lt _ (is_ring_size_pos _ hsz)

/-- The harvest of the available completions, on the value of the drain. -/
theorem rx_batch_harvests_available_val (data_off : Nat) (queue : mqnic_rx_queue) (w : world)
    (bufs : Nat → Nat) (num_bufs if_hint : Nat) (hints : Nat → nic_hints) (hint_count : Nat)
    (k : Nat) (hinv : rx_ring_inv queue) (hk : k ≤ queue.size)
    (hnz : ∀ j, j < k → (cpl_at queue j).len ≠ 0)
    (hz : k < queue.size → (cpl_at queue k).len = 0)
    (hnn : ∀ j, j < k → queue.rxq_virtual_addresses (rxq_slot queue j) ≠ 0)
    (hdist : ∀ i, i < k → ∀ j, j < k → rxq_slot queue i = rxq_slot queue j → i = j) :
    (mqnic_rx_batch_hints_val data_off queue w bufs num_bufs if_hint hints hint_count).ret
        = min k num_bufs ∧
      (∀ j, j < min k num_bufs →
        (mqnic_rx_batch_hints_val data_off queue w bufs num_bufs if_hint hints hint_count).bufs j
            = queue.rxq_virtual_addresses (rxq_slot queue j) ∧
          ((mqnic_rx_batch_hints_val data_off queue w bufs num_bufs if_hint hints
              hint_count).w.pkt_bufs
            ((mqnic_rx_batch_hints_val data_off queue w bufs num_bufs if_hint hints
              hint_count).bufs j)).size = (cpl_at queue j).len ∧
          (mqnic_rx_batch_hints_val data_off queue w bufs num_bufs if_hint hints
            hint_count).queue.rxq_virtual_addresses (rxq_slot queue j) = 0) ∧
      (mqnic_rx_batch_hints_val data_off queue w bufs num_bufs if_hint hints
          hint_count).queue.cpl_tail_ptr = wrap32 (queue.cpl_tail_ptr + min k num_bufs) ∧
      (mqnic_rx_batch_hints_val data_off queue w bufs num_bufs if_hint hints
          hint_count).queue.rxq_tail_ptr = wrap32 (queue.rxq_tail_ptr + min k num_bufs) := by
  obtain ⟨hsz, hmask, hhead, htail, _, hcpl, hocc, hwin, huniq⟩ := hinv
  obtain ⟨f1, f2, f3, f4, f5⟩ := mqnic_refill_rx_buffers_frame data_off queue w
  have f6 := mqnic_refill_rx_buffers_size data_off queue w
  -- the named slots lie in the posted window, which the refill leaves alone
  have hvirt : ∀ j, j < k →
      (mqnic_refill_rx_buffers_val data_off queue w).1.rxq_virtual_addresses (rxq_slot queue j)
        = queue.rxq_virtual_addresses (rxq_slot queue j) := by
    intro j hj
    obtain ⟨t, ht, he⟩ := (hwin _ (rxq_slot_lt queue j hsz hmask)).1 (hnn j hj)
    rw [he]
    exact mqnic_refill_rx_buffers_window data_off queue w hsz hmask hhead hocc t ht
  simp only [mqnic_rx_batch_hints_val]
  generalize hs0 : (rx_batch_state.mk (mqnic_refill_rx_buffers_val data_off queue w).1
    (mqnic_refill_rx_buffers_val data_off queue w).2 bufs hints _ _ 0 _ _ 0) = s0
  have e1 : s0.queue = (mqnic_refill_rx_buffers_val data_off queue w).1 := by rw [← hs0]
  have e2 : s0.buf_index = 0 := by rw [← hs0]
  have e3 : s0.w = (mqnic_refill_rx_buffers_val data_off queue w).2 := by rw [← hs0]
  have e4 : s0.cq_tail_ptr = queue.cpl_tail_ptr := by rw [← hs0]; exact f2
  have e5 : s0.cq_index = s0.cq_tail_ptr &&& s0.queue.size_mask := by rw [← hs0]
  have e6 : s0.next_batch = 0 := by rw [← hs0]; rfl
  have e7 : s0.if_next = decide ((s0.queue.cpl_descriptors s0.cq_index).len ≠ 0) := by
    have hle : (mqnic_refill_rx_buffers_val data_off queue w).1.cpl_tail_ptr
        &&& (mqnic_refill_rx_buffers_val data_off queue w).1.size_mask < 4294967296 := by
      apply Nat.lt_of_le_of_lt Nat.and_le_left
      rw [f2]; exact hcpl
    have e : wrap32 (((mqnic_refill_rx_buffers_val data_off queue w).1.cpl_tail_ptr
          &&& (mqnic_refill_rx_buffers_val data_off queue w).1.size_mask) + RXCQ_BYPASS_BATCH)
          &&& (mqnic_refill_rx_buffers_val data_off queue w).1.size_mask
        = (mqnic_refill_rx_buffers_val data_off queue w).1.cpl_tail_ptr
          &&& (mqnic_refill_rx_buffers_val data_off queue w).1.size_mask := by
      simp only [RXCQ_BYPASS_BATCH, Nat.add_zero]
      rw [show wrap32 ((mqnic_refill_rx_buffers_val data_off queue w).1.cpl_tail_ptr
            &&& (mqnic_refill_rx_buffers_val data_off queue w).1.size_mask)
          = (mqnic_refill_rx_buffers_val data_off queue w).1.cpl_tail_ptr
            &&& (mqnic_refill_rx_buffers_val data_off queue w).1.size_mask
          from Nat.mod_eq_of_lt hle, Nat.and_assoc, Nat.and_self]
    rw [← hs0]
    simp only [e]
  have hat : ∀ j, cpl_at (loop_view s0) j = cpl_at queue j := by
    intro j
    simp only [cpl_at, cpl_slot, loop_view, e1, e4, f1, f3]
  have hrs : ∀ j, rxq_slot (loop_view s0) j = rxq_slot queue j := by
    intro j
    simp only [rxq_slot, hat]
    simp only [loop_view, e1, f3]
  have hbd : ∀ i j, i < k → j < k →
      queue.rxq_virtual_addresses (rxq_slot queue i)
        = queue.rxq_virtual_addresses (rxq_slot queue j) → i = j := by
    intro i j hi hj he
    exact hdist i hi j hj
      (huniq _ (rxq_slot_lt queue i hsz hmask) _ (rxq_slot_lt queue j hsz hmask) (hnn i hi) he)
  have key := rx_batch_loop_exact if_hint num_bufs num_bufs s0 _ k rfl
    (by rw [e1, f6]; exact hsz) (by rw [e1, f6, f3]; exact hmask) e5 (by rw [e4]; exact hcpl)
    e6 e7 (by rw [e1, f6]; exact hk)
    (by intro j hj; rw [hat]; exact hnz j hj)
    (by intro h; rw [hat]; rw [e1, f6] at h; exact hz h)
    (by
      intro i j hi hj he
      rw [hrs, hrs, e1, hvirt i hi, hvirt j hj] at he
      exact hbd i j hi hj he)
    (by omega) (by omega)
  have hframe := rx_batch_loop_frame if_hint num_bufs num_bufs s0
  generalize rx_batch_loop if_hint num_bufs num_bufs s0 = L at key hframe ⊢
  obtain ⟨k1, k2, k3, _, _⟩ := key
  obtain ⟨u1, u2, u3, u4⟩ := rx_update_cq_tail_frame L.queue L.w L.buf_index L.cq_tail_ptr
  obtain ⟨l1, l2, _, _, _⟩ := hframe
  rw [e1, f4] at l1
  rw [e1, f2] at l2
  simp only [e2, e4, Nat.zero_add, Nat.sub_zero] at k1 k2 k3
  refine ⟨k1, ?_, ?_, ?_⟩
  · intro j hj
    obtain ⟨g1, g2, g3⟩ := k3 j hj
    rw [hrs, e1, hvirt j (by omega)] at g1 g2
    rw [hrs] at g3
    rw [hat] at g2
    refine ⟨g1, ?_, ?_⟩
    · rw [u3, g1]; exact g2
    · show (rx_update_cq_tail L.queue L.w L.buf_index L.cq_tail_ptr).1.rxq_virtual_addresses
        (rxq_slot queue j) = 0
      rw [u1]; exact g3
  · show (rx_update_cq_tail L.queue L.w L.buf_index L.cq_tail_ptr).1.cpl_tail_ptr = _
    rw [u4]
    split
    · exact k2
    · rename_i h0
      have hL0 : L.buf_index = 0 := by simpa using h0
      rw [l2, ← k1, hL0]
      simp only [wrap32, Nat.add_zero, Nat.mod_eq_of_lt hcpl]
  · show wrap32 ((rx_update_cq_tail L.queue L.w L.buf_index L.cq_tail_ptr).1.rxq_tail_ptr
      + L.buf_index) = _
    rw [u2, k1, l1]

theorem sample_rx_queue_inv : rx_ring_inv sample_rx_queue := by
  refine ⟨by decide, rfl, by decide, by decide, by decide, by decide, by decide, ?_, ?_⟩
  · intro i hi
    have hi' : i < 256 := hi
    constructor
    · intro _
      refine ⟨i, hi', ?_⟩
      show i = wrap32 (0 + i) &&& 255
      have e : (255 : Nat) = 2 ^ 8 - 1 := by decide
      rw [e, Nat.and_pow_two_sub_one_eq_mod, wrap32]
      omega
    · intro _
      show (if i < 256 then 1000 + i else 0) ≠ 0
      rw [if_pos hi']
      omega
  · intro i hi j hj _ he
    have hi' : i < 256 := hi
    have hj' : j < 256 := hj
    have he' : (if i < 256 then 1000 + i else 0) = (if j < 256 then 1000 + j else 0) := he
    rw [if_pos hi', if_pos hj'] at he'
    omega

/-- C1: in the built configuration (bypass peek, stride 0), for every RX queue
state satisfying the ring invariants in which exactly `k` consecutive
completion records starting at slot `cpl_tail & size_mask` have `len != 0` (the
record after them has `len == 0`), each naming through `index & size_mask` a
distinct slot holding a non-null buffer, a returning call of
`mqnic_rx_batch_hints` with capacity `num_bufs` returns `h = min(k, num_bufs)`;
for every `j < h`, `bufs[j]` is the buffer that was stored in
`rxq_virtual_addresses[cpl_j.index & size_mask]`, its size is `cpl_j.len`, and
that slot is null afterwards; and `cpl_tail_ptr` and `rxq_tail_ptr` have each
advanced by exactly `h` (modulo `2^32`).  The bound `len <= capacity` on the
completion records is not needed.  The call returns exactly when the pool holds
what its refill asks: fewer than 8 descriptors are missing, or the mempool
supplies all the missing buffers. -/
theorem rx_batch_harvests_available (data_off : Nat) (queue : mqnic_rx_queue) (w : world)
    (bufs : Nat → Nat) (num_bufs if_hint : Nat) (hints : Nat → nic_hints) (hint_count : Nat)
    (k : Nat) (hinv : rx_ring_inv queue) (hk : k ≤ queue.size)
    (hnz : ∀ j, j < k → (cpl_at queue j).len ≠ 0)
    (hz : k < queue.size → (cpl_at queue k).len = 0)
    (hnn : ∀ j, j < k → queue.rxq_virtual_addresses (rxq_slot queue j) ≠ 0)
    (hdist : ∀ i, i < k → ∀ j, j < k → rxq_slot queue i = rxq_slot queue j → i = j) :
    ((∃ r, mqnic_rx_batch_hints data_off queue w bufs num_bufs if_hint hints hint_count
        = Except.ok r) ↔ refill_supplied queue w) ∧
    ∀ r, mqnic_rx_batch_hints data_off queue w bufs num_bufs if_hint hints hint_count
        = Except.ok r →
      r.ret = min k num_bufs ∧
      (∀ j, j < min k num_bufs →
        r.bufs j = queue.rxq_virtual_addresses (rxq_slot queue j) ∧
          (r.w.pkt_bufs (r.bufs j)).size = (cpl_at queue j).len ∧
          r.queue.rxq_virtual_addresses (rxq_slot queue j) = 0) ∧
      r.queue.cpl_tail_ptr = wrap32 (queue.cpl_tail_ptr + min k num_bufs) ∧
      r.queue.rxq_tail_ptr = wrap32 (queue.rxq_tail_ptr + min k num_bufs) := by
  refine ⟨mqnic_rx_batch_hints_returns_iff data_off queue w bufs num_bufs if_hint hints
    hint_count, ?_⟩
  intro r hr
  have e := mqnic_rx_batch_hints_ok hr
  subst e
  exact rx_batch_harvests_available_val data_off queue w bufs num_bufs if_hint hints hint_count
    k hinv hk hnz hz hnn hdist

/-- Witness for C1: three completions published on the sample ring and a call
with capacity 8: the call returns 3, `bufs[0]` is the buffer of slot 0, and
`cpl_tail_ptr` and `rxq_tail_ptr` have advanced from 0 to 3. -/
theorem rx_batch_harvests_available_witness :
    ∃ r,
      mqnic_rx_batch_hints 64 sample_rx_queue sample_world (fun _ => 0) 8 0
        (fun _ => ⟨0, 0⟩) 0 = Except.ok r ∧
      rx_ring_inv sample_rx_queue ∧ 3 ≤ sample_rx_queue.size ∧
      r.ret = 3 ∧ r.bufs 0 = 1000 ∧ r.queue.cpl_tail_ptr = 3 ∧ r.queue.rxq_tail_ptr = 3 :=
  have h := (rx_batch_harvests_available 64 sample_rx_queue sample_world (fun _ => 0) 8 0
    (fun _ => ⟨0, 0⟩) 0 3 sample_rx_queue_inv (by decide) (by decide) (by decide) (by decide)
    (by decide)).2 _
    (mqnic_rx_batch_hints_returns 64 sample_rx_queue sample_world (fun _ => 0) 8 0
      (fun _ => ⟨0, 0⟩) 0 (Or.inl (by decide)))
  ⟨mqnic_rx_batch_hints_val 64 sample_rx_queue sample_world (fun _ => 0) 8 0
      (fun _ => ⟨0, 0⟩) 0,
    mqnic_rx_batch_hints_returns 64 sample_rx_queue sample_world (fun _ => 0) 8 0
      (fun _ => ⟨0, 0⟩) 0 (Or.inl (by decide)),
    sample_rx_queue_inv, by decide, h.1, (h.2.1 0 (by decide)).1.trans (by decide),
    h.2.2.1, h.2.2.2⟩

/-! ## The iteration budgets of the loops suffice

Each loop of the embedding carries an explicit budget.  With the budget the
callers pass, a loop stops only because its C condition is false. -/

theorem rx_batch_loop_exit (if_hint N : Nat) :
    ∀ (fuel : Nat) (s : rx_batch_state), N ≤ s.buf_index + fuel →
      ¬ ((rx_batch_loop if_hint N fuel s).if_next = true ∧
          (rx_batch_loop if_hint N fuel s).buf_index < N) := by
  intro fuel
  induction fuel with
  | zero =>
    intro s h
    simp only [rx_batch_loop]
    omega
  | succ n ih =>
    intro s h
    unfold rx_batch_loop
    split
    · apply ih
      rw [rx_batch_body_buf_index]
      omega
    · assumption

theorem rx_clean_loop_exit (queue : mqnic_rx_queue) (htail : queue.rxq_tail_ptr < 4294967296) :
    ∀ (fuel p : Nat), p < 4294967296 → sub32 queue.rxq_tail_ptr p ≤ fuel →
      rx_clean_loop queue fuel p = queue.rxq_tail_ptr ∨
        queue.rxq_virtual_addresses (rx_clean_loop queue fuel p &&& queue.size_mask) ≠ 0 := by
  intro fuel
  induction fuel with
  | zero =>
    intro p hp h
    left
    simp only [rx_clean_loop, sub32] at h ⊢
    omega
  | succ n ih =>
    intro p hp h
    unfold rx_clean_loop
    split
    · rename_i hne
      split
      · rename_i hocc
        right
        exact hocc
      · apply ih
        · simp only [wrap32]; omega
        · simp only [sub32, wrap32] at h ⊢
          omega
    · rename_i heq
      left
      simpa using heq

theorem tx_cq_loop_exit (budget : Int) :
    ∀ (fuel : Nat) (s : tx_cq_state), budget ≤ (s.done : Int) + (fuel : Int) →
      ¬ ((tx_cq_loop budget fuel s).if_next = true ∧
          ((tx_cq_loop budget fuel s).done : Int) < budget) := by
  intro fuel
  induction fuel with
  | zero =>
    intro s h
    simp only [tx_cq_loop]
    omega
  | succ n ih =>
    intro s h
    unfold tx_cq_loop
    split
    · apply ih
      show budget ≤ ((s.done + 1 : Nat) : Int) + (n : Int)
      omega
    · assumption

theorem tx_clean_loop_exit (queue : mqnic_tx_queue) (htail : queue.txq_tail_ptr < 4294967296) :
    ∀ (fuel p : Nat), p < 4294967296 → sub32 queue.txq_tail_ptr p ≤ fuel →
      tx_clean_loop queue fuel p = some queue.txq_tail_ptr ∨
        tx_clean_loop queue fuel p = none := by
  intro fuel
  induction fuel with
  | zero =>
    intro p hp h
    left
    simp only [tx_clean_loop, sub32] at h ⊢
    congr 1
    omega
  | succ n ih =>
    intro p hp h
    unfold tx_clean_loop
    split
    · rename_i hne
      split
      · right; rfl
      · apply ih
        · simp only [wrap32]; omega
        · simp only [sub32, wrap32] at h ⊢
          omega
    · rename_i heq
      left
      congr 1
      simpa using heq

theorem tx_batch_loop_exit (data_off : Nat) (bufs : Nat → Nat) (N : Nat) :
    ∀ (fuel : Nat) (s : tx_batch_state), N ≤ s.sent + fuel →
      ¬ ((tx_batch_loop data_off bufs N fuel s).sent < N ∧
          mqnic_is_tx_ring_full (tx_batch_loop data_off bufs N fuel s).queue = false) := by
  intro fuel
  induction fuel with
  | zero =>
    intro s h
    simp only [tx_batch_loop]
    omega
  | succ n ih =>
    intro s h
    unfold tx_batch_loop
    split
    · split
      · rename_i hfull
        simp [hfull]
      · apply ih
        show N ≤ s.sent + 1 + n
        omega
    · rename_i hge
      omega



/-! ## The port application-config word -/

theorem monitor_word_eq_add (t c s a op : Nat) (hc : c < 256) (hs : s < 256)
    (ha : a < 256) (hop : op < 16) :
    t * 268435456 ||| c * 1048576 ||| s * 4096 ||| a * 16 ||| op
      = t * 268435456 + c * 1048576 + s * 4096 + a * 16 + op := by
  rw [Nat.or_assoc, Nat.or_assoc, Nat.or_assoc]
  have h1 : a * 16 ||| op = a * 16 + op := by
    have := shl_or_of_lt a 4 op (by omega)
    rw [Nat.shiftLeft_eq] at this
    simpa using this
  have h2 : s * 4096 ||| (a * 16 + op) = s * 4096 + (a * 16 + op) := by
    have := shl_or_of_lt s 12 (a * 16 + op) (by omega)
    rw [Nat.shiftLeft_eq] at this
    simpa using this
  have h3 : c * 1048576 ||| (s * 4096 + (a * 16 + op))
      = c * 1048576 + (s * 4096 + (a * 16 + op)) := by
    have := shl_or_of_lt c 20 (s * 4096 + (a * 16 + op)) (by omega)
    rw [Nat.shiftLeft_eq] at this
    simpa using this
  have h4 : t * 268435456 ||| (c * 1048576 + (s * 4096 + (a * 16 + op)))
      = t * 268435456 + (c * 1048576 + (s * 4096 + (a * 16 + op))) := by
    have := shl_or_of_lt t 28 (c * 1048576 + (s * 4096 + (a * 16 + op))) (by omega)
    rw [Nat.shiftLeft_eq] at this
    simpa using this
  rw [h1, h2, h3, h4]
  omega

theorem thresh_field (t : Nat) : (t <<< 28) &&& 0xf0000000 = (t % 16) * 268435456 := by
  have h := shl_and_shl_mask t 28 4
  have e : ((2 : Nat) ^ 4 - 1) <<< 28 = 0xf0000000 := by decide
  rw [e] at h
  rw [h, Nat.shiftLeft_eq]
  norm_num

theorem cong_field (c : Nat) : (c <<< 20) &&& 0x0ff00000 = (c % 256) * 1048576 := by
  have h := shl_and_shl_mask c 20 8
  have e : ((2 : Nat) ^ 8 - 1) <<< 20 = 0x0ff00000 := by decide
  rw [e] at h
  rw [h, Nat.shiftLeft_eq]
  norm_num

theorem scale_down_field (s : Nat) : (s <<< 12) &&& 0x000ff000 = (s % 256) * 4096 := by
  have h := shl_and_shl_mask s 12 8
  have e : ((2 : Nat) ^ 8 - 1) <<< 12 = 0x000ff000 := by decide
  rw [e] at h
  rw [h, Nat.shiftLeft_eq]
  norm_num

theorem monitor_word (a c s t : Nat) :
    ((t <<< 28) &&& 0xf0000000) ||| ((c <<< 20) &&& 0x0ff00000) ||| ((s <<< 12) &&& 0x000ff000)
      ||| ((a <<< 4) &&& 0x00000ff0) ||| (1 &&& 0x0000000f)
      = (t % 16) * 268435456 + (c % 256) * 1048576 + (s % 256) * 4096 + (a % 256) * 16 + 1 := by
  rw [thresh_field, cong_field, scale_down_field, app_id_field]
  have e : (1 &&& 0x0000000f) = 1 := by decide
  rw [e]
  exact monitor_word_eq_add _ _ _ _ 1 (Nat.mod_lt _ (by decide)) (Nat.mod_lt _ (by decide))
    (Nat.mod_lt _ (by decide)) (by decide)

theorem monitor_word_plain (a c s t : Nat) (hc : c < 256) (hs : s < 256) :
    ((t &&& 0xf) <<< 28) ||| (c <<< 20) ||| (s <<< 12) ||| ((a &&& 0xff) <<< 4) ||| 1
      = (t % 16) * 268435456 + c * 1048576 + s * 4096 + (a % 256) * 16 + 1 := by
  have e4 : (0xf : Nat) = 2 ^ 4 - 1 := by decide
  have e8 : (0xff : Nat) = 2 ^ 8 - 1 := by decide
  rw [e4, e8, Nat.and_pow_two_sub_one_eq_mod, Nat.and_pow_two_sub_one_eq_mod,
    Nat.shiftLeft_eq, Nat.shiftLeft_eq, Nat.shiftLeft_eq, Nat.shiftLeft_eq]
  have h := monitor_word_eq_add (t % 2 ^ 4) c s (a % 2 ^ 8) 1 hc hs
    (Nat.mod_lt _ (by decide)) (by decide)
  simpa using h

/-- C11: for every `app_id` and `scale_down_thresh` and every 8-bit
`cong_epoch_log` and `scale_down_epoch_log`, `mqnic_port_set_monitor` performs
exactly one register write and changes nothing else: it writes to the port
application-config register the word
`((scale_down_thresh & 0xf) << 28) | (cong_epoch_log << 20) |
(scale_down_epoch_log << 12) | ((app_id & 0xff) << 4) | 1` taken modulo `2^32`
(the word is below `2^32`).  The five fields lie in disjoint bit ranges: op 1 in
bits 3:0, `app_id mod 256` in bits 11:4, `scale_down_epoch_log` in bits 19:12,
`cong_epoch_log` in bits 27:20 and `scale_down_thresh mod 16` in bits 31:28 are
each recovered by shift and mask. -/
theorem port_set_monitor_writes_one_word (dev : mqnic_device) (w : world)
    (app_id cong_epoch_log scale_down_epoch_log scale_down_thresh : Nat)
    (hc : cong_epoch_log < 256) (hs : scale_down_epoch_log < 256) :
    mqnic_port_set_monitor dev w app_id cong_epoch_log scale_down_epoch_log scale_down_thresh =
        { w with
          trace := w.trace ++
            [event.set_reg32 (dev.addr + dev.port_offset) reg.MQNIC_PORT_REG_APP_CONFG
              ((((scale_down_thresh &&& 0xf) <<< 28) ||| (cong_epoch_log <<< 20)
                ||| (scale_down_epoch_log <<< 12) ||| ((app_id &&& 0xff) <<< 4) ||| 1)
                  % 2 ^ 32)] } ∧
      (let v := (((scale_down_thresh &&& 0xf) <<< 28) ||| (cong_epoch_log <<< 20)
          ||| (scale_down_epoch_log <<< 12) ||| ((app_id &&& 0xff) <<< 4) ||| 1) % 2 ^ 32
       v = ((scale_down_thresh &&& 0xf) <<< 28) ||| (cong_epoch_log <<< 20)
            ||| (scale_down_epoch_log <<< 12) ||| ((app_id &&& 0xff) <<< 4) ||| 1 ∧
         v &&& 0xf = 1 ∧ (v >>> 4) &&& 0xff = app_id % 256 ∧
         (v >>> 12) &&& 0xff = scale_down_epoch_log ∧ (v >>> 20) &&& 0xff = cong_epoch_log ∧
         (v >>> 28) &&& 0xf = scale_down_thresh % 16 ∧ v >>> 32 = 0) := by
  have hv := monitor_word_plain app_id cong_epoch_log scale_down_epoch_log scale_down_thresh
    hc hs
  have hlt : (scale_down_thresh % 16) * 268435456 + cong_epoch_log * 1048576
      + scale_down_epoch_log * 4096 + (app_id % 256) * 16 + 1 < 2 ^ 32 := by omega
  refine ⟨?_, ?_⟩
  · simp only [mqnic_port_set_monitor, set_reg32, monitor_word, wrap32]
    rw [hv, Nat.mod_eq_of_lt hc, Nat.mod_eq_of_lt hs, Nat.mod_eq_of_lt hlt]
    have : ((scale_down_thresh % 16) * 268435456 + cong_epoch_log * 1048576
        + scale_down_epoch_log * 4096 + (app_id % 256) * 16 + 1) % 4294967296
        = (scale_down_thresh % 16) * 268435456 + cong_epoch_log * 1048576
          + scale_down_epoch_log * 4096 + (app_id % 256) * 16 + 1 := by omega
    rw [this]
  · intro v
    simp only [v]
    rw [hv, Nat.mod_eq_of_lt hlt]
    have e4 : (0xf : Nat) = 2 ^ 4 - 1 := by decide
    have e8 : (0xff : Nat) = 2 ^ 8 - 1 := by decide
    simp only [e4, e8, Nat.and_pow_two_sub_one_eq_mod, Nat.shiftRight_eq_div_pow]
    refine ⟨trivial, by omega, by omega, by omega, by omega, by omega, by omega⟩

/-- Witness for C11: `app_id = 1`, `cong_epoch_log = 14`,
`scale_down_epoch_log = 10`, `scale_down_thresh = 3`. -/
theorem port_set_monitor_writes_one_word_witness :
    (14 : Nat) < 256 ∧ (10 : Nat) < 256 ∧
      mqnic_port_set_monitor sample_dev sample_world 1 14 10 3 =
        { sample_world with
          trace := sample_world.trace ++
            [event.set_reg32 (sample_dev.addr + sample_dev.port_offset)
              reg.MQNIC_PORT_REG_APP_CONFG
              ((3 <<< 28) ||| (14 <<< 20) ||| (10 <<< 12) ||| (1 <<< 4) ||| 1)] } :=
  ⟨by decide, by decide,
    (port_set_monitor_writes_one_word sample_dev sample_world 1 14 10 3 (by decide)
      (by decide)).1⟩

/-! ## Fields untouched by the RX refill and the RX harvest loop -/

theorem mqnic_prepare_rx_desc_queue_eq (data_off : Nat) (queue : mqnic_rx_queue) (w : world)
    (index : Nat) :
    (mqnic_prepare_rx_desc_val data_off queue w index).2.1 =
      { queue with
        rxq_descriptors := (mqnic_prepare_rx_desc_val data_off queue w index).2.1.rxq_descriptors
        rxq_virtual_addresses :=
          (mqnic_prepare_rx_desc_val data_off queue w index).2.1.rxq_virtual_addresses } := by
  unfold mqnic_prepare_rx_desc_val
  simp only
  split <;> rfl

theorem refill_loop_queue_eq (data_off : Nat) :
    ∀ (missing : Nat) (queue : mqnic_rx_queue) (w : world),
      (refill_loop_val data_off missing queue w).1 =
        { queue with
          rxq_head_ptr := (refill_loop_val data_off missing queue w).1.rxq_head_ptr
          rxq_descriptors := (refill_loop_val data_off missing queue w).1.rxq_descriptors
          rxq_virtual_addresses :=
            (refill_loop_val data_off missing queue w).1.rxq_virtual_addresses } := by
  intro missing
  induction missing with
  | zero => intro queue w; rfl
  | succ m ih =>
    intro queue w
    have hp := mqnic_prepare_rx_desc_queue_eq data_off queue w
      (queue.rxq_head_ptr &&& queue.size_mask)
    unfold refill_loop_val
    simp only
    split
    · rw [hp]
    · rw [ih]
      rw [hp]

theorem mqnic_refill_rx_buffers_queue_eq (data_off : Nat) (queue : mqnic_rx_queue) (w : world) :
    (mqnic_refill_rx_buffers_val data_off queue w).1 =
      { queue with
        rxq_head_ptr := (mqnic_refill_rx_buffers_val data_off queue w).1.rxq_head_ptr
        rxq_descriptors := (mqnic_refill_rx_buffers_val data_off queue w).1.rxq_descriptors
        rxq_virtual_addresses :=
          (mqnic_refill_rx_buffers_val data_off queue w).1.rxq_virtual_addresses } := by
  unfold mqnic_refill_rx_buffers_val
  simp only
  split
  · rfl
  · exact refill_loop_queue_eq data_off _ queue w

theorem rx_batch_loop_queue_eq (if_hint N : Nat) :
    ∀ (fuel : Nat) (s : rx_batch_state),
      (rx_batch_loop if_hint N fuel s).queue =
        { s.queue with
          rxq_virtual_addresses := (rx_batch_loop if_hint N fuel s).queue.rxq_virtual_addresses
          cpl_descriptors := (rx_batch_loop if_hint N fuel s).queue.cpl_descriptors } := by
  intro fuel
  induction fuel with
  | zero => intro s; rfl
  | succ n ih =>
    intro s
    unfold rx_batch_loop
    split
    · rw [ih]
      rfl
    · rfl

/-! ## Trace of the RX refill -/

theorem mqnic_prepare_rx_desc_trace (data_off : Nat) (queue : mqnic_rx_queue) (w : world)
    (index : Nat) :
    ∃ ext, (mqnic_prepare_rx_desc_val data_off queue w index).2.2.trace = w.trace ++ ext ∧
      ext.filter is_cq_tail_write = [] := by
  have ha : (pkt_buf_alloc w queue.mempool).2.trace = w.trace := by
    unfold pkt_buf_alloc
    split <;> rfl
  unfold mqnic_prepare_rx_desc_val
  simp only
  split
  · exact ⟨[], by rw [ha, List.append_nil], rfl⟩
  · exact ⟨[event.rx_desc_write index], by rw [ha], rfl⟩

theorem refill_loop_trace (data_off : Nat) :
    ∀ (missing : Nat) (queue : mqnic_rx_queue) (w : world),
      ∃ ext, (refill_loop_val data_off missing queue w).2.trace = w.trace ++ ext ∧
        ext.filter is_cq_tail_write = [] := by
  intro missing
  induction missing with
  | zero => intro queue w; exact ⟨[], (List.append_nil _).symm, rfl⟩
  | succ m ih =>
    intro queue w
    obtain ⟨e1, h1, f1⟩ := mqnic_prepare_rx_desc_trace data_off queue w
      (queue.rxq_head_ptr &&& queue.size_mask)
    unfold refill_loop_val
    simp only
    split
    · exact ⟨e1, h1, f1⟩
    · obtain ⟨e2, h2, f2⟩ := ih
        { (mqnic_prepare_rx_desc_val data_off queue w (queue.rxq_head_ptr &&& queue.size_mask)).2.1 with
          rxq_head_ptr := wrap32
            ((mqnic_prepare_rx_desc_val data_off queue w
              (queue.rxq_head_ptr &&& queue.size_mask)).2.1.rxq_head_ptr + 1) }
        (mqnic_prepare_rx_desc_val data_off queue w (queue.rxq_head_ptr &&& queue.size_mask)).2.2
      refine ⟨e1 ++ e2, ?_, ?_⟩
      · rw [h2, h1, List.append_assoc]
      · rw [List.filter_append, f1, f2]
        rfl

theorem mqnic_refill_rx_buffers_trace (data_off : Nat) (queue : mqnic_rx_queue) (w : world) :
    ∃ ext, (mqnic_refill_rx_buffers_val data_off queue w).2.trace = w.trace ++ ext ∧
      ext.filter is_cq_tail_write = [] := by
  unfold mqnic_refill_rx_buffers_val
  simp only
  split
  · exact ⟨[], (List.append_nil _).symm, rfl⟩
  · obtain ⟨e1, h1, f1⟩ := refill_loop_trace data_off
      (sub32 queue.size (sub32 queue.rxq_head_ptr queue.rxq_clean_tail_ptr)) queue w
    simp only [set_reg32]
    rw [h1, List.append_assoc]
    refine ⟨_, rfl, ?_⟩
    rw [List.filter_append, f1]
    rfl

/-- The CQ-tail flush of a drain, on the value of the drain. -/
theorem rx_batch_cq_tail_flush_val (data_off : Nat) (queue : mqnic_rx_queue) (w : world)
    (bufs : Nat → Nat) (num_bufs if_hint : Nat) (hints : Nat → nic_hints) (hint_count : Nat)
    (hmask : queue.hw_ptr_mask < 4294967296)
    (hacc : queue.accumulated_cq_updates + num_bufs < 4294967296) :
    ∃ ext,
      (mqnic_rx_batch_hints_val data_off queue w bufs num_bufs if_hint hints hint_count).w.trace
        = w.trace ++ ext ∧
      (if 0 < (mqnic_rx_batch_hints_val data_off queue w bufs num_bufs if_hint hints hint_count).ret ∧
          queue.accumulated_cq_updates +
            (mqnic_rx_batch_hints_val data_off queue w bufs num_bufs if_hint hints hint_count).ret
              > 32 then
        ext.filter is_cq_tail_write =
            [event.set_reg32 queue.cpl_addr reg.MQNIC_CPL_QUEUE_TAIL_PTR_REG
              ((mqnic_rx_batch_hints_val data_off queue w bufs num_bufs if_hint hints
                  hint_count).queue.cpl_tail_ptr &&& queue.hw_ptr_mask)] ∧
          (mqnic_rx_batch_hints_val data_off queue w bufs num_bufs if_hint hints
            hint_count).queue.accumulated_cq_updates = 0
      else
        ext.filter is_cq_tail_write = [] ∧
          (mqnic_rx_batch_hints_val data_off queue w bufs num_bufs if_hint hints
            hint_count).queue.accumulated_cq_updates
            = queue.accumulated_cq_updates +
              (mqnic_rx_batch_hints_val data_off queue w bufs num_bufs if_hint hints
                hint_count).ret) := by
  obtain ⟨e0, ht0, hf0⟩ := mqnic_refill_rx_buffers_trace data_off queue w
  have hq0 := mqnic_refill_rx_buffers_queue_eq data_off queue w
  unfold mqnic_rx_batch_hints_val
  simp only
  generalize hs0 : (rx_batch_state.mk (mqnic_refill_rx_buffers_val data_off queue w).1
    (mqnic_refill_rx_buffers_val data_off queue w).2 bufs hints
    (mqnic_refill_rx_buffers_val data_off queue w).1.cpl_tail_ptr
    ((mqnic_refill_rx_buffers_val data_off queue w).1.cpl_tail_ptr &&&
      (mqnic_refill_rx_buffers_val data_off queue w).1.size_mask) 0 RXCQ_BYPASS_BATCH
    (decide (((mqnic_refill_rx_buffers_val data_off queue w).1.cpl_descriptors
      (wrap32 (((mqnic_refill_rx_buffers_val data_off queue w).1.cpl_tail_ptr &&&
        (mqnic_refill_rx_buffers_val data_off queue w).1.size_mask) + RXCQ_BYPASS_BATCH) &&&
        (mqnic_refill_rx_buffers_val data_off queue w).1.size_mask)).len ≠ 0)) 0) = s0
  have hs0q : s0.queue = (mqnic_refill_rx_buffers_val data_off queue w).1 := by rw [← hs0]
  have hs0w : s0.w = (mqnic_refill_rx_buffers_val data_off queue w).2 := by rw [← hs0]
  have hs0b : s0.buf_index = 0 := by rw [← hs0]
  have hle := rx_batch_loop_buf_index_le if_hint num_bufs num_bufs s0 (by omega)
  have hqe := rx_batch_loop_queue_eq if_hint num_bufs num_bufs s0
  obtain ⟨_, _, _, _, htr⟩ := rx_batch_loop_frame if_hint num_bufs num_bufs s0
  generalize rx_batch_loop if_hint num_bufs num_bufs s0 = s1 at hle hqe htr ⊢
  have hacc1 : s1.queue.accumulated_cq_updates = queue.accumulated_cq_updates := by
    rw [hqe, hs0q, hq0]
  have hcpl : s1.queue.cpl_addr = queue.cpl_addr := by rw [hqe, hs0q, hq0]
  have hhw : s1.queue.hw_ptr_mask = queue.hw_ptr_mask := by rw [hqe, hs0q, hq0]
  have htr1 : s1.w.trace = w.trace ++ e0 := by rw [htr, hs0w, ht0]
  have hand : ∀ x : Nat, (x &&& queue.hw_ptr_mask) % 4294967296 = x &&& queue.hw_ptr_mask :=
    fun x => Nat.mod_eq_of_lt (Nat.lt_of_le_of_lt Nat.and_le_right hmask)
  have hmod : (queue.accumulated_cq_updates + s1.buf_index) % 4294967296
      = queue.accumulated_cq_updates + s1.buf_index := Nat.mod_eq_of_lt (by omega)
  by_cases hb : s1.buf_index = 0
  · have hc : ¬ (0 < s1.buf_index ∧ queue.accumulated_cq_updates + s1.buf_index > 32) :=
      fun h => by omega
    simp only [if_neg hc]
    simp only [rx_update_cq_tail, hb, ne_eq, not_true_eq_false, if_false, Nat.add_zero,
      Nat.lt_irrefl, false_and]
    exact ⟨e0, htr1, hf0, hacc1⟩
  · by_cases hgt : queue.accumulated_cq_updates + s1.buf_index > 32
    · have hc : 0 < s1.buf_index ∧ queue.accumulated_cq_updates + s1.buf_index > 32 :=
        ⟨by omega, hgt⟩
      simp only [if_pos hc]
      simp only [rx_update_cq_tail, ne_eq, hb, not_false_eq_true, if_true,
        RXCQ_TAIL_UPDATE_BATCH, wrap32, hacc1, hmod, hgt, hc, and_self,
        mqnic_rx_cq_write_tail_ptr, set_reg32, hcpl, hhw, hand, htr1, List.append_assoc]
      refine ⟨_, rfl, ?_, trivial⟩
      rw [List.filter_append, hf0]
      rfl
    · have hc : ¬ (0 < s1.buf_index ∧ queue.accumulated_cq_updates + s1.buf_index > 32) :=
        fun h => hgt h.2
      simp only [if_neg hc]
      simp only [rx_update_cq_tail, ne_eq, hb, not_false_eq_true, if_true,
        RXCQ_TAIL_UPDATE_BATCH, wrap32, hacc1, hmod, hgt, hc, if_false]
      exact ⟨e0, htr1, hf0, trivial⟩

/-- C12: a returning RX drain that starts with the CQ-tail accumulator at `a`
(with `a + num_bufs` below `2^32`, so that the 32-bit accumulator cannot wrap)
and harvests `h` completions extends the trace by events of which, when `h > 0`
and `a + h > 32`, exactly one is a CQ-tail write, namely of `cpl_tail_ptr &
hw_ptr_mask` (the tail at return) to the CQ tail register of the queue, and it
leaves `accumulated_cq_updates = 0`; otherwise none of the new events is a
CQ-tail write and it leaves `accumulated_cq_updates = a + h`.  The drain returns
exactly when the pool holds what its refill asks. -/
theorem rx_batch_cq_tail_flush (data_off : Nat) (queue : mqnic_rx_queue) (w : world)
    (bufs : Nat → Nat) (num_bufs if_hint : Nat) (hints : Nat → nic_hints) (hint_count : Nat)
    (hmask : queue.hw_ptr_mask < 4294967296)
    (hacc : queue.accumulated_cq_updates + num_bufs < 4294967296) :
    ((∃ r, mqnic_rx_batch_hints data_off queue w bufs num_bufs if_hint hints hint_count
        = Except.ok r) ↔ refill_supplied queue w) ∧
    ∀ r, mqnic_rx_batch_hints data_off queue w bufs num_bufs if_hint hints hint_count
        = Except.ok r →
    ∃ ext,
      r.w.trace = w.trace ++ ext ∧
      (if 0 < r.ret ∧ queue.accumulated_cq_updates + r.ret > 32 then
        ext.filter is_cq_tail_write =
            [event.set_reg32 queue.cpl_addr reg.MQNIC_CPL_QUEUE_TAIL_PTR_REG
              (r.queue.cpl_tail_ptr &&& queue.hw_ptr_mask)] ∧
          r.queue.accumulated_cq_updates = 0
      else
        ext.filter is_cq_tail_write = [] ∧
          r.queue.accumulated_cq_updates = queue.accumulated_cq_updates + r.ret) := by
  refine ⟨mqnic_rx_batch_hints_returns_iff data_off queue w bufs num_bufs if_hint hints
    hint_count, ?_⟩
  intro r hr
  have e := mqnic_rx_batch_hints_ok hr
  subst e
  exact rx_batch_cq_tail_flush_val data_off queue w bufs num_bufs if_hint hints hint_count
    hmask hacc

/-- Witness for C12: on `flush_rx_queue` (accumulator 30, three completions
available, `num_bufs = 8`) the drain returns, harvests 3, performs the single
CQ-tail write of the value 3 and resets the accumulator. -/
theorem rx_batch_cq_tail_flush_witness :
    ∃ r,
      mqnic_rx_batch_hints 64 flush_rx_queue sample_world (fun _ => 0) 8 0
        (fun _ => ⟨0, 0⟩) 0 = Except.ok r ∧
      flush_rx_queue.hw_ptr_mask < 4294967296 ∧
      flush_rx_queue.accumulated_cq_updates + 8 < 4294967296 ∧
      r.ret = 3 ∧
      ∃ ext,
        r.w.trace = sample_world.trace ++ ext ∧
        ext.filter is_cq_tail_write =
          [event.set_reg32 flush_rx_queue.cpl_addr reg.MQNIC_CPL_QUEUE_TAIL_PTR_REG 3] ∧
        r.queue.accumulated_cq_updates = 0 := by
  refine ⟨mqnic_rx_batch_hints_val 64 flush_rx_queue sample_world (fun _ => 0) 8 0
      (fun _ => ⟨0, 0⟩) 0,
    mqnic_rx_batch_hints_returns 64 flush_rx_queue sample_world (fun _ => 0) 8 0
      (fun _ => ⟨0, 0⟩) 0 (Or.inl (by decide)), by decide, by decide, by decide, ?_⟩
  obtain ⟨ext, h1, h2⟩ := (rx_batch_cq_tail_flush 64 flush_rx_queue sample_world (fun _ => 0) 8
    0 (fun _ => ⟨0, 0⟩) 0 (by decide) (by decide)).2 _
    (mqnic_rx_batch_hints_returns 64 flush_rx_queue sample_world (fun _ => 0) 8 0
      (fun _ => ⟨0, 0⟩) 0 (Or.inl (by decide)))
  rw [if_pos (by decide)] at h2
  exact ⟨ext, h1, h2⟩

/-! ## TX enqueue of zero buffers -/

/-- C13, counterexample: on `idle_tx_queue` (nothing posted, no completion
pending) the completion reap alone returns `idle_tx_reaped`, whose trace holds
one event, the CQ-tail write; `mqnic_tx_batch` with `num_bufs = 0` returns 0 with
the same queue record, but its trace holds a second event, a write of the TXQ
head register: something further is issued to the device. -/
theorem tx_batch_zero_writes_head_register :
    mqnic_process_tx_cq idle_tx_queue sample_world 64 = some idle_tx_reaped ∧
      (mqnic_tx_batch 64 idle_tx_queue sample_world (fun _ => 0) 0).map (fun r => r.1) = some 0 ∧
      (mqnic_tx_batch 64 idle_tx_queue sample_world (fun _ => 0) 0).map (fun r => r.2.2.trace)
        = some (idle_tx_reaped.2.2.trace ++
            [event.set_reg32 idle_tx_queue.txq_addr reg.MQNIC_QUEUE_HEAD_PTR_REG 0]) ∧
      (mqnic_tx_batch 64 idle_tx_queue sample_world (fun _ => 0) 0).map (fun r => r.2.2.trace)
        ≠ some idle_tx_reaped.2.2.trace := by
  have h : mqnic_process_tx_cq idle_tx_queue sample_world 64 = some idle_tx_reaped := rfl
  refine ⟨h, ?_, ?_, ?_⟩
  · simp only [mqnic_tx_batch, h]
    rfl
  · simp only [mqnic_tx_batch, h]
    rfl
  · simp only [mqnic_tx_batch, h]
    decide

/-- C13, amended: `mqnic_tx_batch` with `num_bufs = 0` exits exactly when the
completion reap `mqnic_process_tx_cq(queue, 64)` exits, and otherwise returns 0,
leaves the queue record (descriptors, `virt_addrs`, `txq_head_ptr`) and the
buffers as the reap left them, and issues to the device, after the effects of
the reap, exactly one more register write: `txq_head_ptr & hw_ptr_mask` (the
unchanged head) to the TXQ head register. -/
theorem tx_batch_zero_is_reap_then_head_write (data_off : Nat) (queue : mqnic_tx_queue)
    (w : world) (bufs : Nat → Nat) :
    mqnic_tx_batch data_off queue w bufs 0 =
      (mqnic_process_tx_cq queue w 64).map (fun r =>
        (0, r.2.1,
          { r.2.2 with
            trace := r.2.2.trace ++
              [event.set_reg32 r.2.1.txq_addr reg.MQNIC_QUEUE_HEAD_PTR_REG
                (wrap32 (r.2.1.txq_head_ptr &&& r.2.1.hw_ptr_mask))] })) := by
  unfold mqnic_tx_batch
  cases mqnic_process_tx_cq queue w 64 with
  | none => rfl
  | some r => rfl

/-! ## Consumed completion records are cleared -/

theorem rx_batch_loop_J (if_hint N : Nat) :
    ∀ (fuel : Nat) (s : rx_batch_state),
      s.cq_index = s.cq_tail_ptr &&& s.queue.size_mask → s.cq_tail_ptr < 4294967296 →
      s.next_batch = 0 →
      s.if_next = decide ((s.queue.cpl_descriptors s.cq_index).len ≠ 0) →
      (rx_batch_loop if_hint N fuel s).cq_index
          = (rx_batch_loop if_hint N fuel s).cq_tail_ptr
            &&& (rx_batch_loop if_hint N fuel s).queue.size_mask ∧
        (rx_batch_loop if_hint N fuel s).cq_tail_ptr < 4294967296 ∧
        (rx_batch_loop if_hint N fuel s).next_batch = 0 ∧
        (rx_batch_loop if_hint N fuel s).if_next =
          decide (((rx_batch_loop if_hint N fuel s).queue.cpl_descriptors
            (rx_batch_loop if_hint N fuel s).cq_index).len ≠ 0) := by
  intro fuel
  induction fuel with
  | zero => intro s h1 h2 h3 h4; exact ⟨h1, h2, h3, h4⟩
  | succ n ih =>
    intro s h1 h2 h3 h4
    unfold rx_batch_loop
    split
    · obtain ⟨b1, b2, b3, b4⟩ := rx_batch_body_inv if_hint s h3
      exact ih _ b1 b2 b3 b4
    · exact ⟨h1, h2, h3, h4⟩

theorem rx_batch_loop_cq_tail (if_hint N : Nat) :
    ∀ (fuel : Nat) (s : rx_batch_state), s.cq_tail_ptr < 4294967296 →
      (rx_batch_loop if_hint N fuel s).cq_tail_ptr
        = wrap32 (s.cq_tail_ptr + ((rx_batch_loop if_hint N fuel s).buf_index - s.buf_index)) := by
  intro fuel
  induction fuel with
  | zero =>
    intro s h
    simp only [rx_batch_loop, Nat.sub_self, Nat.add_zero, wrap32, Nat.mod_eq_of_lt h]
  | succ n ih =>
    intro s h
    unfold rx_batch_loop
    split
    · have hge := rx_batch_loop_buf_index_ge if_hint N n (rx_batch_body if_hint s)
      have hb : (rx_batch_body if_hint s).cq_tail_ptr < 4294967296 := by
        simp only [rx_batch_body, wrap32]; omega
      have hct : (rx_batch_body if_hint s).cq_tail_ptr = wrap32 (s.cq_tail_ptr + 1) := rfl
      rw [ih _ hb, hct]
      rw [rx_batch_body_buf_index] at hge ⊢
      generalize (rx_batch_loop if_hint N n (rx_batch_body if_hint s)).buf_index = B at hge ⊢
      simp only [wrap32]
      omega
    · simp only [Nat.sub_self, Nat.add_zero, wrap32, Nat.mod_eq_of_lt h]

theorem rx_batch_loop_len_zero (if_hint N : Nat) :
    ∀ (fuel : Nat) (s : rx_batch_state) (x : Nat), (s.queue.cpl_descriptors x).len = 0 →
      ((rx_batch_loop if_hint N fuel s).queue.cpl_descriptors x).len = 0 := by
  intro fuel
  induction fuel with
  | zero => intro s x h; exact h
  | succ n ih =>
    intro s x h
    unfold rx_batch_loop
    split
    · apply ih
      rw [rx_batch_body_cpl]
      split
      · rfl
      · exact h
    · exact h

theorem rx_batch_loop_cleared (if_hint N : Nat) :
    ∀ (fuel : Nat) (s : rx_batch_state),
      s.cq_index = s.cq_tail_ptr &&& s.queue.size_mask → s.cq_tail_ptr < 4294967296 →
      ∀ j, j < (rx_batch_loop if_hint N fuel s).buf_index - s.buf_index →
        ((rx_batch_loop if_hint N fuel s).queue.cpl_descriptors
          (cpl_slot (loop_view s) j)).len = 0 := by
  intro fuel
  induction fuel with
  | zero =>
    intro s _ _ j hj
    simp only [rx_batch_loop, Nat.sub_self] at hj
    omega
  | succ n ih =>
    intro s hidx hlt j hj
    unfold rx_batch_loop at hj ⊢
    split
    · rename_i hc
      rw [if_pos hc] at hj
      cases j with
      | zero =>
        apply rx_batch_loop_len_zero
        rw [rx_batch_body_cpl, cpl_slot_view_zero s hidx hlt, if_pos rfl]
      | succ m =>
        have hb : (rx_batch_body if_hint s).cq_tail_ptr < 4294967296 := by
          simp only [rx_batch_body, wrap32]; omega
        have := ih (rx_batch_body if_hint s) rfl hb m (by
          rw [rx_batch_body_buf_index]; omega)
        rw [cpl_slot_body] at this
        exact this
    · rename_i hc
      rw [if_neg hc] at hj
      omega

theorem tx_cq_loop_queue_eq (budget : Int) :
    ∀ (fuel : Nat) (s : tx_cq_state),
      (tx_cq_loop budget fuel s).queue =
        { s.queue with
          txq_virtual_addresses := (tx_cq_loop budget fuel s).queue.txq_virtual_addresses
          cpl_descriptors := (tx_cq_loop budget fuel s).queue.cpl_descriptors } := by
  intro fuel
  induction fuel with
  | zero => intro s; rfl
  | succ n ih =>
    intro s
    unfold tx_cq_loop
    split
    · rw [ih]
      rfl
    · rfl

theorem tx_cq_body_cpl (s : tx_cq_state) (x : Nat) :
    (tx_cq_body s).queue.cpl_descriptors x =
      if x = s.cq_index then { (s.queue.cpl_descriptors s.cq_index) with len := 0 }
      else s.queue.cpl_descriptors x := rfl

theorem tx_cq_loop_J (budget : Int) :
    ∀ (fuel : Nat) (s : tx_cq_state),
      s.cq_index = s.cq_tail_ptr &&& s.queue.size_mask → s.cq_tail_ptr < 4294967296 →
      s.if_next = decide ((s.queue.cpl_descriptors s.cq_index).len ≠ 0) →
      (tx_cq_loop budget fuel s).cq_index
          = (tx_cq_loop budget fuel s).cq_tail_ptr &&& (tx_cq_loop budget fuel s).queue.size_mask ∧
        (tx_cq_loop budget fuel s).cq_tail_ptr < 4294967296 ∧
        (tx_cq_loop budget fuel s).if_next =
          decide (((tx_cq_loop budget fuel s).queue.cpl_descriptors
            (tx_cq_loop budget fuel s).cq_index).len ≠ 0) := by
  intro fuel
  induction fuel with
  | zero => intro s h1 h2 h3; exact ⟨h1, h2, h3⟩
  | succ n ih =>
    intro s h1 h2 h3
    unfold tx_cq_loop
    split
    · exact ih (tx_cq_body s) rfl (by simp only [tx_cq_body, wrap32]; omega) rfl
    · exact ⟨h1, h2, h3⟩

theorem tx_cq_loop_done_ge (budget : Int) :
    ∀ (fuel : Nat) (s : tx_cq_state), s.done ≤ (tx_cq_loop budget fuel s).done := by
  intro fuel
  induction fuel with
  | zero => intro s; exact Nat.le_refl _
  | succ n ih =>
    intro s
    unfold tx_cq_loop
    split
    · exact Nat.le_trans (Nat.le_succ _) (ih (tx_cq_body s))
    · exact Nat.le_refl _

theorem tx_cq_loop_cq_tail (budget : Int) :
    ∀ (fuel : Nat) (s : tx_cq_state), s.cq_tail_ptr < 4294967296 →
      (tx_cq_loop budget fuel s).cq_tail_ptr
        = wrap32 (s.cq_tail_ptr + ((tx_cq_loop budget fuel s).done - s.done)) := by
  intro fuel
  induction fuel with
  | zero =>
    intro s h
    simp only [tx_cq_loop, Nat.sub_self, Nat.add_zero, wrap32, Nat.mod_eq_of_lt h]
  | succ n ih =>
    intro s h
    unfold tx_cq_loop
    split
    · have hge := tx_cq_loop_done_ge budget n (tx_cq_body s)
      have hb : (tx_cq_body s).cq_tail_ptr < 4294967296 := by
        simp only [tx_cq_body, wrap32]; omega
      have hd : (tx_cq_body s).done = s.done + 1 := rfl
      have hct : (tx_cq_body s).cq_tail_ptr = wrap32 (s.cq_tail_ptr + 1) := rfl
      rw [ih _ hb, hct]
      rw [hd] at hge ⊢
      generalize (tx_cq_loop budget n (tx_cq_body s)).done = B at hge ⊢
      simp only [wrap32]
      omega
    · simp only [Nat.sub_self, Nat.add_zero, wrap32, Nat.mod_eq_of_lt h]

theorem tx_cq_loop_len_zero (budget : Int) :
    ∀ (fuel : Nat) (s : tx_cq_state) (x : Nat), (s.queue.cpl_descriptors x).len = 0 →
      ((tx_cq_loop budget fuel s).queue.cpl_descriptors x).len = 0 := by
  intro fuel
  induction fuel with
  | zero => intro s x h; exact h
  | succ n ih =>
    intro s x h
    unfold tx_cq_loop
    split
    · apply ih
      rw [tx_cq_body_cpl]
      split
      · rfl
      · exact h
    · exact h

theorem tx_cq_loop_cleared (budget : Int) :
    ∀ (fuel : Nat) (s : tx_cq_state),
      s.cq_index = s.cq_tail_ptr &&& s.queue.size_mask → s.cq_tail_ptr < 4294967296 →
      ∀ j, j < (tx_cq_loop budget fuel s).done - s.done →
        ((tx_cq_loop budget fuel s).queue.cpl_descriptors
          (wrap32 (s.cq_tail_ptr + j) &&& s.queue.size_mask)).len = 0 := by
  intro fuel
  induction fuel with
  | zero =>
    intro s _ _ j hj
    simp only [tx_cq_loop, Nat.sub_self] at hj
    omega
  | succ n ih =>
    intro s hidx hlt j hj
    unfold tx_cq_loop at hj ⊢
    split
    · rename_i hc
      rw [if_pos hc] at hj
      have hd : (tx_cq_body s).done = s.done + 1 := rfl
      cases j with
      | zero =>
        apply tx_cq_loop_len_zero
        rw [tx_cq_body_cpl, Nat.add_zero, wrap32, Nat.mod_eq_of_lt hlt, ← hidx, if_pos rfl]
      | succ m =>
        have hb : (tx_cq_body s).cq_tail_ptr < 4294967296 := by
          simp only [tx_cq_body, wrap32]; omega
        have := ih (tx_cq_body s) rfl hb m (by rw [hd]; omega)
        have e : wrap32 ((tx_cq_body s).cq_tail_ptr + m) = wrap32 (s.cq_tail_ptr + (m + 1)) := by
          simp only [tx_cq_body, wrap32]
          omega
        rw [e] at this
        exact this
    · rename_i hc
      rw [if_neg hc] at hj
      omega

theorem mqnic_rx_batch_hints_eq_harvest (data_off : Nat) (queue : mqnic_rx_queue) (w : world)
    (bufs : Nat → Nat) (num_bufs if_hint : Nat) (hints : Nat → nic_hints) (hint_count : Nat) :
    mqnic_rx_batch_hints_val data_off queue w bufs num_bufs if_hint hints hint_count =
      (let s1 := rx_harvest data_off queue w bufs num_bufs if_hint hints
       let r2 := rx_update_cq_tail s1.queue s1.w s1.buf_index s1.cq_tail_ptr
       let q3 : mqnic_rx_queue :=
         { r2.1 with rxq_tail_ptr := wrap32 (r2.1.rxq_tail_ptr + s1.buf_index) }
       { ret := s1.buf_index
         queue :=
           { q3 with
             rxq_clean_tail_ptr :=
               rx_clean_loop q3 (sub32 q3.rxq_tail_ptr q3.rxq_clean_tail_ptr)
                 q3.rxq_clean_tail_ptr }
         w := r2.2
         bufs := s1.bufs
         hints := s1.hints
         hint_count := if if_hint ≠ 0 then s1.tmp_hint_count else hint_count }) := rfl

theorem rx_update_cq_tail_queue_eq (queue : mqnic_rx_queue) (w : world)
    (buf_index cq_tail_ptr : Nat) :
    (rx_update_cq_tail queue w buf_index cq_tail_ptr).1 =
      { queue with
        accumulated_cq_updates :=
          (rx_update_cq_tail queue w buf_index cq_tail_ptr).1.accumulated_cq_updates
        cpl_tail_ptr := if buf_index ≠ 0 then cq_tail_ptr else queue.cpl_tail_ptr } := by
  unfold rx_update_cq_tail
  by_cases h : buf_index ≠ 0
  · simp only [if_pos h]
    split <;> rfl
  · simp only [if_neg h]

/-- The harvest-loop exit state in terms of the queue the drain was called on. -/
theorem rx_harvest_facts (data_off : Nat) (queue : mqnic_rx_queue) (w : world)
    (bufs : Nat → Nat) (N if_hint : Nat) (hints : Nat → nic_hints)
    (hct : queue.cpl_tail_ptr < 4294967296) :
    (rx_harvest data_off queue w bufs N if_hint hints).queue =
        { queue with
          rxq_head_ptr := (mqnic_refill_rx_buffers_val data_off queue w).1.rxq_head_ptr
          rxq_descriptors := (mqnic_refill_rx_buffers_val data_off queue w).1.rxq_descriptors
          rxq_virtual_addresses :=
            (rx_harvest data_off queue w bufs N if_hint hints).queue.rxq_virtual_addresses
          cpl_descriptors :=
            (rx_harvest data_off queue w bufs N if_hint hints).queue.cpl_descriptors } ∧
      (rx_harvest data_off queue w bufs N if_hint hints).buf_index ≤ N ∧
      (rx_harvest data_off queue w bufs N if_hint hints).cq_tail_ptr
        = wrap32 (queue.cpl_tail_ptr
            + (rx_harvest data_off queue w bufs N if_hint hints).buf_index) ∧
      (∀ j, j < (rx_harvest data_off queue w bufs N if_hint hints).buf_index →
        ((rx_harvest data_off queue w bufs N if_hint hints).queue.cpl_descriptors
          (cpl_slot queue j)).len = 0) ∧
      ((rx_harvest data_off queue w bufs N if_hint hints).buf_index < N →
        ((rx_harvest data_off queue w bufs N if_hint hints).queue.cpl_descriptors
          ((rx_harvest data_off queue w bufs N if_hint hints).cq_tail_ptr
            &&& queue.size_mask)).len = 0) := by
  have hq0 := mqnic_refill_rx_buffers_queue_eq data_off queue w
  have hct0 : (mqnic_refill_rx_buffers_val data_off queue w).1.cpl_tail_ptr = queue.cpl_tail_ptr := by
    rw [hq0]
  have hm0 : (mqnic_refill_rx_buffers_val data_off queue w).1.size_mask = queue.size_mask := by
    rw [hq0]
  unfold rx_harvest
  simp only
  generalize hs0 : (rx_batch_state.mk (mqnic_refill_rx_buffers_val data_off queue w).1
    (mqnic_refill_rx_buffers_val data_off queue w).2 bufs hints
    (mqnic_refill_rx_buffers_val data_off queue w).1.cpl_tail_ptr
    ((mqnic_refill_rx_buffers_val data_off queue w).1.cpl_tail_ptr &&&
      (mqnic_refill_rx_buffers_val data_off queue w).1.size_mask) 0 RXCQ_BYPASS_BATCH
    (decide (((mqnic_refill_rx_buffers_val data_off queue w).1.cpl_descriptors
      (wrap32 (((mqnic_refill_rx_buffers_val data_off queue w).1.cpl_tail_ptr &&&
        (mqnic_refill_rx_buffers_val data_off queue w).1.size_mask) + RXCQ_BYPASS_BATCH) &&&
        (mqnic_refill_rx_buffers_val data_off queue w).1.size_mask)).len ≠ 0)) 0) = s0
  have hs0q : s0.queue = (mqnic_refill_rx_buffers_val data_off queue w).1 := by rw [← hs0]
  have hs0b : s0.buf_index = 0 := by rw [← hs0]
  have hs0t : s0.cq_tail_ptr = queue.cpl_tail_ptr := by rw [← hs0]; exact hct0
  have hs0m : s0.queue.size_mask = queue.size_mask := by rw [hs0q, hm0]
  have hs0i : s0.cq_index = s0.cq_tail_ptr &&& s0.queue.size_mask := by rw [← hs0]
  have hs0n : s0.next_batch = 0 := by rw [← hs0]; rfl
  have hs0lt : s0.cq_tail_ptr < 4294967296 := by rw [hs0t]; exact hct
  have hs0f : s0.if_next = decide ((s0.queue.cpl_descriptors s0.cq_index).len ≠ 0) := by
    have hle : s0.cq_tail_ptr &&& s0.queue.size_mask < 4294967296 :=
      Nat.lt_of_le_of_lt Nat.and_le_left hs0lt
    have e : wrap32 ((s0.cq_tail_ptr &&& s0.queue.size_mask) + RXCQ_BYPASS_BATCH)
        &&& s0.queue.size_mask = s0.cq_tail_ptr &&& s0.queue.size_mask := by
      simp only [RXCQ_BYPASS_BATCH, Nat.add_zero]
      rw [show wrap32 (s0.cq_tail_ptr &&& s0.queue.size_mask)
          = s0.cq_tail_ptr &&& s0.queue.size_mask from Nat.mod_eq_of_lt hle,
        Nat.and_assoc, Nat.and_self]
    rw [hs0i, ← e, ← hs0]
  have hview : ∀ j, cpl_slot (loop_view s0) j = cpl_slot queue j := by
    intro j
    simp only [cpl_slot, loop_view, hs0t, hs0m]
  obtain ⟨j1, _, _, j4⟩ := rx_batch_loop_J if_hint N N s0 hs0i hs0lt hs0n hs0f
  have hqe := rx_batch_loop_queue_eq if_hint N N s0
  have hle := rx_batch_loop_buf_index_le if_hint N N s0 (by omega)
  have htl := rx_batch_loop_cq_tail if_hint N N s0 hs0lt
  have hcl := rx_batch_loop_cleared if_hint N N s0 hs0i hs0lt
  have hex := rx_batch_loop_exit if_hint N N s0 (by omega)
  rw [hs0b, Nat.sub_zero, hs0t] at htl
  rw [hs0b] at hcl
  generalize rx_batch_loop if_hint N N s0 = s1 at j1 j4 hqe hle htl hcl hex ⊢
  have hm1 : s1.queue.size_mask = queue.size_mask := by rw [hqe]; exact hs0m
  refine ⟨?_, hle, htl, ?_, ?_⟩
  · rw [hqe, hs0q, hq0]
  · intro j hj
    have := hcl j (by omega)
    rw [hview] at this
    exact this
  · intro hlt
    have hf : s1.if_next = false := by
      cases hn : s1.if_next with
      | false => rfl
      | true => exact absurd ⟨hn, hlt⟩ hex
    rw [j4, j1, hm1] at hf
    simpa using hf

/-- A drain that finds `len == 0` in the record at `cpl_tail_ptr & size_mask`
harvests nothing. -/
theorem rx_batch_ret_zero_of_sentinel (data_off : Nat) (queue : mqnic_rx_queue) (w : world)
    (bufs : Nat → Nat) (N if_hint : Nat) (hints : Nat → nic_hints) (hint_count : Nat)
    (hct : queue.cpl_tail_ptr < 4294967296)
    (hz : (queue.cpl_descriptors (queue.cpl_tail_ptr &&& queue.size_mask)).len = 0) :
    (mqnic_rx_batch_hints_val data_off queue w bufs N if_hint hints hint_count).ret = 0 := by
  have hq0 := mqnic_refill_rx_buffers_queue_eq data_off queue w
  have hct0 : (mqnic_refill_rx_buffers_val data_off queue w).1.cpl_tail_ptr = queue.cpl_tail_ptr := by
    rw [hq0]
  have hm0 : (mqnic_refill_rx_buffers_val data_off queue w).1.size_mask = queue.size_mask := by
    rw [hq0]
  have hc0 : (mqnic_refill_rx_buffers_val data_off queue w).1.cpl_descriptors
      = queue.cpl_descriptors := by
    rw [hq0]
  have hle : queue.cpl_tail_ptr &&& queue.size_mask < 4294967296 :=
    Nat.lt_of_le_of_lt Nat.and_le_left hct
  have e : wrap32 ((queue.cpl_tail_ptr &&& queue.size_mask) + RXCQ_BYPASS_BATCH)
      &&& queue.size_mask = queue.cpl_tail_ptr &&& queue.size_mask := by
    simp only [RXCQ_BYPASS_BATCH, Nat.add_zero]
    rw [show wrap32 (queue.cpl_tail_ptr &&& queue.size_mask)
        = queue.cpl_tail_ptr &&& queue.size_mask from Nat.mod_eq_of_lt hle,
      Nat.and_assoc, Nat.and_self]
  rw [mqnic_rx_batch_hints_eq_harvest]
  show (rx_harvest data_off queue w bufs N if_hint hints).buf_index = 0
  unfold rx_harvest
  simp only [hct0, hm0, hc0, e, hz, ne_eq, not_true_eq_false, decide_False]
  cases N with
  | zero => rfl
  | succ n =>
    unfold rx_batch_loop
    simp

theorem mqnic_process_tx_cq_eq_harvest (queue : mqnic_tx_queue) (w : world) (budget : Int) :
    mqnic_process_tx_cq queue w budget =
      (let s1 := tx_harvest queue w budget
       let q1 : mqnic_tx_queue := { s1.queue with cpl_tail_ptr := s1.cq_tail_ptr }
       let w1 := mqnic_tx_cq_write_tail_ptr q1 s1.w
       let q2 : mqnic_tx_queue := { q1 with txq_tail_ptr := wrap32 (q1.txq_tail_ptr + s1.done) }
       match tx_clean_loop q2 (sub32 q2.txq_tail_ptr q2.txq_clean_tail_ptr)
           q2.txq_clean_tail_ptr with
       | none => none
       | some ring_clean_tail_ptr =>
         some (wrap32 s1.done, { q2 with txq_clean_tail_ptr := ring_clean_tail_ptr }, w1)) := rfl

/-- The reap-loop exit state in terms of the queue the reap was called on. -/
theorem tx_harvest_facts (queue : mqnic_tx_queue) (w : world) (budget : Int)
    (hct : queue.cpl_tail_ptr < 4294967296) :
    (tx_harvest queue w budget).queue =
        { queue with
          txq_virtual_addresses := (tx_harvest queue w budget).queue.txq_virtual_addresses
          cpl_descriptors := (tx_harvest queue w budget).queue.cpl_descriptors } ∧
      (tx_harvest queue w budget).done ≤ budget.toNat ∧
      (tx_harvest queue w budget).cq_tail_ptr
        = wrap32 (queue.cpl_tail_ptr + (tx_harvest queue w budget).done) ∧
      (∀ j, j < (tx_harvest queue w budget).done →
        ((tx_harvest queue w budget).queue.cpl_descriptors (tx_cpl_slot queue j)).len = 0) ∧
      (((tx_harvest queue w budget).done : Int) < budget →
        ((tx_harvest queue w budget).queue.cpl_descriptors
          ((tx_harvest queue w budget).cq_tail_ptr &&& queue.size_mask)).len = 0) := by
  unfold tx_harvest
  simp only
  generalize hs0 : (tx_cq_state.mk queue w queue.cpl_tail_ptr
    (queue.cpl_tail_ptr &&& queue.size_mask) 0
    (decide ((queue.cpl_descriptors (queue.cpl_tail_ptr &&& queue.size_mask)).len ≠ 0))) = s0
  have hs0q : s0.queue = queue := by rw [← hs0]
  have hs0d : s0.done = 0 := by rw [← hs0]
  have hs0t : s0.cq_tail_ptr = queue.cpl_tail_ptr := by rw [← hs0]
  have hs0i : s0.cq_index = s0.cq_tail_ptr &&& s0.queue.size_mask := by rw [← hs0]
  have hs0lt : s0.cq_tail_ptr < 4294967296 := by rw [hs0t]; exact hct
  have hs0f : s0.if_next = decide ((s0.queue.cpl_descriptors s0.cq_index).len ≠ 0) := by
    rw [← hs0]
  obtain ⟨j1, _, j4⟩ := tx_cq_loop_J budget budget.toNat s0 hs0i hs0lt hs0f
  have hqe := tx_cq_loop_queue_eq budget budget.toNat s0
  have htl := tx_cq_loop_cq_tail budget budget.toNat s0 hs0lt
  have hcl := tx_cq_loop_cleared budget budget.toNat s0 hs0i hs0lt
  have hex := tx_cq_loop_exit budget budget.toNat s0 (by rw [hs0d]; omega)
  have hdn : (tx_cq_loop budget budget.toNat s0).done ≤ budget.toNat := by
    by_cases hb : (tx_cq_loop budget budget.toNat s0).done ≤ budget.toNat
    · exact hb
    · exfalso
      have hge := tx_cq_loop_done_ge budget budget.toNat s0
      -- the loop only continues while `done < budget`
      have : ∀ (fuel : Nat) (s : tx_cq_state), s.done ≤ budget.toNat →
          (tx_cq_loop budget fuel s).done ≤ budget.toNat := by
        intro fuel
        induction fuel with
        | zero => intro s h; exact h
        | succ n ih =>
          intro s h
          unfold tx_cq_loop
          split
          · rename_i hc
            apply ih
            show s.done + 1 ≤ budget.toNat
            omega
          · exact h
      exact hb (this _ _ (by rw [hs0d]; omega))
  rw [hs0d, Nat.sub_zero, hs0t] at htl
  rw [hs0d, hs0t, hs0q] at hcl
  generalize tx_cq_loop budget budget.toNat s0 = s1 at j1 j4 hqe htl hcl hex hdn ⊢
  have hm1 : s1.queue.size_mask = queue.size_mask := by rw [hqe, hs0q]
  refine ⟨?_, hdn, htl, ?_, ?_⟩
  · rw [hqe, hs0q]
  · intro j hj
    exact hcl j (by omega)
  · intro hlt
    have hf : s1.if_next = false := by
      cases hn : s1.if_next with
      | false => rfl
      | true => exact absurd ⟨hn, hlt⟩ hex
    rw [j4, j1, hm1] at hf
    simpa using hf

/-- A reap that finds `len == 0` in the record at `cpl_tail_ptr & size_mask`, on
a queue whose clean tail has caught up with its tail, reaps nothing: it returns
0 and leaves the queue record as it was. -/
theorem tx_reap_zero_of_sentinel (queue : mqnic_tx_queue) (w : world) (budget : Int)
    (htail : queue.txq_tail_ptr < 4294967296)
    (hclean : queue.txq_clean_tail_ptr = queue.txq_tail_ptr)
    (hz : (queue.cpl_descriptors (queue.cpl_tail_ptr &&& queue.size_mask)).len = 0) :
    mqnic_process_tx_cq queue w budget
      = some (0, queue, mqnic_tx_cq_write_tail_ptr queue w) := by
  have hs1 : tx_harvest queue w budget =
      { queue := queue, w := w, cq_tail_ptr := queue.cpl_tail_ptr
        cq_index := queue.cpl_tail_ptr &&& queue.size_mask, done := 0, if_next := false } := by
    unfold tx_harvest
    simp only [hz, ne_eq, not_true_eq_false, decide_False]
    cases budget.toNat with
    | zero => rfl
    | succ n =>
      unfold tx_cq_loop
      simp
  have hq : ∀ q : mqnic_tx_queue, q.txq_clean_tail_ptr = q.txq_tail_ptr →
      ({ q with txq_clean_tail_ptr := q.txq_tail_ptr } : mqnic_tx_queue) = q := by
    intro q h
    cases q
    simp only at h
    subst h
    rfl
  have e : sub32 queue.txq_tail_ptr queue.txq_tail_ptr = 0 := by
    simp only [sub32]
    omega
  rw [mqnic_process_tx_cq_eq_harvest, hs1]
  simp only [Nat.add_zero, wrap32, Nat.mod_eq_of_lt htail, hclean, e, tx_clean_loop,
    Nat.zero_mod]
  rw [hq queue hclean]

/-- C17, counterexample: a first drain of `sample_rx_queue` (three completions
available) with capacity 2 returns 2; a second drain of the resulting queue,
with no NIC write in between, harvests the third completion and returns 1, not
0. -/
theorem rx_second_drain_after_capped_drain :
    ∃ r1 r2,
      mqnic_rx_batch_hints 64 sample_rx_queue sample_world (fun _ => 0) 2 0
        (fun _ => ⟨0, 0⟩) 0 = Except.ok r1 ∧
      r1.ret = 2 ∧
      mqnic_rx_batch_hints 64 r1.queue r1.w (fun _ => 0) 2 0 (fun _ => ⟨0, 0⟩) 0
        = Except.ok r2 ∧
      r2.ret = 1 :=
  ⟨mqnic_rx_batch_hints_val 64 sample_rx_queue sample_world (fun _ => 0) 2 0
      (fun _ => ⟨0, 0⟩) 0,
    mqnic_rx_batch_hints_val 64
      (mqnic_rx_batch_hints_val 64 sample_rx_queue sample_world (fun _ => 0) 2 0
        (fun _ => ⟨0, 0⟩) 0).queue
      (mqnic_rx_batch_hints_val 64 sample_rx_queue sample_world (fun _ => 0) 2 0
        (fun _ => ⟨0, 0⟩) 0).w
      (fun _ => 0) 2 0 (fun _ => ⟨0, 0⟩) 0,
    mqnic_rx_batch_hints_returns 64 sample_rx_queue sample_world (fun _ => 0) 2 0
      (fun _ => ⟨0, 0⟩) 0 (Or.inl (by decide)),
    by decide,
    mqnic_rx_batch_hints_returns 64 _ _ (fun _ => 0) 2 0 (fun _ => ⟨0, 0⟩) 0
      (Or.inl (by decide)),
    by decide⟩

/-- The consumed completion records are cleared, on the value of the drain. -/
theorem consumed_records_cleared_val (data_off : Nat) (queue : mqnic_rx_queue) (w : world)
    (bufs : Nat → Nat) (num_bufs if_hint : Nat) (hints : Nat → nic_hints) (hint_count : Nat)
    (txq : mqnic_tx_queue) (tw : world) (budget : Int)
    (hct : queue.cpl_tail_ptr < 4294967296)
    (htct : txq.cpl_tail_ptr < 4294967296)
    (htc : txq.txq_clean_tail_ptr < 4294967296) (hbud : budget < 4294967296) :
    ((∀ j, j < (mqnic_rx_batch_hints_val data_off queue w bufs num_bufs if_hint hints hint_count).ret →
        ((mqnic_rx_batch_hints_val data_off queue w bufs num_bufs if_hint hints
          hint_count).queue.cpl_descriptors (cpl_slot queue j)).len = 0) ∧
      ((mqnic_rx_batch_hints_val data_off queue w bufs num_bufs if_hint hints hint_count).ret
          < num_bufs →
        ∀ (w2 : world) (bufs2 : Nat → Nat) (num_bufs2 if_hint2 : Nat)
          (hints2 : Nat → nic_hints) (hint_count2 : Nat),
          (mqnic_rx_batch_hints_val data_off
            (mqnic_rx_batch_hints_val data_off queue w bufs num_bufs if_hint hints hint_count).queue
            w2 bufs2 num_bufs2 if_hint2 hints2 hint_count2).ret = 0)) ∧
    (∀ r, mqnic_process_tx_cq txq tw budget = some r →
      (∀ j, j < r.1 → (r.2.1.cpl_descriptors (tx_cpl_slot txq j)).len = 0) ∧
      ((r.1 : Int) < budget →
        ∀ (w2 : world) (budget2 : Int),
          mqnic_process_tx_cq r.2.1 w2 budget2
            = some (0, r.2.1, mqnic_tx_cq_write_tail_ptr r.2.1 w2))) := by
  constructor
  · obtain ⟨h1, h2, h3, h4, h5⟩ := rx_harvest_facts data_off queue w bufs num_bufs if_hint hints hct
    have hq := rx_update_cq_tail_queue_eq
      (rx_harvest data_off queue w bufs num_bufs if_hint hints).queue
      (rx_harvest data_off queue w bufs num_bufs if_hint hints).w
      (rx_harvest data_off queue w bufs num_bufs if_hint hints).buf_index
      (rx_harvest data_off queue w bufs num_bufs if_hint hints).cq_tail_ptr
    rw [mqnic_rx_batch_hints_eq_harvest]
    simp only
    generalize rx_harvest data_off queue w bufs num_bufs if_hint hints = s1 at h1 h2 h3 h4 h5 hq ⊢
    have hcpl : (rx_update_cq_tail s1.queue s1.w s1.buf_index s1.cq_tail_ptr).1.cpl_descriptors
        = s1.queue.cpl_descriptors := by rw [hq]
    have hmsk : (rx_update_cq_tail s1.queue s1.w s1.buf_index s1.cq_tail_ptr).1.size_mask
        = queue.size_mask := by rw [hq, h1]
    have htail : (rx_update_cq_tail s1.queue s1.w s1.buf_index s1.cq_tail_ptr).1.cpl_tail_ptr
        = s1.cq_tail_ptr := by
      rw [hq]
      show (if s1.buf_index ≠ 0 then s1.cq_tail_ptr else s1.queue.cpl_tail_ptr) = _
      split
      · rfl
      · rename_i hb
        have hb0 : s1.buf_index = 0 := by omega
        rw [h3, hb0, h1]
        simp only [Nat.add_zero, wrap32, Nat.mod_eq_of_lt hct]
    refine ⟨fun j hj => ?_, fun hlt w2 bufs2 N2 ih2 hints2 hc2 => ?_⟩
    · show ((rx_update_cq_tail s1.queue s1.w s1.buf_index s1.cq_tail_ptr).1.cpl_descriptors
        (cpl_slot queue j)).len = 0
      rw [hcpl]
      exact h4 j hj
    · apply rx_batch_ret_zero_of_sentinel
      · show (rx_update_cq_tail s1.queue s1.w s1.buf_index s1.cq_tail_ptr).1.cpl_tail_ptr < _
        rw [htail, h3]
        simp only [wrap32]
        omega
      · show ((rx_update_cq_tail s1.queue s1.w s1.buf_index s1.cq_tail_ptr).1.cpl_descriptors
          ((rx_update_cq_tail s1.queue s1.w s1.buf_index s1.cq_tail_ptr).1.cpl_tail_ptr &&&
            (rx_update_cq_tail s1.queue s1.w s1.buf_index s1.cq_tail_ptr).1.size_mask)).len = 0
        rw [hcpl, htail, hmsk]
        exact h5 hlt
  · intro r hr
    obtain ⟨h1, h2, h3, h4, h5⟩ := tx_harvest_facts txq tw budget htct
    rw [mqnic_process_tx_cq_eq_harvest] at hr
    simp only at hr
    generalize tx_harvest txq tw budget = s1 at h1 h2 h3 h4 h5 hr
    have htl1 : s1.queue.txq_tail_ptr = txq.txq_tail_ptr := by rw [h1]
    have hcl1 : s1.queue.txq_clean_tail_ptr = txq.txq_clean_tail_ptr := by rw [h1]
    have hm1 : s1.queue.size_mask = txq.size_mask := by rw [h1]
    have hex := tx_clean_loop_exit
      { s1.queue with
        cpl_tail_ptr := s1.cq_tail_ptr
        txq_tail_ptr := wrap32 (s1.queue.txq_tail_ptr + s1.done) }
      (by show wrap32 _ < _; simp only [wrap32]; omega)
      (sub32 (wrap32 (s1.queue.txq_tail_ptr + s1.done)) s1.queue.txq_clean_tail_ptr)
      s1.queue.txq_clean_tail_ptr (by rw [hcl1]; exact htc) (Nat.le_refl _)
    split at hr
    · exact absurd hr (by simp)
    · rename_i c hc
      simp only [Option.some.injEq] at hr
      have hc2 : c = wrap32 (s1.queue.txq_tail_ptr + s1.done) := by
        rcases hex with h | h
        · rw [h] at hc
          simp only [Option.some.injEq] at hc
          exact hc.symm
        · rw [h] at hc
          exact absurd hc (by simp)
      subst hr
      have hdone : s1.done < 4294967296 := by omega
      refine ⟨fun j hj => ?_, fun hlt w2 budget2 => ?_⟩
      · apply h4
        have : wrap32 s1.done = s1.done := Nat.mod_eq_of_lt hdone
        simp only [this] at hj
        exact hj
      · apply tx_reap_zero_of_sentinel
        · show wrap32 _ < _
          simp only [wrap32]; omega
        · exact hc2
        · show (s1.queue.cpl_descriptors (s1.cq_tail_ptr &&& s1.queue.size_mask)).len = 0
          rw [hm1]
          apply h5
          have : wrap32 s1.done = s1.done := Nat.mod_eq_of_lt hdone
          simp only [this] at hlt
          exact hlt

/-- C17, amended: every completion record consumed by a returning call of
`mqnic_rx_batch_hints` (the records `j < ret` counted from the `cpl_tail_ptr`
of the call) or of `mqnic_process_tx_cq` (the records `j < done`) has
`len == 0` when the call returns.  When the call stopped before its cap
(`ret < num_bufs`, respectively `done < budget`), a second call on the resulting
queue, with any arguments and no NIC write in between, harvests (respectively
reaps) nothing and returns 0; the second reap also leaves the TX queue record
unchanged.  The RX call returns exactly when the pool holds what its refill
asks. -/
theorem consumed_records_cleared (data_off : Nat) (queue : mqnic_rx_queue) (w : world)
    (bufs : Nat → Nat) (num_bufs if_hint : Nat) (hints : Nat → nic_hints) (hint_count : Nat)
    (txq : mqnic_tx_queue) (tw : world) (budget : Int)
    (hct : queue.cpl_tail_ptr < 4294967296)
    (htct : txq.cpl_tail_ptr < 4294967296)
    (htc : txq.txq_clean_tail_ptr < 4294967296) (hbud : budget < 4294967296) :
    ((∃ r, mqnic_rx_batch_hints data_off queue w bufs num_bufs if_hint hints hint_count
        = Except.ok r) ↔ refill_supplied queue w) ∧
    (∀ r, mqnic_rx_batch_hints data_off queue w bufs num_bufs if_hint hints hint_count
        = Except.ok r →
      (∀ j, j < r.ret → (r.queue.cpl_descriptors (cpl_slot queue j)).len = 0) ∧
      (r.ret < num_bufs →
        ∀ (w2 : world) (bufs2 : Nat → Nat) (num_bufs2 if_hint2 : Nat)
          (hints2 : Nat → nic_hints) (hint_count2 : Nat) (r2 : rx_batch_result),
          mqnic_rx_batch_hints data_off r.queue w2 bufs2 num_bufs2 if_hint2 hints2 hint_count2
            = Except.ok r2 →
          r2.ret = 0)) ∧
    (∀ r, mqnic_process_tx_cq txq tw budget = some r →
      (∀ j, j < r.1 → (r.2.1.cpl_descriptors (tx_cpl_slot txq j)).len = 0) ∧
      ((r.1 : Int) < budget →
        ∀ (w2 : world) (budget2 : Int),
          mqnic_process_tx_cq r.2.1 w2 budget2
            = some (0, r.2.1, mqnic_tx_cq_write_tail_ptr r.2.1 w2))) := by
  have h := consumed_records_cleared_val data_off queue w bufs num_bufs if_hint hints
    hint_count txq tw budget hct htct htc hbud
  refine ⟨mqnic_rx_batch_hints_returns_iff data_off queue w bufs num_bufs if_hint hints
    hint_count, ?_, h.2⟩
  intro r hr
  have e := mqnic_rx_batch_hints_ok hr
  subst e
  refine ⟨h.1.1, ?_⟩
  intro hlt w2 bufs2 num_bufs2 if_hint2 hints2 hint_count2 r2 hr2
  rw [mqnic_rx_batch_hints_ok hr2]
  exact h.1.2 hlt w2 bufs2 num_bufs2 if_hint2 hints2 hint_count2

/-- Witness for C17: `sample_rx_queue` drained with capacity 8 (three
completions available) and the reap of `sample_tx_queue` with budget 64. -/
theorem consumed_records_cleared_witness :
    ∃ r r2,
      mqnic_rx_batch_hints 64 sample_rx_queue sample_world (fun _ => 0) 8 0
        (fun _ => ⟨0, 0⟩) 0 = Except.ok r ∧
      mqnic_rx_batch_hints 64 r.queue sample_world (fun _ => 0) 8 0 (fun _ => ⟨0, 0⟩) 0
        = Except.ok r2 ∧
      r.ret = 3 ∧
      (∀ j, j < 3 → (r.queue.cpl_descriptors (cpl_slot sample_rx_queue j)).len = 0) ∧
      r2.ret = 0 ∧
      mqnic_process_tx_cq sample_tx_reaped.2.1 sample_world 64
        = some (0, sample_tx_reaped.2.1,
            mqnic_tx_cq_write_tail_ptr sample_tx_reaped.2.1 sample_world) := by
  have h := consumed_records_cleared 64 sample_rx_queue sample_world (fun _ => 0) 8 0
    (fun _ => ⟨0, 0⟩) 0 sample_tx_queue sample_world 64 (by decide) (by decide) (by decide)
    (by decide)
  have hr := mqnic_rx_batch_hints_returns 64 sample_rx_queue sample_world (fun _ => 0) 8 0
    (fun _ => ⟨0, 0⟩) 0 (Or.inl (by decide))
  have hret : (mqnic_rx_batch_hints_val 64 sample_rx_queue sample_world (fun _ => 0) 8 0
      (fun _ => ⟨0, 0⟩) 0).ret = 3 := by decide
  have hr2 := mqnic_rx_batch_hints_returns 64
    (mqnic_rx_batch_hints_val 64 sample_rx_queue sample_world (fun _ => 0) 8 0
      (fun _ => ⟨0, 0⟩) 0).queue sample_world (fun _ => 0) 8 0 (fun _ => ⟨0, 0⟩) 0
    (Or.inl (by decide))
  refine ⟨_, _, hr, hr2, hret, ?_, ?_, ?_⟩
  · intro j hj
    exact (h.2.1 _ hr).1 j (by rw [hret]; exact hj)
  · exact (h.2.1 _ hr).2 (by rw [hret]; decide) sample_world (fun _ => 0) 8 0 (fun _ => ⟨0, 0⟩) 0
      _ hr2
  · exact (h.2.2 sample_tx_reaped rfl).2 (by decide) sample_world 64

/-! ## Bypass and exact variants of the RX drain -/

theorem rx_exact_body_exact_of (if_hint hd : Nat) (s : rx_batch_state) :
    rx_exact_body if_hint (exact_of hd s) = exact_of hd (rx_batch_body if_hint s) := rfl

theorem rx_exact_loop_exact_of (if_hint N hd : Nat) (hhd : hd < 4294967296) :
    ∀ (fuel : Nat) (s : rx_batch_state),
      is_ring_size s.queue.size → s.queue.size_mask = s.queue.size - 1 →
      s.cq_index = s.cq_tail_ptr &&& s.queue.size_mask → s.cq_tail_ptr < 4294967296 →
      s.next_batch = 0 →
      s.if_next = decide ((s.queue.cpl_descriptors s.cq_index).len ≠ 0) →
      sub32 hd s.cq_tail_ptr ≤ s.queue.size →
      (∀ j, j < sub32 hd s.cq_tail_ptr → (cpl_at (loop_view s) j).len ≠ 0) →
      (sub32 hd s.cq_tail_ptr < s.queue.size →
        (cpl_at (loop_view s) (sub32 hd s.cq_tail_ptr)).len = 0) →
      rx_exact_loop if_hint N fuel (exact_of hd s)
        = exact_of hd (rx_batch_loop if_hint N fuel s) := by
  intro fuel
  induction fuel with
  | zero => intro s _ _ _ _ _ _ _ _ _; rfl
  | succ n ih =>
    intro s hsz hmask hidx hlt hnb hnext hk hnz hz
    have hpos := is_ring_size_pos _ hsz
    have hslot0 := cpl_slot_view_zero s hidx hlt
    have hat0 : cpl_at (loop_view s) 0 = s.queue.cpl_descriptors s.cq_index := by
      show s.queue.cpl_descriptors (cpl_slot (loop_view s) 0) = _
      rw [hslot0]
    -- the two loop conditions agree
    have hcond : (exact_of hd s).if_next = s.if_next := by
      show decide (hd ≠ s.cq_tail_ptr) = s.if_next
      rw [hnext]
      by_cases h0 : sub32 hd s.cq_tail_ptr = 0
      · have e : hd = s.cq_tail_ptr := by
          simp only [sub32] at h0
          omega
        have := hz (by omega)
        rw [h0, hat0] at this
        simp [e, this]
      · have e : hd ≠ s.cq_tail_ptr := by
          intro e
          apply h0
          simp only [sub32, e]
          omega
        have := hnz 0 (by omega)
        rw [hat0] at this
        simp [e, this]
    unfold rx_exact_loop rx_batch_loop
    have hbi : (exact_of hd s).buf_index = s.buf_index := rfl
    rw [hcond, hbi]
    by_cases hc : s.if_next = true ∧ s.buf_index < N
    · rw [if_pos hc, if_pos hc, rx_exact_body_exact_of]
      obtain ⟨b1, b2, b3, b4⟩ := rx_batch_body_inv if_hint s hnb
      have hk1 : 1 ≤ sub32 hd s.cq_tail_ptr := by
        by_contra hcon
        have h0 : sub32 hd s.cq_tail_ptr = 0 := by omega
        have := hz (by omega)
        rw [h0, hat0] at this
        have h1 := hc.1
        rw [hnext] at h1
        simp [this] at h1
      have hsub : sub32 hd (rx_batch_body if_hint s).cq_tail_ptr
          = sub32 hd s.cq_tail_ptr - 1 := by
        have hct : (rx_batch_body if_hint s).cq_tail_ptr = wrap32 (s.cq_tail_ptr + 1) := rfl
        rw [hct]
        simp only [sub32, wrap32] at hk1 ⊢
        omega
      have hatS : ∀ j, j + 1 < s.queue.size →
          cpl_at (loop_view (rx_batch_body if_hint s)) j = cpl_at (loop_view s) (j + 1) :=
        fun j hj => cpl_at_body if_hint s j hsz hmask hidx hlt hj
      apply ih (rx_batch_body if_hint s) hsz hmask b1 b2 b3 b4
      · rw [hsub]
        show sub32 hd s.cq_tail_ptr - 1 ≤ s.queue.size
        omega
      · intro j hj
        rw [hsub] at hj
        rw [hatS j (by omega)]
        exact hnz (j + 1) (by omega)
      · intro _
        rw [hsub]
        show ((rx_batch_body if_hint s).queue.cpl_descriptors
          (cpl_slot (loop_view (rx_batch_body if_hint s)) (sub32 hd s.cq_tail_ptr - 1))).len = 0
        rw [cpl_slot_body, rx_batch_body_cpl]
        split
        · rfl
        · rename_i hne
          have e : sub32 hd s.cq_tail_ptr - 1 + 1 = sub32 hd s.cq_tail_ptr := by omega
          rw [e] at hne ⊢
          by_cases hks : sub32 hd s.cq_tail_ptr < s.queue.size
          · exact hz hks
          · exfalso
            apply hne
            have : sub32 hd s.cq_tail_ptr = s.queue.size := by omega
            rw [this, ← hslot0]
            exact cpl_slot_size (loop_view s) hsz hmask
    · rw [if_neg hc, if_neg hc]

theorem mqnic_rx_batch_hints_exact_eq_harvest (data_off : Nat) (queue : mqnic_rx_queue)
    (w : world) (bufs : Nat → Nat) (num_bufs if_hint : Nat) (hints : Nat → nic_hints)
    (hint_count nic_head_ptr nic_tail_ptr : Nat) :
    mqnic_rx_batch_hints_exact_val data_off queue w bufs num_bufs if_hint hints hint_count
        nic_head_ptr nic_tail_ptr =
      (let s1 := rx_harvest_exact data_off queue w bufs num_bufs if_hint hints nic_head_ptr
       let r2 := rx_update_cq_tail s1.queue s1.w s1.buf_index s1.cq_tail_ptr
       let q3 := mqnic_rx_read_tail_ptr r2.1 nic_tail_ptr
       { ret := s1.buf_index
         queue :=
           { q3 with
             rxq_clean_tail_ptr :=
               rx_clean_loop q3 (sub32 q3.rxq_tail_ptr q3.rxq_clean_tail_ptr)
                 q3.rxq_clean_tail_ptr }
         w := r2.2
         bufs := s1.bufs
         hints := s1.hints
         hint_count := if if_hint ≠ 0 then s1.tmp_hint_count else hint_count }) := rfl

theorem rx_harvest_exact_eq (data_off : Nat) (queue : mqnic_rx_queue) (w : world)
    (bufs : Nat → Nat) (N if_hint : Nat) (hints : Nat → nic_hints) (nic_head_ptr : Nat)
    (hsz : is_ring_size queue.size) (hmask : queue.size_mask = queue.size - 1)
    (hct : queue.cpl_tail_ptr < 4294967296)
    (hk : sub32 (mqnic_rx_cq_read_head_ptr queue nic_head_ptr).cpl_head_ptr queue.cpl_tail_ptr
      ≤ queue.size)
    (hnz : ∀ j,
      j < sub32 (mqnic_rx_cq_read_head_ptr queue nic_head_ptr).cpl_head_ptr queue.cpl_tail_ptr →
      (cpl_at queue j).len ≠ 0)
    (hz : sub32 (mqnic_rx_cq_read_head_ptr queue nic_head_ptr).cpl_head_ptr queue.cpl_tail_ptr
        < queue.size →
      (cpl_at queue
        (sub32 (mqnic_rx_cq_read_head_ptr queue nic_head_ptr).cpl_head_ptr
          queue.cpl_tail_ptr)).len = 0) :
    rx_harvest_exact data_off queue w bufs N if_hint hints nic_head_ptr
      = exact_of (mqnic_rx_cq_read_head_ptr queue nic_head_ptr).cpl_head_ptr
          (rx_harvest data_off queue w bufs N if_hint hints) := by
  have hq0 := mqnic_refill_rx_buffers_queue_eq data_off queue w
  have hct0 : (mqnic_refill_rx_buffers_val data_off queue w).1.cpl_tail_ptr = queue.cpl_tail_ptr := by
    rw [hq0]
  have hm0 : (mqnic_refill_rx_buffers_val data_off queue w).1.size_mask = queue.size_mask := by
    rw [hq0]
  have hsz0 : (mqnic_refill_rx_buffers_val data_off queue w).1.size = queue.size := by
    rw [hq0]
  have hc0 : (mqnic_refill_rx_buffers_val data_off queue w).1.cpl_descriptors
      = queue.cpl_descriptors := by
    rw [hq0]
  have hhd : (mqnic_rx_cq_read_head_ptr (mqnic_refill_rx_buffers_val data_off queue w).1
      nic_head_ptr).cpl_head_ptr = (mqnic_rx_cq_read_head_ptr queue nic_head_ptr).cpl_head_ptr := by
    have h1 : (mqnic_refill_rx_buffers_val data_off queue w).1.cpl_head_ptr = queue.cpl_head_ptr := by
      rw [hq0]
    have h2 : (mqnic_refill_rx_buffers_val data_off queue w).1.hw_ptr_mask = queue.hw_ptr_mask := by
      rw [hq0]
    simp only [mqnic_rx_cq_read_head_ptr, h1, h2]
  have hhdlt : (mqnic_rx_cq_read_head_ptr queue nic_head_ptr).cpl_head_ptr < 4294967296 := by
    simp only [mqnic_rx_cq_read_head_ptr, wrap32]
    omega
  generalize (mqnic_rx_cq_read_head_ptr queue nic_head_ptr).cpl_head_ptr = hd
    at hk hnz hz hhd hhdlt ⊢
  have hle : queue.cpl_tail_ptr &&& queue.size_mask < 4294967296 :=
    Nat.lt_of_le_of_lt Nat.and_le_left hct
  have e : wrap32 ((queue.cpl_tail_ptr &&& queue.size_mask) + RXCQ_BYPASS_BATCH)
      &&& queue.size_mask = queue.cpl_tail_ptr &&& queue.size_mask := by
    simp only [RXCQ_BYPASS_BATCH, Nat.add_zero]
    rw [show wrap32 (queue.cpl_tail_ptr &&& queue.size_mask)
        = queue.cpl_tail_ptr &&& queue.size_mask from Nat.mod_eq_of_lt hle,
      Nat.and_assoc, Nat.and_self]
  have hview : ∀ (s : rx_batch_state),
      s.queue = (mqnic_refill_rx_buffers_val data_off queue w).1 →
      s.cq_tail_ptr = queue.cpl_tail_ptr → ∀ j, cpl_at (loop_view s) j = cpl_at queue j := by
    intro s h1 h2 j
    simp only [cpl_at, cpl_slot, loop_view, h1, h2, hm0, hc0]
  unfold rx_harvest_exact rx_harvest
  simp only [hct0, hm0, hc0, e]
  have hstart := rx_exact_loop_exact_of if_hint N hd hhdlt N
    { queue := (mqnic_refill_rx_buffers_val data_off queue w).1
      w := (mqnic_refill_rx_buffers_val data_off queue w).2
      bufs := bufs
      hints := hints
      cq_tail_ptr := queue.cpl_tail_ptr
      cq_index := queue.cpl_tail_ptr &&& queue.size_mask
      buf_index := 0
      next_batch := RXCQ_BYPASS_BATCH
      if_next := decide ((queue.cpl_descriptors (queue.cpl_tail_ptr &&& queue.size_mask)).len ≠ 0)
      tmp_hint_count := 0 }
    (by show is_ring_size (mqnic_refill_rx_buffers_val data_off queue w).1.size
        rw [hsz0]; exact hsz)
    (by show (mqnic_refill_rx_buffers_val data_off queue w).1.size_mask
          = (mqnic_refill_rx_buffers_val data_off queue w).1.size - 1
        rw [hm0, hsz0]; exact hmask)
    (by show queue.cpl_tail_ptr &&& queue.size_mask
          = queue.cpl_tail_ptr &&& (mqnic_refill_rx_buffers_val data_off queue w).1.size_mask
        rw [hm0])
    hct rfl
    (by show decide ((queue.cpl_descriptors (queue.cpl_tail_ptr &&& queue.size_mask)).len ≠ 0)
          = decide (((mqnic_refill_rx_buffers_val data_off queue w).1.cpl_descriptors
              (queue.cpl_tail_ptr &&& queue.size_mask)).len ≠ 0)
        rw [hc0])
    (by show sub32 hd queue.cpl_tail_ptr ≤ (mqnic_refill_rx_buffers_val data_off queue w).1.size
        rw [hsz0]; exact hk)
    (by intro j hj
        rw [hview _ rfl rfl]
        exact hnz j hj)
    (by intro hlt
        rw [hview _ rfl rfl]
        apply hz
        have : sub32 hd queue.cpl_tail_ptr < (mqnic_refill_rx_buffers_val data_off queue w).1.size :=
          hlt
        rw [hsz0] at this
        exact this)
  have hq1 : mqnic_rx_cq_read_head_ptr (mqnic_refill_rx_buffers_val data_off queue w).1 nic_head_ptr
      = { (mqnic_refill_rx_buffers_val data_off queue w).1 with cpl_head_ptr := hd } := by
    rw [← hhd]
    rfl
  rw [← hstart]
  simp only [exact_of, hhd, hq1]

/-- The bypass variant and the exact variant agree, on the values of the two drains. -/
theorem rx_bypass_exact_agree_val (data_off : Nat) (queue : mqnic_rx_queue) (w : world)
    (bufs : Nat → Nat) (num_bufs if_hint : Nat) (hints : Nat → nic_hints)
    (hint_count nic_head_ptr nic_tail_ptr : Nat)
    (hsz : is_ring_size queue.size) (hmask : queue.size_mask = queue.size - 1)
    (hct : queue.cpl_tail_ptr < 4294967296)
    (hk : sub32 (mqnic_rx_cq_read_head_ptr queue nic_head_ptr).cpl_head_ptr queue.cpl_tail_ptr
      ≤ queue.size)
    (hnz : ∀ j,
      j < sub32 (mqnic_rx_cq_read_head_ptr queue nic_head_ptr).cpl_head_ptr queue.cpl_tail_ptr →
      (cpl_at queue j).len ≠ 0)
    (hz : sub32 (mqnic_rx_cq_read_head_ptr queue nic_head_ptr).cpl_head_ptr queue.cpl_tail_ptr
        < queue.size →
      (cpl_at queue
        (sub32 (mqnic_rx_cq_read_head_ptr queue nic_head_ptr).cpl_head_ptr
          queue.cpl_tail_ptr)).len = 0) :
    (mqnic_rx_batch_hints_exact_val data_off queue w bufs num_bufs if_hint hints hint_count
        nic_head_ptr nic_tail_ptr).ret
      = (mqnic_rx_batch_hints_val data_off queue w bufs num_bufs if_hint hints hint_count).ret ∧
    (mqnic_rx_batch_hints_exact_val data_off queue w bufs num_bufs if_hint hints hint_count
        nic_head_ptr nic_tail_ptr).bufs
      = (mqnic_rx_batch_hints_val data_off queue w bufs num_bufs if_hint hints hint_count).bufs ∧
    (mqnic_rx_batch_hints_exact_val data_off queue w bufs num_bufs if_hint hints hint_count
        nic_head_ptr nic_tail_ptr).w
      = (mqnic_rx_batch_hints_val data_off queue w bufs num_bufs if_hint hints hint_count).w ∧
    (mqnic_rx_batch_hints_exact_val data_off queue w bufs num_bufs if_hint hints hint_count
        nic_head_ptr nic_tail_ptr).hints
      = (mqnic_rx_batch_hints_val data_off queue w bufs num_bufs if_hint hints hint_count).hints ∧
    (mqnic_rx_batch_hints_exact_val data_off queue w bufs num_bufs if_hint hints hint_count
        nic_head_ptr nic_tail_ptr).hint_count
      = (mqnic_rx_batch_hints_val data_off queue w bufs num_bufs if_hint hints
          hint_count).hint_count ∧
    (mqnic_rx_batch_hints_exact_val data_off queue w bufs num_bufs if_hint hints hint_count
        nic_head_ptr nic_tail_ptr).queue.rxq_virtual_addresses
      = (mqnic_rx_batch_hints_val data_off queue w bufs num_bufs if_hint hints
          hint_count).queue.rxq_virtual_addresses ∧
    (mqnic_rx_batch_hints_exact_val data_off queue w bufs num_bufs if_hint hints hint_count
        nic_head_ptr nic_tail_ptr).queue.cpl_descriptors
      = (mqnic_rx_batch_hints_val data_off queue w bufs num_bufs if_hint hints
          hint_count).queue.cpl_descriptors ∧
    (mqnic_rx_batch_hints_exact_val data_off queue w bufs num_bufs if_hint hints hint_count
        nic_head_ptr nic_tail_ptr).queue.cpl_tail_ptr
      = (mqnic_rx_batch_hints_val data_off queue w bufs num_bufs if_hint hints
          hint_count).queue.cpl_tail_ptr ∧
    (mqnic_rx_batch_hints_exact_val data_off queue w bufs num_bufs if_hint hints hint_count
        nic_head_ptr nic_tail_ptr).queue.accumulated_cq_updates
      = (mqnic_rx_batch_hints_val data_off queue w bufs num_bufs if_hint hints
          hint_count).queue.accumulated_cq_updates := by
  have hs := rx_harvest_exact_eq data_off queue w bufs num_bufs if_hint hints nic_head_ptr
    hsz hmask hct hk hnz hz
  rw [mqnic_rx_batch_hints_exact_eq_harvest, mqnic_rx_batch_hints_eq_harvest, hs]
  generalize rx_harvest data_off queue w bufs num_bufs if_hint hints = s1
  generalize (mqnic_rx_cq_read_head_ptr queue nic_head_ptr).cpl_head_ptr = hd
  simp only [exact_of, rx_update_cq_tail, mqnic_rx_read_tail_ptr, mqnic_rx_cq_write_tail_ptr]
  by_cases hb : s1.buf_index ≠ 0
  · simp only [if_pos hb]
    by_cases hg : wrap32 (s1.queue.accumulated_cq_updates + s1.buf_index) > RXCQ_TAIL_UPDATE_BATCH
    · simp only [if_pos hg, and_self]
    · simp only [if_neg hg, and_self]
  · simp only [if_neg hb, and_self]

/-- C20: for every RX queue state with a power-of-two ring, every `num_bufs` and
`if_hint`, when the CQ head mirrored from the NIC head register is consistent
with the ring (it is `k <= size` records ahead of `cpl_tail_ptr`, those `k`
records have `len != 0` and the record after them has `len == 0`), the bypass
variant and the exact variant of `mqnic_rx_batch_hints` return on the same
calls, and when they return they return the same count, the same `bufs` array,
the same process state (buffer sizes and the trace of device writes), the same
hints and `hint_count`, and leave the same `rxq_virtual_addresses`, completion
ring, `cpl_tail_ptr` and `accumulated_cq_updates`. -/
theorem rx_bypass_exact_agree (data_off : Nat) (queue : mqnic_rx_queue) (w : world)
    (bufs : Nat → Nat) (num_bufs if_hint : Nat) (hints : Nat → nic_hints)
    (hint_count nic_head_ptr nic_tail_ptr : Nat)
    (hsz : is_ring_size queue.size) (hmask : queue.size_mask = queue.size - 1)
    (hct : queue.cpl_tail_ptr < 4294967296)
    (hk : sub32 (mqnic_rx_cq_read_head_ptr queue nic_head_ptr).cpl_head_ptr queue.cpl_tail_ptr
      ≤ queue.size)
    (hnz : ∀ j,
      j < sub32 (mqnic_rx_cq_read_head_ptr queue nic_head_ptr).cpl_head_ptr queue.cpl_tail_ptr →
      (cpl_at queue j).len ≠ 0)
    (hz : sub32 (mqnic_rx_cq_read_head_ptr queue nic_head_ptr).cpl_head_ptr queue.cpl_tail_ptr
        < queue.size →
      (cpl_at queue
        (sub32 (mqnic_rx_cq_read_head_ptr queue nic_head_ptr).cpl_head_ptr
          queue.cpl_tail_ptr)).len = 0) :
    ((∃ re, mqnic_rx_batch_hints_exact data_off queue w bufs num_bufs if_hint hints hint_count
          nic_head_ptr nic_tail_ptr = Except.ok re) ↔
      (∃ rb, mqnic_rx_batch_hints data_off queue w bufs num_bufs if_hint hints hint_count
          = Except.ok rb)) ∧
    ∀ re rb,
      mqnic_rx_batch_hints_exact data_off queue w bufs num_bufs if_hint hints hint_count
        nic_head_ptr nic_tail_ptr = Except.ok re →
      mqnic_rx_batch_hints data_off queue w bufs num_bufs if_hint hints hint_count
        = Except.ok rb →
      re.ret = rb.ret ∧ re.bufs = rb.bufs ∧ re.w = rb.w ∧ re.hints = rb.hints ∧
        re.hint_count = rb.hint_count ∧
        re.queue.rxq_virtual_addresses = rb.queue.rxq_virtual_addresses ∧
        re.queue.cpl_descriptors = rb.queue.cpl_descriptors ∧
        re.queue.cpl_tail_ptr = rb.queue.cpl_tail_ptr ∧
        re.queue.accumulated_cq_updates = rb.queue.accumulated_cq_updates := by
  refine ⟨?_, ?_⟩
  · constructor
    · rintro ⟨re, he⟩
      exact ⟨_, mqnic_rx_batch_hints_returns data_off queue w bufs num_bufs if_hint hints
        hint_count (ok_of_ite_eq_ok
          ((mqnic_rx_batch_hints_exact_eq data_off queue w bufs num_bufs if_hint hints
            hint_count nic_head_ptr nic_tail_ptr).symm.trans he)).1⟩
    · rintro ⟨rb, hb⟩
      exact ⟨_, mqnic_rx_batch_hints_exact_returns data_off queue w bufs num_bufs if_hint hints
        hint_count nic_head_ptr nic_tail_ptr
        ((mqnic_rx_batch_hints_returns_iff data_off queue w bufs num_bufs if_hint hints
          hint_count).1 ⟨rb, hb⟩)⟩
  · intro re rb he hb
    have e1 := mqnic_rx_batch_hints_exact_ok he
    have e2 := mqnic_rx_batch_hints_ok hb
    subst e1
    subst e2
    exact rx_bypass_exact_agree_val data_off queue w bufs num_bufs if_hint hints hint_count
      nic_head_ptr nic_tail_ptr hsz hmask hct hk hnz hz

/-- Witness for C20: `sample_rx_queue` with the CQ head register reading 3 (the
three published completions), `num_bufs = 8`, hints requested: both variants
return, with the same count 3 and the same process state. -/
theorem rx_bypass_exact_agree_witness :
    ∃ re rb,
      mqnic_rx_batch_hints_exact 64 sample_rx_queue sample_world (fun _ => 0) 8 1
        (fun _ => ⟨0, 0⟩) 0 sample_nic_head 3 = Except.ok re ∧
      mqnic_rx_batch_hints 64 sample_rx_queue sample_world (fun _ => 0) 8 1
        (fun _ => ⟨0, 0⟩) 0 = Except.ok rb ∧
      rb.ret = 3 ∧ re.ret = rb.ret ∧ re.w = rb.w := by
  have he := mqnic_rx_batch_hints_exact_returns 64 sample_rx_queue sample_world (fun _ => 0) 8
    1 (fun _ => ⟨0, 0⟩) 0 sample_nic_head 3 (Or.inl (by decide))
  have hb := mqnic_rx_batch_hints_returns 64 sample_rx_queue sample_world (fun _ => 0) 8 1
    (fun _ => ⟨0, 0⟩) 0 (Or.inl (by decide))
  have h := (rx_bypass_exact_agree 64 sample_rx_queue sample_world (fun _ => 0) 8 1
    (fun _ => ⟨0, 0⟩) 0 sample_nic_head 3 (by decide) (by decide) (by decide) (by decide)
    (by decide) (by decide)).2 _ _ he hb
  exact ⟨_, _, he, hb, by decide, h.1, h.2.2.1⟩

/-! ## Ring arithmetic -/

theorem slot_eq_mod (x size mask : Nat) (hsz : is_ring_size size) (hmask : mask = size - 1) :
    wrap32 x &&& mask = x % size := by
  rw [hmask, and_mask_eq_mod _ _ hsz, wrap32_mod_size _ _ hsz]

theorem wrap32_add_mod (a b size : Nat) (hsz : is_ring_size size) :
    (wrap32 a + b) % size = (a + b) % size := by
  rw [Nat.add_mod, wrap32_mod_size _ _ hsz, ← Nat.add_mod]

theorem slot_add_size (a size : Nat) : (a + size) % size = a % size :=
  Nat.add_mod_right a size

/-! ## What the RX refill posts -/

theorem mqnic_prepare_rx_desc_virt (data_off : Nat) (queue : mqnic_rx_queue) (w : world)
    (index : Nat) :
    ((mqnic_prepare_rx_desc_val data_off queue w index).1 ≠ 0 →
      (mqnic_prepare_rx_desc_val data_off queue w index).2.1 = queue) ∧
    ((mqnic_prepare_rx_desc_val data_off queue w index).1 = 0 →
      (mqnic_prepare_rx_desc_val data_off queue w index).2.1.rxq_virtual_addresses index ≠ 0) := by
  unfold mqnic_prepare_rx_desc_val
  simp only
  split
  · refine ⟨fun _ => rfl, ?_⟩
    intro h
    simp at h
  · rename_i hb
    refine ⟨fun h => absurd rfl h, fun _ => ?_⟩
    simp only [upd, if_pos]
    exact hb

theorem refill_loop_spec (data_off : Nat) :
    ∀ (missing : Nat) (queue : mqnic_rx_queue) (w : world),
      queue.rxq_head_ptr < 4294967296 →
      ∃ p, p ≤ missing ∧
        (refill_loop_val data_off missing queue w).1.rxq_head_ptr
          = wrap32 (queue.rxq_head_ptr + p) ∧
        (∀ t, t < p →
          (refill_loop_val data_off missing queue w).1.rxq_virtual_addresses
            (wrap32 (queue.rxq_head_ptr + t) &&& queue.size_mask) ≠ 0) ∧
        (∀ x, queue.rxq_virtual_addresses x ≠ 0 →
          (refill_loop_val data_off missing queue w).1.rxq_virtual_addresses x ≠ 0) ∧
        (∀ x, (∀ t, t < p → x ≠ wrap32 (queue.rxq_head_ptr + t) &&& queue.size_mask) →
          (refill_loop_val data_off missing queue w).1.rxq_virtual_addresses x
            = queue.rxq_virtual_addresses x) := by
  intro missing
  induction missing with
  | zero =>
    intro queue w hh
    refine ⟨0, Nat.le_refl _, ?_, fun t ht => absurd ht (Nat.not_lt_zero t), fun _ h => h,
      fun _ _ => rfl⟩
    simp only [refill_loop_val, Nat.add_zero, wrap32, Nat.mod_eq_of_lt hh]
  | succ m ih =>
    intro queue w hh
    obtain ⟨_, _, p3, _, p5, _, p7⟩ :=
      mqnic_prepare_rx_desc_frame data_off queue w (queue.rxq_head_ptr &&& queue.size_mask)
    obtain ⟨v1, v2⟩ :=
      mqnic_prepare_rx_desc_virt data_off queue w (queue.rxq_head_ptr &&& queue.size_mask)
    have hw0 : wrap32 (queue.rxq_head_ptr + 0) = queue.rxq_head_ptr := by
      simp only [Nat.add_zero, wrap32, Nat.mod_eq_of_lt hh]
    unfold refill_loop_val
    simp only
    split
    · rename_i hfail
      refine ⟨0, Nat.zero_le _, ?_, fun t ht => absurd ht (Nat.not_lt_zero t), ?_, ?_⟩
      · rw [v1 hfail, hw0]
      · intro x hx
        rw [v1 hfail]
        exact hx
      · intro x _
        rw [v1 hfail]
    · rename_i hok
      have hok0 : (mqnic_prepare_rx_desc_val data_off queue w
          (queue.rxq_head_ptr &&& queue.size_mask)).1 = 0 := by
        by_contra h
        exact hok h
      generalize hq1 : ({ (mqnic_prepare_rx_desc_val data_off queue w
          (queue.rxq_head_ptr &&& queue.size_mask)).2.1 with
        rxq_head_ptr := wrap32
          ((mqnic_prepare_rx_desc_val data_off queue w
            (queue.rxq_head_ptr &&& queue.size_mask)).2.1.rxq_head_ptr + 1) } : mqnic_rx_queue) = q1
      have h1 : q1.rxq_head_ptr = wrap32 (queue.rxq_head_ptr + 1) := by
        rw [← hq1]
        show wrap32 (_ + 1) = _
        rw [p5]
      have h2 : q1.size_mask = queue.size_mask := by rw [← hq1]; exact p3
      have h3 : q1.rxq_virtual_addresses = (mqnic_prepare_rx_desc_val data_off queue w
          (queue.rxq_head_ptr &&& queue.size_mask)).2.1.rxq_virtual_addresses := by rw [← hq1]
      obtain ⟨p, hp, i1, i2, i3, i4⟩ := ih q1
        (mqnic_prepare_rx_desc_val data_off queue w (queue.rxq_head_ptr &&& queue.size_mask)).2.2
        (by rw [h1]; simp only [wrap32]; omega)
      have hadd : ∀ t, wrap32 (wrap32 (queue.rxq_head_ptr + 1) + t)
          = wrap32 (queue.rxq_head_ptr + (t + 1)) := by
        intro t
        simp only [wrap32]
        omega
      rw [h1, hadd] at i1
      simp only [h1, h2, hadd] at i2 i4
      rw [h3] at i3 i4
      have hmono : ∀ x, queue.rxq_virtual_addresses x ≠ 0 →
          (mqnic_prepare_rx_desc_val data_off queue w
            (queue.rxq_head_ptr &&& queue.size_mask)).2.1.rxq_virtual_addresses x ≠ 0 := by
        intro x hx
        by_cases hxi : x = queue.rxq_head_ptr &&& queue.size_mask
        · rw [hxi]
          exact v2 hok0
        · rw [p7 x hxi]
          exact hx
      refine ⟨p + 1, by omega, i1, ?_, ?_, ?_⟩
      · intro t ht
        cases t with
        | zero =>
          rw [hw0]
          exact i3 _ (v2 hok0)
        | succ t' => exact i2 t' (by omega)
      · intro x hx
        exact i3 x (hmono x hx)
      · intro x hx
        have hx0 : x ≠ queue.rxq_head_ptr &&& queue.size_mask := by
          have := hx 0 (by omega)
          rw [hw0] at this
          exact this
        rw [i4 x (fun t ht => hx (t + 1) (by omega))]
        exact p7 x hx0

theorem mqnic_refill_rx_buffers_spec (data_off : Nat) (queue : mqnic_rx_queue) (w : world)
    (hh : queue.rxq_head_ptr < 4294967296) :
    ∃ p,
      (p = 0 ∨ (8 ≤ sub32 queue.size (sub32 queue.rxq_head_ptr queue.rxq_clean_tail_ptr) ∧
        p ≤ sub32 queue.size (sub32 queue.rxq_head_ptr queue.rxq_clean_tail_ptr))) ∧
      (mqnic_refill_rx_buffers_val data_off queue w).1.rxq_head_ptr
        = wrap32 (queue.rxq_head_ptr + p) ∧
      (∀ t, t < p →
        (mqnic_refill_rx_buffers_val data_off queue w).1.rxq_virtual_addresses
          (wrap32 (queue.rxq_head_ptr + t) &&& queue.size_mask) ≠ 0) ∧
      (∀ x, queue.rxq_virtual_addresses x ≠ 0 →
        (mqnic_refill_rx_buffers_val data_off queue w).1.rxq_virtual_addresses x ≠ 0) ∧
      (∀ x, (∀ t, t < p → x ≠ wrap32 (queue.rxq_head_ptr + t) &&& queue.size_mask) →
        (mqnic_refill_rx_buffers_val data_off queue w).1.rxq_virtual_addresses x
          = queue.rxq_virtual_addresses x) := by
  unfold mqnic_refill_rx_buffers_val
  simp only
  split
  · refine ⟨0, Or.inl rfl, ?_, fun t ht => absurd ht (Nat.not_lt_zero t), fun _ h => h,
      fun _ _ => rfl⟩
    simp only [Nat.add_zero, wrap32, Nat.mod_eq_of_lt hh]
  · rename_i hm
    obtain ⟨p, hp, i1, i2, i3, i4⟩ := refill_loop_spec data_off
      (sub32 queue.size (sub32 queue.rxq_head_ptr queue.rxq_clean_tail_ptr)) queue w hh
    exact ⟨p, Or.inr ⟨by omega, hp⟩, i1, i2, i3, i4⟩

/-! ## How far the RX clean-tail loop walks -/

theorem rx_clean_loop_steps (queue : mqnic_rx_queue) (htail : queue.rxq_tail_ptr < 4294967296) :
    ∀ (fuel p : Nat), p < 4294967296 →
      ∃ c, c ≤ fuel ∧ c ≤ sub32 queue.rxq_tail_ptr p ∧
        rx_clean_loop queue fuel p = wrap32 (p + c) ∧
        ∀ t, t < c → queue.rxq_virtual_addresses (wrap32 (p + t) &&& queue.size_mask) = 0 := by
  intro fuel
  induction fuel with
  | zero =>
    intro p hp
    refine ⟨0, Nat.le_refl _, Nat.zero_le _, ?_, fun t ht => absurd ht (Nat.not_lt_zero t)⟩
    simp only [rx_clean_loop, Nat.add_zero, wrap32, Nat.mod_eq_of_lt hp]
  | succ n ih =>
    intro p hp
    have hw0 : wrap32 (p + 0) = p := by
      simp only [Nat.add_zero, wrap32, Nat.mod_eq_of_lt hp]
    unfold rx_clean_loop
    split
    · rename_i hne
      split
      · exact ⟨0, Nat.zero_le _, Nat.zero_le _, hw0.symm,
          fun t ht => absurd ht (Nat.not_lt_zero t)⟩
      · rename_i hnull
        have hnull0 : queue.rxq_virtual_addresses (p &&& queue.size_mask) = 0 := by
          by_contra h
          exact hnull h
        obtain ⟨c, hc1, hc2, hc3, hc4⟩ := ih (wrap32 (p + 1)) (by simp only [wrap32]; omega)
        refine ⟨c + 1, by omega, ?_, ?_, ?_⟩
        · simp only [sub32, wrap32] at hc2 ⊢
          omega
        · rw [hc3]
          simp only [wrap32]
          omega
        · intro t ht
          cases t with
          | zero => rw [hw0]; exact hnull0
          | succ t' =>
            have := hc4 t' (by omega)
            have e : wrap32 (wrap32 (p + 1) + t') = wrap32 (p + (t' + 1)) := by
              simp only [wrap32]
              omega
            rw [e] at this
            exact this
    · exact ⟨0, Nat.zero_le _, Nat.zero_le _, hw0.symm, fun t ht => absurd ht (Nat.not_lt_zero t)⟩

/-! ## The harvest loop at ring level -/

theorem rx_batch_loop_virt_zero (if_hint N : Nat) :
    ∀ (fuel : Nat) (s : rx_batch_state) (x : Nat), s.queue.rxq_virtual_addresses x = 0 →
      (rx_batch_loop if_hint N fuel s).queue.rxq_virtual_addresses x = 0 := by
  intro fuel
  induction fuel with
  | zero => intro s x h; exact h
  | succ n ih =>
    intro s x h
    unfold rx_batch_loop
    split
    · apply ih
      rw [rx_batch_body_virt]
      split
      · rfl
      · exact h
    · exact h

theorem rx_batch_loop_ring (if_hint N : Nat) :
    ∀ (fuel : Nat) (s : rx_batch_state) (k : Nat),
      is_ring_size s.queue.size → s.queue.size_mask = s.queue.size - 1 →
      s.cq_index = s.cq_tail_ptr &&& s.queue.size_mask → s.cq_tail_ptr < 4294967296 →
      s.next_batch = 0 →
      s.if_next = decide ((s.queue.cpl_descriptors s.cq_index).len ≠ 0) →
      k ≤ s.queue.size →
      (∀ j, j < k → (cpl_at (loop_view s) j).len ≠ 0) →
      (k < s.queue.size → (cpl_at (loop_view s) k).len = 0) →
      s.buf_index ≤ N → N - s.buf_index ≤ fuel →
      (rx_batch_loop if_hint N fuel s).buf_index = s.buf_index + min k (N - s.buf_index) ∧
      (∀ x, (∀ j, j < min k (N - s.buf_index) → x ≠ cpl_slot (loop_view s) j) →
        (rx_batch_loop if_hint N fuel s).queue.cpl_descriptors x = s.queue.cpl_descriptors x) ∧
      (∀ j, j < min k (N - s.buf_index) →
        (rx_batch_loop if_hint N fuel s).queue.rxq_virtual_addresses
          (rxq_slot (loop_view s) j) = 0) ∧
      (∀ x, (∀ j, j < min k (N - s.buf_index) → x ≠ rxq_slot (loop_view s) j) →
        (rx_batch_loop if_hint N fuel s).queue.rxq_virtual_addresses x
          = s.queue.rxq_virtual_addresses x) := by
  intro fuel
  induction fuel with
  | zero =>
    intro s k _ _ _ _ _ _ _ _ _ hb hf
    have h0 : min k (N - s.buf_index) = 0 := by omega
    rw [h0]
    exact ⟨rfl, fun _ _ => rfl, fun j hj => absurd hj (Nat.not_lt_zero j), fun _ _ => rfl⟩
  | succ n ih =>
    intro s k hsz hmask hidx hlt hnb hnext hk hnz hz hb hf
    have hpos := is_ring_size_pos _ hsz
    have hslot0 := cpl_slot_view_zero s hidx hlt
    have hat0 : cpl_at (loop_view s) 0 = s.queue.cpl_descriptors s.cq_index := by
      show s.queue.cpl_descriptors (cpl_slot (loop_view s) 0) = _
      rw [hslot0]
    unfold rx_batch_loop
    by_cases hstop : k = 0 ∨ s.buf_index = N
    · have hcond : ¬ (s.if_next = true ∧ s.buf_index < N) := by
        rintro ⟨h1, h2⟩
        rcases hstop with h | h
        · have := hz (by omega)
          rw [h, hat0] at this
          rw [hnext] at h1
          simp [this] at h1
        · omega
      rw [if_neg hcond]
      have h0 : min k (N - s.buf_index) = 0 := by omega
      rw [h0]
      exact ⟨rfl, fun _ _ => rfl, fun j hj => absurd hj (Nat.not_lt_zero j), fun _ _ => rfl⟩
    · have hk1 : 1 ≤ k := by omega
      have hbN : s.buf_index < N := by omega
      have hlen0 : (s.queue.cpl_descriptors s.cq_index).len ≠ 0 := by
        rw [← hat0]; exact hnz 0 (by omega)
      have hcond : s.if_next = true ∧ s.buf_index < N := by
        refine ⟨?_, hbN⟩
        rw [hnext]
        simpa using hlen0
      rw [if_pos hcond]
      obtain ⟨b1, b2, b3, b4⟩ := rx_batch_body_inv if_hint s hnb
      have hr0 : rxq_slot (loop_view s) 0
          = (s.queue.cpl_descriptors s.cq_index).index &&& s.queue.size_mask := by
        show (cpl_at (loop_view s) 0).index &&& s.queue.size_mask = _
        rw [hat0]
      have hatS : ∀ j, j + 1 < s.queue.size →
          cpl_at (loop_view (rx_batch_body if_hint s)) j = cpl_at (loop_view s) (j + 1) :=
        fun j hj => cpl_at_body if_hint s j hsz hmask hidx hlt hj
      have hrS : ∀ j, j + 1 < s.queue.size →
          rxq_slot (loop_view (rx_batch_body if_hint s)) j = rxq_slot (loop_view s) (j + 1) := by
        intro j hj
        show (cpl_at (loop_view (rx_batch_body if_hint s)) j).index &&& s.queue.size_mask = _
        rw [hatS j hj]
        rfl
      have hIH := ih (rx_batch_body if_hint s) (k - 1) hsz hmask b1 b2 b3 b4 (by
          show k - 1 ≤ s.queue.size
          omega)
        (by
          intro j hj
          rw [hatS j (by omega)]
          exact hnz (j + 1) (by omega))
        (by
          intro _
          show ((rx_batch_body if_hint s).queue.cpl_descriptors
            (cpl_slot (loop_view (rx_batch_body if_hint s)) (k - 1))).len = 0
          rw [cpl_slot_body, rx_batch_body_cpl]
          split
          · rfl
          · rename_i hne
            have e : k - 1 + 1 = k := by omega
            rw [e] at hne ⊢
            by_cases hks : k < s.queue.size
            · exact hz hks
            · exfalso
              apply hne
              have : k = s.queue.size := by omega
              rw [this, ← hslot0]
              exact cpl_slot_size (loop_view s) hsz hmask)
        (by rw [rx_batch_body_buf_index]; omega) (by rw [rx_batch_body_buf_index]; omega)
      rw [rx_batch_body_buf_index] at hIH
      have hmin : min k (N - s.buf_index) = min (k - 1) (N - (s.buf_index + 1)) + 1 := by omega
      obtain ⟨i1, i2, i3, i4⟩ := hIH
      refine ⟨by omega, ?_, ?_, ?_⟩
      · intro x hx
        rw [i2 x (by
          intro j hj
          rw [cpl_slot_body]
          exact hx (j + 1) (by omega))]
        rw [rx_batch_body_cpl, if_neg (by
          rw [← hslot0]
          exact hx 0 (by omega))]
      · intro j hj
        cases j with
        | zero =>
          apply rx_batch_loop_virt_zero
          rw [rx_batch_body_virt, ← hr0, if_pos rfl]
        | succ m =>
          have := i3 m (by omega)
          rw [hrS m (by omega)] at this
          exact this
      · intro x hx
        rw [i4 x (by
          intro j hj
          rw [hrS j (by omega)]
          exact hx (j + 1) (by omega))]
        rw [rx_batch_body_virt, ← hr0, if_neg (hx 0 (by omega))]

/-! ## The RX invariant is established by bring-up and kept by every step -/

theorem mqnic_rx_batch_hints_eq_drain (data_off : Nat) (queue : mqnic_rx_queue) (w : world)
    (bufs : Nat → Nat) (num_bufs if_hint : Nat) (hints : Nat → nic_hints) (hint_count : Nat) :
    mqnic_rx_batch_hints_val data_off queue w bufs num_bufs if_hint hints hint_count =
      rx_drain (mqnic_refill_rx_buffers_val data_off queue w).1
        (mqnic_refill_rx_buffers_val data_off queue w).2 bufs num_bufs if_hint hints hint_count := rfl

theorem wrap32_add_sub32 (h c : Nat) (hh : h < 4294967296) :
    wrap32 (c + sub32 h c) = h := by
  simp only [sub32, wrap32]
  omega

theorem rx_sys_inv_refill (data_off : Nat) (in_order : Bool) (st : rx_system) (w : world)
    (h : rx_sys_inv in_order st) :
    rx_sys_inv in_order
      { queue := (mqnic_refill_rx_buffers_val data_off st.queue w).1, nic_head := st.nic_head } := by
  obtain ⟨hsz, hmask, hH, hC, hCT, hP, hTCT, hhd, hocc, hpend, hshape, hord, hwin⟩ := h
  have hq0 := mqnic_refill_rx_buffers_queue_eq data_off st.queue w
  obtain ⟨p, hp, s1, s2, s3, s4⟩ := mqnic_refill_rx_buffers_spec data_off st.queue w hH
  have hslt := is_ring_size_lt _ hsz
  have hpb : sub32 st.queue.rxq_head_ptr st.queue.rxq_clean_tail_ptr + p ≤ st.queue.size := by
    rcases hp with hp | ⟨_, hp⟩
    · omega
    · simp only [sub32] at hp hocc ⊢
      omega
  generalize (mqnic_refill_rx_buffers_val data_off st.queue w).1 = q0 at hq0 s1 s2 s3 s4
  have e1 : q0.size = st.queue.size := by rw [hq0]
  have e2 : q0.size_mask = st.queue.size_mask := by rw [hq0]
  have e3 : q0.rxq_clean_tail_ptr = st.queue.rxq_clean_tail_ptr := by rw [hq0]
  have e4 : q0.cpl_tail_ptr = st.queue.cpl_tail_ptr := by rw [hq0]
  have e5 : q0.rxq_tail_ptr = st.queue.rxq_tail_ptr := by rw [hq0]
  have e6 : q0.cpl_head_ptr = st.queue.cpl_head_ptr := by rw [hq0]
  have e7 : q0.cpl_descriptors = st.queue.cpl_descriptors := by rw [hq0]
  have hocc0 : sub32 q0.rxq_head_ptr q0.rxq_clean_tail_ptr
      = sub32 st.queue.rxq_head_ptr st.queue.rxq_clean_tail_ptr + p := by
    rw [s1, e3]
    simp only [sub32, wrap32] at hpb ⊢
    omega
  have hcat : ∀ j, cpl_at q0 j = cpl_at st.queue j := by
    intro j
    simp only [cpl_at, cpl_slot, e7, e4, e2]
  refine ⟨by rw [e1]; exact hsz, by rw [e2, e1]; exact hmask,
    by rw [s1]; simp only [wrap32]; omega, by rw [e3]; exact hC, by rw [e4]; exact hCT, hP,
    by rw [e5, e4]; exact hTCT, by rw [e6]; exact hhd, ?_, ?_, ?_, ?_, ?_⟩
  · rw [hocc0, e1]
    exact hpb
  · show sub32 st.nic_head q0.cpl_tail_ptr + sub32 q0.rxq_tail_ptr q0.rxq_clean_tail_ptr ≤ _
    rw [hocc0, e4, e5, e3]
    omega
  · intro j hj
    show (cpl_at q0 j).len ≠ 0 ↔ j < sub32 st.nic_head q0.cpl_tail_ptr
    rw [hcat, e4]
    exact hshape j (by rw [← e1]; exact hj)
  · intro hio
    obtain ⟨o1, o2, o3⟩ := hord hio
    refine ⟨by show q0.rxq_clean_tail_ptr = q0.rxq_tail_ptr
               rw [e3, e5]; exact o1, ?_, ?_⟩
    · intro j hj
      show rxq_slot q0 j = wrap32 (q0.rxq_tail_ptr + j) &&& q0.size_mask
      have hj' : j < sub32 st.nic_head st.queue.cpl_tail_ptr := by
        have : j < sub32 st.nic_head q0.cpl_tail_ptr := hj
        rw [e4] at this
        exact this
      have := o2 j hj'
      simp only [rxq_slot, hcat, e2, e5] at this ⊢
      exact this
    · intro i hi
      show q0.rxq_virtual_addresses i ≠ 0 ↔
        ∃ t, t < sub32 q0.rxq_head_ptr q0.rxq_clean_tail_ptr ∧
          i = wrap32 (q0.rxq_clean_tail_ptr + t) &&& q0.size_mask
      rw [hocc0, e3, e2]
      have hi' : i < st.queue.size := by rw [← e1]; exact hi
      have hposted : ∀ t, wrap32 (st.queue.rxq_head_ptr + t)
          = wrap32 (st.queue.rxq_clean_tail_ptr
              + (sub32 st.queue.rxq_head_ptr st.queue.rxq_clean_tail_ptr + t)) := by
        intro t
        simp only [sub32, wrap32]
        omega
      constructor
      · intro hne
        by_cases hex : ∃ t, t < p ∧ i = wrap32 (st.queue.rxq_head_ptr + t) &&& st.queue.size_mask
        · obtain ⟨t, ht, hit⟩ := hex
          exact ⟨sub32 st.queue.rxq_head_ptr st.queue.rxq_clean_tail_ptr + t, by omega,
            by rw [hit, hposted]⟩
        · have hfr := s4 i (fun t ht hit => hex ⟨t, ht, hit⟩)
          rw [hfr] at hne
          obtain ⟨t, ht, hit⟩ := (o3 i hi').1 hne
          exact ⟨t, by omega, hit⟩
      · rintro ⟨t, ht, hit⟩
        by_cases hlt : t < sub32 st.queue.rxq_head_ptr st.queue.rxq_clean_tail_ptr
        · exact s3 i ((o3 i hi').2 ⟨t, hlt, hit⟩)
        · have := s2 (t - sub32 st.queue.rxq_head_ptr st.queue.rxq_clean_tail_ptr) (by omega)
          rw [hposted] at this
          have e : sub32 st.queue.rxq_head_ptr st.queue.rxq_clean_tail_ptr
              + (t - sub32 st.queue.rxq_head_ptr st.queue.rxq_clean_tail_ptr) = t := by omega
          rw [e, ← hit] at this
          exact this
  · intro i hi hne
    show ∃ t, t < sub32 q0.rxq_head_ptr q0.rxq_clean_tail_ptr ∧
      i = wrap32 (q0.rxq_clean_tail_ptr + t) &&& q0.size_mask
    rw [hocc0, e3, e2]
    have hi' : i < st.queue.size := by rw [← e1]; exact hi
    have hposted : ∀ t, wrap32 (st.queue.rxq_head_ptr + t)
        = wrap32 (st.queue.rxq_clean_tail_ptr
            + (sub32 st.queue.rxq_head_ptr st.queue.rxq_clean_tail_ptr + t)) := by
      intro t
      simp only [sub32, wrap32]
      omega
    by_cases hex : ∃ t, t < p ∧ i = wrap32 (st.queue.rxq_head_ptr + t) &&& st.queue.size_mask
    · obtain ⟨t, ht, hit⟩ := hex
      exact ⟨sub32 st.queue.rxq_head_ptr st.queue.rxq_clean_tail_ptr + t, by omega,
        by rw [hit, hposted]⟩
    · have hfr := s4 i (fun t ht hit => hex ⟨t, ht, hit⟩)
      have hne' : q0.rxq_virtual_addresses i ≠ 0 := hne
      rw [hfr] at hne'
      obtain ⟨t, ht, hit⟩ := hwin i hi' hne'
      exact ⟨t, by omega, hit⟩

theorem rx_sys_inv_bringup (data_off : Nat) (in_order : Bool) (rxq_addr cpl_addr pool : Nat)
    (w : world) :
    rx_sys_inv in_order
      { queue := (rx_bringup data_off rxq_addr cpl_addr pool w 0).1, nic_head := 0 } := by
  have hinit : rx_sys_inv in_order
      { queue := { (init_rx_queue rxq_addr cpl_addr) with mempool := pool }, nic_head := 0 } := by
    have hs : round_power NUM_RX_QUEUE_ENTRIES = 256 := by decide
    have h0 : (0 : Nat) < 4294967296 := by decide
    refine ⟨?_, rfl, h0, h0, h0, h0, rfl, rfl, ?_, ?_, ?_, ?_, ?_⟩
    · show is_ring_size (round_power NUM_RX_QUEUE_ENTRIES)
      rw [hs]
      decide
    · show sub32 0 0 ≤ round_power NUM_RX_QUEUE_ENTRIES
      rw [hs]
      decide
    · show sub32 0 0 + sub32 0 0 ≤ sub32 0 0
      decide
    · intro j _
      show cpl_zero.len ≠ 0 ↔ j < sub32 0 0
      constructor
      · intro h
        exact absurd rfl h
      · intro h
        have : sub32 0 0 = 0 := by decide
        omega
    · intro _
      refine ⟨rfl, ?_, ?_⟩
      · intro j hj
        have hj' : j < sub32 0 0 := hj
        have : sub32 0 0 = 0 := by decide
        omega
      · intro i _
        show (0 : Nat) ≠ 0 ↔ ∃ t, t < sub32 0 0 ∧ _
        constructor
        · intro h
          exact absurd rfl h
        · rintro ⟨t, ht, _⟩
          have : sub32 0 0 = 0 := by decide
          omega
    · intro i _ hne
      exact absurd rfl hne
  have h0 := rx_sys_inv_refill data_off in_order _ w hinit
  have hq0 := mqnic_refill_rx_buffers_queue_eq data_off
    { (init_rx_queue rxq_addr cpl_addr) with mempool := pool } w
  have ht : (mqnic_refill_rx_buffers_val data_off
      { (init_rx_queue rxq_addr cpl_addr) with mempool := pool } w).1.rxq_tail_ptr = 0 := by
    rw [hq0]
    rfl
  have hrt : ∀ q : mqnic_rx_queue, q.rxq_tail_ptr = 0 → mqnic_rx_read_tail_ptr q 0 = q := by
    intro q hq
    cases q
    simp only at hq
    subst hq
    simp only [mqnic_rx_read_tail_ptr, sub32, wrap32]
    simp
  show rx_sys_inv in_order
    { queue := mqnic_rx_read_tail_ptr (mqnic_refill_rx_buffers_val data_off
        { (init_rx_queue rxq_addr cpl_addr) with mempool := pool } w).1 0, nic_head := 0 }
  rw [hrt _ ht]
  exact h0

theorem rx_sys_inv_nic (in_order : Bool) (st : rx_system) (cpl : mqnic_cpl)
    (h : rx_sys_inv in_order st) (hlen : cpl.len ≠ 0)
    (hcount : sub32 st.nic_head st.queue.cpl_tail_ptr
      < sub32 st.queue.rxq_head_ptr st.queue.rxq_tail_ptr)
    (hio : in_order = true →
      cpl.index &&& st.queue.size_mask
        = wrap32 (st.queue.rxq_tail_ptr + sub32 st.nic_head st.queue.cpl_tail_ptr)
            &&& st.queue.size_mask) :
    rx_sys_inv in_order (nic_rx_complete st cpl) := by
  obtain ⟨hsz, hmask, hH, hC, hCT, hP, hTCT, hhd, hocc, hpend, hshape, hord, hwin⟩ := h
  have hslt := is_ring_size_lt _ hsz
  have hT : st.queue.rxq_tail_ptr < 4294967296 := by rw [hTCT]; exact hCT
  have hcnt : sub32 st.nic_head st.queue.cpl_tail_ptr + 1
      + sub32 st.queue.rxq_tail_ptr st.queue.rxq_clean_tail_ptr
      ≤ sub32 st.queue.rxq_head_ptr st.queue.rxq_clean_tail_ptr := by
    simp only [sub32] at hcount hpend hocc ⊢
    omega
  have hpsz : sub32 st.nic_head st.queue.cpl_tail_ptr < st.queue.size := by omega
  have hpend' : sub32 (wrap32 (st.nic_head + 1)) st.queue.cpl_tail_ptr
      = sub32 st.nic_head st.queue.cpl_tail_ptr + 1 := by
    simp only [sub32, wrap32] at hpsz ⊢
    omega
  have hslotP : st.nic_head &&& st.queue.size_mask
      = cpl_slot st.queue (sub32 st.nic_head st.queue.cpl_tail_ptr) := by
    unfold cpl_slot
    rw [wrap32_add_sub32 _ _ hP]
  have hat : ∀ j, j < st.queue.size →
      cpl_at (nic_rx_complete st cpl).queue j =
        if j = sub32 st.nic_head st.queue.cpl_tail_ptr then cpl else cpl_at st.queue j := by
    intro j hj
    show upd st.queue.cpl_descriptors (st.nic_head &&& st.queue.size_mask) cpl
      (cpl_slot st.queue j) = _
    rw [hslotP]
    unfold upd
    by_cases hjp : j = sub32 st.nic_head st.queue.cpl_tail_ptr
    · rw [hjp, if_pos rfl, if_pos rfl]
    · rw [if_neg (cpl_slot_ne st.queue _ _ hsz hmask hj hpsz hjp), if_neg hjp]
      rfl
  refine ⟨hsz, hmask, hH, hC, hCT, by show wrap32 _ < _; simp only [wrap32]; omega, hTCT, hhd,
    hocc, ?_, ?_, ?_, hwin⟩
  · show sub32 (wrap32 (st.nic_head + 1)) st.queue.cpl_tail_ptr + _ ≤ _
    rw [hpend']
    exact hcnt
  · intro j hj
    show (cpl_at (nic_rx_complete st cpl).queue j).len ≠ 0 ↔
      j < sub32 (wrap32 (st.nic_head + 1)) st.queue.cpl_tail_ptr
    rw [hpend', hat j hj]
    by_cases hjp : j = sub32 st.nic_head st.queue.cpl_tail_ptr
    · rw [if_pos hjp]
      exact ⟨fun _ => by omega, fun _ => hlen⟩
    · rw [if_neg hjp]
      have := hshape j hj
      constructor
      · intro hne
        have := this.1 hne
        omega
      · intro hlt
        exact this.2 (by omega)
  · intro hin
    obtain ⟨o1, o2, o3⟩ := hord hin
    refine ⟨o1, ?_, o3⟩
    intro j hj
    have hj' : j < sub32 st.nic_head st.queue.cpl_tail_ptr + 1 := by
      have : j < sub32 (wrap32 (st.nic_head + 1)) st.queue.cpl_tail_ptr := hj
      rw [hpend'] at this
      exact this
    show (cpl_at (nic_rx_complete st cpl).queue j).index &&& st.queue.size_mask = _
    rw [hat j (by omega)]
    by_cases hjp : j = sub32 st.nic_head st.queue.cpl_tail_ptr
    · rw [if_pos hjp, hjp]
      exact hio hin
    · rw [if_neg hjp]
      exact o2 j (by omega)

theorem sub32_offset (b n : Nat) (hn : n < 4294967296) :
    sub32 (wrap32 (b + n)) b = n := by
  simp only [sub32, wrap32]
  omega

theorem wrap32_wrap32_add (a b : Nat) : wrap32 (wrap32 a + b) = wrap32 (a + b) := by
  simp only [wrap32]
  omega

theorem wrap32_lt (a : Nat) : wrap32 a < 4294967296 := by
  simp only [wrap32]
  omega

theorem sub32_lt (a b : Nat) : sub32 a b < 4294967296 := by
  simp only [sub32]
  omega

theorem rx_drain_arith (H T C P size h c : Nat) (hH : H < 4294967296) (hT : T < 4294967296)
    (hP : P < 4294967296) (hsize : size < 4294967296)
    (hocc : sub32 H C ≤ size) (hpend : sub32 P T + sub32 T C ≤ sub32 H C)
    (hh : h ≤ sub32 P T) (hc : c ≤ sub32 (wrap32 (T + h)) C) :
    sub32 (wrap32 (T + h)) C = sub32 T C + h ∧
    sub32 P (wrap32 (T + h)) = sub32 P T - h ∧
    sub32 H (wrap32 (C + c)) = sub32 H C - c ∧
    sub32 (wrap32 (T + h)) (wrap32 (C + c)) = sub32 T C + h - c := by
  have eT := wrap32_add_sub32 T C hT
  have eH := wrap32_add_sub32 H C hH
  have eP := wrap32_add_sub32 P T hP
  generalize sub32 T C = x at eT hpend ⊢
  generalize sub32 H C = o at eH hpend hocc ⊢
  generalize sub32 P T = pe at eP hpend hh ⊢
  have a1 : sub32 (wrap32 (T + h)) C = x + h := by
    have : wrap32 (T + h) = wrap32 (C + (x + h)) := by
      rw [← eT, wrap32_wrap32_add, Nat.add_assoc]
    rw [this]
    exact sub32_offset _ _ (by omega)
  rw [a1] at hc
  refine ⟨a1, ?_, ?_, ?_⟩
  · have : P = wrap32 (wrap32 (T + h) + (pe - h)) := by
      rw [wrap32_wrap32_add, Nat.add_assoc, Nat.add_sub_cancel' hh, eP]
    conv => lhs; rw [this]
    exact sub32_offset _ _ (by omega)
  · have : H = wrap32 (wrap32 (C + c) + (o - c)) := by
      rw [wrap32_wrap32_add, Nat.add_assoc, Nat.add_sub_cancel' (by omega), eH]
    conv => lhs; rw [this]
    exact sub32_offset _ _ (by omega)
  · have : wrap32 (T + h) = wrap32 (wrap32 (C + c) + (x + h - c)) := by
      rw [wrap32_wrap32_add, Nat.add_assoc, Nat.add_sub_cancel' hc, ← eT, wrap32_wrap32_add,
        Nat.add_assoc]
    rw [this]
    exact sub32_offset _ _ (by omega)
theorem rx_clean_loop_congr (q1 q2 : mqnic_rx_queue)
    (h1 : q1.rxq_tail_ptr = q2.rxq_tail_ptr)
    (h2 : q1.rxq_virtual_addresses = q2.rxq_virtual_addresses)
    (h3 : q1.size_mask = q2.size_mask) :
    ∀ (fuel p : Nat), rx_clean_loop q1 fuel p = rx_clean_loop q2 fuel p := by
  intro fuel
  induction fuel with
  | zero => intro p; rfl
  | succ n ih =>
    intro p
    unfold rx_clean_loop
    simp only [h1, h2, h3, ih]

/-- The queue record a drain returns, in terms of the queue it was called on and
the exit state of its harvest loop. -/
theorem rx_drain_queue_eq (queue : mqnic_rx_queue) (w : world) (bufs : Nat → Nat)
    (N if_hint : Nat) (hints : Nat → nic_hints) (hint_count : Nat) :
    (rx_drain queue w bufs N if_hint hints hint_count).queue =
      { queue with
        accumulated_cq_updates :=
          (rx_drain queue w bufs N if_hint hints hint_count).queue.accumulated_cq_updates
        cpl_tail_ptr :=
          if (rx_batch_loop if_hint N N (rx_peek_state queue w bufs hints)).buf_index ≠ 0 then
            (rx_batch_loop if_hint N N (rx_peek_state queue w bufs hints)).cq_tail_ptr
          else queue.cpl_tail_ptr
        rxq_tail_ptr :=
          wrap32 (queue.rxq_tail_ptr
            + (rx_batch_loop if_hint N N (rx_peek_state queue w bufs hints)).buf_index)
        rxq_clean_tail_ptr :=
          rx_clean_loop
            { queue with
              rxq_tail_ptr :=
                wrap32 (queue.rxq_tail_ptr
                  + (rx_batch_loop if_hint N N (rx_peek_state queue w bufs hints)).buf_index)
              rxq_virtual_addresses :=
                (rx_batch_loop if_hint N N
                  (rx_peek_state queue w bufs hints)).queue.rxq_virtual_addresses }
            (sub32
              (wrap32 (queue.rxq_tail_ptr
                + (rx_batch_loop if_hint N N (rx_peek_state queue w bufs hints)).buf_index))
              queue.rxq_clean_tail_ptr)
            queue.rxq_clean_tail_ptr
        cpl_descriptors :=
          (rx_batch_loop if_hint N N (rx_peek_state queue w bufs hints)).queue.cpl_descriptors
        rxq_virtual_addresses :=
          (rx_batch_loop if_hint N N
            (rx_peek_state queue w bufs hints)).queue.rxq_virtual_addresses } := by
  have hqe := rx_batch_loop_queue_eq if_hint N N (rx_peek_state queue w bufs hints)
  have hs0 : (rx_peek_state queue w bufs hints).queue = queue := rfl
  rw [hs0] at hqe
  unfold rx_drain
  simp only
  generalize rx_batch_loop if_hint N N (rx_peek_state queue w bufs hints) = L at hqe ⊢
  have hu := rx_update_cq_tail_queue_eq L.queue L.w L.buf_index L.cq_tail_ptr
  generalize rx_update_cq_tail L.queue L.w L.buf_index L.cq_tail_ptr = r2 at hu ⊢
  have f1 : r2.1.rxq_tail_ptr = queue.rxq_tail_ptr := by rw [hu, hqe]
  have f2 : r2.1.rxq_clean_tail_ptr = queue.rxq_clean_tail_ptr := by rw [hu, hqe]
  have f3 : r2.1.cpl_tail_ptr
      = if L.buf_index ≠ 0 then L.cq_tail_ptr else queue.cpl_tail_ptr := by
    rw [hu, hqe]
  have f4 : r2.1.rxq_virtual_addresses = L.queue.rxq_virtual_addresses := by rw [hu]
  have f5 : r2.1.cpl_descriptors = L.queue.cpl_descriptors := by rw [hu]
  have f6 : r2.1.size_mask = queue.size_mask := by rw [hu, hqe]
  have g1 : r2.1.rxq_addr = queue.rxq_addr := by rw [hu, hqe]
  have g2 : r2.1.cpl_addr = queue.cpl_addr := by rw [hu, hqe]
  have g3 : r2.1.size = queue.size := by rw [hu, hqe]
  have g4 : r2.1.full_size = queue.full_size := by rw [hu, hqe]
  have g5 : r2.1.hw_ptr_mask = queue.hw_ptr_mask := by rw [hu, hqe]
  have g6 : r2.1.rxq_head_ptr = queue.rxq_head_ptr := by rw [hu, hqe]
  have g7 : r2.1.cpl_head_ptr = queue.cpl_head_ptr := by rw [hu, hqe]
  have g8 : r2.1.cpl_clean_tail_ptr = queue.cpl_clean_tail_ptr := by rw [hu, hqe]
  have g9 : r2.1.rxq_descriptors = queue.rxq_descriptors := by rw [hu, hqe]
  have g10 : r2.1.mempool = queue.mempool := by rw [hu, hqe]
  simp only [mqnic_rx_queue.mk.injEq, f1, f2, f3, f4, f5, f6, g1, g2, g3, g4, g5, g6, g7,
    g8, g9, g10, true_and, and_true]
  apply rx_clean_loop_congr <;> rfl

theorem rx_sys_inv_drain (in_order : Bool) (st : rx_system) (w : world) (bufs : Nat → Nat)
    (N if_hint : Nat) (hints : Nat → nic_hints) (hint_count : Nat)
    (h : rx_sys_inv in_order st) :
    rx_sys_inv in_order
      { queue := (rx_drain st.queue w bufs N if_hint hints hint_count).queue
        nic_head := st.nic_head } := by
  obtain ⟨hsz, hmask, hH, hC, hCT, hP, hTCT, hhd, hocc, hpend, hshape, hord, hwin⟩ := h
  have hslt := is_ring_size_lt _ hsz
  have hpos := is_ring_size_pos _ hsz
  rw [hTCT] at hpend
  -- the harvest loop starts in a state that satisfies the loop invariant
  have hle0 : st.queue.cpl_tail_ptr &&& st.queue.size_mask < 4294967296 :=
    Nat.lt_of_le_of_lt Nat.and_le_left hCT
  have e0 : wrap32 ((st.queue.cpl_tail_ptr &&& st.queue.size_mask) + RXCQ_BYPASS_BATCH)
      &&& st.queue.size_mask = st.queue.cpl_tail_ptr &&& st.queue.size_mask := by
    simp only [RXCQ_BYPASS_BATCH, Nat.add_zero]
    rw [show wrap32 (st.queue.cpl_tail_ptr &&& st.queue.size_mask)
        = st.queue.cpl_tail_ptr &&& st.queue.size_mask from Nat.mod_eq_of_lt hle0,
      Nat.and_assoc, Nat.and_self]
  have hnext : (rx_peek_state st.queue w bufs hints).if_next =
      decide (((rx_peek_state st.queue w bufs hints).queue.cpl_descriptors
        (rx_peek_state st.queue w bufs hints).cq_index).len ≠ 0) := by
    show decide ((st.queue.cpl_descriptors
        (wrap32 ((st.queue.cpl_tail_ptr &&& st.queue.size_mask) + RXCQ_BYPASS_BATCH)
          &&& st.queue.size_mask)).len ≠ 0)
      = decide ((st.queue.cpl_descriptors
          (st.queue.cpl_tail_ptr &&& st.queue.size_mask)).len ≠ 0)
    rw [e0]
  have hk : sub32 st.nic_head st.queue.cpl_tail_ptr ≤ st.queue.size := by omega
  have hnz : ∀ j, j < sub32 st.nic_head st.queue.cpl_tail_ptr →
      (cpl_at st.queue j).len ≠ 0 := fun j hj => (hshape j (by omega)).2 hj
  have hz : sub32 st.nic_head st.queue.cpl_tail_ptr < st.queue.size →
      (cpl_at st.queue (sub32 st.nic_head st.queue.cpl_tail_ptr)).len = 0 := by
    intro hlt
    by_contra hne
    have := (hshape _ hlt).1 hne
    omega
  obtain ⟨r1, r2, r3, r4⟩ := rx_batch_loop_ring if_hint N N
    (rx_peek_state st.queue w bufs hints) (sub32 st.nic_head st.queue.cpl_tail_ptr)
    hsz hmask rfl hCT rfl hnext hk hnz hz (Nat.zero_le _) (Nat.sub_le _ _)
  have htl := rx_batch_loop_cq_tail if_hint N N (rx_peek_state st.queue w bufs hints) hCT
  have hcl := rx_batch_loop_cleared if_hint N N (rx_peek_state st.queue w bufs hints) rfl hCT
  have hQ := rx_drain_queue_eq st.queue w bufs N if_hint hints hint_count
  have hb0 : (rx_peek_state st.queue w bufs hints).buf_index = 0 := rfl
  rw [hb0] at r1 r2 r3 r4 htl hcl
  simp only [Nat.sub_zero, Nat.zero_add] at r1 r2 r3 r4 htl hcl
  generalize rx_batch_loop if_hint N N (rx_peek_state st.queue w bufs hints) = L
    at r1 r2 r3 r4 htl hcl hQ
  have hvle : min (sub32 st.nic_head st.queue.cpl_tail_ptr) N
      ≤ sub32 st.nic_head st.queue.cpl_tail_ptr := Nat.min_le_left _ _
  generalize min (sub32 st.nic_head st.queue.cpl_tail_ptr) N = hv at r1 r2 r3 r4 hvle
  rw [r1] at htl hcl hQ
  have r2' : ∀ x, (∀ j, j < hv → x ≠ cpl_slot st.queue j) →
      L.queue.cpl_descriptors x = st.queue.cpl_descriptors x := r2
  have r3' : ∀ j, j < hv → L.queue.rxq_virtual_addresses (rxq_slot st.queue j) = 0 := r3
  have r4' : ∀ x, (∀ j, j < hv → x ≠ rxq_slot st.queue j) →
      L.queue.rxq_virtual_addresses x = st.queue.rxq_virtual_addresses x := r4
  have hcl' : ∀ j, j < hv → (L.queue.cpl_descriptors (cpl_slot st.queue j)).len = 0 := hcl
  have htl' : L.cq_tail_ptr = wrap32 (st.queue.cpl_tail_ptr + hv) := htl
  clear r2 r3 r4 hcl htl
  -- the clean-tail loop
  obtain ⟨c, _, hc2, hc3, hc4⟩ := rx_clean_loop_steps
    { st.queue with
      rxq_tail_ptr := wrap32 (st.queue.rxq_tail_ptr + hv)
      rxq_virtual_addresses := L.queue.rxq_virtual_addresses }
    (wrap32_lt _)
    (sub32 (wrap32 (st.queue.rxq_tail_ptr + hv)) st.queue.rxq_clean_tail_ptr)
    st.queue.rxq_clean_tail_ptr hC
  have hex := rx_clean_loop_exit
    { st.queue with
      rxq_tail_ptr := wrap32 (st.queue.rxq_tail_ptr + hv)
      rxq_virtual_addresses := L.queue.rxq_virtual_addresses }
    (wrap32_lt _)
    (sub32 (wrap32 (st.queue.rxq_tail_ptr + hv)) st.queue.rxq_clean_tail_ptr)
    st.queue.rxq_clean_tail_ptr hC (Nat.le_refl _)
  rw [hc3] at hex
  have hc2' : c ≤ sub32 (wrap32 (st.queue.cpl_tail_ptr + hv)) st.queue.rxq_clean_tail_ptr := by
    rw [← hTCT]
    exact hc2
  have hc4' : ∀ t, t < c → L.queue.rxq_virtual_addresses
      (wrap32 (st.queue.rxq_clean_tail_ptr + t) &&& st.queue.size_mask) = 0 := hc4
  have hex' : wrap32 (st.queue.rxq_clean_tail_ptr + c) = wrap32 (st.queue.cpl_tail_ptr + hv) ∨
      L.queue.rxq_virtual_addresses
        (wrap32 (st.queue.rxq_clean_tail_ptr + c) &&& st.queue.size_mask) ≠ 0 := by
    rw [← hTCT]
    exact hex
  clear hc2 hc4 hex
  obtain ⟨a1, a2, a3, a4⟩ := rx_drain_arith st.queue.rxq_head_ptr st.queue.cpl_tail_ptr
    st.queue.rxq_clean_tail_ptr st.nic_head st.queue.size hv c hH hCT hP hslt hocc hpend hvle hc2'
  -- the fields of the queue record the drain returns
  generalize (rx_drain st.queue w bufs N if_hint hints hint_count).queue = Q at hQ ⊢
  have e1 : Q.size = st.queue.size := by rw [hQ]
  have e2 : Q.size_mask = st.queue.size_mask := by rw [hQ]
  have e3 : Q.rxq_head_ptr = st.queue.rxq_head_ptr := by rw [hQ]
  have e4 : Q.cpl_head_ptr = st.queue.cpl_head_ptr := by rw [hQ]
  have e5 : Q.cpl_tail_ptr = wrap32 (st.queue.cpl_tail_ptr + hv) := by
    rw [hQ]
    show (if hv ≠ 0 then L.cq_tail_ptr else st.queue.cpl_tail_ptr) = _
    split
    · exact htl'
    · rename_i h0
      have : hv = 0 := by omega
      rw [this]
      simp only [Nat.add_zero, wrap32, Nat.mod_eq_of_lt hCT]
  have e6 : Q.rxq_tail_ptr = wrap32 (st.queue.cpl_tail_ptr + hv) := by
    rw [hQ, ← hTCT]
  have e7 : Q.rxq_clean_tail_ptr = wrap32 (st.queue.rxq_clean_tail_ptr + c) := by
    rw [hQ]
    exact hc3
  have e8 : Q.cpl_descriptors = L.queue.cpl_descriptors := by rw [hQ]
  have e9 : Q.rxq_virtual_addresses = L.queue.rxq_virtual_addresses := by rw [hQ]
  -- the completion records seen from the new tail
  have hslotQ : ∀ j, cpl_slot Q j = cpl_slot st.queue (hv + j) := by
    intro j
    unfold cpl_slot
    rw [e5, e2, wrap32_wrap32_add, Nat.add_assoc]
  have hatQ : ∀ j, hv + j < st.queue.size → cpl_at Q j = cpl_at st.queue (hv + j) := by
    intro j hj
    show Q.cpl_descriptors (cpl_slot Q j) = st.queue.cpl_descriptors (cpl_slot st.queue (hv + j))
    rw [hslotQ, e8]
    apply r2'
    intro j' hj'
    exact cpl_slot_ne st.queue _ _ hsz hmask hj (by omega) (by omega)
  refine ⟨by rw [e1]; exact hsz, by rw [e2, e1]; exact hmask, by rw [e3]; exact hH,
    by rw [e7]; exact wrap32_lt _, by rw [e5]; exact wrap32_lt _, hP, by rw [e6, e5],
    by rw [e4]; exact hhd, ?_, ?_, ?_, ?_, ?_⟩
  · show sub32 Q.rxq_head_ptr Q.rxq_clean_tail_ptr ≤ Q.size
    rw [e3, e7, e1, a3]
    omega
  · show sub32 st.nic_head Q.cpl_tail_ptr + sub32 Q.rxq_tail_ptr Q.rxq_clean_tail_ptr
      ≤ sub32 Q.rxq_head_ptr Q.rxq_clean_tail_ptr
    rw [e5, e6, e7, e3, a2, a3, a4]
    omega
  · intro j hj
    have hj' : j < st.queue.size := by
      have : j < Q.size := hj
      rw [e1] at this
      exact this
    show (cpl_at Q j).len ≠ 0 ↔ j < sub32 st.nic_head Q.cpl_tail_ptr
    rw [e5, a2]
    by_cases hlt : hv + j < st.queue.size
    · rw [hatQ j hlt]
      have := hshape (hv + j) hlt
      constructor
      · intro hne
        have := this.1 hne
        omega
      · intro hjp
        exact this.2 (by omega)
    · have hzero : (cpl_at Q j).len = 0 := by
        show (Q.cpl_descriptors (cpl_slot Q j)).len = 0
        rw [hslotQ, e8]
        have hs : cpl_slot st.queue (hv + j) = cpl_slot st.queue (hv + j - st.queue.size) := by
          rw [cpl_slot_eq_mod _ _ hsz hmask, cpl_slot_eq_mod _ _ hsz hmask]
          have e : st.queue.cpl_tail_ptr + (hv + j)
              = st.queue.cpl_tail_ptr + (hv + j - st.queue.size) + st.queue.size := by omega
          rw [e, Nat.add_mod_right]
        rw [hs]
        exact hcl' _ (by omega)
      constructor
      · intro hne
        exact absurd hzero hne
      · intro hjp
        omega
  · intro hio
    obtain ⟨o1, o2, o3⟩ := hord hio
    rw [hTCT] at o1 o2
    have hx0 : sub32 st.queue.cpl_tail_ptr st.queue.rxq_clean_tail_ptr = 0 := by
      rw [o1]
      simp only [sub32]
      omega
    -- the clean tail catches up with the tail
    have hceq : c = hv := by
      rw [hx0] at a1
      rcases hex' with hq | hq
      · have h1 := sub32_offset st.queue.rxq_clean_tail_ptr c (by omega)
        rw [hq, a1] at h1
        omega
      · by_contra hne
        have hclt : c < hv := by omega
        apply hq
        rw [o1, ← o2 c (by omega)]
        exact r3' c hclt
    subst hceq
    refine ⟨by show Q.rxq_clean_tail_ptr = Q.rxq_tail_ptr
               rw [e7, e6, o1], ?_, ?_⟩
    · intro j hj
      have hj' : j < sub32 st.nic_head st.queue.cpl_tail_ptr - c := by
        have : j < sub32 st.nic_head Q.cpl_tail_ptr := hj
        rw [e5, a2] at this
        exact this
      show (cpl_at Q j).index &&& Q.size_mask = wrap32 (Q.rxq_tail_ptr + j) &&& Q.size_mask
      rw [hatQ j (by omega), e2, e6, wrap32_wrap32_add, Nat.add_assoc]
      exact o2 (c + j) (by omega)
    · intro i hi
      have hi' : i < st.queue.size := by
        have : i < Q.size := hi
        rw [e1] at this
        exact this
      show Q.rxq_virtual_addresses i ≠ 0 ↔
        ∃ t, t < sub32 Q.rxq_head_ptr Q.rxq_clean_tail_ptr ∧
          i = wrap32 (Q.rxq_clean_tail_ptr + t) &&& Q.size_mask
      rw [e9, e3, e7, e2, a3]
      constructor
      · intro hne
        have hnot : ∀ j, j < c → i ≠ rxq_slot st.queue j := by
          intro j hj hij
          apply hne
          rw [hij]
          exact r3' j hj
        rw [r4' i hnot] at hne
        obtain ⟨t, ht, hit⟩ := (o3 i hi').1 hne
        have htc : c ≤ t := by
          by_contra hcon
          apply hnot t (by omega)
          rw [o2 t (by omega), ← o1]
          exact hit
        refine ⟨t - c, by omega, ?_⟩
        rw [wrap32_wrap32_add, Nat.add_assoc, Nat.add_sub_cancel' htc]
        exact hit
      · rintro ⟨t, ht, hit⟩
        rw [wrap32_wrap32_add, Nat.add_assoc] at hit
        have hnot : ∀ j, j < c → i ≠ rxq_slot st.queue j := by
          intro j hj hij
          rw [o2 j (by omega), ← o1, hit, slot_eq_mod _ _ _ hsz hmask,
            slot_eq_mod _ _ _ hsz hmask] at hij
          have := ring_slot_inj _ _ _ _ (by omega) (by omega) hij
          omega
        rw [r4' i hnot]
        exact (o3 i hi').2 ⟨c + t, by omega, hit⟩
  · intro i hi hne
    have hi' : i < st.queue.size := by
      have : i < Q.size := hi
      rw [e1] at this
      exact this
    show ∃ t, t < sub32 Q.rxq_head_ptr Q.rxq_clean_tail_ptr ∧
      i = wrap32 (Q.rxq_clean_tail_ptr + t) &&& Q.size_mask
    rw [e3, e7, e2, a3]
    have hne' : L.queue.rxq_virtual_addresses i ≠ 0 := by
      rw [← e9]
      exact hne
    have hnot : ∀ j, j < hv → i ≠ rxq_slot st.queue j := by
      intro j hj hij
      apply hne'
      rw [hij]
      exact r3' j hj
    have hold : st.queue.rxq_virtual_addresses i ≠ 0 := by
      rw [← r4' i hnot]
      exact hne'
    obtain ⟨t, ht, hit⟩ := hwin i hi' hold
    have htc : c ≤ t := by
      by_contra hcon
      apply hne'
      rw [hit]
      exact hc4' t (by omega)
    refine ⟨t - c, by omega, ?_⟩
    rw [wrap32_wrap32_add, Nat.add_assoc, Nat.add_sub_cancel' htc]
    exact hit

theorem rx_sys_inv_rx_batch (data_off : Nat) (in_order : Bool) (st : rx_system) (w : world)
    (bufs : Nat → Nat) (N if_hint : Nat) (hints : Nat → nic_hints) (hint_count : Nat)
    (h : rx_sys_inv in_order st) :
    rx_sys_inv in_order
      { queue :=
          (mqnic_rx_batch_hints_val data_off st.queue w bufs N if_hint hints hint_count).queue
        nic_head := st.nic_head } := by
  rw [mqnic_rx_batch_hints_eq_drain]
  exact rx_sys_inv_drain in_order
    { queue := (mqnic_refill_rx_buffers_val data_off st.queue w).1, nic_head := st.nic_head }
    _ bufs N if_hint hints hint_count (rx_sys_inv_refill data_off in_order st w h)

/-! ## Reachable RX states satisfy the invariant -/

theorem rx_read_tail_of_refill (data_off : Nat) (q1 : mqnic_rx_queue) (w : world) (t : Nat)
    (h1 : q1.rxq_tail_ptr = 0) (h2 : q1.hw_ptr_mask = 0xffff) :
    mqnic_rx_read_tail_ptr (mqnic_refill_rx_buffers_val data_off q1 w).1 t =
      { mqnic_rx_read_tail_ptr (mqnic_refill_rx_buffers_val data_off q1 w).1 0 with
        rxq_tail_ptr := t % 65536 } := by
  have hq0 := mqnic_refill_rx_buffers_queue_eq data_off q1 w
  have hff : ∀ y : Nat, y &&& 0xffff = y % 65536 := fun y => Nat.and_pow_two_sub_one_eq_mod y 16
  have key : ∀ (q : mqnic_rx_queue) (x : Nat), q.rxq_tail_ptr = 0 → q.hw_ptr_mask = 0xffff →
      mqnic_rx_read_tail_ptr q x = { q with rxq_tail_ptr := x % 65536 } := by
    intro q x h1 h2
    unfold mqnic_rx_read_tail_ptr
    rw [h1, h2, hff]
    have : wrap32 (0 + sub32 x 0 % 65536) = x % 65536 := by
      simp only [sub32, wrap32]
      omega
    rw [this]
  generalize mqnic_refill_rx_buffers_val data_off q1 w = r at hq0 ⊢
  have g1 : r.1.rxq_tail_ptr = 0 := by rw [hq0]; exact h1
  have g2 : r.1.hw_ptr_mask = 0xffff := by rw [hq0]; exact h2
  rw [key r.1 t g1 g2, key r.1 0 g1 g2]

theorem rx_bringup_tail (data_off rxq_addr cpl_addr pool : Nat) (w : world) (t : Nat) :
    (rx_bringup data_off rxq_addr cpl_addr pool w t).1 =
      { (rx_bringup data_off rxq_addr cpl_addr pool w 0).1 with rxq_tail_ptr := t % 65536 } :=
  rx_read_tail_of_refill data_off { (init_rx_queue rxq_addr cpl_addr) with mempool := pool } w t
    rfl rfl
/-- A bring-up read whose low 16 bits are 0 leaves the queue record of a read
of 0. -/
theorem rx_bringup_tail_zero (data_off rxq_addr cpl_addr pool : Nat) (w : world) (t : Nat)
    (ht : t % 65536 = 0) :
    (rx_bringup data_off rxq_addr cpl_addr pool w t).1
      = (rx_bringup data_off rxq_addr cpl_addr pool w 0).1 := by
  rw [rx_bringup_tail data_off rxq_addr cpl_addr pool w t, ht]
  exact (rx_bringup_tail data_off rxq_addr cpl_addr pool w 0).symm

/-- Every state reachable from a bring-up whose read of the RXQ tail register is
0 in its low 16 bits satisfies the invariant. -/
theorem rx_reachable_inv (data_off : Nat) (in_order : Bool) (t : Nat) (st : rx_system)
    (ht : t % 65536 = 0) (h : rx_reachable data_off in_order t st) : rx_sys_inv in_order st := by
  induction h with
  | bringup c dev w queue_id pool rxq_addr cpl_addr r hq hr =>
    obtain ⟨_, rfl⟩ := ok_of_ite_eq_ok
      ((start_rxq_cpl_queue_eq data_off c dev w queue_id pool t rxq_addr cpl_addr hq).symm.trans
        hr)
    rw [rx_bringup_tail_zero data_off rxq_addr cpl_addr pool _ t ht]
    exact rx_sys_inv_bringup data_off in_order rxq_addr cpl_addr pool _
  | refill st w r _ hr ih =>
    obtain ⟨_, rfl⟩ := ok_of_ite_eq_ok
      ((mqnic_refill_rx_buffers_eq data_off st.queue w).symm.trans hr)
    exact rx_sys_inv_refill data_off in_order st w ih
  | rx_batch st w bufs N if_hint hints hint_count r _ hr ih =>
    obtain ⟨_, rfl⟩ := ok_of_ite_eq_ok
      ((mqnic_rx_batch_hints_eq data_off st.queue w bufs N if_hint hints hint_count).symm.trans
        hr)
    exact rx_sys_inv_rx_batch data_off in_order st w bufs N if_hint hints hint_count ih
  | nic st cpl _ hlen hcount _ _ hio ih =>
    have hT : st.queue.rxq_tail_ptr = st.queue.cpl_tail_ptr := ih.2.2.2.2.2.2.1
    exact rx_sys_inv_nic in_order st cpl ih hlen (by rw [hT]; exact hcount)
      (fun hin => by rw [hT]; exact hio hin)

/-! ## The completion-queue part of the invariant holds whatever bring-up read -/

theorem pigeonhole_slots (n m : Nat) (f : Nat → Nat) (hf : ∀ j, j < n → f j < m)
    (hinj : ∀ j j2, j < j2 → j2 < n → f j ≠ f j2) : n ≤ m := by
  have h := Finset.card_le_card_of_injOn (s := Finset.range n) (t := Finset.range m) f
    (fun a ha => Finset.mem_range.2 (hf a (Finset.mem_range.1 ha)))
    (by
      intro a ha b hb hab
      have ha' := Finset.mem_range.1 (Finset.mem_coe.1 ha)
      have hb' := Finset.mem_range.1 (Finset.mem_coe.1 hb)
      by_contra hne
      rcases Nat.lt_or_gt_of_ne hne with hlt | hgt
      · exact hinj a b hlt hb' hab
      · exact hinj b a hgt ha' hab.symm)
  simpa using h

theorem rx_cpl_inv_read_tail (q : mqnic_rx_queue) (t : Nat) (hsz : is_ring_size q.size)
    (hmask : q.size_mask = q.size - 1) (hct : q.cpl_tail_ptr = 0) (hhd : q.cpl_head_ptr = 0)
    (hcpl : ∀ x, (q.cpl_descriptors x).len = 0) :
    rx_cpl_inv { queue := mqnic_rx_read_tail_ptr q t, nic_head := 0 } := by
  have h00 : sub32 0 0 = 0 := by decide
  refine ⟨hsz, hmask, ?_, ?_, hhd, ?_, ?_, ?_⟩
  · show q.cpl_tail_ptr < 4294967296
    rw [hct]
    decide
  · show (0 : Nat) < 4294967296
    decide
  · show sub32 0 q.cpl_tail_ptr ≤ q.size
    rw [hct, h00]
    exact Nat.zero_le _
  · intro j _
    show (q.cpl_descriptors _).len ≠ 0 ↔ j < sub32 0 q.cpl_tail_ptr
    rw [hct, h00, hcpl]
    constructor
    · intro h
      exact absurd rfl h
    · intro h
      omega
  · intro j j2 _ hj2
    have : j2 < sub32 0 q.cpl_tail_ptr := hj2
    rw [hct, h00] at this
    omega

theorem rx_cpl_inv_of_refill (data_off : Nat) (q1 : mqnic_rx_queue) (w : world) (t : Nat)
    (hsz : is_ring_size q1.size) (hmask : q1.size_mask = q1.size - 1)
    (hct : q1.cpl_tail_ptr = 0) (hhd : q1.cpl_head_ptr = 0)
    (hcpl : ∀ x, (q1.cpl_descriptors x).len = 0) :
    rx_cpl_inv
      { queue := mqnic_rx_read_tail_ptr (mqnic_refill_rx_buffers_val data_off q1 w).1 t
        nic_head := 0 } := by
  have hq0 := mqnic_refill_rx_buffers_queue_eq data_off q1 w
  generalize mqnic_refill_rx_buffers_val data_off q1 w = r at hq0 ⊢
  exact rx_cpl_inv_read_tail r.1 t (by rw [hq0]; exact hsz) (by rw [hq0]; exact hmask)
    (by rw [hq0]; exact hct) (by rw [hq0]; exact hhd) (by rw [hq0]; exact hcpl)

theorem rx_cpl_inv_bringup (data_off rxq_addr cpl_addr pool : Nat) (w : world) (t : Nat) :
    rx_cpl_inv { queue := (rx_bringup data_off rxq_addr cpl_addr pool w t).1, nic_head := 0 } := by
  have hs : round_power NUM_RX_QUEUE_ENTRIES = 256 := by decide
  have hsz : is_ring_size (round_power NUM_RX_QUEUE_ENTRIES) := by
    rw [hs]
    decide
  exact rx_cpl_inv_of_refill data_off { (init_rx_queue rxq_addr cpl_addr) with mempool := pool }
    w t hsz rfl rfl rfl (fun _ => rfl)

theorem rx_cpl_inv_refill (data_off : Nat) (st : rx_system) (w : world) (h : rx_cpl_inv st) :
    rx_cpl_inv
      { queue := (mqnic_refill_rx_buffers_val data_off st.queue w).1, nic_head := st.nic_head } := by
  obtain ⟨hsz, hmask, hCT, hP, hhd, hk, hshape, hdist⟩ := h
  have hq0 := mqnic_refill_rx_buffers_queue_eq data_off st.queue w
  generalize (mqnic_refill_rx_buffers_val data_off st.queue w).1 = q0 at hq0
  have e1 : q0.size = st.queue.size := by rw [hq0]
  have e2 : q0.size_mask = st.queue.size_mask := by rw [hq0]
  have e4 : q0.cpl_tail_ptr = st.queue.cpl_tail_ptr := by rw [hq0]
  have e6 : q0.cpl_head_ptr = st.queue.cpl_head_ptr := by rw [hq0]
  have e7 : q0.cpl_descriptors = st.queue.cpl_descriptors := by rw [hq0]
  have hcat : ∀ j, cpl_at q0 j = cpl_at st.queue j := by
    intro j
    simp only [cpl_at, cpl_slot, e7, e4, e2]
  have hslot : ∀ j, rxq_slot q0 j = rxq_slot st.queue j := by
    intro j
    simp only [rxq_slot, hcat, e2]
  refine ⟨by rw [e1]; exact hsz, by rw [e2, e1]; exact hmask, by rw [e4]; exact hCT, hP,
    by rw [e6]; exact hhd, ?_, ?_, ?_⟩
  · show sub32 st.nic_head q0.cpl_tail_ptr ≤ q0.size
    rw [e4, e1]
    exact hk
  · intro j hj
    show (cpl_at q0 j).len ≠ 0 ↔ j < sub32 st.nic_head q0.cpl_tail_ptr
    rw [hcat, e4]
    exact hshape j (by rw [← e1]; exact hj)
  · intro j j2 hlt hj2
    show rxq_slot q0 j ≠ rxq_slot q0 j2
    rw [hslot, hslot]
    have hj2' : j2 < sub32 st.nic_head q0.cpl_tail_ptr := hj2
    rw [e4] at hj2'
    exact hdist j j2 hlt hj2'

theorem rx_cpl_inv_nic (st : rx_system) (cpl : mqnic_cpl) (h : rx_cpl_inv st)
    (hlen : cpl.len ≠ 0)
    (hnew : ∀ j, j < sub32 st.nic_head st.queue.cpl_tail_ptr →
      rxq_slot st.queue j ≠ cpl.index &&& st.queue.size_mask) :
    rx_cpl_inv (nic_rx_complete st cpl) := by
  obtain ⟨hsz, hmask, hCT, hP, hhd, hk, hshape, hdist⟩ := h
  have hslt := is_ring_size_lt _ hsz
  have hpos := is_ring_size_pos _ hsz
  have hpsz : sub32 st.nic_head st.queue.cpl_tail_ptr < st.queue.size := by
    have := pigeonhole_slots (sub32 st.nic_head st.queue.cpl_tail_ptr + 1) st.queue.size
      (fun j => if j < sub32 st.nic_head st.queue.cpl_tail_ptr then rxq_slot st.queue j
        else cpl.index &&& st.queue.size_mask)
      (by
        intro j _
        dsimp only
        split
        · exact rxq_slot_lt _ _ hsz hmask
        · rw [hmask, and_mask_eq_mod _ _ hsz]
          exact Nat.mod_lt _ hpos)
      (by
        intro j j2 hlt hj2
        dsimp only
        have hj : j < sub32 st.nic_head st.queue.cpl_tail_ptr := by omega
        rw [if_pos hj]
        by_cases h2 : j2 < sub32 st.nic_head st.queue.cpl_tail_ptr
        · rw [if_pos h2]
          exact hdist j j2 hlt h2
        · rw [if_neg h2]
          exact hnew j hj)
    omega
  have hpend' : sub32 (wrap32 (st.nic_head + 1)) st.queue.cpl_tail_ptr
      = sub32 st.nic_head st.queue.cpl_tail_ptr + 1 := by
    simp only [sub32, wrap32] at hpsz ⊢
    omega
  have hslotP : st.nic_head &&& st.queue.size_mask
      = cpl_slot st.queue (sub32 st.nic_head st.queue.cpl_tail_ptr) := by
    unfold cpl_slot
    rw [wrap32_add_sub32 _ _ hP]
  have hat : ∀ j, j < st.queue.size →
      cpl_at (nic_rx_complete st cpl).queue j =
        if j = sub32 st.nic_head st.queue.cpl_tail_ptr then cpl else cpl_at st.queue j := by
    intro j hj
    show upd st.queue.cpl_descriptors (st.nic_head &&& st.queue.size_mask) cpl
      (cpl_slot st.queue j) = _
    rw [hslotP]
    unfold upd
    by_cases hjp : j = sub32 st.nic_head st.queue.cpl_tail_ptr
    · rw [hjp, if_pos rfl, if_pos rfl]
    · rw [if_neg (cpl_slot_ne st.queue _ _ hsz hmask hj hpsz hjp), if_neg hjp]
      rfl
  have hslot : ∀ j, j < st.queue.size →
      rxq_slot (nic_rx_complete st cpl).queue j =
        if j = sub32 st.nic_head st.queue.cpl_tail_ptr then cpl.index &&& st.queue.size_mask
        else rxq_slot st.queue j := by
    intro j hj
    show (cpl_at (nic_rx_complete st cpl).queue j).index &&& st.queue.size_mask = _
    rw [hat j hj]
    split <;> rfl
  refine ⟨hsz, hmask, hCT, by show wrap32 _ < _; simp only [wrap32]; omega, hhd, ?_, ?_, ?_⟩
  · show sub32 (wrap32 (st.nic_head + 1)) st.queue.cpl_tail_ptr ≤ st.queue.size
    rw [hpend']
    omega
  · intro j hj
    show (cpl_at (nic_rx_complete st cpl).queue j).len ≠ 0 ↔
      j < sub32 (wrap32 (st.nic_head + 1)) st.queue.cpl_tail_ptr
    rw [hpend', hat j hj]
    by_cases hjp : j = sub32 st.nic_head st.queue.cpl_tail_ptr
    · rw [if_pos hjp]
      exact ⟨fun _ => by omega, fun _ => hlen⟩
    · rw [if_neg hjp]
      have := hshape j hj
      constructor
      · intro hne
        have := this.1 hne
        omega
      · intro hlt
        exact this.2 (by omega)
  · intro j j2 hlt hj2
    have hj2' : j2 < sub32 st.nic_head st.queue.cpl_tail_ptr + 1 := by
      have : j2 < sub32 (wrap32 (st.nic_head + 1)) st.queue.cpl_tail_ptr := hj2
      rw [hpend'] at this
      exact this
    show rxq_slot (nic_rx_complete st cpl).queue j ≠ rxq_slot (nic_rx_complete st cpl).queue j2
    rw [hslot j (by omega), hslot j2 (by omega), if_neg (by omega)]
    by_cases h2 : j2 = sub32 st.nic_head st.queue.cpl_tail_ptr
    · rw [if_pos h2]
      exact hnew j (by omega)
    · rw [if_neg h2]
      exact hdist j j2 hlt (by omega)

theorem rx_cpl_inv_drain (st : rx_system) (w : world) (bufs : Nat → Nat)
    (N if_hint : Nat) (hints : Nat → nic_hints) (hint_count : Nat) (h : rx_cpl_inv st) :
    rx_cpl_inv
      { queue := (rx_drain st.queue w bufs N if_hint hints hint_count).queue
        nic_head := st.nic_head } := by
  obtain ⟨hsz, hmask, hCT, hP, hhd, hk, hshape, hdist⟩ := h
  have hslt := is_ring_size_lt _ hsz
  have hpos := is_ring_size_pos _ hsz
  have hle0 : st.queue.cpl_tail_ptr &&& st.queue.size_mask < 4294967296 :=
    Nat.lt_of_le_of_lt Nat.and_le_left hCT
  have e0 : wrap32 ((st.queue.cpl_tail_ptr &&& st.queue.size_mask) + RXCQ_BYPASS_BATCH)
      &&& st.queue.size_mask = st.queue.cpl_tail_ptr &&& st.queue.size_mask := by
    simp only [RXCQ_BYPASS_BATCH, Nat.add_zero]
    rw [show wrap32 (st.queue.cpl_tail_ptr &&& st.queue.size_mask)
        = st.queue.cpl_tail_ptr &&& st.queue.size_mask from Nat.mod_eq_of_lt hle0,
      Nat.and_assoc, Nat.and_self]
  have hnext : (rx_peek_state st.queue w bufs hints).if_next =
      decide (((rx_peek_state st.queue w bufs hints).queue.cpl_descriptors
        (rx_peek_state st.queue w bufs hints).cq_index).len ≠ 0) := by
    show decide ((st.queue.cpl_descriptors
        (wrap32 ((st.queue.cpl_tail_ptr &&& st.queue.size_mask) + RXCQ_BYPASS_BATCH)
          &&& st.queue.size_mask)).len ≠ 0)
      = decide ((st.queue.cpl_descriptors
          (st.queue.cpl_tail_ptr &&& st.queue.size_mask)).len ≠ 0)
    rw [e0]
  have hnz : ∀ j, j < sub32 st.nic_head st.queue.cpl_tail_ptr →
      (cpl_at st.queue j).len ≠ 0 := fun j hj => (hshape j (by omega)).2 hj
  have hz : sub32 st.nic_head st.queue.cpl_tail_ptr < st.queue.size →
      (cpl_at st.queue (sub32 st.nic_head st.queue.cpl_tail_ptr)).len = 0 := by
    intro hlt
    by_contra hne
    have := (hshape _ hlt).1 hne
    omega
  obtain ⟨r1, r2, _, _⟩ := rx_batch_loop_ring if_hint N N
    (rx_peek_state st.queue w bufs hints) (sub32 st.nic_head st.queue.cpl_tail_ptr)
    hsz hmask rfl hCT rfl hnext hk hnz hz (Nat.zero_le _) (Nat.sub_le _ _)
  have htl := rx_batch_loop_cq_tail if_hint N N (rx_peek_state st.queue w bufs hints) hCT
  have hcl := rx_batch_loop_cleared if_hint N N (rx_peek_state st.queue w bufs hints) rfl hCT
  have hQ := rx_drain_queue_eq st.queue w bufs N if_hint hints hint_count
  have hb0 : (rx_peek_state st.queue w bufs hints).buf_index = 0 := rfl
  rw [hb0] at r1 r2 htl hcl
  simp only [Nat.sub_zero, Nat.zero_add] at r1 r2 htl hcl
  generalize rx_batch_loop if_hint N N (rx_peek_state st.queue w bufs hints) = L
    at r1 r2 htl hcl hQ
  have hvle : min (sub32 st.nic_head st.queue.cpl_tail_ptr) N
      ≤ sub32 st.nic_head st.queue.cpl_tail_ptr := Nat.min_le_left _ _
  generalize min (sub32 st.nic_head st.queue.cpl_tail_ptr) N = hv at r1 r2 hvle
  rw [r1] at htl hcl hQ
  have r2' : ∀ x, (∀ j, j < hv → x ≠ cpl_slot st.queue j) →
      L.queue.cpl_descriptors x = st.queue.cpl_descriptors x := r2
  have hcl' : ∀ j, j < hv → (L.queue.cpl_descriptors (cpl_slot st.queue j)).len = 0 := hcl
  have htl' : L.cq_tail_ptr = wrap32 (st.queue.cpl_tail_ptr + hv) := htl
  clear r2 hcl htl
  have a2 : sub32 st.nic_head (wrap32 (st.queue.cpl_tail_ptr + hv))
      = sub32 st.nic_head st.queue.cpl_tail_ptr - hv := by
    simp only [sub32, wrap32] at hvle hk ⊢
    omega
  generalize (rx_drain st.queue w bufs N if_hint hints hint_count).queue = Q at hQ ⊢
  have e1 : Q.size = st.queue.size := by rw [hQ]
  have e2 : Q.size_mask = st.queue.size_mask := by rw [hQ]
  have e4 : Q.cpl_head_ptr = st.queue.cpl_head_ptr := by rw [hQ]
  have e5 : Q.cpl_tail_ptr = wrap32 (st.queue.cpl_tail_ptr + hv) := by
    rw [hQ]
    show (if hv ≠ 0 then L.cq_tail_ptr else st.queue.cpl_tail_ptr) = _
    split
    · exact htl'
    · rename_i h0
      have : hv = 0 := by omega
      rw [this]
      simp only [Nat.add_zero, wrap32, Nat.mod_eq_of_lt hCT]
  have e8 : Q.cpl_descriptors = L.queue.cpl_descriptors := by rw [hQ]
  have hslotQ : ∀ j, cpl_slot Q j = cpl_slot st.queue (hv + j) := by
    intro j
    unfold cpl_slot
    rw [e5, e2, wrap32_wrap32_add, Nat.add_assoc]
  have hatQ : ∀ j, hv + j < st.queue.size → cpl_at Q j = cpl_at st.queue (hv + j) := by
    intro j hj
    show Q.cpl_descriptors (cpl_slot Q j) = st.queue.cpl_descriptors (cpl_slot st.queue (hv + j))
    rw [hslotQ, e8]
    apply r2'
    intro j' hj'
    exact cpl_slot_ne st.queue _ _ hsz hmask hj (by omega) (by omega)
  refine ⟨by rw [e1]; exact hsz, by rw [e2, e1]; exact hmask, by rw [e5]; exact wrap32_lt _, hP,
    by rw [e4]; exact hhd, ?_, ?_, ?_⟩
  · show sub32 st.nic_head Q.cpl_tail_ptr ≤ Q.size
    rw [e5, a2, e1]
    omega
  · intro j hj
    have hj' : j < st.queue.size := by
      have : j < Q.size := hj
      rw [e1] at this
      exact this
    show (cpl_at Q j).len ≠ 0 ↔ j < sub32 st.nic_head Q.cpl_tail_ptr
    rw [e5, a2]
    by_cases hlt : hv + j < st.queue.size
    · rw [hatQ j hlt]
      have := hshape (hv + j) hlt
      constructor
      · intro hne
        have := this.1 hne
        omega
      · intro hjp
        exact this.2 (by omega)
    · have hzero : (cpl_at Q j).len = 0 := by
        show (Q.cpl_descriptors (cpl_slot Q j)).len = 0
        rw [hslotQ, e8]
        have hs : cpl_slot st.queue (hv + j) = cpl_slot st.queue (hv + j - st.queue.size) := by
          rw [cpl_slot_eq_mod _ _ hsz hmask, cpl_slot_eq_mod _ _ hsz hmask]
          have e : st.queue.cpl_tail_ptr + (hv + j)
              = st.queue.cpl_tail_ptr + (hv + j - st.queue.size) + st.queue.size := by omega
          rw [e, Nat.add_mod_right]
        rw [hs]
        exact hcl' _ (by omega)
      constructor
      · intro hne
        exact absurd hzero hne
      · intro hjp
        omega
  · intro j j2 hlt hj2
    have hj2' : j2 < sub32 st.nic_head st.queue.cpl_tail_ptr - hv := by
      have : j2 < sub32 st.nic_head Q.cpl_tail_ptr := hj2
      rw [e5, a2] at this
      exact this
    show (cpl_at Q j).index &&& Q.size_mask ≠ (cpl_at Q j2).index &&& Q.size_mask
    rw [hatQ j (by omega), hatQ j2 (by omega), e2]
    exact hdist (hv + j) (hv + j2) (by omega) (by omega)

/-- Every reachable state, whatever the RXQ tail register read at bring-up,
satisfies the completion-queue part of the invariant. -/
theorem rx_reachable_cpl_inv (data_off : Nat) (in_order : Bool) (t : Nat) (st : rx_system)
    (h : rx_reachable data_off in_order t st) : rx_cpl_inv st := by
  induction h with
  | bringup c dev w queue_id pool rxq_addr cpl_addr r hq hr =>
    obtain ⟨_, rfl⟩ := ok_of_ite_eq_ok
      ((start_rxq_cpl_queue_eq data_off c dev w queue_id pool t rxq_addr cpl_addr hq).symm.trans
        hr)
    exact rx_cpl_inv_bringup data_off rxq_addr cpl_addr pool _ t
  | refill st w r _ hr ih =>
    obtain ⟨_, rfl⟩ := ok_of_ite_eq_ok
      ((mqnic_refill_rx_buffers_eq data_off st.queue w).symm.trans hr)
    exact rx_cpl_inv_refill data_off st w ih
  | rx_batch st w bufs N if_hint hints hint_count r _ hr ih =>
    obtain ⟨_, rfl⟩ := ok_of_ite_eq_ok
      ((mqnic_rx_batch_hints_eq data_off st.queue w bufs N if_hint hints hint_count).symm.trans
        hr)
    rw [mqnic_rx_batch_hints_eq_drain]
    exact rx_cpl_inv_drain
      { queue := (mqnic_refill_rx_buffers_val data_off st.queue w).1, nic_head := st.nic_head }
      _ bufs N if_hint hints hint_count (rx_cpl_inv_refill data_off st w ih)
  | nic st cpl _ hlen _ _ hnew _ ih => exact rx_cpl_inv_nic st cpl ih hlen hnew

/-! ## Sample reachable RX states -/

theorem pool_supply_activated : pool_supply activated_pool_world 7 = 4096 := by
  have hfs : (activated_pool_world.mempools 7).free_stack
      = (List.range 4096).map (fun i => 5000 + i) := by
    simp only [activated_pool_world, rx_activation, set_reg32, full_pool_world]
  unfold pool_supply
  rw [hfs, List.takeWhile_eq_self_iff.2, List.length_map, List.length_range]
  intro b hb
  obtain ⟨i, _, rfl⟩ := List.mem_map.1 hb
  simp

/-- Every pool of `full_pool_world` supplies 4096 buffers. -/
theorem pool_supply_full_pool (pool : Nat) : pool_supply full_pool_world pool = 4096 := by
  have hfs : (full_pool_world.mempools pool).free_stack
      = (List.range 4096).map (fun i => 5000 + i) := by
    simp only [full_pool_world]
  unfold pool_supply
  rw [hfs, List.takeWhile_eq_self_iff.2, List.length_map, List.length_range]
  intro b hb
  obtain ⟨i, _, rfl⟩ := List.mem_map.1 hb
  simp

/-- Bring-up on `full_pool_world` returns, whatever the RXQ tail register reads:
the pool supplies the 256 missing buffers. -/
theorem start_rxq_cpl_queue_sample (t : Nat) :
    start_rxq_cpl_queue 64 sample_consts fresh_dev full_pool_world 0 7 t
      = Except.ok (rx_bringup 64 4096 8192 7 activated_pool_world t) := by
  rw [start_rxq_cpl_queue_eq 64 sample_consts fresh_dev full_pool_world 0 7 t 4096 8192 rfl]
  unfold activated_pool_world
  apply if_pos
  refine Or.inr ?_
  have hp : pool_supply (rx_activation sample_consts fresh_dev full_pool_world 0) 7 = 4096 :=
    pool_supply_activated
  show sub32 (round_power NUM_RX_QUEUE_ENTRIES) (sub32 0 0)
    ≤ pool_supply (rx_activation sample_consts fresh_dev full_pool_world 0) 7
  rw [hp]
  decide

theorem rx_full_state_reachable (in_order : Bool) : rx_reachable 64 in_order 0 rx_full_state :=
  rx_reachable.bringup sample_consts fresh_dev full_pool_world 0 7 4096 8192
    (rx_bringup 64 4096 8192 7 activated_pool_world 0) rfl (start_rxq_cpl_queue_sample 0)

set_option maxRecDepth 100000 in
theorem rx_ooo_state_reachable : rx_reachable 64 false 0 rx_ooo_state :=
  rx_reachable.rx_batch (nic_rx_complete rx_full_state (sample_cpl 5))
    (rx_bringup 64 4096 8192 7 full_pool_world 0).2 (fun _ => 0) 8 0 (fun _ => ⟨0, 0⟩) 0
    (mqnic_rx_batch_hints_val 64 (nic_rx_complete rx_full_state (sample_cpl 5)).queue
      (rx_bringup 64 4096 8192 7 full_pool_world 0).2 (fun _ => 0) 8 0 (fun _ => ⟨0, 0⟩) 0)
    (rx_reachable.nic rx_full_state (sample_cpl 5) (rx_full_state_reachable false)
      (by decide) (by decide) (by decide) (by decide) (by decide))
    ((mqnic_rx_batch_hints_eq 64 (nic_rx_complete rx_full_state (sample_cpl 5)).queue
      (rx_bringup 64 4096 8192 7 full_pool_world 0).2 (fun _ => 0) 8 0 (fun _ => ⟨0, 0⟩) 0).trans
      (if_pos (Or.inl (by decide))))

set_option maxRecDepth 100000 in
theorem rx_ino_state_reachable : rx_reachable 64 true 0 rx_ino_state :=
  rx_reachable.rx_batch (nic_rx_complete rx_full_state (sample_cpl 0))
    (rx_bringup 64 4096 8192 7 full_pool_world 0).2 (fun _ => 0) 8 0 (fun _ => ⟨0, 0⟩) 0
    (mqnic_rx_batch_hints_val 64 (nic_rx_complete rx_full_state (sample_cpl 0)).queue
      (rx_bringup 64 4096 8192 7 full_pool_world 0).2 (fun _ => 0) 8 0 (fun _ => ⟨0, 0⟩) 0)
    (rx_reachable.nic rx_full_state (sample_cpl 0) (rx_full_state_reachable true)
      (by decide) (by decide) (by decide) (by decide) (by decide))
    ((mqnic_rx_batch_hints_eq 64 (nic_rx_complete rx_full_state (sample_cpl 0)).queue
      (rx_bringup 64 4096 8192 7 full_pool_world 0).2 (fun _ => 0) 8 0 (fun _ => ⟨0, 0⟩) 0).trans
      (if_pos (Or.inl (by decide))))

theorem and_255 (k : Nat) (hk : k < 256) : k &&& 255 = k := by
  have h := Nat.and_pow_two_sub_one_eq_mod k 8
  have e : (2 : Nat) ^ 8 - 1 = 255 := by decide
  rw [e] at h
  rw [h]
  exact Nat.mod_eq_of_lt hk

/-- The state after the NIC has completed the first `k` descriptors in order. -/
theorem nic_rx_complete_first_eq (s : rx_system) (hm : s.queue.size_mask = 255)
    (hn : s.nic_head = 0) :
    ∀ k, k ≤ 256 →
      nic_rx_complete_first k s =
        { queue :=
            { s.queue with
              cpl_descriptors :=
                fun i => if i < k then sample_cpl i else s.queue.cpl_descriptors i }
          nic_head := k } := by
  intro k
  induction k with
  | zero =>
    intro _
    obtain ⟨q, n⟩ := s
    simp only at hn
    subst hn
    show (⟨q, 0⟩ : rx_system) = _
    simp
  | succ k ih =>
    intro hk
    show nic_rx_complete (nic_rx_complete_first k s) (sample_cpl k) = _
    rw [ih (by omega)]
    have hw : wrap32 (k + 1) = k + 1 := by
      simp only [wrap32]
      omega
    simp only [nic_rx_complete, hm, and_255 k (by omega), hw, rx_system.mk.injEq,
      mqnic_rx_queue.mk.injEq, true_and, and_true]
    funext i
    unfold upd
    by_cases hi : i = k
    · rw [if_pos hi, if_pos (by omega), hi]
    · rw [if_neg hi]
      show (if i < k then sample_cpl i else s.queue.cpl_descriptors i) = _
      by_cases hlt : i < k
      · rw [if_pos hlt, if_pos (by omega)]
      · rw [if_neg hlt, if_neg (by omega)]

/-- From a reachable state with a full ring of 256 posted descriptors and no
completion published, the in-order completion of the first `k` descriptors is
reachable. -/
theorem nic_rx_complete_first_reachable (t : Nat) (s : rx_system)
    (hs : rx_reachable 64 true t s) (hm : s.queue.size_mask = 255) (hn : s.nic_head = 0)
    (hct : s.queue.cpl_tail_ptr = 0) (hh : s.queue.rxq_head_ptr = 256)
    (hv : ∀ i, i < 256 → s.queue.rxq_virtual_addresses i ≠ 0) :
    ∀ k, k ≤ 256 → rx_reachable 64 true t (nic_rx_complete_first k s) := by
  intro k
  induction k with
  | zero => intro _; exact hs
  | succ k ih =>
    intro hk
    have hkl : k < 256 := by omega
    have e := nic_rx_complete_first_eq s hm hn k (by omega)
    have hsub : ∀ x, x < 4294967296 → sub32 x 0 = x := by
      intro x hx
      simp only [sub32]
      omega
    have p1 : (nic_rx_complete_first k s).nic_head = k := by rw [e]
    have p2 : (nic_rx_complete_first k s).queue.cpl_tail_ptr = 0 := by rw [e]; exact hct
    have p3 : (nic_rx_complete_first k s).queue.rxq_head_ptr = 256 := by rw [e]; exact hh
    have p4 : (nic_rx_complete_first k s).queue.size_mask = 255 := by rw [e]; exact hm
    have p5 : (nic_rx_complete_first k s).queue.rxq_virtual_addresses
        = s.queue.rxq_virtual_addresses := by rw [e]
    have p6 : ∀ j, j < k → rxq_slot (nic_rx_complete_first k s).queue j = j := by
      intro j hj
      have hw : wrap32 (0 + j) = j := by
        simp only [wrap32]
        omega
      rw [e]
      simp only [rxq_slot, cpl_at, cpl_slot, hct, hm, hw, and_255 j (by omega), if_pos hj]
      exact and_255 j (by omega)
    have hidx : (sample_cpl k).index &&& (nic_rx_complete_first k s).queue.size_mask = k := by
      rw [p4]
      exact and_255 k hkl
    show rx_reachable 64 true t (nic_rx_complete (nic_rx_complete_first k s) (sample_cpl k))
    apply rx_reachable.nic _ _ (ih (by omega))
    · show (64 : Nat) ≠ 0
      decide
    · rw [p1, p2, p3, hsub k (by omega), hsub 256 (by decide)]
      exact hkl
    · rw [hidx, p5]
      exact hv k hkl
    · intro j hj
      rw [p1, p2, hsub k (by omega)] at hj
      rw [hidx, p6 j hj]
      omega
    · intro _
      rw [hidx, p1, p2, p4, hsub k (by omega)]
      have hw : wrap32 (0 + k) = k := by
        simp only [wrap32]
        omega
      rw [hw, and_255 k hkl]

theorem rx_tail_one_state_reachable :
    rx_reachable 64 true 1
      { queue := (rx_bringup 64 4096 8192 7 activated_pool_world 1).1, nic_head := 0 } :=
  rx_reachable.bringup sample_consts fresh_dev full_pool_world 0 7 4096 8192
    (rx_bringup 64 4096 8192 7 activated_pool_world 1) rfl (start_rxq_cpl_queue_sample 1)

set_option maxRecDepth 100000 in
theorem rx_early_tail_state_reachable : rx_reachable 64 true 1 rx_early_tail_state :=
  nic_rx_complete_first_reachable 1
    { queue := (rx_bringup 64 4096 8192 7 activated_pool_world 1).1, nic_head := 0 }
    rx_tail_one_state_reachable (by decide) rfl (by decide) (by decide) (by decide) 256
    (Nat.le_refl _)

set_option maxRecDepth 1000000 in
theorem rx_overrun_state_reachable : rx_reachable 64 true 1 rx_overrun_state :=
  rx_reachable.rx_batch rx_early_tail_state full_pool_world (fun _ => 0) 256 0
    (fun _ => ⟨0, 0⟩) 0
    (mqnic_rx_batch_hints_val 64 rx_early_tail_state.queue full_pool_world (fun _ => 0) 256 0
      (fun _ => ⟨0, 0⟩) 0)
    rx_early_tail_state_reachable
    ((mqnic_rx_batch_hints_eq 64 rx_early_tail_state.queue full_pool_world (fun _ => 0) 256 0
      (fun _ => ⟨0, 0⟩) 0).trans (if_pos (Or.inl (by decide))))

set_option maxRecDepth 1000000 in
/-- The queue `rx_overrun_state` holds: the clean tail has passed the head, and
the slot at index 0 is empty. -/
theorem rx_overrun_state_facts :
    rx_overrun_state.queue.rxq_head_ptr = 256 ∧
      rx_overrun_state.queue.rxq_clean_tail_ptr = 257 ∧
      rx_overrun_state.queue.size = 256 ∧
      rx_overrun_state.queue.size_mask = 255 ∧
      rx_overrun_state.queue.rxq_virtual_addresses 0 = 0 := by
  decide

set_option maxRecDepth 100000 in
/-- The state `rx_starved_state` is reachable: bring-up, eight in-order
completions and one drain of capacity 8. -/
theorem rx_starved_state_reachable : rx_reachable 64 true 0 rx_starved_state :=
  rx_reachable.rx_batch (nic_rx_complete_first 8 rx_full_state) full_pool_world (fun _ => 0) 8 0
    (fun _ => ⟨0, 0⟩) 0
    (mqnic_rx_batch_hints_val 64 (nic_rx_complete_first 8 rx_full_state).queue full_pool_world
      (fun _ => 0) 8 0 (fun _ => ⟨0, 0⟩) 0)
    (nic_rx_complete_first_reachable 0 rx_full_state (rx_full_state_reachable true) (by decide) rfl
      (by decide) (by decide) (by decide) 8 (by decide))
    (mqnic_rx_batch_hints_returns 64 (nic_rx_complete_first 8 rx_full_state).queue
      full_pool_world (fun _ => 0) 8 0 (fun _ => ⟨0, 0⟩) 0 (Or.inl (by decide)))

/-! ## RX occupancy and window claims -/

/-- C14, the code at the failing input: a bring-up on a full pool at whose end
the RXQ tail register reads 1 (the NIC has consumed one descriptor before
`start_rxq_cpl_queue` mirrors the register), the in-order completion of all 256
posted descriptors, and one drain of capacity 256.  The drain adds the 256 harvested completions to the
mirrored tail 1, the clean-tail loop walks over the 256 emptied slots and over
slot 0 once more, and at the return `rxq_head_ptr` is 256 and
`rxq_clean_tail_ptr` is 257: `(rxq_head_ptr - rxq_clean_tail_ptr) mod 2^32` is
`2^32 - 1`, above `size = 256`. -/
theorem rx_occupancy_exceeds_size_after_early_tail_read :
    rx_reachable 64 true 1 rx_overrun_state ∧
      rx_overrun_state.queue.rxq_head_ptr = 256 ∧
      rx_overrun_state.queue.rxq_clean_tail_ptr = 257 ∧
      rx_overrun_state.queue.size = 256 ∧
      sub32 rx_overrun_state.queue.rxq_head_ptr rx_overrun_state.queue.rxq_clean_tail_ptr
        = 4294967295 ∧
      ¬ (sub32 rx_overrun_state.queue.rxq_head_ptr rx_overrun_state.queue.rxq_clean_tail_ptr
          ≤ rx_overrun_state.queue.size) := by
  obtain ⟨h1, h2, h3, _, _⟩ := rx_overrun_state_facts
  refine ⟨rx_overrun_state_reachable, h1, h2, h3, ?_, ?_⟩
  · rw [h1, h2]
    decide
  · rw [h1, h2, h3]
    decide

/-- C14: when the RXQ tail register reads 0 in its low 16 bits at the end of
bring-up (the NIC has consumed no descriptor yet), then in every state of the RX
queue reachable from that bring-up through returning `mqnic_refill_rx_buffers`
and `mqnic_rx_batch` / `mqnic_rx_batch_hints` calls, with the NIC completing
only posted descriptors, each once (in any order),
`(rxq_head_ptr - rxq_clean_tail_ptr) mod 2^32` is at most `size`.  The built
variant adds the harvested count to the tail mirror and never reads the register
again, so a bring-up that read another value is not covered: the bound can then
fail. -/
theorem rx_occupancy_le_size (data_off : Nat) (in_order : Bool) (nic_tail_ptr : Nat)
    (st : rx_system) (ht : nic_tail_ptr % 65536 = 0)
    (h : rx_reachable data_off in_order nic_tail_ptr st) :
    sub32 st.queue.rxq_head_ptr st.queue.rxq_clean_tail_ptr ≤ st.queue.size :=
  (rx_reachable_inv data_off in_order nic_tail_ptr st ht h).2.2.2.2.2.2.2.2.1

set_option maxRecDepth 100000 in
/-- Witness for C14: the state reached from a full bring-up (tail
read 0) by an out-of-order completion and a drain; its occupancy is 256 of 256. -/
theorem rx_occupancy_le_size_witness :
    (0 : Nat) % 65536 = 0 ∧ rx_reachable 64 false 0 rx_ooo_state ∧
      sub32 rx_ooo_state.queue.rxq_head_ptr rx_ooo_state.queue.rxq_clean_tail_ptr = 256 ∧
      sub32 rx_ooo_state.queue.rxq_head_ptr rx_ooo_state.queue.rxq_clean_tail_ptr
        ≤ rx_ooo_state.queue.size :=
  ⟨rfl, rx_ooo_state_reachable, by decide,
    rx_occupancy_le_size 64 false 0 rx_ooo_state rfl rx_ooo_state_reachable⟩

set_option maxRecDepth 100000 in
/-- C16, counterexample, in two runs.  First run (tail read 0, out-of-order NIC):
after a full bring-up the NIC completes the descriptor in slot 5 before those in
slots 0 to 4, and `mqnic_rx_batch` harvests it; at the return the clean tail is
still 0 and the head 256, so slot 5 lies in the window, but
`rxq_virtual_addresses[5]` is null.  Second run (in-order NIC, tail read 1): after
the NIC has completed all 256 descriptors in order and one drain has harvested
them, the clean tail is 257 and the head 256; slot 0 is null and lies in the
window, which has `2^32 - 1` entries. -/
theorem rx_window_contains_null_slot :
    (rx_reachable 64 false 0 rx_ooo_state ∧
      rx_ooo_state.queue.rxq_clean_tail_ptr = 0 ∧
      rx_ooo_state.queue.rxq_head_ptr = 256 ∧
      rx_ooo_state.queue.size = 256 ∧
      rx_ooo_state.queue.rxq_virtual_addresses 5 = 0 ∧
      ¬ (rx_ooo_state.queue.rxq_virtual_addresses 5 ≠ 0 ↔
        ∃ t, t < sub32 rx_ooo_state.queue.rxq_head_ptr rx_ooo_state.queue.rxq_clean_tail_ptr ∧
          5 = wrap32 (rx_ooo_state.queue.rxq_clean_tail_ptr + t)
            &&& rx_ooo_state.queue.size_mask)) ∧
    (rx_reachable 64 true 1 rx_overrun_state ∧
      rx_overrun_state.queue.rxq_clean_tail_ptr = 257 ∧
      rx_overrun_state.queue.rxq_head_ptr = 256 ∧
      rx_overrun_state.queue.size = 256 ∧
      rx_overrun_state.queue.rxq_virtual_addresses 0 = 0 ∧
      ¬ (rx_overrun_state.queue.rxq_virtual_addresses 0 ≠ 0 ↔
        ∃ t, t < sub32 rx_overrun_state.queue.rxq_head_ptr
              rx_overrun_state.queue.rxq_clean_tail_ptr ∧
          0 = wrap32 (rx_overrun_state.queue.rxq_clean_tail_ptr + t)
            &&& rx_overrun_state.queue.size_mask)) := by
  have h5 : rx_ooo_state.queue.rxq_virtual_addresses 5 = 0 := by decide
  have hc : rx_ooo_state.queue.rxq_clean_tail_ptr = 0 := by decide
  have hh : rx_ooo_state.queue.rxq_head_ptr = 256 := by decide
  have hm : rx_ooo_state.queue.size_mask = 255 := by decide
  obtain ⟨g1, g2, g3, g4, g5⟩ := rx_overrun_state_facts
  refine ⟨⟨rx_ooo_state_reachable, hc, hh, by decide, h5, ?_⟩,
    ⟨rx_overrun_state_reachable, g2, g1, g3, g5, ?_⟩⟩
  · intro hiff
    apply hiff.2 ⟨5, ?_, ?_⟩ h5
    · rw [hh, hc]
      decide
    · rw [hc, hm]
      decide
  · intro hiff
    apply hiff.2 ⟨255, ?_, ?_⟩ g5
    · rw [g1, g2]
      decide
    · rw [g2, g4]
      decide

/-- C16, amended: when the RXQ tail register reads 0 in its low 16 bits at the
end of bring-up, then at every return of `mqnic_refill_rx_buffers` and of
`mqnic_rx_batch` / `mqnic_rx_batch_hints` (and in every other reachable state),
for every ring slot `i < size`: if `rxq_virtual_addresses[i]` is non-null, then
`i` lies in the window from `rxq_clean_tail_ptr` (inclusive) to `rxq_head_ptr`
(exclusive), taken modulo `size`; and when the NIC completes descriptors in the
order they were posted, conversely every slot of the window is non-null. -/
theorem rx_window_iff_in_order (data_off : Nat) (in_order : Bool) (nic_tail_ptr : Nat)
    (st : rx_system) (ht : nic_tail_ptr % 65536 = 0)
    (h : rx_reachable data_off in_order nic_tail_ptr st) :
    ∀ i, i < st.queue.size →
      (st.queue.rxq_virtual_addresses i ≠ 0 →
        ∃ t, t < sub32 st.queue.rxq_head_ptr st.queue.rxq_clean_tail_ptr ∧
          i = wrap32 (st.queue.rxq_clean_tail_ptr + t) &&& st.queue.size_mask) ∧
      (in_order = true →
        (∃ t, t < sub32 st.queue.rxq_head_ptr st.queue.rxq_clean_tail_ptr ∧
          i = wrap32 (st.queue.rxq_clean_tail_ptr + t) &&& st.queue.size_mask) →
        st.queue.rxq_virtual_addresses i ≠ 0) := by
  have hinv := rx_reachable_inv data_off in_order nic_tail_ptr st ht h
  intro i hi
  exact ⟨hinv.2.2.2.2.2.2.2.2.2.2.2.2 i hi,
    fun hin => ((hinv.2.2.2.2.2.2.2.2.2.2.2.1 hin).2.2 i hi).2⟩

set_option maxRecDepth 100000 in
/-- Witness for the amended C16: the state reached from a full bring-up (tail
read 0) by the in-order completion of slot 0 and a drain; the window is the
slots 1 to 255, and slot 1 holds a buffer. -/
theorem rx_window_iff_in_order_witness :
    (0 : Nat) % 65536 = 0 ∧ rx_reachable 64 true 0 rx_ino_state ∧
      rx_ino_state.queue.rxq_clean_tail_ptr = 1 ∧ rx_ino_state.queue.rxq_head_ptr = 256 ∧
      rx_ino_state.queue.rxq_virtual_addresses 1 ≠ 0 ∧
      ∀ i, i < rx_ino_state.queue.size →
        (rx_ino_state.queue.rxq_virtual_addresses i ≠ 0 →
          ∃ t, t < sub32 rx_ino_state.queue.rxq_head_ptr rx_ino_state.queue.rxq_clean_tail_ptr ∧
            i = wrap32 (rx_ino_state.queue.rxq_clean_tail_ptr + t)
              &&& rx_ino_state.queue.size_mask) ∧
        ((true : Bool) = true →
          (∃ t, t < sub32 rx_ino_state.queue.rxq_head_ptr
                rx_ino_state.queue.rxq_clean_tail_ptr ∧
            i = wrap32 (rx_ino_state.queue.rxq_clean_tail_ptr + t)
              &&& rx_ino_state.queue.size_mask) →
          rx_ino_state.queue.rxq_virtual_addresses i ≠ 0) :=
  ⟨rfl, rx_ino_state_reachable, by decide, by decide, by decide,
    rx_window_iff_in_order 64 true 0 rx_ino_state rfl rx_ino_state_reachable⟩

/-! ## The TX reap loop at ring level -/

theorem tx_cq_body_virt (s : tx_cq_state) (x : Nat) :
    (tx_cq_body s).queue.txq_virtual_addresses x =
      if x = (s.queue.cpl_descriptors s.cq_index).index &&& s.queue.size_mask then 0
      else s.queue.txq_virtual_addresses x := rfl

theorem tx_cq_loop_virt_zero (budget : Int) :
    ∀ (fuel : Nat) (s : tx_cq_state) (x : Nat), s.queue.txq_virtual_addresses x = 0 →
      (tx_cq_loop budget fuel s).queue.txq_virtual_addresses x = 0 := by
  intro fuel
  induction fuel with
  | zero => intro s x h; exact h
  | succ n ih =>
    intro s x h
    unfold tx_cq_loop
    split
    · apply ih
      rw [tx_cq_body_virt]
      split
      · rfl
      · exact h
    · exact h

theorem tx_cq_loop_ring (budget : Int) :
    ∀ (fuel : Nat) (s : tx_cq_state) (k : Nat),
      is_ring_size s.queue.size → s.queue.size_mask = s.queue.size - 1 →
      s.cq_index = s.cq_tail_ptr &&& s.queue.size_mask → s.cq_tail_ptr < 4294967296 →
      s.if_next = decide ((s.queue.cpl_descriptors s.cq_index).len ≠ 0) →
      k ≤ s.queue.size →
      (∀ j, j < k →
        (s.queue.cpl_descriptors (wrap32 (s.cq_tail_ptr + j) &&& s.queue.size_mask)).len ≠ 0) →
      (k < s.queue.size →
        (s.queue.cpl_descriptors (wrap32 (s.cq_tail_ptr + k) &&& s.queue.size_mask)).len = 0) →
      s.done ≤ budget.toNat → budget.toNat - s.done ≤ fuel →
      (tx_cq_loop budget fuel s).done = s.done + min k (budget.toNat - s.done) ∧
      (∀ x, (∀ j, j < min k (budget.toNat - s.done) →
          x ≠ wrap32 (s.cq_tail_ptr + j) &&& s.queue.size_mask) →
        (tx_cq_loop budget fuel s).queue.cpl_descriptors x = s.queue.cpl_descriptors x) := by
  intro fuel
  induction fuel with
  | zero =>
    intro s k _ _ _ _ _ _ _ _ hb hf
    have h0 : min k (budget.toNat - s.done) = 0 := by omega
    rw [h0]
    exact ⟨rfl, fun _ _ => rfl⟩
  | succ n ih =>
    intro s k hsz hmask hidx hlt hnext hk hnz hz hb hf
    have hpos := is_ring_size_pos _ hsz
    have hw0 : wrap32 (s.cq_tail_ptr + 0) &&& s.queue.size_mask = s.cq_index := by
      rw [hidx]
      simp only [Nat.add_zero, wrap32, Nat.mod_eq_of_lt hlt]
    unfold tx_cq_loop
    by_cases hstop : k = 0 ∨ s.done = budget.toNat
    · have hcond : ¬ (s.if_next = true ∧ (s.done : Int) < budget) := by
        rintro ⟨h1, h2⟩
        rcases hstop with h | h
        · have := hz (by omega)
          rw [h, hw0] at this
          rw [hnext] at h1
          simp [this] at h1
        · omega
      rw [if_neg hcond]
      have h0 : min k (budget.toNat - s.done) = 0 := by omega
      rw [h0]
      exact ⟨rfl, fun _ _ => rfl⟩
    · have hk1 : 1 ≤ k := by omega
      have hbN : (s.done : Int) < budget := by omega
      have hlen0 : (s.queue.cpl_descriptors s.cq_index).len ≠ 0 := by
        rw [← hw0]; exact hnz 0 (by omega)
      have hcond : s.if_next = true ∧ (s.done : Int) < budget := by
        refine ⟨?_, hbN⟩
        rw [hnext]
        simpa using hlen0
      rw [if_pos hcond]
      have hd : (tx_cq_body s).done = s.done + 1 := rfl
      have hct : (tx_cq_body s).cq_tail_ptr = wrap32 (s.cq_tail_ptr + 1) := rfl
      have hqs : (tx_cq_body s).queue.size = s.queue.size := rfl
      have hqm : (tx_cq_body s).queue.size_mask = s.queue.size_mask := rfl
      have hslotS : ∀ j, wrap32 ((tx_cq_body s).cq_tail_ptr + j) &&& s.queue.size_mask
          = wrap32 (s.cq_tail_ptr + (j + 1)) &&& s.queue.size_mask := by
        intro j
        rw [hct, wrap32_wrap32_add]
        congr 2
        omega
      have hne : ∀ j, 1 ≤ j → j < s.queue.size →
          wrap32 (s.cq_tail_ptr + j) &&& s.queue.size_mask ≠ s.cq_index := by
        intro j hj1 hjs he
        rw [← hw0, slot_eq_mod _ _ _ hsz hmask, slot_eq_mod _ _ _ hsz hmask] at he
        have := ring_slot_inj _ _ _ _ hjs hpos he
        omega
      have hIH := ih (tx_cq_body s) (k - 1) hsz hmask rfl (by rw [hct]; exact wrap32_lt _) rfl
        (by show k - 1 ≤ s.queue.size; omega)
        (by
          intro j hj
          show ((tx_cq_body s).queue.cpl_descriptors
            (wrap32 ((tx_cq_body s).cq_tail_ptr + j) &&& s.queue.size_mask)).len ≠ 0
          rw [hslotS, tx_cq_body_cpl, if_neg (hne _ (by omega) (by omega))]
          exact hnz (j + 1) (by omega))
        (by
          intro _
          show ((tx_cq_body s).queue.cpl_descriptors
            (wrap32 ((tx_cq_body s).cq_tail_ptr + (k - 1)) &&& s.queue.size_mask)).len = 0
          rw [hslotS, tx_cq_body_cpl]
          split
          · rfl
          · rename_i hne'
            have e : k - 1 + 1 = k := by omega
            rw [e] at hne' ⊢
            by_cases hks : k < s.queue.size
            · exact hz hks
            · exfalso
              apply hne'
              have : k = s.queue.size := by omega
              rw [this, ← hw0, slot_eq_mod _ _ _ hsz hmask, slot_eq_mod _ _ _ hsz hmask,
                Nat.add_mod_right, Nat.add_zero])
        (by rw [hd]; omega) (by rw [hd]; omega)
      rw [hd] at hIH
      have hmin : min k (budget.toNat - s.done)
          = min (k - 1) (budget.toNat - (s.done + 1)) + 1 := by omega
      obtain ⟨i1, i2⟩ := hIH
      refine ⟨by omega, ?_⟩
      intro x hx
      rw [i2 x (by
        intro j hj
        show x ≠ wrap32 ((tx_cq_body s).cq_tail_ptr + j) &&& s.queue.size_mask
        rw [hslotS]
        exact hx (j + 1) (by omega))]
      rw [tx_cq_body_cpl, if_neg (by
        rw [← hw0]
        exact hx 0 (by omega))]

theorem tx_clean_loop_some (queue : mqnic_tx_queue) (htail : queue.txq_tail_ptr < 4294967296) :
    ∀ (fuel p c : Nat), p < 4294967296 → sub32 queue.txq_tail_ptr p ≤ fuel →
      tx_clean_loop queue fuel p = some c →
      c = queue.txq_tail_ptr ∧
        ∀ t, t < sub32 queue.txq_tail_ptr p →
          queue.txq_virtual_addresses (wrap32 (p + t) &&& queue.size_mask) = 0 := by
  intro fuel
  induction fuel with
  | zero =>
    intro p c hp hf hs
    have h0 : sub32 queue.txq_tail_ptr p = 0 := by omega
    simp only [tx_clean_loop, Option.some.injEq] at hs
    refine ⟨?_, fun t ht => by omega⟩
    simp only [sub32] at h0
    omega
  | succ n ih =>
    intro p c hp hf hs
    have hw0 : wrap32 (p + 0) = p := by
      simp only [Nat.add_zero, wrap32, Nat.mod_eq_of_lt hp]
    unfold tx_clean_loop at hs
    split at hs
    · rename_i hne
      split at hs
      · exact absurd hs (by simp)
      · rename_i hnull
        have hnull0 : queue.txq_virtual_addresses (p &&& queue.size_mask) = 0 := by
          by_contra h
          exact hnull h
        have hsub : sub32 queue.txq_tail_ptr (wrap32 (p + 1))
            = sub32 queue.txq_tail_ptr p - 1 ∧ 1 ≤ sub32 queue.txq_tail_ptr p := by
          simp only [sub32, wrap32]
          omega
        obtain ⟨i1, i2⟩ := ih (wrap32 (p + 1)) c (wrap32_lt _) (by omega) hs
        refine ⟨i1, ?_⟩
        intro t ht
        cases t with
        | zero => rw [hw0]; exact hnull0
        | succ t' =>
          have := i2 t' (by omega)
          rw [wrap32_wrap32_add] at this
          have e : p + 1 + t' = p + (t' + 1) := by omega
          rw [e] at this
          exact this
    · rename_i heq
      have hpt : p = queue.txq_tail_ptr := by
        by_contra h
        exact heq h
      simp only [Option.some.injEq] at hs
      refine ⟨by rw [← hs, hpt], ?_⟩
      intro t ht
      rw [hpt] at ht
      simp only [sub32] at ht
      omega

/-! ## The TX enqueue loop keeps the window invariant -/

theorem tx_batch_loop_queue_eq (data_off : Nat) (bufs : Nat → Nat) (N : Nat) :
    ∀ (fuel : Nat) (s : tx_batch_state),
      (tx_batch_loop data_off bufs N fuel s).queue =
        { s.queue with
          txq_head_ptr := (tx_batch_loop data_off bufs N fuel s).queue.txq_head_ptr
          txq_descriptors := (tx_batch_loop data_off bufs N fuel s).queue.txq_descriptors
          txq_virtual_addresses :=
            (tx_batch_loop data_off bufs N fuel s).queue.txq_virtual_addresses } := by
  intro fuel
  induction fuel with
  | zero => intro s; rfl
  | succ n ih =>
    intro s
    unfold tx_batch_loop
    split
    · split
      · rfl
      · rw [ih]
        rfl
    · rfl

theorem half_lt_of_ring_size (size : Nat) (hsz : is_ring_size size) : size >>> 1 < size := by
  have hpos := is_ring_size_pos _ hsz
  rw [Nat.shiftRight_eq_div_pow]
  omega

theorem tx_batch_body_window (data_off : Nat) (bufs : Nat → Nat) (s : tx_batch_state)
    (hw : tx_window_inv s.queue)
    (hidx : s.txq_index = s.queue.txq_head_ptr &&& s.queue.size_mask)
    (hfull : mqnic_is_tx_ring_full s.queue = false) :
    tx_window_inv (tx_batch_body data_off bufs s).queue ∧
      (tx_batch_body data_off bufs s).txq_index
        = (tx_batch_body data_off bufs s).queue.txq_head_ptr
          &&& (tx_batch_body data_off bufs s).queue.size_mask ∧
      s.queue.txq_virtual_addresses s.txq_index = 0 ∧
      sub32 (tx_batch_body data_off bufs s).queue.txq_head_ptr
          (tx_batch_body data_off bufs s).queue.txq_clean_tail_ptr
        = sub32 s.queue.txq_head_ptr s.queue.txq_clean_tail_ptr + 1 := by
  obtain ⟨hsz, hmask, hfs, hH, hC, hocc, hV⟩ := hw
  have hslt := is_ring_size_lt _ hsz
  have hhalf := half_lt_of_ring_size _ hsz
  have hnf : sub32 s.queue.txq_head_ptr s.queue.txq_clean_tail_ptr < s.queue.full_size := by
    simp only [mqnic_is_tx_ring_full, decide_eq_false_iff_not] at hfull
    omega
  have hHo := wrap32_add_sub32 s.queue.txq_head_ptr s.queue.txq_clean_tail_ptr hH
  have hidx' : s.txq_index = wrap32 (s.queue.txq_clean_tail_ptr
      + sub32 s.queue.txq_head_ptr s.queue.txq_clean_tail_ptr) &&& s.queue.size_mask := by
    rw [hHo]
    exact hidx
  have hnot : ∀ t, t < sub32 s.queue.txq_head_ptr s.queue.txq_clean_tail_ptr →
      s.txq_index ≠ wrap32 (s.queue.txq_clean_tail_ptr + t) &&& s.queue.size_mask := by
    intro t ht he
    rw [hidx', slot_eq_mod _ _ _ hsz hmask, slot_eq_mod _ _ _ hsz hmask] at he
    have := ring_slot_inj _ _ _ _ (by omega) (by omega) he
    omega
  have hilt : s.txq_index < s.queue.size := by
    rw [hidx', slot_eq_mod _ _ _ hsz hmask]
    exact Nat.mod_lt _ (is_ring_size_pos _ hsz)
  have hocc' : sub32 (wrap32 (s.queue.txq_head_ptr + 1)) s.queue.txq_clean_tail_ptr
      = sub32 s.queue.txq_head_ptr s.queue.txq_clean_tail_ptr + 1 := by
    have : wrap32 (s.queue.txq_head_ptr + 1) = wrap32 (s.queue.txq_clean_tail_ptr
        + (sub32 s.queue.txq_head_ptr s.queue.txq_clean_tail_ptr + 1)) := by
      conv => lhs; rw [← hHo]
      rw [wrap32_wrap32_add, Nat.add_assoc]
    rw [this]
    exact sub32_offset _ _ (by omega)
  refine ⟨⟨hsz, hmask, hfs, wrap32_lt _, hC, ?_, ?_⟩, rfl, hV _ hilt hnot, hocc'⟩
  · show sub32 (wrap32 (s.queue.txq_head_ptr + 1)) s.queue.txq_clean_tail_ptr
      ≤ s.queue.full_size
    rw [hocc']
    omega
  · intro i hi hout
    have hout' : ∀ t, t < sub32 s.queue.txq_head_ptr s.queue.txq_clean_tail_ptr + 1 →
        i ≠ wrap32 (s.queue.txq_clean_tail_ptr + t) &&& s.queue.size_mask := by
      intro t ht
      have := hout t (by
        show t < sub32 (wrap32 (s.queue.txq_head_ptr + 1)) s.queue.txq_clean_tail_ptr
        rw [hocc']
        exact ht)
      exact this
    have hne : i ≠ s.txq_index := by
      rw [hidx']
      exact hout' _ (by omega)
    show upd s.queue.txq_virtual_addresses s.txq_index (bufs s.sent) i = 0
    unfold upd
    rw [if_neg hne]
    exact hV i hi (fun t ht => hout' t (by omega))

theorem tx_batch_loop_window (data_off : Nat) (bufs : Nat → Nat) (N : Nat) :
    ∀ (fuel : Nat) (s : tx_batch_state), tx_window_inv s.queue →
      s.txq_index = s.queue.txq_head_ptr &&& s.queue.size_mask →
      tx_window_inv (tx_batch_loop data_off bufs N fuel s).queue ∧
        sub32 s.queue.txq_head_ptr s.queue.txq_clean_tail_ptr
          ≤ sub32 (tx_batch_loop data_off bufs N fuel s).queue.txq_head_ptr
              (tx_batch_loop data_off bufs N fuel s).queue.txq_clean_tail_ptr := by
  intro fuel
  induction fuel with
  | zero => intro s hw _; exact ⟨hw, Nat.le_refl _⟩
  | succ n ih =>
    intro s hw hidx
    unfold tx_batch_loop
    split
    · split
      · exact ⟨hw, Nat.le_refl _⟩
      · rename_i hnf
        have hnf' : mqnic_is_tx_ring_full s.queue = false := by
          cases h : mqnic_is_tx_ring_full s.queue with
          | false => rfl
          | true => exact absurd h hnf
        obtain ⟨b1, b2, _, b4⟩ := tx_batch_body_window data_off bufs s hw hidx hnf'
        obtain ⟨i1, i2⟩ := ih _ b1 b2
        exact ⟨i1, by omega⟩
    · exact ⟨hw, Nat.le_refl _⟩

/-- Each iteration of the enqueue loop that runs finds the slot it writes null:
the state after `j` iterations, for `j` below the number of buffers sent. -/
theorem tx_batch_loop_prefix (data_off : Nat) (bufs : Nat → Nat) (N : Nat) :
    ∀ (j fuel : Nat) (s : tx_batch_state), tx_window_inv s.queue →
      s.txq_index = s.queue.txq_head_ptr &&& s.queue.size_mask →
      j < (tx_batch_loop data_off bufs N fuel s).sent - s.sent →
      (tx_batch_loop data_off bufs N j s).sent = s.sent + j ∧
        (tx_batch_loop data_off bufs N j s).sent < N ∧
        mqnic_is_tx_ring_full (tx_batch_loop data_off bufs N j s).queue = false ∧
        (tx_batch_loop data_off bufs N j s).txq_index
          = (tx_batch_loop data_off bufs N j s).queue.txq_head_ptr
            &&& (tx_batch_loop data_off bufs N j s).queue.size_mask ∧
        (tx_batch_loop data_off bufs N j s).queue.txq_virtual_addresses
          (tx_batch_loop data_off bufs N j s).txq_index = 0 ∧
        tx_batch_loop data_off bufs N (j + 1) s
          = tx_batch_body data_off bufs (tx_batch_loop data_off bufs N j s) := by
  intro j
  induction j with
  | zero =>
    intro fuel s hw hidx hj
    cases fuel with
    | zero =>
      simp only [tx_batch_loop, Nat.sub_self] at hj
      omega
    | succ f =>
      unfold tx_batch_loop at hj
      by_cases h1 : s.sent < N
      · rw [if_pos h1] at hj
        by_cases h2 : mqnic_is_tx_ring_full s.queue = true
        · rw [if_pos h2] at hj
          omega
        · have h2' : mqnic_is_tx_ring_full s.queue = false := by
            cases h : mqnic_is_tx_ring_full s.queue with
            | false => rfl
            | true => exact absurd h h2
          obtain ⟨_, _, b3, _⟩ := tx_batch_body_window data_off bufs s hw hidx h2'
          refine ⟨rfl, h1, h2', hidx, b3, ?_⟩
          show tx_batch_loop data_off bufs N 1 s = _
          unfold tx_batch_loop
          rw [if_pos h1, if_neg h2]
          rfl
      · rw [if_neg h1] at hj
        omega
  | succ j ih =>
    intro fuel s hw hidx hj
    cases fuel with
    | zero =>
      simp only [tx_batch_loop, Nat.sub_self] at hj
      omega
    | succ f =>
      unfold tx_batch_loop at hj
      by_cases h1 : s.sent < N
      · rw [if_pos h1] at hj
        by_cases h2 : mqnic_is_tx_ring_full s.queue = true
        · rw [if_pos h2] at hj
          omega
        · rw [if_neg h2] at hj
          have h2' : mqnic_is_tx_ring_full s.queue = false := by
            cases h : mqnic_is_tx_ring_full s.queue with
            | false => rfl
            | true => exact absurd h h2
          obtain ⟨b1, b2, _, _⟩ := tx_batch_body_window data_off bufs s hw hidx h2'
          have hbs : (tx_batch_body data_off bufs s).sent = s.sent + 1 := rfl
          have hstep : ∀ m, tx_batch_loop data_off bufs N (m + 1) s
              = tx_batch_loop data_off bufs N m (tx_batch_body data_off bufs s) := by
            intro m
            conv => lhs; unfold tx_batch_loop
            rw [if_pos h1, if_neg h2]
          obtain ⟨i1, i2, i3, i4, i5, i6⟩ := ih f (tx_batch_body data_off bufs s) b1 b2
            (by rw [hbs]; omega)
          rw [hstep (j + 1), hstep j]
          exact ⟨by rw [i1, hbs]; omega, i2, i3, i4, i5, i6⟩
      · rw [if_neg h1] at hj
        omega

/-! ## The TX invariant is established by bring-up and kept by every step -/

theorem tx_sys_inv_bringup (txq_addr cpl_addr : Nat) :
    tx_sys_inv { queue := init_tx_queue txq_addr cpl_addr, nic_head := 0 } := by
  have hs : round_power NUM_TX_QUEUE_ENTRIES = 256 := by decide
  have h0 : (0 : Nat) < 4294967296 := by decide
  have hz : sub32 0 0 = 0 := by decide
  refine ⟨⟨?_, rfl, rfl, h0, h0, ?_, ?_⟩, h0, h0, rfl, rfl, rfl, ?_, ?_⟩
  · show is_ring_size (round_power NUM_TX_QUEUE_ENTRIES)
    rw [hs]
    decide
  · show sub32 0 0 ≤ round_power NUM_TX_QUEUE_ENTRIES >>> 1
    rw [hs]
    decide
  · intro i _ _
    rfl
  · show sub32 0 0 ≤ sub32 0 0
    exact Nat.le_refl _
  · intro j _
    show cpl_zero.len ≠ 0 ↔ j < sub32 0 0
    rw [hz]
    constructor
    · intro h
      exact absurd rfl h
    · intro h
      omega

theorem tx_sys_inv_nic (st : tx_system) (cpl : mqnic_cpl) (h : tx_sys_inv st)
    (hlen : cpl.len ≠ 0)
    (hcount : sub32 st.nic_head st.queue.cpl_tail_ptr
      < sub32 st.queue.txq_head_ptr st.queue.txq_tail_ptr) :
    tx_sys_inv (nic_tx_complete st cpl) := by
  obtain ⟨hw, hCT, hP, hTCT, hCT2, hhd, hpend, hshape⟩ := h
  obtain ⟨hsz, hmask, hfs, hH, hC, hocc, hV⟩ := hw
  have hslt := is_ring_size_lt _ hsz
  have hhalf := half_lt_of_ring_size _ hsz
  rw [← hCT2] at hcount
  have hpsz : sub32 st.nic_head st.queue.cpl_tail_ptr < st.queue.size := by omega
  have hpend' : sub32 (wrap32 (st.nic_head + 1)) st.queue.cpl_tail_ptr
      = sub32 st.nic_head st.queue.cpl_tail_ptr + 1 := by
    simp only [sub32, wrap32] at hpsz ⊢
    omega
  have hslotP : st.nic_head &&& st.queue.size_mask
      = tx_cpl_slot st.queue (sub32 st.nic_head st.queue.cpl_tail_ptr) := by
    unfold tx_cpl_slot
    rw [wrap32_add_sub32 _ _ hP]
  have hat : ∀ j, j < st.queue.size →
      (nic_tx_complete st cpl).queue.cpl_descriptors (tx_cpl_slot st.queue j) =
        if j = sub32 st.nic_head st.queue.cpl_tail_ptr then cpl
        else st.queue.cpl_descriptors (tx_cpl_slot st.queue j) := by
    intro j hj
    show upd st.queue.cpl_descriptors (st.nic_head &&& st.queue.size_mask) cpl
      (tx_cpl_slot st.queue j) = _
    rw [hslotP]
    unfold upd
    by_cases hjp : j = sub32 st.nic_head st.queue.cpl_tail_ptr
    · rw [hjp, if_pos rfl, if_pos rfl]
    · have hne : tx_cpl_slot st.queue j
          ≠ tx_cpl_slot st.queue (sub32 st.nic_head st.queue.cpl_tail_ptr) := by
        unfold tx_cpl_slot
        rw [slot_eq_mod _ _ _ hsz hmask, slot_eq_mod _ _ _ hsz hmask]
        intro he
        exact hjp (ring_slot_inj _ _ _ _ hj hpsz he)
      rw [if_neg hne, if_neg hjp]
  refine ⟨⟨hsz, hmask, hfs, hH, hC, hocc, hV⟩, hCT, wrap32_lt _, hTCT, hCT2, hhd, ?_, ?_⟩
  · show sub32 (wrap32 (st.nic_head + 1)) st.queue.cpl_tail_ptr
      ≤ sub32 st.queue.txq_head_ptr st.queue.txq_clean_tail_ptr
    rw [hpend']
    omega
  · intro j hj
    show ((nic_tx_complete st cpl).queue.cpl_descriptors (tx_cpl_slot st.queue j)).len ≠ 0 ↔
      j < sub32 (wrap32 (st.nic_head + 1)) st.queue.cpl_tail_ptr
    rw [hpend', hat j hj]
    by_cases hjp : j = sub32 st.nic_head st.queue.cpl_tail_ptr
    · rw [if_pos hjp]
      exact ⟨fun _ => by omega, fun _ => hlen⟩
    · rw [if_neg hjp]
      have := hshape j hj
      constructor
      · intro hne
        have := this.1 hne
        omega
      · intro hlt
        exact this.2 (by omega)

theorem tx_sys_inv_reap (st : tx_system) (w : world) (budget : Int)
    (r : Nat × mqnic_tx_queue × world) (h : tx_sys_inv st)
    (hr : mqnic_process_tx_cq st.queue w budget = some r) :
    tx_sys_inv { queue := r.2.1, nic_head := st.nic_head } := by
  obtain ⟨hw, hCT, hP, hTCT, hCT2, hhd, hpend, hshape⟩ := h
  obtain ⟨hsz, hmask, hfs, hH, hC, hocc, hV⟩ := hw
  have hslt := is_ring_size_lt _ hsz
  have hhalf := half_lt_of_ring_size _ hsz
  have hCeq : st.queue.txq_clean_tail_ptr = st.queue.cpl_tail_ptr := by rw [hCT2, hTCT]
  rw [hCeq] at hpend hocc hV
  have hk : sub32 st.nic_head st.queue.cpl_tail_ptr ≤ st.queue.size := by omega
  have hnz : ∀ j, j < sub32 st.nic_head st.queue.cpl_tail_ptr →
      (st.queue.cpl_descriptors
        (wrap32 (st.queue.cpl_tail_ptr + j) &&& st.queue.size_mask)).len ≠ 0 :=
    fun j hj => (hshape j (by omega)).2 hj
  have hz : sub32 st.nic_head st.queue.cpl_tail_ptr < st.queue.size →
      (st.queue.cpl_descriptors
        (wrap32 (st.queue.cpl_tail_ptr + sub32 st.nic_head st.queue.cpl_tail_ptr)
          &&& st.queue.size_mask)).len = 0 := by
    intro hlt
    by_contra hne
    have := (hshape _ hlt).1 hne
    omega
  have hring : (tx_harvest st.queue w budget).done
        = 0 + min (sub32 st.nic_head st.queue.cpl_tail_ptr) (budget.toNat - 0) ∧
      (∀ x, (∀ j, j < min (sub32 st.nic_head st.queue.cpl_tail_ptr) (budget.toNat - 0) →
          x ≠ wrap32 (st.queue.cpl_tail_ptr + j) &&& st.queue.size_mask) →
        (tx_harvest st.queue w budget).queue.cpl_descriptors x
          = st.queue.cpl_descriptors x) :=
    tx_cq_loop_ring budget budget.toNat
      { queue := st.queue, w := w, cq_tail_ptr := st.queue.cpl_tail_ptr
        cq_index := st.queue.cpl_tail_ptr &&& st.queue.size_mask, done := 0
        if_next := decide ((st.queue.cpl_descriptors
          (st.queue.cpl_tail_ptr &&& st.queue.size_mask)).len ≠ 0) }
      (sub32 st.nic_head st.queue.cpl_tail_ptr) hsz hmask rfl hCT rfl hk hnz hz
      (Nat.zero_le _) (Nat.sub_le _ _)
  have hvz : ∀ x, st.queue.txq_virtual_addresses x = 0 →
      (tx_harvest st.queue w budget).queue.txq_virtual_addresses x = 0 :=
    fun x hx => tx_cq_loop_virt_zero budget budget.toNat
      { queue := st.queue, w := w, cq_tail_ptr := st.queue.cpl_tail_ptr
        cq_index := st.queue.cpl_tail_ptr &&& st.queue.size_mask, done := 0
        if_next := decide ((st.queue.cpl_descriptors
          (st.queue.cpl_tail_ptr &&& st.queue.size_mask)).len ≠ 0) } x hx
  obtain ⟨r1, r2⟩ := hring
  simp only [Nat.zero_add, Nat.sub_zero] at r1 r2
  obtain ⟨h1, _, h3, h4, _⟩ := tx_harvest_facts st.queue w budget hCT
  rw [mqnic_process_tx_cq_eq_harvest] at hr
  simp only at hr
  generalize tx_harvest st.queue w budget = L at r1 r2 hvz h1 h3 h4 hr
  have hvle : min (sub32 st.nic_head st.queue.cpl_tail_ptr) budget.toNat
      ≤ sub32 st.nic_head st.queue.cpl_tail_ptr := Nat.min_le_left _ _
  generalize min (sub32 st.nic_head st.queue.cpl_tail_ptr) budget.toNat = d at r1 r2 hvle
  rw [r1] at h3 h4 hr
  have f1 : L.queue.txq_tail_ptr = st.queue.cpl_tail_ptr := by rw [h1, hTCT]
  have f2 : L.queue.txq_clean_tail_ptr = st.queue.cpl_tail_ptr := by rw [h1, hCeq]
  have f3 : L.queue.size_mask = st.queue.size_mask := by rw [h1]
  rw [f1, f2] at hr
  have hsome := tx_clean_loop_some
    { L.queue with
      cpl_tail_ptr := L.cq_tail_ptr
      txq_tail_ptr := wrap32 (st.queue.cpl_tail_ptr + d)
      txq_clean_tail_ptr := st.queue.cpl_tail_ptr }
    (wrap32_lt _)
    (sub32 (wrap32 (st.queue.cpl_tail_ptr + d)) st.queue.cpl_tail_ptr)
    st.queue.cpl_tail_ptr
  have hoff : sub32 (wrap32 (st.queue.cpl_tail_ptr + d)) st.queue.cpl_tail_ptr = d :=
    sub32_offset _ _ (by omega)
  split at hr
  · exact absurd hr (by simp)
  · rename_i c hc
    simp only [Option.some.injEq] at hr
    obtain ⟨hc1, hc2⟩ := hsome c hCT (Nat.le_refl _) hc
    have hc1' : c = wrap32 (st.queue.cpl_tail_ptr + d) := hc1
    have hc2' : ∀ t, t < d → L.queue.txq_virtual_addresses
        (wrap32 (st.queue.cpl_tail_ptr + t) &&& st.queue.size_mask) = 0 := by
      intro t ht
      have := hc2 t (by
        show t < sub32 (wrap32 (st.queue.cpl_tail_ptr + d)) st.queue.cpl_tail_ptr
        rw [hoff]
        exact ht)
      rw [← f3]
      exact this
    have hx0 : sub32 st.queue.cpl_tail_ptr st.queue.cpl_tail_ptr = 0 := by
      simp only [sub32]
      omega
    obtain ⟨_, a2, a3, _⟩ := rx_drain_arith st.queue.txq_head_ptr st.queue.cpl_tail_ptr
      st.queue.cpl_tail_ptr st.nic_head st.queue.size d d hH hCT hP hslt (by omega)
      (by rw [hx0]; omega) hvle (by rw [hoff])
    subst hr
    subst hc1'
    have g1 : L.queue.size = st.queue.size := by rw [h1]
    have g2 : L.queue.full_size = st.queue.full_size := by rw [h1]
    have g3 : L.queue.txq_head_ptr = st.queue.txq_head_ptr := by rw [h1]
    have g4 : L.queue.cpl_head_ptr = st.queue.cpl_head_ptr := by rw [h1]
    have hslotQ : ∀ j, wrap32 (wrap32 (st.queue.cpl_tail_ptr + d) + j) &&& st.queue.size_mask
        = tx_cpl_slot st.queue (d + j) := by
      intro j
      unfold tx_cpl_slot
      rw [wrap32_wrap32_add, Nat.add_assoc]
    refine ⟨⟨by show is_ring_size L.queue.size
                rw [g1]; exact hsz,
        by show L.queue.size_mask = L.queue.size - 1
           rw [f3, g1]; exact hmask,
        by show L.queue.full_size = L.queue.size >>> 1
           rw [g2, g1]; exact hfs,
        by show L.queue.txq_head_ptr < _
           rw [g3]; exact hH,
        wrap32_lt _, ?_, ?_⟩,
      by show L.cq_tail_ptr < _
         rw [h3]; exact wrap32_lt _,
      hP,
      by show wrap32 (st.queue.cpl_tail_ptr + d) = L.cq_tail_ptr
         rw [h3],
      rfl,
      by show L.queue.cpl_head_ptr = 0
         rw [g4]; exact hhd,
      ?_, ?_⟩
    · show sub32 L.queue.txq_head_ptr (wrap32 (st.queue.cpl_tail_ptr + d)) ≤ L.queue.full_size
      rw [g3, g2, a3]
      omega
    · intro i hi hout
      have hi' : i < st.queue.size := by
        have : i < L.queue.size := hi
        rw [g1] at this
        exact this
      have hout' : ∀ t, t < sub32 st.queue.txq_head_ptr st.queue.cpl_tail_ptr - d →
          i ≠ wrap32 (st.queue.cpl_tail_ptr + (d + t)) &&& st.queue.size_mask := by
        intro t ht
        have := hout t (by
          show t < sub32 L.queue.txq_head_ptr (wrap32 (st.queue.cpl_tail_ptr + d))
          rw [g3, a3]
          exact ht)
        have e : wrap32 (wrap32 (st.queue.cpl_tail_ptr + d) + t) &&& L.queue.size_mask
            = wrap32 (st.queue.cpl_tail_ptr + (d + t)) &&& st.queue.size_mask := by
          rw [wrap32_wrap32_add, Nat.add_assoc, f3]
        rw [← e]
        exact this
      show L.queue.txq_virtual_addresses i = 0
      by_cases hin : ∃ t, t < sub32 st.queue.txq_head_ptr st.queue.cpl_tail_ptr ∧
          i = wrap32 (st.queue.cpl_tail_ptr + t) &&& st.queue.size_mask
      · obtain ⟨t, ht, hit⟩ := hin
        have htd : t < d := by
          by_contra hcon
          apply hout' (t - d) (by omega)
          have e : d + (t - d) = t := by omega
          rw [e]
          exact hit
        rw [hit]
        exact hc2' t htd
      · apply hvz
        exact hV i hi' (fun t ht hit => hin ⟨t, ht, hit⟩)
    · show sub32 st.nic_head L.cq_tail_ptr
        ≤ sub32 L.queue.txq_head_ptr (wrap32 (st.queue.cpl_tail_ptr + d))
      rw [h3, g3, a2, a3]
      omega
    · intro j hj
      have hj' : j < st.queue.size := by
        have : j < L.queue.size := hj
        rw [g1] at this
        exact this
      show (L.queue.cpl_descriptors
          (wrap32 (L.cq_tail_ptr + j) &&& L.queue.size_mask)).len ≠ 0 ↔
        j < sub32 st.nic_head L.cq_tail_ptr
      rw [h3, f3, a2, hslotQ]
      by_cases hlt : d + j < st.queue.size
      · have hfr : L.queue.cpl_descriptors (tx_cpl_slot st.queue (d + j))
            = st.queue.cpl_descriptors (tx_cpl_slot st.queue (d + j)) := by
          apply r2
          intro j' hj'' he
          unfold tx_cpl_slot at he
          rw [slot_eq_mod _ _ _ hsz hmask, slot_eq_mod _ _ _ hsz hmask] at he
          have := ring_slot_inj _ _ _ _ hlt (by omega) he
          omega
        rw [hfr]
        have := hshape (d + j) hlt
        constructor
        · intro hne
          have := this.1 hne
          omega
        · intro hjp
          exact this.2 (by omega)
      · have hzero : (L.queue.cpl_descriptors (tx_cpl_slot st.queue (d + j))).len = 0 := by
          have hs : tx_cpl_slot st.queue (d + j)
              = tx_cpl_slot st.queue (d + j - st.queue.size) := by
            unfold tx_cpl_slot
            rw [slot_eq_mod _ _ _ hsz hmask, slot_eq_mod _ _ _ hsz hmask]
            have e : st.queue.cpl_tail_ptr + (d + j)
                = st.queue.cpl_tail_ptr + (d + j - st.queue.size) + st.queue.size := by omega
            rw [e, Nat.add_mod_right]
          rw [hs]
          exact h4 _ (by omega)
        constructor
        · intro hne
          exact absurd hzero hne
        · intro hjp
          omega

theorem tx_batch_enqueue_eq_loop (data_off : Nat) (queue : mqnic_tx_queue) (w : world)
    (bufs : Nat → Nat) (N : Nat) :
    (tx_batch_enqueue data_off queue w bufs N).1
        = (tx_batch_loop data_off bufs N N (tx_enqueue_start queue w)).sent ∧
      (tx_batch_enqueue data_off queue w bufs N).2.1
        = (tx_batch_loop data_off bufs N N (tx_enqueue_start queue w)).queue :=
  ⟨rfl, rfl⟩

theorem tx_sys_inv_enqueue (data_off : Nat) (st : tx_system) (w : world) (bufs : Nat → Nat)
    (N : Nat) (h : tx_sys_inv st) :
    tx_sys_inv
      { queue := (tx_batch_enqueue data_off st.queue w bufs N).2.1, nic_head := st.nic_head } := by
  obtain ⟨hw, hCT, hP, hTCT, hCT2, hhd, hpend, hshape⟩ := h
  obtain ⟨w1, w2⟩ := tx_batch_loop_window data_off bufs N N (tx_enqueue_start st.queue w) hw rfl
  have hqe := tx_batch_loop_queue_eq data_off bufs N N (tx_enqueue_start st.queue w)
  rw [(tx_batch_enqueue_eq_loop data_off st.queue w bufs N).2]
  have hs0 : (tx_enqueue_start st.queue w).queue = st.queue := rfl
  rw [hs0] at w2 hqe
  generalize (tx_batch_loop data_off bufs N N (tx_enqueue_start st.queue w)).queue = Q
    at w1 w2 hqe ⊢
  have g1 : Q.size = st.queue.size := by rw [hqe]
  have g2 : Q.size_mask = st.queue.size_mask := by rw [hqe]
  have g3 : Q.cpl_tail_ptr = st.queue.cpl_tail_ptr := by rw [hqe]
  have g4 : Q.txq_tail_ptr = st.queue.txq_tail_ptr := by rw [hqe]
  have g5 : Q.txq_clean_tail_ptr = st.queue.txq_clean_tail_ptr := by rw [hqe]
  have g6 : Q.cpl_head_ptr = st.queue.cpl_head_ptr := by rw [hqe]
  have g7 : Q.cpl_descriptors = st.queue.cpl_descriptors := by rw [hqe]
  refine ⟨w1, by show Q.cpl_tail_ptr < _
                 rw [g3]; exact hCT, hP,
    by show Q.txq_tail_ptr = Q.cpl_tail_ptr
       rw [g4, g3]; exact hTCT,
    by show Q.txq_clean_tail_ptr = Q.txq_tail_ptr
       rw [g5, g4]; exact hCT2,
    by show Q.cpl_head_ptr = 0
       rw [g6]; exact hhd, ?_, ?_⟩
  · show sub32 st.nic_head Q.cpl_tail_ptr ≤ sub32 Q.txq_head_ptr Q.txq_clean_tail_ptr
    rw [g3]
    omega
  · intro j hj
    show (Q.cpl_descriptors (tx_cpl_slot Q j)).len ≠ 0 ↔ j < sub32 st.nic_head Q.cpl_tail_ptr
    have e : tx_cpl_slot Q j = tx_cpl_slot st.queue j := by
      simp only [tx_cpl_slot, g3, g2]
    rw [e, g7, g3]
    exact hshape j (by
      have : j < Q.size := hj
      rw [g1] at this
      exact this)

theorem tx_sys_inv_tx_batch (data_off : Nat) (st : tx_system) (w : world) (bufs : Nat → Nat)
    (N : Nat) (r : Nat × mqnic_tx_queue × world) (h : tx_sys_inv st)
    (hr : mqnic_tx_batch data_off st.queue w bufs N = some r) :
    tx_sys_inv { queue := r.2.1, nic_head := st.nic_head } := by
  unfold mqnic_tx_batch at hr
  split at hr
  · exact absurd hr (by simp)
  · rename_i r1 hr1
    simp only [Option.some.injEq] at hr
    subst hr
    exact tx_sys_inv_enqueue data_off { queue := r1.2.1, nic_head := st.nic_head } r1.2.2 bufs N
      (tx_sys_inv_reap st w 64 r1 h hr1)

theorem tx_reachable_inv (data_off : Nat) (st : tx_system) (h : tx_reachable data_off st) :
    tx_sys_inv st := by
  induction h with
  | bringup txq_addr cpl_addr => exact tx_sys_inv_bringup txq_addr cpl_addr
  | tx_batch st w bufs N r _ hr ih => exact tx_sys_inv_tx_batch data_off st w bufs N r ih hr
  | nic st cpl _ hlen hcount _ _ ih => exact tx_sys_inv_nic st cpl ih hlen hcount

theorem tx_posted_state_reachable : tx_reachable 64 tx_posted_state :=
  tx_reachable.tx_batch { queue := init_tx_queue 12288 16384, nic_head := 0 } sample_world
    (fun j => 1000 + j) 3 tx_posted_result (tx_reachable.bringup 12288 16384) rfl

/-! ## TX occupancy, slot reuse and the completion-queue lag -/

/-- C15: in every state of a TX queue reachable from bring-up through
`mqnic_tx_batch` calls, with the NIC completing only posted descriptors, each
once, `(txq_head_ptr - txq_clean_tail_ptr) mod 2^32` is at most `full_size`,
which is `size >> 1`, and so at most `size`. -/
theorem tx_occupancy_le_size (data_off : Nat) (st : tx_system)
    (h : tx_reachable data_off st) :
    sub32 st.queue.txq_head_ptr st.queue.txq_clean_tail_ptr ≤ st.queue.size ∧
      sub32 st.queue.txq_head_ptr st.queue.txq_clean_tail_ptr ≤ st.queue.full_size ∧
      st.queue.full_size = st.queue.size >>> 1 := by
  obtain ⟨⟨hsz, _, hfs, _, _, hocc, _⟩, _⟩ := tx_reachable_inv data_off st h
  have := half_lt_of_ring_size _ hsz
  exact ⟨by omega, hocc, hfs⟩

/-- Witness for C15: the TX queue after bring-up and one call that posted three
buffers; its occupancy is 3. -/
theorem tx_occupancy_le_size_witness :
    sub32 tx_posted_state.queue.txq_head_ptr tx_posted_state.queue.txq_clean_tail_ptr = 3 ∧
      sub32 tx_posted_state.queue.txq_head_ptr tx_posted_state.queue.txq_clean_tail_ptr
        ≤ tx_posted_state.queue.size :=
  ⟨by decide,
    (tx_occupancy_le_size 64 tx_posted_state
      (tx_reachable.tx_batch { queue := init_tx_queue 12288 16384, nic_head := 0 } sample_world
        (fun j => 1000 + j) 3 tx_posted_result (tx_reachable.bringup 12288 16384) rfl)).1⟩

/-- C19: in every reachable TX state, for every call of `mqnic_tx_batch` whose
completion reap returns, and for every `j` below the number of buffers the call
sends: the loop state after `j` iterations has sent `j` buffers, its `txq_index`
is `txq_head_ptr & size_mask`, `txq_virtual_addresses` at that slot is null, and
the next iteration is the loop body run on that state, which stores `bufs[j]`
into that slot. -/
theorem tx_slot_null_before_write (data_off : Nat) (st : tx_system)
    (h : tx_reachable data_off st) (w : world) (bufs : Nat → Nat) (N : Nat)
    (r : Nat × mqnic_tx_queue × world) (hr : mqnic_process_tx_cq st.queue w 64 = some r)
    (j : Nat) (hj : j < (tx_batch_enqueue data_off r.2.1 r.2.2 bufs N).1) :
    (tx_batch_loop data_off bufs N j (tx_enqueue_start r.2.1 r.2.2)).sent = j ∧
      (tx_batch_loop data_off bufs N j (tx_enqueue_start r.2.1 r.2.2)).txq_index
        = (tx_batch_loop data_off bufs N j (tx_enqueue_start r.2.1 r.2.2)).queue.txq_head_ptr
          &&& (tx_batch_loop data_off bufs N j (tx_enqueue_start r.2.1 r.2.2)).queue.size_mask ∧
      (tx_batch_loop data_off bufs N j (tx_enqueue_start r.2.1 r.2.2)).queue.txq_virtual_addresses
        (tx_batch_loop data_off bufs N j (tx_enqueue_start r.2.1 r.2.2)).txq_index = 0 ∧
      tx_batch_loop data_off bufs N (j + 1) (tx_enqueue_start r.2.1 r.2.2)
        = tx_batch_body data_off bufs
            (tx_batch_loop data_off bufs N j (tx_enqueue_start r.2.1 r.2.2)) ∧
      (tx_batch_loop data_off bufs N (j + 1)
          (tx_enqueue_start r.2.1 r.2.2)).queue.txq_virtual_addresses
        (tx_batch_loop data_off bufs N j (tx_enqueue_start r.2.1 r.2.2)).txq_index = bufs j := by
  have hinv := tx_sys_inv_reap st w 64 r (tx_reachable_inv data_off st h) hr
  obtain ⟨p1, _, _, p4, p5, p6⟩ := tx_batch_loop_prefix data_off bufs N j N
    (tx_enqueue_start r.2.1 r.2.2) hinv.1 rfl (by
      rw [(tx_batch_enqueue_eq_loop data_off r.2.1 r.2.2 bufs N).1] at hj
      show j < _ - 0
      omega)
  have p1' : (tx_batch_loop data_off bufs N j (tx_enqueue_start r.2.1 r.2.2)).sent = j := by
    rw [p1]
    show 0 + j = j
    omega
  refine ⟨p1', p4, p5, p6, ?_⟩
  rw [p6]
  show upd _ _ (bufs (tx_batch_loop data_off bufs N j (tx_enqueue_start r.2.1 r.2.2)).sent) _ = _
  rw [p1']
  simp [upd]

/-- Witness for C19: the first `mqnic_tx_batch` call after bring-up, with three
buffers; the third descriptor (`j = 2`) is written into slot 2, which is null
before the write. -/
theorem tx_slot_null_before_write_witness :
    (tx_batch_loop 64 (fun j => 1000 + j) 3 2
        (tx_enqueue_start (init_tx_queue 12288 16384)
          (set_reg32 sample_world 16384 reg.MQNIC_CPL_QUEUE_TAIL_PTR_REG 0))).txq_index = 2 ∧
      (tx_batch_loop 64 (fun j => 1000 + j) 3 2
        (tx_enqueue_start (init_tx_queue 12288 16384)
          (set_reg32 sample_world 16384
            reg.MQNIC_CPL_QUEUE_TAIL_PTR_REG 0))).queue.txq_virtual_addresses
        (tx_batch_loop 64 (fun j => 1000 + j) 3 2
          (tx_enqueue_start (init_tx_queue 12288 16384)
            (set_reg32 sample_world 16384 reg.MQNIC_CPL_QUEUE_TAIL_PTR_REG 0))).txq_index = 0 :=
  ⟨by decide,
    (tx_slot_null_before_write 64 { queue := init_tx_queue 12288 16384, nic_head := 0 }
      (tx_reachable.bringup 12288 16384) sample_world (fun j => 1000 + j) 3
      (0, init_tx_queue 12288 16384,
        set_reg32 sample_world 16384 reg.MQNIC_CPL_QUEUE_TAIL_PTR_REG 0)
      rfl 2 (by decide)).2.2.1⟩

set_option maxRecDepth 100000 in
/-- C18, counterexample: after a full bring-up the NIC completes the first
posted descriptor and `mqnic_rx_batch` harvests it.  At the return of that call
`cpl_tail_ptr` is 1 while `cpl_head_ptr`, which the built (bypass) variant never
writes, is still 0, so `(cpl_head_ptr - cpl_tail_ptr) mod 2^32` is `2^32 - 1`,
far above `size = 256`. -/
theorem cpl_head_not_mirrored_in_bypass_build :
    rx_reachable 64 true 0 rx_ino_state ∧
      rx_ino_state.queue.cpl_head_ptr = 0 ∧
      rx_ino_state.queue.cpl_tail_ptr = 1 ∧
      rx_ino_state.queue.size = 256 ∧
      sub32 rx_ino_state.queue.cpl_head_ptr rx_ino_state.queue.cpl_tail_ptr = 4294967295 ∧
      ¬ (sub32 rx_ino_state.queue.cpl_head_ptr rx_ino_state.queue.cpl_tail_ptr
          ≤ rx_ino_state.queue.size) :=
  ⟨rx_ino_state_reachable, by decide, by decide, by decide, by decide, by decide⟩

/-- C18, amended: in the built (bypass) variant `cpl_head_ptr` keeps its
bring-up value 0 in every reachable state of an RX or TX queue (for the RX
queue whatever the RXQ tail register read at bring-up); what `cpl_tail_ptr`
lags by at most `size` is the head of the NIC, the number of completions it has
published: `(nic_head - cpl_tail_ptr) mod 2^32 <= size`. -/
theorem cpl_tail_lags_nic_head (data_off : Nat) (in_order : Bool) (nic_tail_ptr : Nat)
    (rst : rx_system) (tst : tx_system)
    (hrx : rx_reachable data_off in_order nic_tail_ptr rst)
    (htx : tx_reachable data_off tst) :
    (rst.queue.cpl_head_ptr = 0 ∧
      sub32 rst.nic_head rst.queue.cpl_tail_ptr ≤ rst.queue.size) ∧
    (tst.queue.cpl_head_ptr = 0 ∧
      sub32 tst.nic_head tst.queue.cpl_tail_ptr ≤ tst.queue.size) := by
  obtain ⟨_, _, _, _, rhd, rpend, _, _⟩ :=
    rx_reachable_cpl_inv data_off in_order nic_tail_ptr rst hrx
  obtain ⟨⟨tsz, _, _, _, _, tocc, _⟩, _, _, _, _, thd, tpend, _⟩ :=
    tx_reachable_inv data_off tst htx
  have := half_lt_of_ring_size _ tsz
  exact ⟨⟨rhd, rpend⟩, ⟨thd, by omega⟩⟩

set_option maxRecDepth 100000 in
/-- Witness for the amended C18: the RX state after one in-order completion has
been harvested and the TX state after three buffers have been posted. -/
theorem cpl_tail_lags_nic_head_witness :
    rx_reachable 64 true 0 rx_ino_state ∧ tx_reachable 64 tx_posted_state ∧
      sub32 rx_ino_state.nic_head rx_ino_state.queue.cpl_tail_ptr = 0 ∧
      (rx_ino_state.queue.cpl_head_ptr = 0 ∧
        sub32 rx_ino_state.nic_head rx_ino_state.queue.cpl_tail_ptr
          ≤ rx_ino_state.queue.size) ∧
      (tx_posted_state.queue.cpl_head_ptr = 0 ∧
        sub32 tx_posted_state.nic_head tx_posted_state.queue.cpl_tail_ptr
          ≤ tx_posted_state.queue.size) :=
  ⟨rx_ino_state_reachable, tx_posted_state_reachable, by decide,
    cpl_tail_lags_nic_head 64 true 0 rx_ino_state tx_posted_state rx_ino_state_reachable
      tx_posted_state_reachable⟩

/-! ## `round_power` and `log2_floor` -/

theorem round_power_loop_eq :
    ∀ (fuel x power : Nat), x < 2 ^ (fuel + 1) →
      round_power_loop fuel x power = power * 2 ^ Nat.log 2 x := by
  intro fuel
  induction fuel with
  | zero =>
    intro x power hx
    have h : Nat.log 2 x = 0 := Nat.log_of_lt (by omega)
    simp [round_power_loop, h]
  | succ n ih =>
    intro x power hx
    unfold round_power_loop
    rw [Nat.shiftRight_eq_div_pow, Nat.pow_one]
    by_cases h : x / 2 ≠ 0
    · rw [if_pos h, ih (x / 2) (power <<< 1) (by rw [Nat.pow_succ] at hx; omega)]
      have h2 : 2 ≤ x := by omega
      rw [Nat.log_of_one_lt_of_le (by decide) h2, Nat.shiftLeft_eq, Nat.pow_succ]
      ring
    · rw [if_neg h]
      have h : Nat.log 2 x = 0 := Nat.log_of_lt (by omega)
      simp [h]

theorem log_lt_32 (x : Nat) (hx : x < 4294967296) : Nat.log 2 x < 32 := by
  by_cases h : x = 0
  · subst h; simp
  · exact Nat.log_lt_of_lt_pow h (by simpa using hx)

theorem round_power_eq (x : Nat) (hx : x < 4294967296) : round_power x = 2 ^ Nat.log 2 x := by
  unfold round_power
  rw [round_power_loop_eq 32 x 1 (by omega), Nat.one_mul]
  unfold wrap32
  apply Nat.mod_eq_of_lt
  have h := log_lt_32 x hx
  calc 2 ^ Nat.log 2 x < 2 ^ 32 := Nat.pow_lt_pow_right (by decide) h
    _ = 4294967296 := by norm_num

theorem log2_floor_loop_eq :
    ∀ (fuel x res : Nat), x < 2 ^ fuel → x ≠ 0 →
      log2_floor_loop fuel x res = wrap32 (res + Nat.log 2 x + 1) := by
  intro fuel
  induction fuel with
  | zero =>
    intro x res hx h0
    simp at hx
    omega
  | succ n ih =>
    intro x res hx h0
    unfold log2_floor_loop
    rw [if_pos h0, Nat.shiftRight_eq_div_pow, Nat.pow_one]
    by_cases h : x / 2 = 0
    · have hl : Nat.log 2 x = 0 := Nat.log_of_lt (by omega)
      rw [h, hl]
      cases n with
      | zero => simp [log2_floor_loop]
      | succ m => simp [log2_floor_loop]
    · rw [ih (x / 2) _ (by rw [Nat.pow_succ] at hx; omega) h]
      have h2 : 2 ≤ x := by omega
      rw [Nat.log_of_one_lt_of_le (by decide) h2, Nat.add_assoc (wrap32 (res + 1)),
        wrap32_wrap32_add]
      congr 1
      omega

theorem log2_floor_eq (x : Nat) (hx : x < 4294967296) (h0 : x ≠ 0) :
    log2_floor x = Nat.log 2 x := by
  unfold log2_floor
  rw [log2_floor_loop_eq 32 x _ (by simpa using hx) h0]
  have h := log_lt_32 x hx
  unfold wrap32
  omega

theorem round_power_log2_floor (x : Nat) (h1 : 1 ≤ x) (hx : x < 4294967296) :
    round_power x = 2 ^ log2_floor x ∧ log2_floor x < 32 ∧
      round_power x ≤ x ∧ x < 2 * round_power x := by
  have h0 : x ≠ 0 := by omega
  rw [round_power_eq x hx, log2_floor_eq x hx h0]
  refine ⟨rfl, log_lt_32 x hx, Nat.pow_log_le_self 2 h0, ?_⟩
  have := Nat.lt_pow_succ_log_self (by decide : 1 < 2) x
  rw [Nat.pow_succ] at this
  omega

theorem log2_floor_round_power (x : Nat) (h1 : 1 ≤ x) (hx : x < 4294967296) :
    1 <<< log2_floor (round_power x) = round_power x := by
  obtain ⟨e, hl, hle, _⟩ := round_power_log2_floor x h1 hx
  have hp : 0 < 2 ^ log2_floor x := Nat.pos_pow_of_pos _ (by decide)
  rw [e, log2_floor_eq _ (by omega) (by omega), Nat.log_pow (by decide), Nat.shiftLeft_eq,
    Nat.one_mul]

/-- C28: `round_power` rounds down.  For every 32-bit `x ≥ 1`,
`round_power x = 2 ^ log2_floor x`; it is a power of two with
`round_power x ≤ x < 2 * round_power x`, hence the largest power of two not
exceeding `x`, and it equals `x` exactly when `x` is a power of two.
`round_power 0 = 1` and `log2_floor 0 = 0xFFFFFFFF`; `round_power 299 = 256` and
`log2_floor 299 = 8`.  The queue sizes `init_rx` and `init_tx` set are powers of
two not exceeding the configured entry count, and `1 << log2_floor size = size`
for them, as for every rounded entry count. -/
theorem round_power_rounds_down (x : Nat) (h1 : 1 ≤ x) (hx : x < 4294967296) :
    round_power x = 2 ^ log2_floor x ∧
    is_ring_size (round_power x) ∧
    round_power x ≤ x ∧ x < 2 * round_power x ∧
    (∀ k, 2 ^ k ≤ x → 2 ^ k ≤ round_power x) ∧
    (round_power x = x ↔ is_ring_size x) ∧
    1 <<< log2_floor (round_power x) = round_power x ∧
    round_power 0 = 1 ∧ log2_floor 0 = 0xffffffff ∧
    round_power 299 = 256 ∧ log2_floor 299 = 8 ∧
    (∀ rxq_addr cpl_addr,
      is_ring_size (init_rx_queue rxq_addr cpl_addr).size ∧
      (init_rx_queue rxq_addr cpl_addr).size ≤ NUM_RX_QUEUE_ENTRIES ∧
      1 <<< log2_floor (init_rx_queue rxq_addr cpl_addr).size
        = (init_rx_queue rxq_addr cpl_addr).size) ∧
    (∀ txq_addr cpl_addr,
      is_ring_size (init_tx_queue txq_addr cpl_addr).size ∧
      (init_tx_queue txq_addr cpl_addr).size ≤ NUM_TX_QUEUE_ENTRIES ∧
      1 <<< log2_floor (init_tx_queue txq_addr cpl_addr).size
        = (init_tx_queue txq_addr cpl_addr).size) := by
  obtain ⟨e, hl, hle, hlt⟩ := round_power_log2_floor x h1 hx
  have hrx : round_power NUM_RX_QUEUE_ENTRIES = 256 := by decide
  have htx : round_power NUM_TX_QUEUE_ENTRIES = 256 := by decide
  refine ⟨e, ⟨log2_floor x, hl, e⟩, hle, hlt, ?_, ?_, log2_floor_round_power x h1 hx,
    by decide, by decide, by decide, by decide, ?_, ?_⟩
  · intro k hk
    rw [round_power_eq x hx]
    exact Nat.pow_le_pow_right (by decide) (Nat.le_log_of_pow_le (by decide) hk)
  · constructor
    · intro h
      exact ⟨log2_floor x, hl, by rw [← e, h]⟩
    · rintro ⟨k, _, rfl⟩
      rw [round_power_eq _ hx, Nat.log_pow (by decide)]
  · intro a b
    show is_ring_size (round_power NUM_RX_QUEUE_ENTRIES) ∧
      round_power NUM_RX_QUEUE_ENTRIES ≤ NUM_RX_QUEUE_ENTRIES ∧
      1 <<< log2_floor (round_power NUM_RX_QUEUE_ENTRIES) = round_power NUM_RX_QUEUE_ENTRIES
    rw [hrx]
    decide
  · intro a b
    show is_ring_size (round_power NUM_TX_QUEUE_ENTRIES) ∧
      round_power NUM_TX_QUEUE_ENTRIES ≤ NUM_TX_QUEUE_ENTRIES ∧
      1 <<< log2_floor (round_power NUM_TX_QUEUE_ENTRIES) = round_power NUM_TX_QUEUE_ENTRIES
    rw [htx]
    decide

/-- Witness for C28: `x = 299`, the value `test_user.c` rounds: `round_power`
gives 256, not the next power of two 512. -/
theorem round_power_rounds_down_witness :
    1 ≤ 299 ∧ 299 < 4294967296 ∧ round_power 299 = 2 ^ log2_floor 299 ∧
      round_power 299 ≤ 299 ∧ 299 < 2 * round_power 299 :=
  ⟨by decide, by decide, (round_power_rounds_down 299 (by decide) (by decide)).1,
    (round_power_rounds_down 299 (by decide) (by decide)).2.2.1,
    (round_power_rounds_down 299 (by decide) (by decide)).2.2.2.1⟩

/-! ## The mempool request at RX bring-up -/

theorem next_power_of_two_pow (k : Nat) : next_power_of_two (2 ^ k) = 2 ^ k := by
  unfold next_power_of_two
  rw [Nat.clog_pow 2 k (by decide)]

/-- C23: for every power-of-two ring size `ring_entries` whose double is an
`int` value (the source computes `NUM_RX_QUEUE_ENTRIES * 2` in `int`), the
number of mempool entries `start_rxq_cpl_queue` requests,
`round_power(2 * ring_entries)` raised to `MQNIC_MIN_MEMPOOL_ENTRIES`, equals
`max(4096, next_power_of_two(2 * ring_entries))`, and the entry size is 2048;
for the configured 256 entries the request is `max(4096, 512) = 4096`. -/
theorem rxq_mempool_entries (ring_entries : Nat) (hsz : is_ring_size ring_entries)
    (hint : 2 * ring_entries < 2147483648) :
    rxq_mempool_args ring_entries
        = (((max 4096 (next_power_of_two (2 * ring_entries)) : Nat) : Int), 2048) ∧
      MQNIC_MIN_MEMPOOL_ENTRIES = 4096 ∧ MQNIC_PKT_BUF_ENTRY_SIZE = 2048 ∧
      next_power_of_two (2 * NUM_RX_QUEUE_ENTRIES) = 512 ∧
      rxq_mempool_args NUM_RX_QUEUE_ENTRIES = (4096, 2048) := by
  have h512 : next_power_of_two (2 * NUM_RX_QUEUE_ENTRIES) = 512 := by
    have e9 : 2 * NUM_RX_QUEUE_ENTRIES = 2 ^ 9 := by decide
    rw [e9]
    exact (next_power_of_two_pow 9).trans (by decide)
  refine ⟨?_, rfl, rfl, h512, by decide⟩
  obtain ⟨k, _, rfl⟩ := hsz
  have e : 2 * 2 ^ k = 2 ^ (k + 1) := by rw [Nat.pow_succ]; ring
  have e2 : 2 ^ k * 2 = 2 ^ (k + 1) := by rw [Nat.pow_succ]
  rw [e] at hint ⊢
  unfold rxq_mempool_args
  rw [e2, next_power_of_two_pow]
  have hw : wrap32 (2 ^ (k + 1)) = 2 ^ (k + 1) := Nat.mod_eq_of_lt (by omega)
  rw [hw, round_power_eq _ (by omega), Nat.log_pow (by decide)]
  have hi : to_int (2 ^ (k + 1)) = ((2 ^ (k + 1) : Nat) : Int) := by
    unfold to_int
    rw [if_pos hint]
  simp only [hi, MQNIC_MIN_MEMPOOL_ENTRIES, MQNIC_PKT_BUF_ENTRY_SIZE]
  generalize 2 ^ (k + 1) = v
  by_cases hv : v < 4096
  · rw [if_pos (by omega), Nat.max_eq_left (by omega)]
    rfl
  · rw [if_neg (by omega), Nat.max_eq_right (by omega)]

/-- Witness for C23: the configured ring of 256 entries. -/
theorem rxq_mempool_entries_witness :
    is_ring_size 256 ∧ 2 * 256 < 2147483648 ∧
      rxq_mempool_args 256 = (((max 4096 (next_power_of_two (2 * 256)) : Nat) : Int), 2048) :=
  ⟨by decide, by decide, (rxq_mempool_entries 256 (by decide) (by decide)).1⟩

/-! ## The pointer mirrors of the exact build -/

theorem and_ffff (x : Nat) : x &&& 0xffff = x % 65536 :=
  Nat.and_pow_two_sub_one_eq_mod x 16

theorem mirror_arith (p r : Nat) :
    wrap32 (p + (sub32 r p &&& 0xffff)) &&& 0xffff = r &&& 0xffff ∧
    sub32 (wrap32 (p + (sub32 r p &&& 0xffff))) p ≤ 0xffff ∧
    ∀ t, t < 4294967296 → sub32 t p < 65536 → r = t &&& 0xffff →
      wrap32 (p + (sub32 r p &&& 0xffff)) = t := by
  simp only [and_ffff]
  refine ⟨?_, ?_, ?_⟩
  · unfold wrap32 sub32
    omega
  · rw [sub32_offset p _ (by omega)]
    omega
  · intro t ht hd hr
    have e : sub32 r p % 65536 = sub32 t p := by
      subst hr
      unfold sub32 at hd ⊢
      omega
    rw [e]
    exact wrap32_add_sub32 t p ht

/-- C27: the pointer mirrors of the exact build.  With `hw_ptr_mask = 0xFFFF`,
each of `mqnic_rx_cq_read_head_ptr`, `mqnic_tx_cq_read_head_ptr`,
`mqnic_rx_read_tail_ptr` and `mqnic_tx_read_tail_ptr` replaces its mirror `p` by
`p2 = p + ((r - p) & 0xFFFF) mod 2^32`, where `r` is the register value read:
`p2 & 0xFFFF = r & 0xFFFF`, the advance `(p2 - p) mod 2^32` is at most `0xFFFF`,
and when the true 32-bit counter `t` of the NIC is less than `2^16` ahead of `p`
and `r = t & 0xFFFF`, the mirror becomes `t`. -/
theorem pointer_mirror_update (rq : mqnic_rx_queue) (tq : mqnic_tx_queue) (r t : Nat)
    (hrm : rq.hw_ptr_mask = 0xffff) (htm : tq.hw_ptr_mask = 0xffff) (ht : t < 4294967296) :
    ((mqnic_rx_cq_read_head_ptr rq r).cpl_head_ptr &&& 0xffff = r &&& 0xffff ∧
      sub32 (mqnic_rx_cq_read_head_ptr rq r).cpl_head_ptr rq.cpl_head_ptr ≤ 0xffff ∧
      (sub32 t rq.cpl_head_ptr < 65536 → r = t &&& 0xffff →
        (mqnic_rx_cq_read_head_ptr rq r).cpl_head_ptr = t)) ∧
    ((mqnic_tx_cq_read_head_ptr tq r).cpl_head_ptr &&& 0xffff = r &&& 0xffff ∧
      sub32 (mqnic_tx_cq_read_head_ptr tq r).cpl_head_ptr tq.cpl_head_ptr ≤ 0xffff ∧
      (sub32 t tq.cpl_head_ptr < 65536 → r = t &&& 0xffff →
        (mqnic_tx_cq_read_head_ptr tq r).cpl_head_ptr = t)) ∧
    ((mqnic_rx_read_tail_ptr rq r).rxq_tail_ptr &&& 0xffff = r &&& 0xffff ∧
      sub32 (mqnic_rx_read_tail_ptr rq r).rxq_tail_ptr rq.rxq_tail_ptr ≤ 0xffff ∧
      (sub32 t rq.rxq_tail_ptr < 65536 → r = t &&& 0xffff →
        (mqnic_rx_read_tail_ptr rq r).rxq_tail_ptr = t)) ∧
    ((mqnic_tx_read_tail_ptr tq r).txq_tail_ptr &&& 0xffff = r &&& 0xffff ∧
      sub32 (mqnic_tx_read_tail_ptr tq r).txq_tail_ptr tq.txq_tail_ptr ≤ 0xffff ∧
      (sub32 t tq.txq_tail_ptr < 65536 → r = t &&& 0xffff →
        (mqnic_tx_read_tail_ptr tq r).txq_tail_ptr = t)) := by
  simp only [mqnic_rx_cq_read_head_ptr, mqnic_tx_cq_read_head_ptr, mqnic_rx_read_tail_ptr,
    mqnic_tx_read_tail_ptr, hrm, htm]
  have h1 := mirror_arith rq.cpl_head_ptr r
  have h2 := mirror_arith tq.cpl_head_ptr r
  have h3 := mirror_arith rq.rxq_tail_ptr r
  have h4 := mirror_arith tq.txq_tail_ptr r
  exact ⟨⟨h1.1, h1.2.1, h1.2.2 t ht⟩, ⟨h2.1, h2.2.1, h2.2.2 t ht⟩,
    ⟨h3.1, h3.2.1, h3.2.2 t ht⟩, ⟨h4.1, h4.2.1, h4.2.2 t ht⟩⟩

/-- Witness for C27: mirrors at `0x1fffe`, the NIC counter at `0x20003` and the
register reading its low 16 bits, `0x0003`: every mirror becomes `0x20003`. -/
theorem pointer_mirror_update_witness :
    mirror_rx_queue.hw_ptr_mask = 0xffff ∧ mirror_tx_queue.hw_ptr_mask = 0xffff ∧
      sub32 0x20003 0x1fffe < 65536 ∧ (3 : Nat) = 0x20003 &&& 0xffff ∧
      (mqnic_rx_cq_read_head_ptr mirror_rx_queue 3).cpl_head_ptr = 0x20003 ∧
      (mqnic_tx_cq_read_head_ptr mirror_tx_queue 3).cpl_head_ptr = 0x20003 ∧
      (mqnic_rx_read_tail_ptr mirror_rx_queue 3).rxq_tail_ptr = 0x20003 ∧
      (mqnic_tx_read_tail_ptr mirror_tx_queue 3).txq_tail_ptr = 0x20003 :=
  ⟨by decide, by decide, by decide, by decide,
    (pointer_mirror_update mirror_rx_queue mirror_tx_queue 3 0x20003 (by decide) (by decide)
      (by decide)).1.2.2 (by decide) (by decide),
    (pointer_mirror_update mirror_rx_queue mirror_tx_queue 3 0x20003 (by decide) (by decide)
      (by decide)).2.1.2.2 (by decide) (by decide),
    (pointer_mirror_update mirror_rx_queue mirror_tx_queue 3 0x20003 (by decide) (by decide)
      (by decide)).2.2.1.2.2 (by decide) (by decide),
    (pointer_mirror_update mirror_rx_queue mirror_tx_queue 3 0x20003 (by decide) (by decide)
      (by decide)).2.2.2.2.2 (by decide) (by decide)⟩

/-! ## `mqnic_rx_batch_val` and the hint outputs of `mqnic_rx_batch_hints_val` -/

theorem rx_batch_body_hints_swap (s : rx_batch_state) (h2 : Nat → nic_hints) :
    rx_batch_body 0 { s with hints := h2 } = { rx_batch_body 0 s with hints := h2 } := by
  simp [rx_batch_body]

theorem rx_batch_body_no_hint (s : rx_batch_state) :
    (rx_batch_body 0 s).hints = s.hints ∧
      (rx_batch_body 0 s).tmp_hint_count = s.tmp_hint_count := by
  simp [rx_batch_body]

theorem rx_batch_loop_hints_swap (N : Nat) (h2 : Nat → nic_hints) :
    ∀ (fuel : Nat) (s : rx_batch_state),
      rx_batch_loop 0 N fuel { s with hints := h2 }
        = { rx_batch_loop 0 N fuel s with hints := h2 } := by
  intro fuel
  induction fuel with
  | zero => intro s; rfl
  | succ n ih =>
    intro s
    unfold rx_batch_loop
    by_cases hc : s.if_next = true ∧ s.buf_index < N
    · rw [if_pos hc, if_pos (show ({ s with hints := h2 } : rx_batch_state).if_next = true ∧
        ({ s with hints := h2 } : rx_batch_state).buf_index < N from hc),
        rx_batch_body_hints_swap, ih]
    · rw [if_neg hc, if_neg (show ¬(({ s with hints := h2 } : rx_batch_state).if_next = true ∧
        ({ s with hints := h2 } : rx_batch_state).buf_index < N) from hc)]

theorem rx_batch_loop_no_hint (N : Nat) :
    ∀ (fuel : Nat) (s : rx_batch_state),
      (rx_batch_loop 0 N fuel s).hints = s.hints ∧
        (rx_batch_loop 0 N fuel s).tmp_hint_count = s.tmp_hint_count := by
  intro fuel
  induction fuel with
  | zero => intro s; exact ⟨rfl, rfl⟩
  | succ n ih =>
    intro s
    unfold rx_batch_loop
    split
    · obtain ⟨a, b⟩ := ih (rx_batch_body 0 s)
      obtain ⟨c, d⟩ := rx_batch_body_no_hint s
      exact ⟨a.trans c, b.trans d⟩
    · exact ⟨rfl, rfl⟩

theorem expected_hints_nil (queue : mqnic_rx_queue) :
    ∀ n, (∀ j, j < n → (cpl_at queue j).rx_hash = 0) →
      expected_hints (harvested_cpls queue n) = [] := by
  intro n h
  unfold expected_hints harvested_cpls
  rw [List.map_eq_nil_iff, List.filter_eq_nil_iff]
  intro c hc
  rw [List.mem_map] at hc
  obtain ⟨j, hj, rfl⟩ := hc
  rw [List.mem_range] at hj
  simp [h j hj]

theorem rx_harvest_hints_swap (data_off : Nat) (queue : mqnic_rx_queue) (w : world)
    (bufs : Nat → Nat) (N : Nat) (h1 h2 : Nat → nic_hints) :
    rx_harvest data_off queue w bufs N 0 h2
      = { rx_harvest data_off queue w bufs N 0 h1 with hints := h2 } := by
  unfold rx_harvest
  simp only
  rw [← rx_batch_loop_hints_swap]

theorem rx_harvest_no_hint (data_off : Nat) (queue : mqnic_rx_queue) (w : world)
    (bufs : Nat → Nat) (N : Nat) (hints : Nat → nic_hints) :
    (rx_harvest data_off queue w bufs N 0 hints).hints = hints := by
  unfold rx_harvest
  exact (rx_batch_loop_no_hint N N _).1

theorem rx_harvest_hint_count_zero (data_off : Nat) (queue : mqnic_rx_queue) (w : world)
    (bufs : Nat → Nat) (N if_hint : Nat) (hints : Nat → nic_hints) (hif : if_hint ≠ 0)
    (htail : queue.cpl_tail_ptr < 4294967296)
    (hz : ∀ j, j < (rx_harvest data_off queue w bufs N if_hint hints).buf_index →
      (cpl_at queue j).rx_hash = 0) :
    (rx_harvest data_off queue w bufs N if_hint hints).tmp_hint_count = 0 := by
  obtain ⟨f1, f2, f3, _, _⟩ := mqnic_refill_rx_buffers_frame data_off queue w
  unfold rx_harvest at hz ⊢
  simp only at hz ⊢
  generalize hs0 : (rx_batch_state.mk (mqnic_refill_rx_buffers_val data_off queue w).1
    (mqnic_refill_rx_buffers_val data_off queue w).2 bufs hints _ _ 0 _ _ 0) = s0 at *
  have e1 : s0.buf_index = 0 := by rw [← hs0]
  have e2 : s0.tmp_hint_count = 0 := by rw [← hs0]
  have e4 : s0.cq_index = s0.cq_tail_ptr &&& s0.queue.size_mask := by rw [← hs0]
  have e5 : s0.cq_tail_ptr < 4294967296 := by rw [← hs0]; simpa [f2] using htail
  have e6 : ∀ n, harvested_cpls (loop_view s0) n = harvested_cpls queue n := by
    intro n
    apply harvested_cpls_congr
    · rw [← hs0]; exact f1
    · rw [← hs0]; exact f2
    · rw [← hs0]; exact f3
  have key := rx_batch_loop_hints_exact if_hint N hif N s0 e4 e5
  rw [e1, e2, e6, Nat.sub_zero, expected_hints_nil queue _ hz] at key
  exact (key (by decide)).1

/-- The plain drain is the drain with hints and `if_hint = 0`, on the values of the calls. -/
theorem rx_batch_is_hints_with_zero_val (data_off : Nat) (queue : mqnic_rx_queue) (w : world)
    (bufs : Nat → Nat) (num_bufs if_hint : Nat) (hints : Nat → nic_hints) (hint_count : Nat)
    (htail : queue.cpl_tail_ptr < 4294967296) :
    ((mqnic_rx_batch_val data_off queue w bufs num_bufs).ret
        = (mqnic_rx_batch_hints_val data_off queue w bufs num_bufs 0 hints hint_count).ret ∧
      (mqnic_rx_batch_val data_off queue w bufs num_bufs).bufs
        = (mqnic_rx_batch_hints_val data_off queue w bufs num_bufs 0 hints hint_count).bufs ∧
      (mqnic_rx_batch_val data_off queue w bufs num_bufs).queue
        = (mqnic_rx_batch_hints_val data_off queue w bufs num_bufs 0 hints hint_count).queue ∧
      (mqnic_rx_batch_val data_off queue w bufs num_bufs).w
        = (mqnic_rx_batch_hints_val data_off queue w bufs num_bufs 0 hints hint_count).w) ∧
    ((mqnic_rx_batch_hints_val data_off queue w bufs num_bufs 0 hints hint_count).hints = hints ∧
      (mqnic_rx_batch_hints_val data_off queue w bufs num_bufs 0 hints hint_count).hint_count
        = hint_count) ∧
    (if_hint ≠ 0 →
      (∀ hc2,
        (mqnic_rx_batch_hints_val data_off queue w bufs num_bufs if_hint hints hc2).hint_count
          = (mqnic_rx_batch_hints_val data_off queue w bufs num_bufs if_hint hints
              hint_count).hint_count) ∧
      ((∀ j, j < (mqnic_rx_batch_hints_val data_off queue w bufs num_bufs if_hint hints
            hint_count).ret → (cpl_at queue j).rx_hash = 0) →
        (mqnic_rx_batch_hints_val data_off queue w bufs num_bufs if_hint hints
          hint_count).hint_count = 0)) := by
  refine ⟨?_, ?_, ?_⟩
  · unfold mqnic_rx_batch_val
    simp only [mqnic_rx_batch_hints_eq_harvest]
    rw [rx_harvest_hints_swap data_off queue w bufs num_bufs hints (fun _ => ⟨0, 0⟩)]
    exact ⟨rfl, rfl, rfl, rfl⟩
  · simp only [mqnic_rx_batch_hints_eq_harvest]
    exact ⟨rx_harvest_no_hint data_off queue w bufs num_bufs hints, if_neg (by simp)⟩
  · intro hif
    simp only [mqnic_rx_batch_hints_eq_harvest, if_pos hif]
    refine ⟨fun _ => trivial, ?_⟩
    intro hz
    exact rx_harvest_hint_count_zero data_off queue w bufs num_bufs if_hint hints hif htail hz

/-- C29: `mqnic_rx_batch` is `mqnic_rx_batch_hints` with `if_hint = 0`: for any
`hints` array and `hint_count` cell the two calls return on the same inputs,
and when they return they return the same count, fill `bufs` identically and
leave the same queue record and process state, so with `if_hint = 0` nothing is
read from `hints` or `hint_count`; neither is written either.  With `if_hint`
non-zero a returning call always writes `hint_count`: the value left there is
the loop counter whatever the cell held before, and it is 0 when no harvested
completion carries a hint (`rx_hash` non-zero). -/
theorem rx_batch_is_hints_with_zero (data_off : Nat) (queue : mqnic_rx_queue) (w : world)
    (bufs : Nat → Nat) (num_bufs if_hint : Nat) (hints : Nat → nic_hints) (hint_count : Nat)
    (htail : queue.cpl_tail_ptr < 4294967296) :
    ((∃ r0, mqnic_rx_batch data_off queue w bufs num_bufs = Except.ok r0) ↔
      (∃ r1, mqnic_rx_batch_hints data_off queue w bufs num_bufs 0 hints hint_count
        = Except.ok r1)) ∧
    (∀ r0 r1, mqnic_rx_batch data_off queue w bufs num_bufs = Except.ok r0 →
      mqnic_rx_batch_hints data_off queue w bufs num_bufs 0 hints hint_count = Except.ok r1 →
      (r0.ret = r1.ret ∧ r0.bufs = r1.bufs ∧ r0.queue = r1.queue ∧ r0.w = r1.w) ∧
        (r1.hints = hints ∧ r1.hint_count = hint_count)) ∧
    (if_hint ≠ 0 →
      ∀ r, mqnic_rx_batch_hints data_off queue w bufs num_bufs if_hint hints hint_count
          = Except.ok r →
        (∀ hc2 r2,
          mqnic_rx_batch_hints data_off queue w bufs num_bufs if_hint hints hc2 = Except.ok r2 →
          r2.hint_count = r.hint_count) ∧
        ((∀ j, j < r.ret → (cpl_at queue j).rx_hash = 0) → r.hint_count = 0)) := by
  have h := rx_batch_is_hints_with_zero_val data_off queue w bufs num_bufs if_hint hints
    hint_count htail
  refine ⟨?_, ?_, ?_⟩
  · constructor
    · rintro ⟨r0, h0⟩
      exact ⟨_, mqnic_rx_batch_hints_returns data_off queue w bufs num_bufs 0 hints hint_count
        (ok_of_ite_eq_ok ((mqnic_rx_batch_eq data_off queue w bufs num_bufs).symm.trans h0)).1⟩
    · rintro ⟨r1, h1⟩
      exact ⟨_, mqnic_rx_batch_returns data_off queue w bufs num_bufs
        ((mqnic_rx_batch_hints_returns_iff data_off queue w bufs num_bufs 0 hints
          hint_count).1 ⟨r1, h1⟩)⟩
  · intro r0 r1 h0 h1
    have e0 := mqnic_rx_batch_ok h0
    have e1 := mqnic_rx_batch_hints_ok h1
    subst e0
    subst e1
    exact ⟨h.1, h.2.1⟩
  · intro hif r hr
    have e := mqnic_rx_batch_hints_ok hr
    subst e
    refine ⟨?_, (h.2.2 hif).2⟩
    intro hc2 r2 hr2
    rw [mqnic_rx_batch_hints_ok hr2]
    exact (h.2.2 hif).1 hc2

/-- Witness for C29: the sample queue, whose pending completions are harvested
by both entry points alike. -/
theorem rx_batch_is_hints_with_zero_witness :
    ∃ r0 r1,
      mqnic_rx_batch 64 sample_rx_queue sample_world (fun _ => 0) 8 = Except.ok r0 ∧
      mqnic_rx_batch_hints 64 sample_rx_queue sample_world (fun _ => 0) 8 0
        (fun _ => ⟨7, 7⟩) 5 = Except.ok r1 ∧
      sample_rx_queue.cpl_tail_ptr < 4294967296 ∧
      r0.ret = 3 ∧ r0.ret = r1.ret ∧ r1.hint_count = 5 := by
  have h0 := mqnic_rx_batch_returns 64 sample_rx_queue sample_world (fun _ => 0) 8
    (Or.inl (by decide))
  have h1 := mqnic_rx_batch_hints_returns 64 sample_rx_queue sample_world (fun _ => 0) 8 0
    (fun _ => ⟨7, 7⟩) 5 (Or.inl (by decide))
  have h := (rx_batch_is_hints_with_zero 64 sample_rx_queue sample_world (fun _ => 0) 8 0
    (fun _ => ⟨7, 7⟩) 5 (by decide)).2.1 _ _ h0 h1
  exact ⟨_, _, h0, h1, by decide, by decide, h.1.1, h.2.2⟩

/-! ## The exact effect of the posting loops -/

theorem fill_loop_eq_refill_loop (data_off : Nat) :
    ∀ (n : Nat) (queue : mqnic_rx_queue) (w : world),
      fill_loop_val data_off n queue w = refill_loop_val data_off n queue w := by
  intro n
  induction n with
  | zero => intro queue w; rfl
  | succ n ih =>
    intro queue w
    unfold fill_loop_val refill_loop_val
    simp only [ih]

/-- A failed allocation: the call returns `-1`, the queue record and the trace
are as before. -/
theorem mqnic_prepare_rx_desc_fail (data_off : Nat) (queue : mqnic_rx_queue) (w : world)
    (index : Nat) (h : pool_supply w queue.mempool = 0) :
    (mqnic_prepare_rx_desc_val data_off queue w index).1 ≠ 0 ∧
      (mqnic_prepare_rx_desc_val data_off queue w index).2.1 = queue ∧
      (mqnic_prepare_rx_desc_val data_off queue w index).2.2.trace = w.trace := by
  unfold mqnic_prepare_rx_desc_val pkt_buf_alloc
  cases hfs : (w.mempools queue.mempool).free_stack with
  | nil => simp
  | cons b rest =>
    have hb : b = 0 := by
      by_contra hb
      simp [pool_supply, hfs, hb] at h
    subst hb
    simp

/-- A successful allocation: the call returns `0`, the descriptor at `index`
and the handle are written, the top of the free list is popped. -/
theorem mqnic_prepare_rx_desc_ok (data_off : Nat) (queue : mqnic_rx_queue) (w : world)
    (index b : Nat) (rest : List Nat) (hfs : (w.mempools queue.mempool).free_stack = b :: rest)
    (hb : b ≠ 0) :
    (mqnic_prepare_rx_desc_val data_off queue w index).1 = 0 ∧
      (mqnic_prepare_rx_desc_val data_off queue w index).2.1 =
        { queue with
          rxq_descriptors := upd queue.rxq_descriptors index
            { (queue.rxq_descriptors index) with
              addr := wrap64 ((w.pkt_bufs b).buf_addr_phy + data_off)
              len := (w.mempools queue.mempool).buf_size }
          rxq_virtual_addresses := upd queue.rxq_virtual_addresses index b } ∧
      (mqnic_prepare_rx_desc_val data_off queue w index).2.2 =
        { w with
          mempools := upd w.mempools queue.mempool
            { (w.mempools queue.mempool) with free_stack := rest }
          trace := w.trace ++ [event.rx_desc_write index] } := by
  unfold mqnic_prepare_rx_desc_val pkt_buf_alloc
  simp [hfs, hb, upd]

theorem refill_loop_succ_fail (data_off n : Nat) (queue : mqnic_rx_queue) (w : world)
    (h : pool_supply w queue.mempool = 0) :
    (refill_loop_val data_off (n + 1) queue w).1 = queue ∧
      (refill_loop_val data_off (n + 1) queue w).2.trace = w.trace := by
  obtain ⟨h1, h2, h3⟩ :=
    mqnic_prepare_rx_desc_fail data_off queue w (queue.rxq_head_ptr &&& queue.size_mask) h
  unfold refill_loop_val
  simp only [if_pos h1]
  exact ⟨h2, h3⟩

theorem refill_loop_succ_ok (data_off n : Nat) (queue : mqnic_rx_queue) (w : world)
    (b : Nat) (rest : List Nat) (hfs : (w.mempools queue.mempool).free_stack = b :: rest)
    (hb : b ≠ 0) :
    refill_loop_val data_off (n + 1) queue w =
      refill_loop_val data_off n
        { queue with
          rxq_head_ptr := wrap32 (queue.rxq_head_ptr + 1)
          rxq_descriptors := upd queue.rxq_descriptors (queue.rxq_head_ptr &&& queue.size_mask)
            { (queue.rxq_descriptors (queue.rxq_head_ptr &&& queue.size_mask)) with
              addr := wrap64 ((w.pkt_bufs b).buf_addr_phy + data_off)
              len := (w.mempools queue.mempool).buf_size }
          rxq_virtual_addresses :=
            upd queue.rxq_virtual_addresses (queue.rxq_head_ptr &&& queue.size_mask) b }
        { w with
          mempools := upd w.mempools queue.mempool
            { (w.mempools queue.mempool) with free_stack := rest }
          trace := w.trace ++ [event.rx_desc_write (queue.rxq_head_ptr &&& queue.size_mask)] } := by
  obtain ⟨h1, h2, h3⟩ :=
    mqnic_prepare_rx_desc_ok data_off queue w (queue.rxq_head_ptr &&& queue.size_mask) b rest
      hfs hb
  conv => lhs; unfold refill_loop_val
  simp only [h1, h2, h3, ne_eq, not_true_eq_false, if_false]

theorem rx_post_slot_zero (queue : mqnic_rx_queue) (hh : queue.rxq_head_ptr < 4294967296) :
    rx_post_slot queue 0 = queue.rxq_head_ptr &&& queue.size_mask := by
  unfold rx_post_slot wrap32
  rw [Nat.add_zero, Nat.mod_eq_of_lt hh]

theorem rx_post_events_succ (queue : mqnic_rx_queue) (p : Nat) :
    rx_post_events queue (p + 1) =
      event.rx_desc_write (rx_post_slot queue 0) ::
        (List.range p).map (fun j => event.rx_desc_write (rx_post_slot queue (j + 1))) := by
  unfold rx_post_events
  rw [List.range_succ_eq_map, List.map_cons, List.map_map]
  rfl

theorem rx_post_slot_shift (queue q2 : mqnic_rx_queue)
    (hh : q2.rxq_head_ptr = wrap32 (queue.rxq_head_ptr + 1))
    (hm : q2.size_mask = queue.size_mask) (j : Nat) :
    rx_post_slot q2 j = rx_post_slot queue (j + 1) := by
  unfold rx_post_slot
  rw [hh, hm, wrap32_wrap32_add, Nat.add_assoc, Nat.add_comm 1 j]

theorem refill_loop_exact (data_off : Nat) :
    ∀ (n : Nat) (queue : mqnic_rx_queue) (w : world), queue.rxq_head_ptr < 4294967296 →
      (refill_loop_val data_off n queue w).1.rxq_head_ptr
        = wrap32 (queue.rxq_head_ptr + min n (pool_supply w queue.mempool)) ∧
      (refill_loop_val data_off n queue w).2.trace
        = w.trace ++ rx_post_events queue (min n (pool_supply w queue.mempool)) ∧
      (∀ x, (∀ j, j < min n (pool_supply w queue.mempool) → x ≠ rx_post_slot queue j) →
        (refill_loop_val data_off n queue w).1.rxq_virtual_addresses x
            = queue.rxq_virtual_addresses x ∧
          (refill_loop_val data_off n queue w).1.rxq_descriptors x = queue.rxq_descriptors x) ∧
      (∀ x, queue.rxq_virtual_addresses x ≠ 0 →
        (refill_loop_val data_off n queue w).1.rxq_virtual_addresses x ≠ 0) ∧
      (∀ j, j < min n (pool_supply w queue.mempool) →
        (refill_loop_val data_off n queue w).1.rxq_virtual_addresses (rx_post_slot queue j) ≠ 0) ∧
      (∀ j, j < min n (pool_supply w queue.mempool) →
        (∀ j2, j < j2 → j2 < min n (pool_supply w queue.mempool) →
          rx_post_slot queue j2 ≠ rx_post_slot queue j) →
        (refill_loop_val data_off n queue w).1.rxq_virtual_addresses (rx_post_slot queue j)
            = (w.mempools queue.mempool).free_stack.getD j 0 ∧
          (w.mempools queue.mempool).free_stack.getD j 0 ≠ 0 ∧
          ((refill_loop_val data_off n queue w).1.rxq_descriptors (rx_post_slot queue j)).addr
            = wrap64 ((w.pkt_bufs ((w.mempools queue.mempool).free_stack.getD j 0)).buf_addr_phy
                + data_off) ∧
          ((refill_loop_val data_off n queue w).1.rxq_descriptors (rx_post_slot queue j)).len
            = (w.mempools queue.mempool).buf_size) := by
  intro n
  induction n with
  | zero =>
    intro queue w hh
    have e : wrap32 queue.rxq_head_ptr = queue.rxq_head_ptr := Nat.mod_eq_of_lt hh
    simp [refill_loop_val, rx_post_events, e]
  | succ n ih =>
    intro queue w hh
    by_cases hs : pool_supply w queue.mempool = 0
    · obtain ⟨h1, h2⟩ := refill_loop_succ_fail data_off n queue w hs
      have e : wrap32 queue.rxq_head_ptr = queue.rxq_head_ptr := Nat.mod_eq_of_lt hh
      rw [hs, Nat.min_zero, h1, h2]
      simp [rx_post_events, e]
    · cases hfs : (w.mempools queue.mempool).free_stack with
      | nil => exact absurd (pool_supply_nil w _ hfs) hs
      | cons b rest =>
        have hb : b ≠ 0 := fun hb0 => hs (pool_supply_null w _ rest (hb0 ▸ hfs))
        have hsup := pool_supply_cons w queue.mempool b rest hfs hb
          (w.trace ++ [event.rx_desc_write (queue.rxq_head_ptr &&& queue.size_mask)])
        rw [refill_loop_succ_ok data_off n queue w b rest hfs hb]
        generalize hq2 : ({ queue with
          rxq_head_ptr := wrap32 (queue.rxq_head_ptr + 1)
          rxq_descriptors := upd queue.rxq_descriptors (queue.rxq_head_ptr &&& queue.size_mask)
            { (queue.rxq_descriptors (queue.rxq_head_ptr &&& queue.size_mask)) with
              addr := wrap64 ((w.pkt_bufs b).buf_addr_phy + data_off)
              len := (w.mempools queue.mempool).buf_size }
          rxq_virtual_addresses :=
            upd queue.rxq_virtual_addresses (queue.rxq_head_ptr &&& queue.size_mask) b }
            : mqnic_rx_queue) = q2
        generalize hw1 : ({ w with
          mempools := upd w.mempools queue.mempool
            { (w.mempools queue.mempool) with free_stack := rest }
          trace := w.trace ++ [event.rx_desc_write (queue.rxq_head_ptr &&& queue.size_mask)] }
            : world) = w1 at hsup ⊢
        have q2h : q2.rxq_head_ptr = wrap32 (queue.rxq_head_ptr + 1) := by rw [← hq2]
        have q2m : q2.size_mask = queue.size_mask := by rw [← hq2]
        have q2p : q2.mempool = queue.mempool := by rw [← hq2]
        have q2v : q2.rxq_virtual_addresses
            = upd queue.rxq_virtual_addresses (queue.rxq_head_ptr &&& queue.size_mask) b := by
          rw [← hq2]
        have q2d : q2.rxq_descriptors
            = upd queue.rxq_descriptors (queue.rxq_head_ptr &&& queue.size_mask)
              { (queue.rxq_descriptors (queue.rxq_head_ptr &&& queue.size_mask)) with
                addr := wrap64 ((w.pkt_bufs b).buf_addr_phy + data_off)
                len := (w.mempools queue.mempool).buf_size } := by
          rw [← hq2]
        have w1t : w1.trace
            = w.trace ++ [event.rx_desc_write (queue.rxq_head_ptr &&& queue.size_mask)] := by
          rw [← hw1]
        have w1b : w1.pkt_bufs = w.pkt_bufs := by rw [← hw1]
        have w1f : (w1.mempools queue.mempool).free_stack = rest := by
          rw [← hw1]; simp [upd]
        have w1s : (w1.mempools queue.mempool).buf_size = (w.mempools queue.mempool).buf_size := by
          rw [← hw1]; simp [upd]
        have hslot := rx_post_slot_shift queue q2 q2h q2m
        have hs0 := rx_post_slot_zero queue hh
        have hmin : min (n + 1) (pool_supply w queue.mempool)
            = min n (pool_supply w1 queue.mempool) + 1 := by
          rw [hsup, Nat.succ_min_succ]
        obtain ⟨i1, i2, i3, i4, i5, i6⟩ := ih q2 w1 (by rw [q2h]; exact wrap32_lt _)
        rw [q2p] at i1 i2 i3 i5 i6
        rw [hmin]
        generalize min n (pool_supply w1 queue.mempool) = p at i1 i2 i3 i4 i5 i6 ⊢
        have hmono : ∀ x, queue.rxq_virtual_addresses x ≠ 0 → q2.rxq_virtual_addresses x ≠ 0 := by
          intro x hx
          rw [q2v]
          unfold upd
          split
          · exact hb
          · exact hx
        have hv0 : q2.rxq_virtual_addresses (rx_post_slot queue 0) = b := by
          rw [q2v, hs0]; simp [upd]
        refine ⟨?_, ?_, ?_, ?_, ?_, ?_⟩
        · rw [i1, q2h, wrap32_wrap32_add, Nat.add_assoc, Nat.add_comm 1 p]
        · rw [i2, w1t, rx_post_events_succ, hs0, List.append_assoc]
          simp only [rx_post_events, hslot, List.singleton_append]
        · intro x hx
          have hx0 : x ≠ queue.rxq_head_ptr &&& queue.size_mask := by
            rw [← hs0]; exact hx 0 (Nat.succ_pos p)
          obtain ⟨a1, a2⟩ := i3 x (fun j hj => by rw [hslot]; exact hx (j + 1) (by omega))
          rw [a1, a2, q2v, q2d]
          simp [upd, hx0]
        · intro x hx
          exact i4 x (hmono x hx)
        · intro j hj
          cases j with
          | zero => exact i4 _ (by rw [hv0]; exact hb)
          | succ j2 =>
            rw [← hslot]
            exact i5 j2 (by omega)
        · intro j hj hdist
          cases j with
          | zero =>
            obtain ⟨a1, a2⟩ := i3 (rx_post_slot queue 0)
              (fun j hj2 => by rw [hslot]; exact (hdist (j + 1) (by omega) (by omega)).symm)
            rw [a1, a2, hv0, q2d, hs0]
            simp [upd, hb]
          | succ j2 =>
            obtain ⟨a1, a2, a3, a4⟩ := i6 j2 (by omega)
              (fun j3 h3 h4 => by
                rw [hslot, hslot]; exact hdist (j3 + 1) (by omega) (by omega))
            rw [w1f] at a1 a2 a3
            rw [w1b] at a3
            rw [hslot] at a1 a3 a4
            rw [w1s] at a4
            simp only [List.getD_cons_succ]
            exact ⟨a1, a2, a3, a4⟩

theorem is_ring_size_le (size : Nat) (hs : is_ring_size size) : size ≤ 2147483648 := by
  obtain ⟨k, hk, rfl⟩ := hs
  have : (2 : Nat) ^ k ≤ 2 ^ 31 := Nat.pow_le_pow_right (by decide) (by omega)
  simpa using this

/-- The occupancy after `p` posts, while no 32-bit wrap of the sum occurs. -/
theorem occupancy_after_posts (head clean p : Nat) (hh : head < 4294967296)
    (hp : sub32 head clean + p < 4294967296) :
    sub32 (wrap32 (head + p)) clean = sub32 head clean + p := by
  have e := wrap32_add_sub32 head clean hh
  rw [← e, wrap32_wrap32_add, e, Nat.add_assoc]
  exact sub32_offset clean _ hp

/-- The slot of the post number `size - occupancy` is the slot at
`rxq_clean_tail_ptr`. -/
theorem rx_post_slot_wraps (queue : mqnic_rx_queue) (hsz : is_ring_size queue.size)
    (hmask : queue.size_mask = queue.size - 1) (hh : queue.rxq_head_ptr < 4294967296)
    (hocc : sub32 queue.rxq_head_ptr queue.rxq_clean_tail_ptr ≤ queue.size) :
    rx_post_slot queue (queue.size - sub32 queue.rxq_head_ptr queue.rxq_clean_tail_ptr)
      = wrap32 (queue.rxq_clean_tail_ptr + 0) &&& queue.size_mask := by
  have e := wrap32_add_sub32 queue.rxq_head_ptr queue.rxq_clean_tail_ptr hh
  unfold rx_post_slot
  rw [slot_eq_mod _ _ _ hsz hmask, slot_eq_mod _ _ _ hsz hmask]
  generalize sub32 queue.rxq_head_ptr queue.rxq_clean_tail_ptr = occ at e hocc ⊢
  rw [← e, wrap32_add_mod _ _ _ hsz, Nat.add_zero]
  have : queue.rxq_clean_tail_ptr + occ + (queue.size - occ)
      = queue.rxq_clean_tail_ptr + queue.size := by omega
  rw [this, Nat.add_mod_right]

/-- The value `mqnic_fill_rx_buffers_val` has `rxq_head_ptr` advanced by
`min(max(num, 0), supply)` whatever `rxq_clean_tail_ptr` is, which it leaves
alone, and one head-register write after the descriptor stores.  On a queue
that satisfies the ring invariants the occupancy stays at most `size` exactly
when the number of posts is at most `size - occupancy`; beyond that, the slot
written after `size - occupancy` iterations still holds a buffer handle. -/
theorem fill_rx_buffers_ignores_occupancy_val (data_off : Nat) (queue : mqnic_rx_queue)
    (w : world) (num : Int) (hh : queue.rxq_head_ptr < 4294967296)
    (hnum : num < 2147483648) :
    (mqnic_fill_rx_buffers_val data_off queue w num).1.rxq_head_ptr
        = wrap32 (queue.rxq_head_ptr + min num.toNat (pool_supply w queue.mempool)) ∧
    (∀ c, (mqnic_fill_rx_buffers_val data_off
          { queue with rxq_clean_tail_ptr := c } w num).1.rxq_head_ptr
        = (mqnic_fill_rx_buffers_val data_off queue w num).1.rxq_head_ptr) ∧
    (mqnic_fill_rx_buffers_val data_off queue w num).1.rxq_clean_tail_ptr
        = queue.rxq_clean_tail_ptr ∧
    (mqnic_fill_rx_buffers_val data_off queue w num).2.trace
        = w.trace ++ rx_post_events queue (min num.toNat (pool_supply w queue.mempool)) ++
          [event.set_reg32 queue.rxq_addr reg.MQNIC_QUEUE_HEAD_PTR_REG
            (wrap32 ((mqnic_fill_rx_buffers_val data_off queue w num).1.rxq_head_ptr
              &&& queue.hw_ptr_mask))] ∧
    (rx_ring_inv queue →
      (sub32 (mqnic_fill_rx_buffers_val data_off queue w num).1.rxq_head_ptr
            queue.rxq_clean_tail_ptr ≤ queue.size ↔
        min num.toNat (pool_supply w queue.mempool)
          ≤ queue.size - sub32 queue.rxq_head_ptr queue.rxq_clean_tail_ptr) ∧
      (queue.size - sub32 queue.rxq_head_ptr queue.rxq_clean_tail_ptr
          < min num.toNat (pool_supply w queue.mempool) →
        (fill_loop_val data_off (queue.size - sub32 queue.rxq_head_ptr queue.rxq_clean_tail_ptr)
            queue w).1.rxq_virtual_addresses
          (rx_post_slot queue
            (queue.size - sub32 queue.rxq_head_ptr queue.rxq_clean_tail_ptr)) ≠ 0)) := by
  have hq := refill_loop_queue_eq data_off num.toNat queue w
  obtain ⟨x1, x2, _, _, _, _⟩ := refill_loop_exact data_off num.toNat queue w hh
  have x1c := fun c => (refill_loop_exact data_off num.toNat
    { queue with rxq_clean_tail_ptr := c } w hh).1
  simp only [mqnic_fill_rx_buffers_val, fill_loop_eq_refill_loop, set_reg32]
  have hc : (refill_loop_val data_off num.toNat queue w).1.rxq_clean_tail_ptr
      = queue.rxq_clean_tail_ptr := by rw [hq]
  have ha : (refill_loop_val data_off num.toNat queue w).1.rxq_addr = queue.rxq_addr := by rw [hq]
  have hm : (refill_loop_val data_off num.toNat queue w).1.hw_ptr_mask = queue.hw_ptr_mask := by
    rw [hq]
  have hpn : min num.toNat (pool_supply w queue.mempool) < 2147483648 := by omega
  refine ⟨x1, fun c => by rw [x1c c, x1], hc, by rw [x2, ha, hm], ?_⟩
  intro hinv
  obtain ⟨hsz, hmask, _, _, _, _, hocc, hwin, _⟩ := hinv
  have hsl := is_ring_size_le queue.size hsz
  refine ⟨?_, ?_⟩
  · rw [x1, occupancy_after_posts _ _ _ hh (by omega)]
    omega
  · intro hlt
    generalize hp : min num.toNat (pool_supply w queue.mempool) = p at hlt
    have hj : min (queue.size - sub32 queue.rxq_head_ptr queue.rxq_clean_tail_ptr)
        (pool_supply w queue.mempool)
        = queue.size - sub32 queue.rxq_head_ptr queue.rxq_clean_tail_ptr := by omega
    obtain ⟨_, _, _, y4, y5, _⟩ := refill_loop_exact data_off
      (queue.size - sub32 queue.rxq_head_ptr queue.rxq_clean_tail_ptr) queue w hh
    rw [hj] at y5
    by_cases h0 : sub32 queue.rxq_head_ptr queue.rxq_clean_tail_ptr = 0
    · have hpos := is_ring_size_pos queue.size hsz
      have e : rx_post_slot queue (queue.size - sub32 queue.rxq_head_ptr queue.rxq_clean_tail_ptr)
          = rx_post_slot queue 0 := by
        rw [h0, Nat.sub_zero]
        unfold rx_post_slot
        rw [slot_eq_mod _ _ _ hsz hmask, slot_eq_mod _ _ _ hsz hmask, Nat.add_zero,
          Nat.add_mod_right]
      rw [e]
      exact y5 0 (by omega)
    · apply y4
      rw [rx_post_slot_wraps queue hsz hmask hh hocc]
      have hlt2 : wrap32 (queue.rxq_clean_tail_ptr + 0) &&& queue.size_mask < queue.size := by
        rw [slot_eq_mod _ _ _ hsz hmask]
        exact Nat.mod_lt _ (is_ring_size_pos queue.size hsz)
      exact (hwin _ hlt2).2 ⟨0, by omega, rfl⟩

/-- C30: `mqnic_fill_rx_buffers` ignores the ring occupancy.  For every RX queue
state with a 32-bit `rxq_head_ptr` and every `int` value `num`: when the mempool
supplies `max(num, 0)` buffers, the call returns with `rxq_head_ptr` advanced by
exactly `max(num, 0)`, whatever `rxq_clean_tail_ptr` is; it leaves
`rxq_clean_tail_ptr` alone and writes the RXQ head register exactly once, after
the descriptor stores, with `rxq_head_ptr & hw_ptr_mask`; on a queue that
satisfies the ring invariants, the occupancy is then at most `size` exactly when
`max(num, 0)` is at most `size - occupancy`, and beyond that, after
`size - occupancy` iterations the slot the next iteration writes still holds a
buffer handle.  When the mempool supplies fewer than `max(num, 0)` buffers, the
first failed allocation reaches `error("failed to allocate rx descriptor")`,
which is fatal: the call does not return, whatever `rxq_clean_tail_ptr` is. -/
theorem fill_rx_buffers_ignores_occupancy (data_off : Nat) (queue : mqnic_rx_queue)
    (w : world) (num : Int) (hh : queue.rxq_head_ptr < 4294967296)
    (hnum : num < 2147483648) :
    (num.toNat ≤ pool_supply w queue.mempool →
      ∃ r, mqnic_fill_rx_buffers data_off queue w num = Except.ok r ∧
        r.1.rxq_head_ptr = wrap32 (queue.rxq_head_ptr + num.toNat) ∧
        (∀ c, ∃ rc, mqnic_fill_rx_buffers data_off { queue with rxq_clean_tail_ptr := c } w num
            = Except.ok rc ∧
          rc.1.rxq_head_ptr = r.1.rxq_head_ptr) ∧
        r.1.rxq_clean_tail_ptr = queue.rxq_clean_tail_ptr ∧
        r.2.trace
          = w.trace ++ rx_post_events queue num.toNat ++
            [event.set_reg32 queue.rxq_addr reg.MQNIC_QUEUE_HEAD_PTR_REG
              (wrap32 (r.1.rxq_head_ptr &&& queue.hw_ptr_mask))] ∧
        (rx_ring_inv queue →
          (sub32 r.1.rxq_head_ptr queue.rxq_clean_tail_ptr ≤ queue.size ↔
            num.toNat ≤ queue.size - sub32 queue.rxq_head_ptr queue.rxq_clean_tail_ptr) ∧
          (queue.size - sub32 queue.rxq_head_ptr queue.rxq_clean_tail_ptr < num.toNat →
            ∃ r1, fill_loop data_off
                (queue.size - sub32 queue.rxq_head_ptr queue.rxq_clean_tail_ptr) queue w
              = Except.ok r1 ∧
              r1.1.rxq_virtual_addresses
                (rx_post_slot queue
                  (queue.size - sub32 queue.rxq_head_ptr queue.rxq_clean_tail_ptr)) ≠ 0))) ∧
    (pool_supply w queue.mempool < num.toNat →
      ∀ c, mqnic_fill_rx_buffers data_off { queue with rxq_clean_tail_ptr := c } w num
        = Except.error fatal_error.rx_alloc_failed) := by
  obtain ⟨v1, v2, v3, v4, v5⟩ :=
    fill_rx_buffers_ignores_occupancy_val data_off queue w num hh hnum
  refine ⟨?_, ?_⟩
  · intro hle
    rw [Nat.min_eq_left hle] at v1 v4 v5
    refine ⟨_, (mqnic_fill_rx_buffers_eq data_off queue w num).trans (if_pos hle), v1, ?_, v3,
      v4, ?_⟩
    · intro c
      exact ⟨_, (mqnic_fill_rx_buffers_eq data_off { queue with rxq_clean_tail_ptr := c } w
        num).trans (if_pos hle), v2 c⟩
    · intro hinv
      obtain ⟨a, b⟩ := v5 hinv
      refine ⟨a, fun hlt => ⟨_, (fill_loop_eq data_off _ queue w).trans (if_pos ?_), b hlt⟩⟩
      omega
  · intro hlt c
    refine (mqnic_fill_rx_buffers_eq data_off { queue with rxq_clean_tail_ptr := c } w
      num).trans (if_neg ?_)
    show ¬num.toNat ≤ pool_supply w queue.mempool
    omega

/-- Witness for C30: the full sample ring (occupancy 256 of 256) and a pool
with two buffers.  With `num = 5` the third allocation fails and the call
raises the fatal error.  With `num = 2` the call returns, `rxq_head_ptr` moves
from 256 to 258, and the first post lands on slot 0, which still holds its
handle. -/
theorem fill_rx_buffers_ignores_occupancy_witness :
    sample_rx_queue.rxq_head_ptr < 4294967296 ∧ (5 : Int) < 2147483648 ∧
      rx_ring_inv sample_rx_queue ∧
      pool_supply sample_world sample_rx_queue.mempool = 2 ∧
      mqnic_fill_rx_buffers 64 sample_rx_queue sample_world 5
        = Except.error fatal_error.rx_alloc_failed ∧
      (∃ r, mqnic_fill_rx_buffers 64 sample_rx_queue sample_world 2 = Except.ok r ∧
        r.1.rxq_head_ptr = 258 ∧
        ∃ r1, fill_loop 64 0 sample_rx_queue sample_world = Except.ok r1 ∧
          r1.1.rxq_virtual_addresses (rx_post_slot sample_rx_queue 0) ≠ 0) :=
  ⟨by decide, by decide, sample_rx_queue_inv, by decide,
    (fill_rx_buffers_ignores_occupancy 64 sample_rx_queue sample_world 5 (by decide)
      (by decide)).2 (by decide) 0,
    ((fill_rx_buffers_ignores_occupancy 64 sample_rx_queue sample_world 2 (by decide)
      (by decide)).1 (by decide)).imp
      (fun _ h => ⟨h.1, h.2.1.trans (by decide),
        ((h.2.2.2.2.2 sample_rx_queue_inv).2 (by decide))⟩)⟩

/-! ## The refill postcondition -/

theorem rx_post_slot_ne (queue : mqnic_rx_queue) (hsz : is_ring_size queue.size)
    (hmask : queue.size_mask = queue.size - 1) (j j2 : Nat) (hj : j < j2)
    (hj2 : j2 < queue.size) : rx_post_slot queue j2 ≠ rx_post_slot queue j := by
  unfold rx_post_slot
  rw [slot_eq_mod _ _ _ hsz hmask, slot_eq_mod _ _ _ hsz hmask]
  intro h
  have := ring_slot_inj queue.rxq_head_ptr j2 j queue.size hj2 (by omega) h
  omega

/-- The value `mqnic_refill_rx_buffers_val` on a queue with a power-of-two
`size`, `size_mask = size - 1` and an occupancy of at most `size`:
`missing = size - (rxq_head_ptr - rxq_clean_tail_ptr)`; when `missing < 8` the
value is the queue and the process state unchanged; when `missing ≥ 8` it has
`p = min(missing, supply)` buffers posted, the `j`-th buffer of the free list
in slot `(rxq_head_ptr + j) & size_mask`, the other slots untouched,
`rxq_head_ptr` advanced by `p`, and one head-register write after the
descriptor stores. -/
theorem refill_rx_buffers_postcondition_val (data_off : Nat) (queue : mqnic_rx_queue) (w : world)
    (hsz : is_ring_size queue.size) (hmask : queue.size_mask = queue.size - 1)
    (hh : queue.rxq_head_ptr < 4294967296)
    (hocc : sub32 queue.rxq_head_ptr queue.rxq_clean_tail_ptr ≤ queue.size) :
    sub32 queue.size (sub32 queue.rxq_head_ptr queue.rxq_clean_tail_ptr)
        = queue.size - sub32 queue.rxq_head_ptr queue.rxq_clean_tail_ptr ∧
    (sub32 queue.size (sub32 queue.rxq_head_ptr queue.rxq_clean_tail_ptr) < 8 →
      mqnic_refill_rx_buffers_val data_off queue w = (queue, w)) ∧
    (8 ≤ sub32 queue.size (sub32 queue.rxq_head_ptr queue.rxq_clean_tail_ptr) →
      (mqnic_refill_rx_buffers_val data_off queue w).1.rxq_head_ptr
        = wrap32 (queue.rxq_head_ptr
            + min (sub32 queue.size (sub32 queue.rxq_head_ptr queue.rxq_clean_tail_ptr))
                (pool_supply w queue.mempool)) ∧
      (∀ j, j < min (sub32 queue.size (sub32 queue.rxq_head_ptr queue.rxq_clean_tail_ptr))
            (pool_supply w queue.mempool) →
        (mqnic_refill_rx_buffers_val data_off queue w).1.rxq_virtual_addresses
            (wrap32 (queue.rxq_head_ptr + j) &&& queue.size_mask)
          = (w.mempools queue.mempool).free_stack.getD j 0 ∧
        (w.mempools queue.mempool).free_stack.getD j 0 ≠ 0 ∧
        ((mqnic_refill_rx_buffers_val data_off queue w).1.rxq_descriptors
            (wrap32 (queue.rxq_head_ptr + j) &&& queue.size_mask)).addr
          = wrap64 ((w.pkt_bufs ((w.mempools queue.mempool).free_stack.getD j 0)).buf_addr_phy
              + data_off) ∧
        ((mqnic_refill_rx_buffers_val data_off queue w).1.rxq_descriptors
            (wrap32 (queue.rxq_head_ptr + j) &&& queue.size_mask)).len
          = (w.mempools queue.mempool).buf_size) ∧
      (∀ x, (∀ j, j < min (sub32 queue.size (sub32 queue.rxq_head_ptr queue.rxq_clean_tail_ptr))
            (pool_supply w queue.mempool) →
          x ≠ wrap32 (queue.rxq_head_ptr + j) &&& queue.size_mask) →
        (mqnic_refill_rx_buffers_val data_off queue w).1.rxq_virtual_addresses x
            = queue.rxq_virtual_addresses x ∧
          (mqnic_refill_rx_buffers_val data_off queue w).1.rxq_descriptors x
            = queue.rxq_descriptors x) ∧
      (mqnic_refill_rx_buffers_val data_off queue w).2.trace
        = w.trace ++
          rx_post_events queue
            (min (sub32 queue.size (sub32 queue.rxq_head_ptr queue.rxq_clean_tail_ptr))
              (pool_supply w queue.mempool)) ++
          [event.set_reg32 queue.rxq_addr reg.MQNIC_QUEUE_HEAD_PTR_REG
            (wrap32 ((mqnic_refill_rx_buffers_val data_off queue w).1.rxq_head_ptr
              &&& queue.hw_ptr_mask))]) := by
  have hlt := is_ring_size_lt queue.size hsz
  have hmiss : sub32 queue.size (sub32 queue.rxq_head_ptr queue.rxq_clean_tail_ptr)
      = queue.size - sub32 queue.rxq_head_ptr queue.rxq_clean_tail_ptr := by
    generalize sub32 queue.rxq_head_ptr queue.rxq_clean_tail_ptr = occ at hocc
    unfold sub32
    omega
  refine ⟨hmiss, ?_, ?_⟩
  · intro h
    unfold mqnic_refill_rx_buffers_val
    simp only [if_pos h]
  · intro h
    unfold mqnic_refill_rx_buffers_val
    simp only [if_neg (Nat.not_lt.2 h), set_reg32]
    generalize sub32 queue.size (sub32 queue.rxq_head_ptr queue.rxq_clean_tail_ptr) = missing
      at hmiss h ⊢
    have hq := refill_loop_queue_eq data_off missing queue w
    have ha : (refill_loop_val data_off missing queue w).1.rxq_addr = queue.rxq_addr := by rw [hq]
    have hm : (refill_loop_val data_off missing queue w).1.hw_ptr_mask = queue.hw_ptr_mask := by
      rw [hq]
    obtain ⟨x1, x2, x3, _, _, x6⟩ := refill_loop_exact data_off missing queue w hh
    refine ⟨x1, ?_, x3, by rw [x2, ha, hm]⟩
    intro j hj
    exact x6 j hj (fun j2 h1 h2 => rx_post_slot_ne queue hsz hmask j j2 h1 (by omega))

/-- C25: what `mqnic_refill_rx_buffers` does.  On a queue with a power-of-two
`size`, `size_mask = size - 1` and an occupancy `rxq_head_ptr - rxq_clean_tail_ptr`
of at most `size`, let `missing = size - (rxq_head_ptr - rxq_clean_tail_ptr)` in
32-bit arithmetic.  When `missing < 8` the call returns, changes nothing and
writes no register.  When `missing ≥ 8` and the mempool supplies `missing`
buffers, the call returns with `missing` buffers posted: the `j`-th buffer of
the free list goes to slot `(rxq_head_ptr + j) & size_mask`, with
`desc.addr = buf.phys + data_off`, `desc.len = mempool.buf_size` and the handle
stored in `rxq_virtual_addresses`; the other slots are untouched; `rxq_head_ptr`
advances by exactly `missing`; and the RXQ head register is written exactly
once, after the descriptor stores, with `rxq_head_ptr & hw_ptr_mask`.  When
`missing ≥ 8` and the mempool supplies fewer than `missing` buffers, the first
failed allocation reaches `error("failed to allocate rx descriptor")`, which is
fatal: the call does not return, the `return -1` of `mqnic_prepare_rx_desc` and
the `break` of the loop are never reached, and the head register is not
written. -/
theorem refill_rx_buffers_postcondition (data_off : Nat) (queue : mqnic_rx_queue) (w : world)
    (hsz : is_ring_size queue.size) (hmask : queue.size_mask = queue.size - 1)
    (hh : queue.rxq_head_ptr < 4294967296)
    (hocc : sub32 queue.rxq_head_ptr queue.rxq_clean_tail_ptr ≤ queue.size) :
    sub32 queue.size (sub32 queue.rxq_head_ptr queue.rxq_clean_tail_ptr)
        = queue.size - sub32 queue.rxq_head_ptr queue.rxq_clean_tail_ptr ∧
    (sub32 queue.size (sub32 queue.rxq_head_ptr queue.rxq_clean_tail_ptr) < 8 →
      mqnic_refill_rx_buffers data_off queue w = Except.ok (queue, w)) ∧
    (8 ≤ sub32 queue.size (sub32 queue.rxq_head_ptr queue.rxq_clean_tail_ptr) →
      sub32 queue.size (sub32 queue.rxq_head_ptr queue.rxq_clean_tail_ptr)
        ≤ pool_supply w queue.mempool →
      ∃ r, mqnic_refill_rx_buffers data_off queue w = Except.ok r ∧
        r.1.rxq_head_ptr
          = wrap32 (queue.rxq_head_ptr
              + sub32 queue.size (sub32 queue.rxq_head_ptr queue.rxq_clean_tail_ptr)) ∧
        (∀ j, j < sub32 queue.size (sub32 queue.rxq_head_ptr queue.rxq_clean_tail_ptr) →
          r.1.rxq_virtual_addresses (wrap32 (queue.rxq_head_ptr + j) &&& queue.size_mask)
            = (w.mempools queue.mempool).free_stack.getD j 0 ∧
          (w.mempools queue.mempool).free_stack.getD j 0 ≠ 0 ∧
          (r.1.rxq_descriptors (wrap32 (queue.rxq_head_ptr + j) &&& queue.size_mask)).addr
            = wrap64 ((w.pkt_bufs ((w.mempools queue.mempool).free_stack.getD j 0)).buf_addr_phy
                + data_off) ∧
          (r.1.rxq_descriptors (wrap32 (queue.rxq_head_ptr + j) &&& queue.size_mask)).len
            = (w.mempools queue.mempool).buf_size) ∧
        (∀ x, (∀ j, j < sub32 queue.size (sub32 queue.rxq_head_ptr queue.rxq_clean_tail_ptr) →
            x ≠ wrap32 (queue.rxq_head_ptr + j) &&& queue.size_mask) →
          r.1.rxq_virtual_addresses x = queue.rxq_virtual_addresses x ∧
            r.1.rxq_descriptors x = queue.rxq_descriptors x) ∧
        r.2.trace
          = w.trace ++
            rx_post_events queue
              (sub32 queue.size (sub32 queue.rxq_head_ptr queue.rxq_clean_tail_ptr)) ++
            [event.set_reg32 queue.rxq_addr reg.MQNIC_QUEUE_HEAD_PTR_REG
              (wrap32 (r.1.rxq_head_ptr &&& queue.hw_ptr_mask))]) ∧
    (8 ≤ sub32 queue.size (sub32 queue.rxq_head_ptr queue.rxq_clean_tail_ptr) →
      pool_supply w queue.mempool
        < sub32 queue.size (sub32 queue.rxq_head_ptr queue.rxq_clean_tail_ptr) →
      mqnic_refill_rx_buffers data_off queue w = Except.error fatal_error.rx_alloc_failed) := by
  obtain ⟨h1, h2, h3⟩ := refill_rx_buffers_postcondition_val data_off queue w hsz hmask hh hocc
  have e := mqnic_refill_rx_buffers_eq data_off queue w
  refine ⟨h1, ?_, ?_, ?_⟩
  · intro h
    exact (e.trans (if_pos (Or.inl h))).trans (congrArg Except.ok (h2 h))
  · intro h8 hle
    have h := h3 h8
    rw [Nat.min_eq_left hle] at h
    exact ⟨_, e.trans (if_pos (Or.inr hle)), h⟩
  · intro h8 hlt
    refine e.trans (if_neg ?_)
    unfold refill_supplied
    omega

set_option maxRecDepth 100000 in
/-- Witness for C25, at a state the driver reaches: after bring-up on a full
pool, eight in-order completions and a drain of capacity 8, eight descriptors
are missing from the ring.  A refill on a process state whose pool is empty
then raises the fatal error, and a refill on a process state whose pool holds
4096 buffers returns with `rxq_head_ptr` advanced from 256 to 264. -/
theorem refill_rx_buffers_postcondition_witness :
    rx_reachable 64 true 0 rx_starved_state ∧
      is_ring_size rx_starved_state.queue.size ∧
      rx_starved_state.queue.size_mask = rx_starved_state.queue.size - 1 ∧
      rx_starved_state.queue.rxq_head_ptr < 4294967296 ∧
      sub32 rx_starved_state.queue.rxq_head_ptr rx_starved_state.queue.rxq_clean_tail_ptr
        ≤ rx_starved_state.queue.size ∧
      sub32 rx_starved_state.queue.size
        (sub32 rx_starved_state.queue.rxq_head_ptr rx_starved_state.queue.rxq_clean_tail_ptr)
        = 8 ∧
      pool_supply empty_pool_world rx_starved_state.queue.mempool = 0 ∧
      mqnic_refill_rx_buffers 64 rx_starved_state.queue empty_pool_world
        = Except.error fatal_error.rx_alloc_failed ∧
      (∃ r, mqnic_refill_rx_buffers 64 rx_starved_state.queue full_pool_world = Except.ok r ∧
        r.1.rxq_head_ptr = 264) :=
  ⟨rx_starved_state_reachable, by decide, by decide, by decide, by decide, by decide, by decide,
    (refill_rx_buffers_postcondition 64 rx_starved_state.queue empty_pool_world (by decide)
      (by decide) (by decide) (by decide)).2.2.2 (by decide) (by decide),
    ((refill_rx_buffers_postcondition 64 rx_starved_state.queue full_pool_world (by decide)
      (by decide) (by decide) (by decide)).2.2.1 (by decide)
      (by rw [pool_supply_full_pool]; decide)).imp
      (fun _ h => ⟨h.1, h.2.1.trans (by decide)⟩)⟩

/-! ## The TX reap, iteration by iteration -/

theorem tx_harvest_eq_loop (queue : mqnic_tx_queue) (w : world) (budget : Int) :
    tx_harvest queue w budget = tx_cq_loop budget budget.toNat (tx_reap_start queue w) := rfl

theorem tx_cq_body_index (s : tx_cq_state) (x : Nat) :
    ((tx_cq_body s).queue.cpl_descriptors x).index = (s.queue.cpl_descriptors x).index := by
  rw [tx_cq_body_cpl]
  split
  · rename_i h; rw [h]
  · rfl

theorem tx_cq_loop_index (budget : Int) :
    ∀ (fuel : Nat) (s : tx_cq_state) (x : Nat),
      ((tx_cq_loop budget fuel s).queue.cpl_descriptors x).index
        = (s.queue.cpl_descriptors x).index := by
  intro fuel
  induction fuel with
  | zero => intro s x; rfl
  | succ n ih =>
    intro s x
    unfold tx_cq_loop
    split
    · rw [ih, tx_cq_body_index]
    · rfl

/-- Every reaped completion leaves the TX slot it names null. -/
theorem tx_cq_loop_nulls (budget : Int) :
    ∀ (fuel : Nat) (s : tx_cq_state),
      s.cq_index = s.cq_tail_ptr &&& s.queue.size_mask → s.cq_tail_ptr < 4294967296 →
      ∀ j, j < (tx_cq_loop budget fuel s).done - s.done →
        (tx_cq_loop budget fuel s).queue.txq_virtual_addresses
          ((s.queue.cpl_descriptors (wrap32 (s.cq_tail_ptr + j) &&& s.queue.size_mask)).index
            &&& s.queue.size_mask) = 0 := by
  intro fuel
  induction fuel with
  | zero =>
    intro s _ _ j hj
    simp only [tx_cq_loop, Nat.sub_self] at hj
    omega
  | succ n ih =>
    intro s hidx hlt j hj
    unfold tx_cq_loop at hj ⊢
    by_cases hc : s.if_next = true ∧ (s.done : Int) < budget
    · rw [if_pos hc] at hj ⊢
      have hbd : (tx_cq_body s).done = s.done + 1 := rfl
      have hbt : (tx_cq_body s).cq_tail_ptr = wrap32 (s.cq_tail_ptr + 1) := rfl
      have hbm : (tx_cq_body s).queue.size_mask = s.queue.size_mask := rfl
      have hbi : (tx_cq_body s).cq_index
          = (tx_cq_body s).cq_tail_ptr &&& (tx_cq_body s).queue.size_mask := rfl
      cases j with
      | zero =>
        apply tx_cq_loop_virt_zero
        rw [tx_cq_body_virt, Nat.add_zero, show wrap32 s.cq_tail_ptr = s.cq_tail_ptr from
          Nat.mod_eq_of_lt hlt, ← hidx, if_pos rfl]
      | succ j2 =>
        have := ih (tx_cq_body s) hbi (by rw [hbt]; exact wrap32_lt _) j2 (by rw [hbd]; omega)
        rw [hbt, hbm, wrap32_wrap32_add, tx_cq_body_index, Nat.add_assoc,
          Nat.add_comm 1 j2] at this
        exact this
    · rw [if_neg hc] at hj
      omega

/-- The reap loop run for `j` iterations is the state before iteration `j` of
the full loop, whenever the full loop performs more than `j` iterations. -/
theorem tx_cq_loop_prefix (budget : Int) :
    ∀ (j fuel : Nat) (s : tx_cq_state), s.cq_tail_ptr < 4294967296 →
      s.cq_index = s.cq_tail_ptr &&& s.queue.size_mask →
      j < (tx_cq_loop budget fuel s).done - s.done →
      (tx_cq_loop budget j s).done = s.done + j ∧
        (tx_cq_loop budget j s).cq_index
          = wrap32 (s.cq_tail_ptr + j) &&& s.queue.size_mask ∧
        (tx_cq_loop budget j s).queue.size_mask = s.queue.size_mask ∧
        tx_cq_loop budget (j + 1) s = tx_cq_body (tx_cq_loop budget j s) := by
  intro j
  induction j with
  | zero =>
    intro fuel s hlt hidx hj
    cases fuel with
    | zero =>
      simp only [tx_cq_loop, Nat.sub_self] at hj
      omega
    | succ f =>
      unfold tx_cq_loop at hj
      by_cases hc : s.if_next = true ∧ (s.done : Int) < budget
      · refine ⟨rfl, ?_, rfl, ?_⟩
        · show s.cq_index = _
          rw [hidx, Nat.add_zero, show wrap32 s.cq_tail_ptr = s.cq_tail_ptr from
            Nat.mod_eq_of_lt hlt]
        · show tx_cq_loop budget 1 s = _
          unfold tx_cq_loop
          rw [if_pos hc]
          rfl
      · rw [if_neg hc] at hj
        omega
  | succ j ih =>
    intro fuel s hlt hidx hj
    cases fuel with
    | zero =>
      simp only [tx_cq_loop, Nat.sub_self] at hj
      omega
    | succ f =>
      unfold tx_cq_loop at hj
      by_cases hc : s.if_next = true ∧ (s.done : Int) < budget
      · rw [if_pos hc] at hj
        have hbd : (tx_cq_body s).done = s.done + 1 := rfl
        have hbt : (tx_cq_body s).cq_tail_ptr = wrap32 (s.cq_tail_ptr + 1) := rfl
        have hbm : (tx_cq_body s).queue.size_mask = s.queue.size_mask := rfl
        have hbi : (tx_cq_body s).cq_index
            = (tx_cq_body s).cq_tail_ptr &&& (tx_cq_body s).queue.size_mask := rfl
        obtain ⟨a1, a2, a3, a4⟩ := ih f (tx_cq_body s) (by rw [hbt]; exact wrap32_lt _) hbi
          (by rw [hbd]; omega)
        have e : ∀ m, tx_cq_loop budget (m + 1) s = tx_cq_loop budget m (tx_cq_body s) := by
          intro m
          conv => lhs; unfold tx_cq_loop
          rw [if_pos hc]
        rw [e (j + 1), e j]
        refine ⟨by rw [a1, hbd]; omega, ?_, by rw [a3, hbm], a4⟩
        rw [a2, hbt, hbm, wrap32_wrap32_add, Nat.add_assoc, Nat.add_comm 1 j]
      · rw [if_neg hc] at hj
        omega

/-- The clean-tail walk exits the process only at an occupied slot. -/
theorem tx_clean_loop_none (queue : mqnic_tx_queue) (htail : queue.txq_tail_ptr < 4294967296) :
    ∀ (fuel p : Nat), p < 4294967296 → tx_clean_loop queue fuel p = none →
      ∃ t, t < sub32 queue.txq_tail_ptr p ∧ t < fuel ∧
        queue.txq_virtual_addresses (wrap32 (p + t) &&& queue.size_mask) ≠ 0 := by
  intro fuel
  induction fuel with
  | zero => intro p _ h; simp [tx_clean_loop] at h
  | succ n ih =>
    intro p hp h
    unfold tx_clean_loop at h
    by_cases h1 : p ≠ queue.txq_tail_ptr
    · rw [if_pos h1] at h
      by_cases h2 : queue.txq_virtual_addresses (p &&& queue.size_mask) ≠ 0
      · refine ⟨0, ?_, Nat.succ_pos n, ?_⟩
        · unfold sub32
          omega
        · rw [Nat.add_zero, show wrap32 p = p from Nat.mod_eq_of_lt hp]
          exact h2
      · rw [if_neg h2] at h
        obtain ⟨t, ht1, ht2, ht3⟩ := ih (wrap32 (p + 1)) (wrap32_lt _) h
        refine ⟨t + 1, ?_, by omega, ?_⟩
        · simp only [sub32, wrap32] at ht1 ⊢
          omega
        · rw [wrap32_wrap32_add, Nat.add_assoc, Nat.add_comm 1 t] at ht3
          exact ht3
    · rw [if_neg h1] at h
      simp at h

/-- C26: the TX reap.  On a TX queue with a power-of-two ring in which exactly
`k` consecutive completion records, counted from `cpl_tail_ptr & size_mask`,
have `len != 0`, a call `mqnic_process_tx_cq(queue, 64)` that returns (its
clean-tail walk is not fatal) returns `d = min(k, 64)`.  For each `j < d`,
iteration `j` of the reap loop runs on the state the first `j` iterations
leave, reads the record in completion slot `j`, frees the buffer found in
`txq_virtual_addresses[cpl.index & size_mask]`, and in the state returned that
slot is null and the record has `len = 0`.  `cpl_tail_ptr` and `txq_tail_ptr`
have advanced by `d`, and the call has issued exactly one register write,
`cpl_tail_ptr & hw_ptr_mask` to the CQ tail register, also when `d = 0`. -/
theorem tx_reap_postcondition (queue : mqnic_tx_queue) (w : world) (k : Nat)
    (r : Nat × mqnic_tx_queue × world)
    (hsz : is_ring_size queue.size) (hmask : queue.size_mask = queue.size - 1)
    (hct : queue.cpl_tail_ptr < 4294967296) (hk : k ≤ queue.size)
    (hnz : ∀ j, j < k → (queue.cpl_descriptors (tx_cpl_slot queue j)).len ≠ 0)
    (hz : k < queue.size → (queue.cpl_descriptors (tx_cpl_slot queue k)).len = 0)
    (hr : mqnic_process_tx_cq queue w 64 = some r) :
    r.1 = min k 64 ∧
    r.2.1.cpl_tail_ptr = wrap32 (queue.cpl_tail_ptr + min k 64) ∧
    r.2.1.txq_tail_ptr = wrap32 (queue.txq_tail_ptr + min k 64) ∧
    (∀ j, j < min k 64 →
      (tx_cq_loop 64 j (tx_reap_start queue w)).cq_index = tx_cpl_slot queue j ∧
      tx_cq_loop 64 (j + 1) (tx_reap_start queue w)
        = tx_cq_body (tx_cq_loop 64 j (tx_reap_start queue w)) ∧
      (tx_cq_loop 64 (j + 1) (tx_reap_start queue w)).w
        = pkt_buf_free (tx_cq_loop 64 j (tx_reap_start queue w)).w
            ((tx_cq_loop 64 j (tx_reap_start queue w)).queue.txq_virtual_addresses
              (tx_cpl_index_slot queue j)) ∧
      r.2.1.txq_virtual_addresses (tx_cpl_index_slot queue j) = 0 ∧
      (r.2.1.cpl_descriptors (tx_cpl_slot queue j)).len = 0) ∧
    r.2.2.trace = w.trace ++
      [event.set_reg32 queue.cpl_addr reg.MQNIC_CPL_QUEUE_TAIL_PTR_REG
        (wrap32 (r.2.1.cpl_tail_ptr &&& queue.hw_ptr_mask))] := by
  have hring := tx_cq_loop_ring 64 64 (tx_reap_start queue w) k hsz hmask rfl hct rfl hk hnz hz
    (Nat.zero_le _) (Nat.le_refl _)
  have hnull := tx_cq_loop_nulls 64 64 (tx_reap_start queue w) rfl hct
  have hpre := fun j => tx_cq_loop_prefix 64 j 64 (tx_reap_start queue w) hct rfl
  have hfr := tx_cq_loop_frame 64 64 (tx_reap_start queue w)
  obtain ⟨h1, _, h3, h4, _⟩ := tx_harvest_facts queue w 64 hct
  rw [mqnic_process_tx_cq_eq_harvest] at hr
  simp only at hr
  rw [tx_harvest_eq_loop] at h1 h3 h4 hr
  have e64 : (64 : Int).toNat = 64 := rfl
  rw [e64] at h1 h3 h4 hr
  have hd : (tx_cq_loop 64 64 (tx_reap_start queue w)).done = min k 64 := by
    have := hring.1
    simpa [tx_reap_start] using this
  have hs0d : (tx_reap_start queue w).done = 0 := rfl
  have hs0t : (tx_reap_start queue w).cq_tail_ptr = queue.cpl_tail_ptr := rfl
  have hs0q : (tx_reap_start queue w).queue = queue := rfl
  have hs0w : (tx_reap_start queue w).w = w := rfl
  rw [hs0d, hs0t, hs0q] at hnull
  rw [hs0q, hs0w] at hfr
  generalize tx_cq_loop 64 64 (tx_reap_start queue w) = L at h1 h3 h4 hr hd hnull hpre hfr
  rw [hd] at h3 h4 hr hnull
  have hdlt : min k 64 < 4294967296 := by omega
  split at hr
  · exact absurd hr (by simp)
  · rename_i c hc
    simp only [Option.some.injEq] at hr
    subst hr
    have g1 : L.queue.txq_tail_ptr = queue.txq_tail_ptr := by rw [h1]
    have g2 : L.queue.cpl_addr = queue.cpl_addr := by rw [h1]
    have g3 : L.queue.hw_ptr_mask = queue.hw_ptr_mask := by rw [h1]
    refine ⟨Nat.mod_eq_of_lt hdlt, h3, by show wrap32 (L.queue.txq_tail_ptr + _) = _; rw [g1],
      ?_, ?_⟩
    · intro j hj
      obtain ⟨p1, p2, p3, p4⟩ := hpre j (by rw [hd, hs0d]; omega)
      rw [hs0t, hs0q] at p2
      rw [hs0q] at p3
      have hidx : ((tx_cq_loop 64 j (tx_reap_start queue w)).queue.cpl_descriptors
            (tx_cq_loop 64 j (tx_reap_start queue w)).cq_index).index
            &&& (tx_cq_loop 64 j (tx_reap_start queue w)).queue.size_mask
          = tx_cpl_index_slot queue j := by
        rw [p2, p3, tx_cq_loop_index]
        rfl
      refine ⟨p2, p4, ?_, hnull j (by omega), h4 j hj⟩
      rw [p4, ← hidx]
      rfl
    · show (mqnic_tx_cq_write_tail_ptr _ L.w).trace = _
      simp only [mqnic_tx_cq_write_tail_ptr, set_reg32]
      rw [hfr.2.2.2.2.2.2.2.2.2.1, g2, g3]

/-- Witness for C26: the sample ring with one completion pending for slot 0;
the reap returns 1, nulls slot 0 and moves both tails to 1. -/
theorem tx_reap_postcondition_witness :
    is_ring_size in_order_tx_queue.size ∧
      in_order_tx_queue.size_mask = in_order_tx_queue.size - 1 ∧
      in_order_tx_queue.cpl_tail_ptr < 4294967296 ∧ 1 ≤ in_order_tx_queue.size ∧
      (in_order_tx_queue.cpl_descriptors (tx_cpl_slot in_order_tx_queue 0)).len ≠ 0 ∧
      (in_order_tx_queue.cpl_descriptors (tx_cpl_slot in_order_tx_queue 1)).len = 0 ∧
      mqnic_process_tx_cq in_order_tx_queue sample_world 64 = some in_order_tx_reaped ∧
      in_order_tx_reaped.1 = min 1 64 ∧
      in_order_tx_reaped.2.1.txq_virtual_addresses (tx_cpl_index_slot in_order_tx_queue 0)
        = 0 :=
  ⟨by decide, by decide, by decide, by decide, by decide, by decide, rfl,
    (tx_reap_postcondition in_order_tx_queue sample_world 1 in_order_tx_reaped (by decide)
      (by decide) (by decide) (by decide)
      (fun j hj => by
        have e : j = 0 := by omega
        subst e
        decide)
      (fun _ => by decide) rfl).1,
    ((tx_reap_postcondition in_order_tx_queue sample_world 1 in_order_tx_reaped (by decide)
      (by decide) (by decide) (by decide)
      (fun j hj => by
        have e : j = 0 := by omega
        subst e
        decide)
      (fun _ => by decide) rfl).2.2.2.1 0 (by decide)).2.2.2.1⟩

/-! ## The fatal branch of the TX clean-up -/

/-- The reap exits the process exactly when the clean-tail walk, from
`txq_clean_tail_ptr` up to the advanced `txq_tail_ptr`, meets a slot that still
holds a handle after the reap loop. -/
theorem mqnic_process_tx_cq_none_iff (queue : mqnic_tx_queue) (w : world) (budget : Int)
    (hclean : queue.txq_clean_tail_ptr < 4294967296) :
    (mqnic_process_tx_cq queue w budget = none ↔
      ∃ t, t < sub32 (wrap32 (queue.txq_tail_ptr + (tx_harvest queue w budget).done))
            queue.txq_clean_tail_ptr ∧
        (tx_harvest queue w budget).queue.txq_virtual_addresses
          (wrap32 (queue.txq_clean_tail_ptr + t) &&& queue.size_mask) ≠ 0) ∧
    (∀ r, mqnic_process_tx_cq queue w budget = some r →
      r.1 = wrap32 (tx_harvest queue w budget).done ∧
      r.2.1.txq_tail_ptr = wrap32 (queue.txq_tail_ptr + (tx_harvest queue w budget).done) ∧
      r.2.1.txq_clean_tail_ptr = r.2.1.txq_tail_ptr) := by
  have hq := tx_cq_loop_queue_eq budget budget.toNat (tx_reap_start queue w)
  rw [← tx_harvest_eq_loop] at hq
  have hs0q : (tx_reap_start queue w).queue = queue := rfl
  rw [hs0q] at hq
  rw [mqnic_process_tx_cq_eq_harvest]
  simp only
  generalize tx_harvest queue w budget = L at hq
  have g1 : L.queue.txq_tail_ptr = queue.txq_tail_ptr := by rw [hq]
  have g2 : L.queue.txq_clean_tail_ptr = queue.txq_clean_tail_ptr := by rw [hq]
  have g3 : L.queue.size_mask = queue.size_mask := by rw [hq]
  have hclean2 : L.queue.txq_clean_tail_ptr < 4294967296 := by rw [g2]; exact hclean
  rw [← g1, ← g2, ← g3]
  split
  · rename_i hres
    refine ⟨⟨fun _ => ?_, fun _ => rfl⟩, fun r hr => by simp at hr⟩
    obtain ⟨t, t1, _, t3⟩ := tx_clean_loop_none _ (wrap32_lt _) _ _ hclean2 hres
    exact ⟨t, t1, t3⟩
  · rename_i c hres
    obtain ⟨c1, c2⟩ := tx_clean_loop_some _ (wrap32_lt _) _ _ c hclean2 (Nat.le_refl _) hres
    refine ⟨⟨fun h => by simp at h, fun ⟨t, t1, t3⟩ => absurd (c2 t t1) t3⟩, ?_⟩
    intro r hr
    simp only [Option.some.injEq] at hr
    subst hr
    exact ⟨rfl, rfl, c1⟩

/-! ## A NIC that completes in posting order never triggers the fatal branch -/

theorem tx_in_order_bringup (txq_addr cpl_addr : Nat) :
    tx_in_order { queue := init_tx_queue txq_addr cpl_addr, nic_head := 0 } := by
  intro j hj
  have : sub32 0 (init_tx_queue txq_addr cpl_addr).cpl_tail_ptr = 0 := by
    show sub32 0 0 = 0
    decide
  rw [this] at hj
  omega

theorem tx_in_order_nic (st : tx_system) (cpl : mqnic_cpl) (h : tx_sys_inv st)
    (hio : tx_in_order st)
    (hcount : sub32 st.nic_head st.queue.cpl_tail_ptr
      < sub32 st.queue.txq_head_ptr st.queue.txq_tail_ptr)
    (hidx : cpl.index &&& st.queue.size_mask
      = wrap32 (st.queue.txq_tail_ptr + sub32 st.nic_head st.queue.cpl_tail_ptr)
          &&& st.queue.size_mask) :
    tx_in_order (nic_tx_complete st cpl) := by
  obtain ⟨hw, hCT, hP, hTCT, hCT2, hhd, hpend, hshape⟩ := h
  obtain ⟨hsz, hmask, hfs, hH, hC, hocc, hV⟩ := hw
  have hslt := is_ring_size_lt _ hsz
  have hhalf := half_lt_of_ring_size _ hsz
  rw [← hCT2] at hcount
  have hpsz : sub32 st.nic_head st.queue.cpl_tail_ptr < st.queue.size := by omega
  have hpend2 : sub32 (wrap32 (st.nic_head + 1)) st.queue.cpl_tail_ptr
      = sub32 st.nic_head st.queue.cpl_tail_ptr + 1 := by
    simp only [sub32, wrap32] at hpsz ⊢
    omega
  have hslotP : st.nic_head &&& st.queue.size_mask
      = tx_cpl_slot st.queue (sub32 st.nic_head st.queue.cpl_tail_ptr) := by
    unfold tx_cpl_slot
    rw [wrap32_add_sub32 _ _ hP]
  intro j hj
  have hj2 : j < sub32 st.nic_head st.queue.cpl_tail_ptr + 1 := by
    rw [← hpend2]; exact hj
  show (upd st.queue.cpl_descriptors (st.nic_head &&& st.queue.size_mask) cpl
      (tx_cpl_slot st.queue j)).index &&& st.queue.size_mask
    = wrap32 (st.queue.txq_tail_ptr + j) &&& st.queue.size_mask
  rw [hslotP]
  unfold upd
  by_cases hjp : j = sub32 st.nic_head st.queue.cpl_tail_ptr
  · rw [hjp, if_pos rfl]
    exact hidx
  · have hne : tx_cpl_slot st.queue j
        ≠ tx_cpl_slot st.queue (sub32 st.nic_head st.queue.cpl_tail_ptr) := by
      unfold tx_cpl_slot
      rw [slot_eq_mod _ _ _ hsz hmask, slot_eq_mod _ _ _ hsz hmask]
      intro he
      exact hjp (ring_slot_inj _ _ _ _ (by omega) hpsz he)
    rw [if_neg hne]
    exact hio j (by omega)

/-- What the reap harvests in a state that satisfies the TX invariant: all
pending completions, up to the budget. -/
theorem tx_harvest_done_of_inv (st : tx_system) (w : world) (budget : Int)
    (h : tx_sys_inv st) :
    (tx_harvest st.queue w budget).done
      = min (sub32 st.nic_head st.queue.cpl_tail_ptr) budget.toNat := by
  obtain ⟨hw, hCT, hP, hTCT, hCT2, hhd, hpend, hshape⟩ := h
  obtain ⟨hsz, hmask, hfs, hH, hC, hocc, hV⟩ := hw
  have hhalf := half_lt_of_ring_size _ hsz
  have hk : sub32 st.nic_head st.queue.cpl_tail_ptr ≤ st.queue.size := by omega
  have hnz : ∀ j, j < sub32 st.nic_head st.queue.cpl_tail_ptr →
      (st.queue.cpl_descriptors
        (wrap32 (st.queue.cpl_tail_ptr + j) &&& st.queue.size_mask)).len ≠ 0 :=
    fun j hj => (hshape j (by omega)).2 hj
  have hz : sub32 st.nic_head st.queue.cpl_tail_ptr < st.queue.size →
      (st.queue.cpl_descriptors
        (wrap32 (st.queue.cpl_tail_ptr + sub32 st.nic_head st.queue.cpl_tail_ptr)
          &&& st.queue.size_mask)).len = 0 := by
    intro hlt
    by_contra hne
    have := (hshape _ hlt).1 hne
    omega
  have hring := (tx_cq_loop_ring budget budget.toNat (tx_reap_start st.queue w)
    (sub32 st.nic_head st.queue.cpl_tail_ptr) hsz hmask rfl hCT rfl hk hnz hz
    (Nat.zero_le _) (Nat.sub_le _ _)).1
  rw [tx_harvest_eq_loop, hring]
  show 0 + min _ (budget.toNat - 0) = _
  rw [Nat.zero_add, Nat.sub_zero]

theorem tx_in_order_reap (st : tx_system) (w : world) (budget : Int)
    (r : Nat × mqnic_tx_queue × world) (h : tx_sys_inv st) (hio : tx_in_order st)
    (hr : mqnic_process_tx_cq st.queue w budget = some r) :
    tx_in_order { queue := r.2.1, nic_head := st.nic_head } := by
  have hd := tx_harvest_done_of_inv st w budget h
  obtain ⟨hw, hCT, hP, hTCT, hCT2, hhd, hpend, hshape⟩ := h
  obtain ⟨hsz, hmask, hfs, hH, hC, hocc, hV⟩ := hw
  obtain ⟨h1, _, h3, _, _⟩ := tx_harvest_facts st.queue w budget hCT
  have hidx := tx_cq_loop_index budget budget.toNat (tx_reap_start st.queue w)
  rw [← tx_harvest_eq_loop] at hidx
  rw [mqnic_process_tx_cq_eq_harvest] at hr
  simp only at hr
  generalize tx_harvest st.queue w budget = L at hd h1 h3 hidx hr
  have hvle : min (sub32 st.nic_head st.queue.cpl_tail_ptr) budget.toNat
      ≤ sub32 st.nic_head st.queue.cpl_tail_ptr := Nat.min_le_left _ _
  generalize min (sub32 st.nic_head st.queue.cpl_tail_ptr) budget.toNat = d at hd hvle
  rw [hd] at h3 hr
  have g1 : L.queue.txq_tail_ptr = st.queue.txq_tail_ptr := by rw [h1]
  have g3 : L.queue.size_mask = st.queue.size_mask := by rw [h1]
  have hpd : sub32 st.nic_head (wrap32 (st.queue.cpl_tail_ptr + d))
      = sub32 st.nic_head st.queue.cpl_tail_ptr - d := by
    have eP := wrap32_add_sub32 st.nic_head st.queue.cpl_tail_ptr hP
    have hpe := sub32_lt st.nic_head st.queue.cpl_tail_ptr
    generalize sub32 st.nic_head st.queue.cpl_tail_ptr = pe at eP hvle hpe ⊢
    have : st.nic_head = wrap32 (wrap32 (st.queue.cpl_tail_ptr + d) + (pe - d)) := by
      rw [wrap32_wrap32_add, Nat.add_assoc, Nat.add_sub_cancel' hvle, eP]
    conv => lhs; rw [this]
    exact sub32_offset _ _ (by omega)
  split at hr
  · exact absurd hr (by simp)
  · rename_i c hc
    simp only [Option.some.injEq] at hr
    subst hr
    intro j hj
    have hj2 : j < sub32 st.nic_head st.queue.cpl_tail_ptr - d := by
      have : j < sub32 st.nic_head L.cq_tail_ptr := hj
      rw [h3, hpd] at this
      exact this
    show (L.queue.cpl_descriptors (wrap32 (L.cq_tail_ptr + j) &&& L.queue.size_mask)).index
        &&& L.queue.size_mask
      = wrap32 (wrap32 (L.queue.txq_tail_ptr + d) + j) &&& L.queue.size_mask
    have hs0q : (tx_reap_start st.queue w).queue = st.queue := rfl
    rw [hidx, hs0q, h3, g1, g3, wrap32_wrap32_add, wrap32_wrap32_add, Nat.add_assoc,
      Nat.add_assoc]
    exact hio (d + j) (by omega)

theorem tx_in_order_enqueue (data_off : Nat) (st : tx_system) (w : world) (bufs : Nat → Nat)
    (N : Nat) (hio : tx_in_order st) :
    tx_in_order
      { queue := (tx_batch_enqueue data_off st.queue w bufs N).2.1, nic_head := st.nic_head } := by
  have hq := tx_batch_loop_queue_eq data_off bufs N N (tx_enqueue_start st.queue w)
  rw [← (tx_batch_enqueue_eq_loop data_off st.queue w bufs N).2] at hq
  have hs : (tx_enqueue_start st.queue w).queue = st.queue := rfl
  rw [hs] at hq
  generalize (tx_batch_enqueue data_off st.queue w bufs N).2.1 = Q at hq
  intro j hj
  have e1 : Q.cpl_tail_ptr = st.queue.cpl_tail_ptr := by rw [hq]
  have e2 : Q.cpl_descriptors = st.queue.cpl_descriptors := by rw [hq]
  have e3 : Q.size_mask = st.queue.size_mask := by rw [hq]
  have e4 : Q.txq_tail_ptr = st.queue.txq_tail_ptr := by rw [hq]
  have hj2 : j < sub32 st.nic_head st.queue.cpl_tail_ptr := by
    have : j < sub32 st.nic_head Q.cpl_tail_ptr := hj
    rw [e1] at this
    exact this
  show (Q.cpl_descriptors (wrap32 (Q.cpl_tail_ptr + j) &&& Q.size_mask)).index &&& Q.size_mask
    = wrap32 (Q.txq_tail_ptr + j) &&& Q.size_mask
  rw [e1, e2, e3, e4]
  exact hio j hj2

theorem tx_in_order_tx_batch (data_off : Nat) (st : tx_system) (w : world) (bufs : Nat → Nat)
    (N : Nat) (r : Nat × mqnic_tx_queue × world) (h : tx_sys_inv st) (hio : tx_in_order st)
    (hr : mqnic_tx_batch data_off st.queue w bufs N = some r) :
    tx_in_order { queue := r.2.1, nic_head := st.nic_head } := by
  unfold mqnic_tx_batch at hr
  cases hp : mqnic_process_tx_cq st.queue w 64 with
  | none => rw [hp] at hr; exact absurd hr (by simp)
  | some r1 =>
    rw [hp] at hr
    simp only [Option.some.injEq] at hr
    subst hr
    exact tx_in_order_enqueue data_off { queue := r1.2.1, nic_head := st.nic_head } r1.2.2 bufs N
      (tx_in_order_reap st w 64 r1 h hio hp)

theorem tx_reachable_in_order_inv (data_off : Nat) (st : tx_system)
    (h : tx_reachable_in_order data_off st) : tx_sys_inv st ∧ tx_in_order st := by
  induction h with
  | bringup a b => exact ⟨tx_sys_inv_bringup a b, tx_in_order_bringup a b⟩
  | tx_batch st w bufs N r _ hr ih =>
    exact ⟨tx_sys_inv_tx_batch data_off st w bufs N r ih.1 hr,
      tx_in_order_tx_batch data_off st w bufs N r ih.1 ih.2 hr⟩
  | nic st cpl _ hlen hcount hidx ih =>
    exact ⟨tx_sys_inv_nic st cpl ih.1 hlen hcount, tx_in_order_nic st cpl ih.1 ih.2 hcount hidx⟩

/-- With the TX invariant and the pending completions in posting order, the
reap returns. -/
theorem mqnic_process_tx_cq_returns (st : tx_system) (w : world) (budget : Int)
    (h : tx_sys_inv st) (hio : tx_in_order st) :
    mqnic_process_tx_cq st.queue w budget ≠ none := by
  have hd := tx_harvest_done_of_inv st w budget h
  obtain ⟨hw, hCT, hP, hTCT, hCT2, hhd, hpend, hshape⟩ := h
  obtain ⟨hsz, hmask, hfs, hH, hC, hocc, hV⟩ := hw
  intro hnone
  obtain ⟨t, t1, t3⟩ := (mqnic_process_tx_cq_none_iff st.queue w budget hC).1.1 hnone
  have hnull := tx_cq_loop_nulls budget budget.toNat (tx_reap_start st.queue w) rfl hCT
  rw [← tx_harvest_eq_loop, hd] at hnull
  rw [hd, hCT2, sub32_offset _ _ (by
    have := sub32_lt st.nic_head st.queue.cpl_tail_ptr
    omega)] at t1
  apply t3
  have hs0d : (tx_reap_start st.queue w).done = 0 := rfl
  have hs0t : (tx_reap_start st.queue w).cq_tail_ptr = st.queue.cpl_tail_ptr := rfl
  have hs0q : (tx_reap_start st.queue w).queue = st.queue := rfl
  rw [hs0d, hs0t, hs0q] at hnull
  have hslot := hio t (by omega)
  unfold tx_cpl_index_slot tx_cpl_slot at hslot
  rw [hCT2, ← hslot]
  exact hnull t (by omega)

/-- C24: in the bypass build the TX clean-up inside `mqnic_process_tx_cq` is
fatal exactly on a desync.  After the reap loop has harvested `done`
completions and `txq_tail_ptr` has been advanced by `done`, the process exits
(and so `mqnic_tx_batch`, which calls the reap with budget 64, does not return)
if and only if one of the slots walked from `txq_clean_tail_ptr` up to the new
`txq_tail_ptr` still holds a handle; otherwise the call returns, with
`txq_tail_ptr` advanced by the value returned and
`txq_clean_tail_ptr == txq_tail_ptr`.  In every state reachable from bring-up
with a NIC that reports completions in posting order, no call of the reap or of
`mqnic_tx_batch` takes the fatal branch. -/
theorem tx_cleanup_fatal_iff_desync (data_off : Nat) (queue : mqnic_tx_queue) (w : world)
    (budget : Int) (bufs : Nat → Nat) (num_bufs : Nat)
    (hclean : queue.txq_clean_tail_ptr < 4294967296) :
    (mqnic_process_tx_cq queue w budget = none ↔
      ∃ t, t < sub32 (wrap32 (queue.txq_tail_ptr + (tx_harvest queue w budget).done))
            queue.txq_clean_tail_ptr ∧
        (tx_harvest queue w budget).queue.txq_virtual_addresses
          (wrap32 (queue.txq_clean_tail_ptr + t) &&& queue.size_mask) ≠ 0) ∧
    (mqnic_tx_batch data_off queue w bufs num_bufs = none ↔
      mqnic_process_tx_cq queue w 64 = none) ∧
    (∀ r, mqnic_process_tx_cq queue w budget = some r →
      r.2.1.txq_tail_ptr = wrap32 (queue.txq_tail_ptr + r.1) ∧
      r.2.1.txq_clean_tail_ptr = r.2.1.txq_tail_ptr) ∧
    (∀ st, tx_reachable_in_order data_off st →
      ∀ (w2 : world) (budget2 : Int) (bufs2 : Nat → Nat) (n2 : Nat),
        mqnic_process_tx_cq st.queue w2 budget2 ≠ none ∧
        mqnic_tx_batch data_off st.queue w2 bufs2 n2 ≠ none) := by
  obtain ⟨a1, a2⟩ := mqnic_process_tx_cq_none_iff queue w budget hclean
  refine ⟨a1, ?_, ?_, ?_⟩
  · unfold mqnic_tx_batch
    cases mqnic_process_tx_cq queue w 64 with
    | none => simp
    | some r => simp
  · intro r hr
    obtain ⟨b1, b2, b3⟩ := a2 r hr
    refine ⟨?_, b3⟩
    rw [b2, b1]
    unfold wrap32
    omega
  · intro st hst w2 budget2 bufs2 n2
    obtain ⟨i1, i2⟩ := tx_reachable_in_order_inv data_off st hst
    have h64 := mqnic_process_tx_cq_returns st w2 64 i1 i2
    refine ⟨mqnic_process_tx_cq_returns st w2 budget2 i1 i2, ?_⟩
    unfold mqnic_tx_batch
    cases hp : mqnic_process_tx_cq st.queue w2 64 with
    | none => exact absurd hp h64
    | some r => simp

theorem tx_completed_state_reachable : tx_reachable_in_order 64 tx_completed_state :=
  tx_reachable_in_order.nic tx_posted_state { cpl_zero with index := 0, len := 64 }
    (tx_reachable_in_order.tx_batch { queue := init_tx_queue 12288 16384, nic_head := 0 }
      sample_world (fun j => 1000 + j) 3 tx_posted_result
      (tx_reachable_in_order.bringup 12288 16384) rfl)
    (by decide) (by decide) (by decide)

/-- Witness for C24: on `desync_tx_queue` the only completion names slot 5, the
reap advances `txq_tail_ptr` to 1 and the walk meets the handle still held by
slot 0: the process exits. -/
theorem tx_cleanup_fatal_iff_desync_witness :
    desync_tx_queue.txq_clean_tail_ptr < 4294967296 ∧
      mqnic_process_tx_cq desync_tx_queue sample_world 64 = none ∧
      mqnic_tx_batch 64 desync_tx_queue sample_world (fun _ => 0) 0 = none ∧
      mqnic_process_tx_cq tx_completed_state.queue sample_world 64 ≠ none :=
  ⟨by decide,
    (tx_cleanup_fatal_iff_desync 64 desync_tx_queue sample_world 64 (fun _ => 0) 0
      (by decide)).1.2 ⟨0, by decide, by decide⟩,
    (tx_cleanup_fatal_iff_desync 64 desync_tx_queue sample_world 64 (fun _ => 0) 0
      (by decide)).2.1.2
      ((tx_cleanup_fatal_iff_desync 64 desync_tx_queue sample_world 64 (fun _ => 0) 0
        (by decide)).1.2 ⟨0, by decide, by decide⟩),
    ((tx_cleanup_fatal_iff_desync 64 desync_tx_queue sample_world 64 (fun _ => 0) 0
      (by decide)).2.2.2 tx_completed_state tx_completed_state_reachable sample_world 64
        (fun _ => 0) 0).1⟩

/-! ## Initialisation rejects too many queues -/

/-- C21: `mqnic_init` rejects a queue count above the limit.  For every
`rx_queues` and `tx_queues` with `rx_queues > MAX_QUEUES` or
`tx_queues > MAX_QUEUES` the call ends in the fatal configuration error for
the first count that is too large and returns no device; up to that point it
has done nothing but write the log line for a non-root user: it has read or
written no device register and has allocated nothing.  With both counts within
the limit and no IOMMU failure, the same call maps BAR0, reads the registers,
allocates the queue arrays and returns the device. -/
theorem mqnic_init_rejects_too_many_queues (MAX_QUEUES : Nat) (env : init_env)
    (reset_and_init : mqnic_device → mqnic_device) (rx_queues tx_queues : Nat)
    (interrupt_timeout : Int) (h : rx_queues > MAX_QUEUES ∨ tx_queues > MAX_QUEUES) :
    (mqnic_init MAX_QUEUES env reset_and_init rx_queues tx_queues interrupt_timeout).2
        = Except.error
            (if rx_queues > MAX_QUEUES then fatal_error.too_many_rx_queues rx_queues MAX_QUEUES
             else fatal_error.too_many_tx_queues tx_queues MAX_QUEUES) ∧
    (mqnic_init MAX_QUEUES env reset_and_init rx_queues tx_queues interrupt_timeout).1
        = (if env.uid ≠ 0 then [init_event.warn] else []) ∧
    (mqnic_init MAX_QUEUES env reset_and_init rx_queues tx_queues interrupt_timeout).1.filter
        touches_device_or_heap = [] ∧
    (∀ rx2 tx2, rx2 ≤ MAX_QUEUES → tx2 ≤ MAX_QUEUES → ¬(env.vfio = true ∧ env.vfio_fd < 0) →
      (∃ dev, (mqnic_init MAX_QUEUES env reset_and_init rx2 tx2 interrupt_timeout).2
          = Except.ok (reset_and_init dev) ∧
        dev.num_rx_queues = rx2 ∧ dev.num_tx_queues = tx2) ∧
      init_event.malloc_device
        ∈ (mqnic_init MAX_QUEUES env reset_and_init rx2 tx2 interrupt_timeout).1 ∧
      init_event.get_reg32 init_reg.MQNIC_REG_FW_ID
        ∈ (mqnic_init MAX_QUEUES env reset_and_init rx2 tx2 interrupt_timeout).1 ∧
      init_event.calloc_rx_queues rx2
        ∈ (mqnic_init MAX_QUEUES env reset_and_init rx2 tx2 interrupt_timeout).1 ∧
      init_event.calloc_tx_queues tx2
        ∈ (mqnic_init MAX_QUEUES env reset_and_init rx2 tx2 interrupt_timeout).1) := by
  refine ⟨?_, ?_, ?_, ?_⟩
  · unfold mqnic_init error
    by_cases hr : rx_queues > MAX_QUEUES
    · simp only [if_pos hr]
    · have ht : tx_queues > MAX_QUEUES := h.resolve_left hr
      simp only [if_neg hr, if_pos ht]
  · unfold mqnic_init
    by_cases hr : rx_queues > MAX_QUEUES
    · simp only [if_pos hr]
    · have ht : tx_queues > MAX_QUEUES := h.resolve_left hr
      simp only [if_neg hr, if_pos ht]
  · unfold mqnic_init
    by_cases hr : rx_queues > MAX_QUEUES
    · simp only [if_pos hr]
      split <;> rfl
    · have ht : tx_queues > MAX_QUEUES := h.resolve_left hr
      simp only [if_neg hr, if_pos ht]
      split <;> rfl
  · intro rx2 tx2 h1 h2 h3
    unfold mqnic_init
    simp only [if_neg (Nat.not_lt.2 h1), if_neg (Nat.not_lt.2 h2), if_neg h3]
    refine ⟨⟨_, rfl, rfl, rfl⟩, ?_, ?_, ?_, ?_⟩
    · simp
    · simp [init_reg_reads]
    · simp
    · simp

/-- Witness for C21: with a limit of 64 queues, a request for 65 RX queues and 1
TX queue ends in the RX error with an empty log, and so does not reach the
register reads a request for 4 and 4 queues performs. -/
theorem mqnic_init_rejects_too_many_queues_witness :
    ((65 : Nat) > 64 ∨ (1 : Nat) > 64) ∧
      (mqnic_init 64 sample_env id 65 1 0).2
        = Except.error (fatal_error.too_many_rx_queues 65 64) ∧
      (mqnic_init 64 sample_env id 65 1 0).1 = [] ∧
      init_event.get_reg32 init_reg.MQNIC_REG_FW_ID ∈ (mqnic_init 64 sample_env id 4 4 0).1 :=
  ⟨by decide,
    (mqnic_init_rejects_too_many_queues 64 sample_env id 65 1 0 (by decide)).1,
    (mqnic_init_rejects_too_many_queues 64 sample_env id 65 1 0 (by decide)).2.1,
    ((mqnic_init_rejects_too_many_queues 64 sample_env id 65 1 0 (by decide)).2.2.2 4 4
      (by decide) (by decide) (by decide)).2.2.1⟩

/-! ## The power-of-two test at bring-up -/

end Mqnic
